import Mathlib

/-!
JoyShockMapper: button classifier, bindings and shared controller state.

A shallow embedding of `src/DigitalButton.cpp`, of `src/Mapping.cpp`: the event table
(`Mapping::ProcessEvent`, `Mapping::RunBothActions`) and the construction of a binding from its
text (`operator>>`, `Mapping::AddMapping`, `Mapping::InsertEventMapping`), of the factories
of `src/TriggerEffectGenerator.cpp`, and of the d-pad hat `PSHat` of `src/win32/Gamepad.cpp`.

Conventions of the embedding.

* A `DigitalButton *` is a handle (`Nat`) into the controller's table of classifiers.
* `changeState` takes effect at once: no reaction reads its own classifier's state after it
  has called `changeState`.
* `chrono::steady_clock::time_point` is an `Int` counting nanoseconds (the period of
  `steady_clock`); `GetPressDurationMS` truncates to whole milliseconds as
  `duration_cast<milliseconds>` does. `float` values (hold time, turbo period, windows, the
  elapsed time `GetPressDurationMS` returns, the quotient of the turbo test) are exact
  rationals: the rounding of `float` arithmetic is not modelled. Where an exact value lies
  within rounding of a threshold or of a whole number the code can decide differently:
  elapsed times from 2^24 ms on are rounded by the cast to `float`, and the quotient of the
  turbo test is rounded before `floorf` is taken.
* `unsigned int _turboCount` is a `Nat`: it counts the turbo pulses of one hold and is reset
  by `ClearKey`.
* Every call of `Mapping::ProcessEvent` and every call into an external sink is appended to
  the world's `log`. Console output (`COUT`, `DEBUG`) is not recorded.
* Dereferencing a null pointer, calling an empty `std::function` and a thrown
  `runtime_error` end the run with a `Fault`.
* Constants and declarations that live in headers outside `src/` (`ButtonID` values, key
  codes, timing constants, the `JSMButton` accessors, the injected partner lookup) are fields
  of `Env`.
-/

set_option linter.dupNamespace false

namespace JoyShockMapper

/-! ## Data model -/

/-- Ordered identifier of a button (`enum class ButtonID`). -/
abbrev ButtonID := Int

/-- Semantic event kinds (`enum class BtnEvent`). -/
inductive BtnEvent where
  | OnPress
  | OnRelease
  | OnTap
  | OnTapRelease
  | OnHold
  | OnHoldRelease
  | OnTurbo
  | OnInstantRelease
  | INVALID
  deriving DecidableEq, Repr

/-- Classifier states (`enum class BtnState`), named after the concrete state classes. -/
inductive BtnState where
  | NoPress
  | BtnPress
  | TapRelease
  | WaitSim
  | SimPress
  | SimRelease
  | DblPressStart
  | DblPressNoPressTap
  | DblPressNoPressHold
  | DblPressPress
  | InstRelease
  | INVALID
  deriving DecidableEq, Repr

/-- A key target: numeric code plus the text it was written as. -/
structure KeyCode where
  code : Nat
  name : String
  deriving DecidableEq, Repr

/-- An `EventActionIf::Callback`: a bound member call, or the empty `std::function`. -/
inductive Callback where
  | empty
  | StartCalibration
  | FinishCalibration
  | ApplyGyroAction (key : KeyCode)
  | RemoveGyroAction
  | WriteToConsole (command : String)
  | SetRumble (smallRumble bigRumble : Int)
  | ApplyBtnPress (key : KeyCode)
  | ApplyBtnRelease (key : KeyCode)
  | ApplyButtonToggle (key : KeyCode) (apply release : Callback)
  | RegisterInstant (evt : BtnEvent)
  | RunBothActions (action1 action2 : Callback)
  deriving DecidableEq, Repr

/-- A binding: the event table (`std::map<BtnEvent, Callback>` as an association list with
at most one entry per event) and its metadata. -/
structure Mapping where
  _eventMapping : List (BtnEvent × Callback)
  _command : String
  _description : String
  _tapDurationMs : ℚ
  _hasViGEmBtn : Bool
  deriving DecidableEq

/-- The call `_eventMapping.find(evt)`. -/
def Mapping.find (m : Mapping) (evt : BtnEvent) : Option Callback :=
  (m._eventMapping.find? (fun p => p.1 = evt)).map Prod.snd

/-- The call `getTapDuration()`. -/
def Mapping.getTapDuration (m : Mapping) : ℚ := m._tapDurationMs

/-- Calls into a binding's event table and into the external action sinks, in program order. -/
inductive Effect where
  | ProcessEvent (button : Nat) (mapping : Mapping) (evt : BtnEvent)
  | pressKey (key : KeyCode) (pressed : Bool)
  | setButton (key : KeyCode) (pressed : Bool)
  | rumble (smallRumble bigRumble : Int)
  | WriteToConsole (command : String)
  | ResetContinuousCalibration (left : Bool)
  | StartContinuousCalibration (left : Bool)
  | PauseContinuousCalibration (left : Bool)
  deriving DecidableEq

/-- Ways a run ends abnormally. -/
inductive Fault where
  | nullDeref
  | bad_function_call
  | runtime_error
  | uninitialised
  | reentrant
  | unpairedSync
  | invalid_argument
  | out_of_range
  deriving DecidableEq, Repr

/-- Shared controller state (`DigitalButton::Common`). The three pointers are kept as
"is non-null" flags. -/
structure Common where
  chordStack : List ButtonID
  activeTogglesQueue : List (ButtonID × KeyCode)
  gyroActionQueue : List (ButtonID × KeyCode)
  _vigemController : Bool
  leftMotion : Bool
  rightMainMotion : Bool

/-- The mutable members of `DigitalButtonImpl`. The constant members `_id` and `_mapping`
are `Env.mapping`. -/
structure DigitalButtonImpl where
  _turboCount : Nat
  _instantReleaseQueue : List BtnEvent
  _nameToRelease : String
  _press_times : Int
  _keyToRelease : Option Mapping
  _simPressMaster : Option Nat

/-- A classifier: the current concrete state and the implementation object it hands on. -/
structure DigitalButton where
  state : BtnState
  impl : DigitalButtonImpl

/-- Everything mutable: the shared state, the table of classifiers, the function-local
`static isSameKey` of `ClearAllActiveToggle` (the key it captured, once initialised) and the
log of effects. -/
structure World where
  common : Common
  buttons : Nat → DigitalButton
  isSameKey : Option KeyCode
  log : List Effect

/-- The button configuration a classifier refers to (`JSMButton`, declared outside `src/`):
its id, the chorded bindings, the sim-press bindings and the double-press binding. -/
structure JSMButton where
  _id : ButtonID
  get : ButtonID → Option Mapping
  getName : ButtonID → String
  simMappings : List (ButtonID × Mapping)
  getSimPressName : ButtonID → String
  dblPressMap : Option (ButtonID × Mapping)

/-- The call `HasSimMappings()`. -/
def JSMButton.HasSimMappings (b : JSMButton) : Bool := !b.simMappings.isEmpty

/-- The call `getDblPressMap()`: the pair, or null. -/
def JSMButton.getDblPressMap (b : JSMButton) : Option (ButtonID × Mapping) := b.dblPressMap

/-- The call `AtSimPress(simBtn)`: the sim-press binding with that partner, or null. -/
def JSMButton.AtSimPress (b : JSMButton) (simBtn : ButtonID) : Option Mapping :=
  (b.simMappings.find? (fun p => p.1 = simBtn)).map Prod.snd

/-- Constants, settings and injected collaborators that the code reads but `src/` does not
define. -/
structure Env where
  NONE : ButtonID
  SIZE : ButtonID
  T1 : ButtonID
  MAGIC_INSTANT_DURATION : ℚ
  sim_press_window : ℚ
  dbl_press_window : ℚ
  X_UP : Nat
  X_START : Nat
  PS_HOME : Nat
  PS_PAD_CLICK : Nat
  NO_HOLD_MAPPED : Nat
  CALIBRATE : Nat
  joycon_gyro_mask : Nat
  joycon_motion_mask : Nat
  IGNORE_LEFT : Nat
  IGNORE_RIGHT : Nat
  mapping : Nat → JSMButton
  _getMatchingSimBtn : World → ButtonID → Option Nat

/-- Input event: the button is down at this poll. -/
structure Pressed where
  time_now : Int
  turboTime : ℚ
  holdTime : ℚ

/-- Input event: the button is at rest at this poll. -/
structure Released where
  time_now : Int
  turboTime : ℚ
  holdTime : ℚ

/-- The internal message between paired classifiers. Members a sender leaves uninitialised
are `none`. -/
structure Sync where
  nextState : Option BtnState
  pressTime : Int
  activeMapping : Option Mapping
  nameToRelease : String
  turboTime : Option ℚ
  holdTime : Option ℚ

/-! ## World accessors -/

/-- The implementation object of classifier `self`. -/
def World.impl (w : World) (self : Nat) : DigitalButtonImpl := (w.buttons self).impl

/-- The call `getState()` on classifier `self`. -/
def World.getState (w : World) (self : Nat) : BtnState := (w.buttons self).state

/-- Update the implementation object of classifier `self`. -/
def World.setImpl (w : World) (self : Nat) (f : DigitalButtonImpl → DigitalButtonImpl) : World :=
  { w with
    buttons := Function.update w.buttons self (DigitalButton.mk (w.buttons self).state (f (w.buttons self).impl)) }

/-- Update the shared controller state. -/
def World.setCommon (w : World) (f : Common → Common) : World :=
  { w with common := f w.common }

/-- Append an effect to the log. -/
def World.emit (w : World) (e : Effect) : World :=
  { w with log := w.log ++ [e] }

/-- Embedding of `DigitalButtonState::changeState(BtnState next)`: the switch has no case for `INVALID`,
which therefore changes nothing. -/
def changeState (self : Nat) (next : BtnState) (w : World) : World :=
  match next with
  | .INVALID => w
  | s => { w with buttons := Function.update w.buttons self (DigitalButton.mk s (w.buttons self).impl) }

/-- Embedding of `DigitalButton::Common::Common`: `NONE` is pushed on the empty chord stack; the virtual
controller exists when `vigem` (the scheme is not `NONE`). -/
def Common.Common (env : Env) (vigem : Bool) (mainMotion : Bool) : Common :=
  { chordStack := [env.NONE]
    activeTogglesQueue := []
    gyroActionQueue := []
    _vigemController := vigem
    leftMotion := false
    rightMainMotion := mainMotion }

/-- Embedding of `DigitalButtonImpl::DigitalButtonImpl`: the freshly constructed implementation object. -/
def DigitalButtonImpl.new : DigitalButtonImpl :=
  { _turboCount := 0
    _instantReleaseQueue := []
    _nameToRelease := ""
    _press_times := 0
    _keyToRelease := none
    _simPressMaster := none }

/-- Embedding of `DigitalButton::DigitalButton`: a classifier starts in `NoPress`. -/
def DigitalButton.new : DigitalButton :=
  { state := .NoPress, impl := DigitalButtonImpl.new }

/-- The controller as attached: shared state from the constructor, every classifier new. -/
def World.init (env : Env) (vigem : Bool) (mainMotion : Bool) : World :=
  { common := Common.Common env vigem mainMotion
    buttons := fun _ => DigitalButton.new
    isSameKey := none
    log := [] }

/-! ## `DigitalButtonImpl`: actions a binding can call (`EventActionIf`) -/

/-- The member `_id` of classifier `self`, initialised from its mapping. -/
def Env.id (env : Env) (self : Nat) : ButtonID := (env.mapping self)._id

/-- Embedding of `DigitalButtonImpl::ClearAllActiveToggle`. The predicate `isSameKey` is a function-local
`static`: it is built at the first call, capturing that call's `key`, and reused by every
later call. All entries it accepts are erased. -/
def ClearAllActiveToggle (key : KeyCode) (w : World) : World :=
  let captured := w.isSameKey.getD key
  { w with
    isSameKey := some captured
    common := { w.common with
      activeTogglesQueue := w.common.activeTogglesQueue.filter (fun p => p.2 ≠ captured) } }

/-- The test `key.code >= X_UP && key.code <= X_START || key.code == PS_HOME ||
key.code == PS_PAD_CLICK` of `ApplyBtnPress` and `ApplyBtnRelease`. -/
def Env.isViGEmBtn (env : Env) (key : KeyCode) : Bool :=
  (decide (key.code ≥ env.X_UP) && decide (key.code ≤ env.X_START))
    || decide (key.code = env.PS_HOME) || decide (key.code = env.PS_PAD_CLICK)

/-- Embedding of `DigitalButtonImpl::ApplyBtnPress`. -/
def ApplyBtnPress (env : Env) (key : KeyCode) (w : World) : World :=
  if env.isViGEmBtn key then
    if w.common._vigemController then w.emit (.setButton key true) else w
  else if key.code ≠ env.NO_HOLD_MAPPED then w.emit (.pressKey key true)
  else w

/-- Embedding of `DigitalButtonImpl::ApplyBtnRelease`. -/
def ApplyBtnRelease (env : Env) (key : KeyCode) (w : World) : World :=
  if env.isViGEmBtn key then
    if w.common._vigemController then w.emit (.setButton key false) else w
  else if key.code ≠ env.NO_HOLD_MAPPED then
    ClearAllActiveToggle key (w.emit (.pressKey key false))
  else w

/-- Embedding of `DigitalButtonImpl::RegisterInstant`. -/
def RegisterInstant (self : Nat) (evt : BtnEvent) (w : World) : World :=
  w.setImpl self fun i => { i with _instantReleaseQueue := i._instantReleaseQueue ++ [evt] }

/-- Embedding of `DigitalButtonImpl::ApplyGyroAction`. -/
def ApplyGyroAction (env : Env) (self : Nat) (gyroAction : KeyCode) (w : World) : World :=
  w.setCommon fun c => { c with gyroActionQueue := c.gyroActionQueue ++ [(env.id self, gyroAction)] }

/-- Embedding of `DigitalButtonImpl::RemoveGyroAction`: the first entry owned by the sim-press master if
there is one, else by this button, is erased after its key's toggles are cleared. -/
def RemoveGyroAction (env : Env) (self : Nat) (w : World) : World :=
  let owner : ButtonID :=
    match (w.impl self)._simPressMaster with
    | some master => env.id master
    | none => env.id self
  match w.common.gyroActionQueue.find? (fun p => p.1 = owner) with
  | some gyroAction =>
    (ClearAllActiveToggle gyroAction.2 w).setCommon fun c =>
      { c with gyroActionQueue := c.gyroActionQueue.erase gyroAction }
  | none => w

/-- Embedding of `DigitalButtonImpl::StartCalibration`. -/
def StartCalibration (env : Env) (w : World) : Except Fault World :=
  if w.common.leftMotion then do
    let w ←
      (if env.joycon_gyro_mask &&& env.IGNORE_LEFT ≠ 0 ∨ env.joycon_gyro_mask &&& env.IGNORE_LEFT ≠ 0 then
        if w.common.rightMainMotion then
          pure ((w.emit (.ResetContinuousCalibration false)).emit (.StartContinuousCalibration false))
        else throw Fault.nullDeref
      else pure w)
    if env.joycon_motion_mask &&& env.IGNORE_RIGHT ≠ 0 ∨ env.joycon_motion_mask &&& env.IGNORE_RIGHT ≠ 0 then
      pure ((w.emit (.ResetContinuousCalibration true)).emit (.StartContinuousCalibration true))
    else pure w
  else if w.common.rightMainMotion then
    pure ((w.emit (.ResetContinuousCalibration false)).emit (.StartContinuousCalibration false))
  else throw Fault.nullDeref

/-- Embedding of `DigitalButtonImpl::FinishCalibration`; `KeyCode("CALIBRATE")` is the key with code
`CALIBRATE`. -/
def FinishCalibration (env : Env) (w : World) : Except Fault World := do
  let w ←
    (if w.common.leftMotion then do
      let w ←
        (if env.joycon_gyro_mask &&& env.IGNORE_LEFT ≠ 0 ∨ env.joycon_gyro_mask &&& env.IGNORE_LEFT ≠ 0 then
          if w.common.rightMainMotion then pure (w.emit (.PauseContinuousCalibration false))
          else throw Fault.nullDeref
        else pure w)
      if env.joycon_motion_mask &&& env.IGNORE_RIGHT ≠ 0 ∨ env.joycon_motion_mask &&& env.IGNORE_RIGHT ≠ 0 then
        if w.common.rightMainMotion then pure (w.emit (.PauseContinuousCalibration false))
        else throw Fault.nullDeref
      else pure w
    else if w.common.rightMainMotion then pure (w.emit (.PauseContinuousCalibration false))
    else throw Fault.nullDeref)
  pure (ClearAllActiveToggle ⟨env.CALIBRATE, "CALIBRATE"⟩ w)

/-- Invoke a callback on classifier `self`. Calling the empty `std::function` throws.
`ApplyButtonToggle` and `Mapping::RunBothActions` are the two composite cases. -/
def runCallback (env : Env) (self : Nat) : Callback → World → Except Fault World
  | .empty, _ => throw Fault.bad_function_call
  | .StartCalibration, w => StartCalibration env w
  | .FinishCalibration, w => FinishCalibration env w
  | .ApplyGyroAction key, w => pure (ApplyGyroAction env self key w)
  | .RemoveGyroAction, w => pure (RemoveGyroAction env self w)
  | .WriteToConsole command, w => pure (w.emit (.WriteToConsole command))
  | .SetRumble smallRumble bigRumble, w => pure (w.emit (.rumble smallRumble bigRumble))
  | .ApplyBtnPress key, w => pure (ApplyBtnPress env key w)
  | .ApplyBtnRelease key, w => pure (ApplyBtnRelease env key w)
  | .ApplyButtonToggle key apply release, w =>
    if (env.id self, key) ∈ w.common.activeTogglesQueue then
      runCallback env self release w
    else do
      let w ← runCallback env self apply w
      pure (w.setCommon fun c =>
        { c with activeTogglesQueue := (env.id self, key) :: c.activeTogglesQueue })
  | .RegisterInstant evt, w => pure (RegisterInstant self evt w)
  | .RunBothActions action1 action2, w => do
    let w ← (if action1 = .empty then pure w else runCallback env self action1 w)
    if action2 = .empty then pure w else runCallback env self action2 w

/-- Embedding of `Mapping::ProcessEvent`: the call is logged; an absent or empty entry is skipped. -/
def Mapping.ProcessEvent (env : Env) (m : Mapping) (evt : BtnEvent) (self : Nat) (w : World) :
    Except Fault World :=
  let w := w.emit (.ProcessEvent self m evt)
  match m.find evt with
  | some action => if action = .empty then pure w else runCallback env self action w
  | none => pure w

/-! ## `DigitalButtonImpl`: timing, binding resolution and the two classification routines -/

/-- Embedding of `DigitalButtonImpl::GetPressDurationMS`: whole milliseconds since `_press_times`. -/
def GetPressDurationMS (impl : DigitalButtonImpl) (time_now : Int) : ℚ :=
  ((Int.tdiv (time_now - impl._press_times) 1000000 : Int) : ℚ)

/-- Embedding of `DigitalButtonImpl::ClearKey`. -/
def ClearKey (self : Nat) (w : World) : World :=
  w.setImpl self fun i =>
    { i with _keyToRelease := none, _instantReleaseQueue := [], _nameToRelease := "", _turboCount := 0 }

/-- The call `_keyToRelease->ProcessEvent(evt, *this)`. -/
def keyToRelease_ProcessEvent (env : Env) (self : Nat) (evt : BtnEvent) (w : World) :
    Except Fault World :=
  match (w.impl self)._keyToRelease with
  | some m => m.ProcessEvent env evt self w
  | none => throw Fault.nullDeref

/-- Embedding of `DigitalButtonImpl::CheckInstantRelease` (its boolean result is never used). -/
def CheckInstantRelease (env : Env) (self : Nat) (instantEvent : BtnEvent) (w : World) :
    Except Fault World :=
  if instantEvent ∈ (w.impl self)._instantReleaseQueue then do
    let w ← keyToRelease_ProcessEvent env self .OnInstantRelease w
    pure (w.setImpl self fun i =>
      { i with _instantReleaseQueue := i._instantReleaseQueue.erase instantEvent })
  else pure w

/-- The search loop of `GetPressMapping`: the first chord of the stack, front first, for which
the button has a binding and which is not the button itself. -/
def findChordBinding (b : JSMButton) (chordStack : List ButtonID) : Option (ButtonID × Mapping) :=
  chordStack.findSome? fun activeChord =>
    match b.get activeChord with
    | some binding => if activeChord ≠ b._id then some (activeChord, binding) else none
    | none => none

/-- Embedding of `DigitalButtonImpl::GetPressMapping`. -/
def GetPressMapping (env : Env) (self : Nat) (w : World) : Except Fault (Mapping × World) :=
  match (w.impl self)._keyToRelease with
  | some m => pure (m, w)
  | none =>
    match findChordBinding (env.mapping self) w.common.chordStack with
    | some (activeChord, binding) =>
      pure (binding, w.setImpl self fun i =>
        { i with _keyToRelease := some binding
                 _nameToRelease := (env.mapping self).getName activeChord })
    | none => throw Fault.runtime_error

/-- The call `GetPressMapping()->ProcessEvent(evt, *pimpl())`. -/
def GetPressMapping_ProcessEvent (env : Env) (self : Nat) (evt : BtnEvent) (w : World) :
    Except Fault World := do
  let (m, w) ← GetPressMapping env self w
  m.ProcessEvent env evt self w

/-- The test `floorf((elapsed_time - holdTime) / turboTime) >= _turboCount`, reached with
`_turboCount >= 1`. A zero `turboTime` divides to plus or minus infinity or to NaN. -/
def turboDue (elapsed_time holdTime turboTime : ℚ) (turboCount : Nat) : Bool :=
  if turboTime = 0 then decide (elapsed_time - holdTime > 0)
  else decide (⌊(elapsed_time - holdTime) / turboTime⌋ ≥ (turboCount : Int))

/-- Embedding of `DigitalButtonImpl::ProcessEvent(const Pressed &)`. -/
def ProcessEvent_Pressed (env : Env) (self : Nat) (evt : Pressed) (w : World) :
    Except Fault World := do
  let elapsed_time := GetPressDurationMS (w.impl self) evt.time_now
  if (w.impl self)._turboCount = 0 then do
    let w ←
      (if elapsed_time > env.MAGIC_INSTANT_DURATION then CheckInstantRelease env self .OnPress w
      else pure w)
    if elapsed_time > evt.holdTime then do
      let w ← keyToRelease_ProcessEvent env self .OnHold w
      let w ← keyToRelease_ProcessEvent env self .OnTurbo w
      pure (w.setImpl self fun i => { i with _turboCount := i._turboCount + 1 })
    else pure w
  else do
    let w ←
      (if elapsed_time > evt.holdTime + env.MAGIC_INSTANT_DURATION then
        CheckInstantRelease env self .OnHold w
      else pure w)
    let w ←
      (if turboDue elapsed_time evt.holdTime evt.turboTime (w.impl self)._turboCount then do
        let w ← keyToRelease_ProcessEvent env self .OnTurbo w
        pure (w.setImpl self fun i => { i with _turboCount := i._turboCount + 1 })
      else pure w)
    if elapsed_time > evt.holdTime + ((w.impl self)._turboCount : ℚ) * evt.turboTime
        + env.MAGIC_INSTANT_DURATION then
      CheckInstantRelease env self .OnTurbo w
    else pure w

/-- Embedding of `DigitalButtonImpl::ProcessEvent(const Released &)`: returns the next state. -/
def ProcessEvent_Released (env : Env) (self : Nat) (evt : Released) (w : World) :
    Except Fault (BtnState × World) := do
  let w ← keyToRelease_ProcessEvent env self .OnRelease w
  if (w.impl self)._turboCount = 0 then
    let w ← keyToRelease_ProcessEvent env self .OnTap w
    pure (.TapRelease, w.setImpl self fun i => { i with _press_times := evt.time_now })
  else
    let w ← keyToRelease_ProcessEvent env self .OnHoldRelease w
    if (w.impl self)._instantReleaseQueue.isEmpty then
      pure (.NoPress, ClearKey self w)
    else
      pure (.InstRelease, w.setImpl self fun i => { i with _press_times := evt.time_now })

/-! ## The state machine -/

/-- The test `_id < ButtonID::SIZE || _id >= ButtonID::T1` (touch stick buttons cannot chord). -/
def Env.chordable (env : Env) (self : Nat) : Bool :=
  decide (env.id self < env.SIZE) || decide (env.id self ≥ env.T1)

/-- Embedding of `DigitalButtonState::react(Pressed &)`, the basic press reaction. -/
def DigitalButtonState.react_Pressed (env : Env) (self : Nat) (w : World) : World :=
  if env.chordable self then
    if env.id self ∈ w.common.chordStack then w
    else w.setCommon fun c => { c with chordStack := env.id self :: c.chordStack }
  else w

/-- Embedding of `DigitalButtonState::react(Released &)`, the basic release reaction. -/
def DigitalButtonState.react_Released (env : Env) (self : Nat) (w : World) : World :=
  if env.chordable self then
    w.setCommon fun c => { c with chordStack := c.chordStack.erase (env.id self) }
  else w

/-- Embedding of `DigitalButtonState::react(chrono::steady_clock::time_point &)`: assign the press time. -/
def DigitalButtonState.react_SetPressTime (self : Nat) (e : Int) (w : World) : World :=
  w.setImpl self fun i => { i with _press_times := e }

/-- The branch that `NoPress::react(Pressed)`, `WaitSim::react(Pressed)` and
`WaitSim::react(Released)` each spell out: with a double-press alternate `changeState` to
`DblPressStart`, otherwise `changeState` to `BtnPress` and `OnPress` on `GetPressMapping()`. -/
def startPress (env : Env) (self : Nat) (w : World) : Except Fault World :=
  if (env.mapping self).getDblPressMap.isSome then
    pure (changeState self .DblPressStart w)
  else
    GetPressMapping_ProcessEvent env self .OnPress (changeState self .BtnPress w)

/-- Embedding of `NoPress::react(Pressed)`. -/
def NoPress.react_Pressed (env : Env) (self : Nat) (e : Pressed) (w : World) :
    Except Fault World :=
  let w := DigitalButtonState.react_Pressed env self w
  let w := w.setImpl self fun i => { i with _press_times := e.time_now }
  if (env.mapping self).HasSimMappings then
    pure (changeState self .WaitSim w)
  else startPress env self w

/-- Embedding of `BtnPress::react(Pressed)`. -/
def BtnPress.react_Pressed (env : Env) (self : Nat) (e : Pressed) (w : World) :
    Except Fault World :=
  ProcessEvent_Pressed env self e (DigitalButtonState.react_Pressed env self w)

/-- Embedding of `BtnPress::react(Released)`. -/
def BtnPress.react_Released (env : Env) (self : Nat) (e : Released) (w : World) :
    Except Fault World := do
  let (next, w) ← ProcessEvent_Released env self e (DigitalButtonState.react_Released env self w)
  pure (changeState self next w)

/-- Embedding of `TapRelease::react(Pressed)`. -/
def TapRelease.react_Pressed (env : Env) (self : Nat) (_e : Pressed) (w : World) :
    Except Fault World := do
  let w := DigitalButtonState.react_Pressed env self w
  let w ← CheckInstantRelease env self .OnRelease w
  let w ← CheckInstantRelease env self .OnTap w
  let w ← GetPressMapping_ProcessEvent env self .OnTapRelease w
  pure (ClearKey self w)

/-- Embedding of `TapRelease::react(Released)`. -/
def TapRelease.react_Released (env : Env) (self : Nat) (e : Released) (w : World) :
    Except Fault World := do
  let w := DigitalButtonState.react_Released env self w
  let w ←
    (if GetPressDurationMS (w.impl self) e.time_now > env.MAGIC_INSTANT_DURATION then do
      let w ← CheckInstantRelease env self .OnRelease w
      CheckInstantRelease env self .OnTap w
    else pure w)
  let expired : Bool :=
    match (w.impl self)._keyToRelease with
    | none => true
    | some m => decide (GetPressDurationMS (w.impl self) e.time_now > m.getTapDuration)
  if expired then
    let w ← GetPressMapping_ProcessEvent env self .OnTapRelease w
    pure (ClearKey self (changeState self .NoPress w))
  else pure w

/-- Embedding of `WaitSim::react(Sync)`: the waiting partner adopts what the initiator sends. -/
def WaitSim.react_Sync (self : Nat) (e : Sync) (w : World) : Except Fault (Sync × World) :=
  match e.activeMapping, e.nextState with
  | some activeMapping, some nextState =>
    let w := w.setImpl self fun i =>
      { i with _simPressMaster := none
               _press_times := e.pressTime
               _keyToRelease := some activeMapping
               _nameToRelease := e.nameToRelease }
    pure (e, changeState self nextState w)
  | _, _ => throw Fault.uninitialised

/-- Embedding of `SimPress::react(Sync)`: the master classifies the release on its own record, reports the
outcome in `nextState` and parks in `SimRelease`. `ProcessEvent` reads only `time_now`. -/
def SimPress.react_Sync (env : Env) (self : Nat) (e : Sync) (w : World) :
    Except Fault (Sync × World) := do
  let (next, w) ← ProcessEvent_Released env self
    ⟨e.pressTime, e.turboTime.getD 0, e.holdTime.getD 0⟩ w
  pure ({ e with nextState := some next }, changeState self .SimRelease w)

/-- Modelled from the spec: the reaction to `Sync` of the states that do not override it, whose
declaration is outside `src/`. A `Sync` arriving at a classifier that is not part of a
rendezvous is a fatal invariant violation: it ends the run. -/
def DigitalButtonState.react_Sync (_self : Nat) (_e : Sync) (_w : World) :
    Except Fault (Sync × World) :=
  throw Fault.unpairedSync

/-- The call `target->sendEvent(sync)`: `WaitSim` and `SimPress` are the states with a reaction
of their own to `Sync`. -/
def sendEvent_Sync (env : Env) (target : Nat) (e : Sync) (w : World) :
    Except Fault (Sync × World) :=
  match w.getState target with
  | .WaitSim => WaitSim.react_Sync target e w
  | .SimPress => SimPress.react_Sync env target e w
  | _ => DigitalButtonState.react_Sync target e w

/-- Embedding of `WaitSim::react(Pressed)`. A lookup that returns the calling classifier itself would
re-enter its own `sendEvent`; that ends the run. -/
def WaitSim.react_Pressed (env : Env) (self : Nat) (e : Pressed) (w : World) :
    Except Fault World :=
  let w := DigitalButtonState.react_Pressed env self w
  match env._getMatchingSimBtn w (env.id self) with
  | some simBtn =>
    let w := changeState self .SimPress w
    let w := w.setImpl self fun i => { i with _press_times := e.time_now }
    match (env.mapping self).AtSimPress (env.id simBtn) with
    | none => throw Fault.nullDeref
    | some simMapping =>
      let w := w.setImpl self fun i =>
        { i with _keyToRelease := some simMapping
                 _nameToRelease := (env.mapping self).getSimPressName (env.id simBtn)
                 _simPressMaster := some simBtn }
      let sync : Sync :=
        { nextState := some .SimPress
          pressTime := e.time_now
          activeMapping := some simMapping
          nameToRelease := (env.mapping self).getSimPressName (env.id simBtn)
          turboTime := none
          holdTime := none }
      if simBtn = self then throw Fault.reentrant
      else do
        let (_, w) ← sendEvent_Sync env simBtn sync w
        keyToRelease_ProcessEvent env self .OnPress w
  | none =>
    if GetPressDurationMS (w.impl self) e.time_now > env.sim_press_window then
      startPress env self w
    else pure w

/-- Embedding of `WaitSim::react(Released)`. -/
def WaitSim.react_Released (env : Env) (self : Nat) (_e : Released) (w : World) :
    Except Fault World :=
  startPress env self (DigitalButtonState.react_Released env self w)

/-- Embedding of `SimPress::react(Pressed)`. -/
def SimPress.react_Pressed (env : Env) (self : Nat) (e : Pressed) (w : World) :
    Except Fault World :=
  let w := DigitalButtonState.react_Pressed env self w
  match (w.impl self)._simPressMaster with
  | some master =>
    if w.getState master ≠ .SimPress then
      pure ((changeState self .SimRelease w).setImpl self fun i => { i with _simPressMaster := none })
    else pure w
  | none => ProcessEvent_Pressed env self e w

/-- Embedding of `SimPress::react(Released)`. -/
def SimPress.react_Released (env : Env) (self : Nat) (e : Released) (w : World) :
    Except Fault World :=
  let w := DigitalButtonState.react_Released env self w
  match (w.impl self)._simPressMaster with
  | some master =>
    if w.getState master ≠ .SimPress then
      pure ((changeState self .SimRelease w).setImpl self fun i => { i with _simPressMaster := none })
    else if master = self then throw Fault.reentrant
    else do
      let sync : Sync :=
        { nextState := none
          pressTime := e.time_now
          activeMapping := none
          nameToRelease := ""
          turboTime := some e.turboTime
          holdTime := some e.holdTime }
      let (sync, w) ← sendEvent_Sync env master sync w
      match sync.nextState with
      | some next => pure (changeState self next w)
      | none => throw Fault.uninitialised
  | none => do
    let (next, w) ← ProcessEvent_Released env self e w
    pure (changeState self next w)

/-- Embedding of `SimRelease::react(Released)`. -/
def SimRelease.react_Released (env : Env) (self : Nat) (_e : Released) (w : World) :
    Except Fault World :=
  pure (ClearKey self (changeState self .NoPress (DigitalButtonState.react_Released env self w)))

/-- Embedding of `DblPressStart::react(Pressed)`. -/
def DblPressStart.react_Pressed (env : Env) (self : Nat) (e : Pressed) (w : World) :
    Except Fault World := do
  let w := DigitalButtonState.react_Pressed env self w
  if GetPressDurationMS (w.impl self) e.time_now > env.dbl_press_window then
    let w ← GetPressMapping_ProcessEvent env self .OnPress w
    pure (changeState self .BtnPress w)
  else pure w

/-- Embedding of `DblPressStart::react(Released)`. -/
def DblPressStart.react_Released (env : Env) (self : Nat) (e : Released) (w : World) :
    Except Fault World := do
  let w := DigitalButtonState.react_Released env self w
  if GetPressDurationMS (w.impl self) e.time_now > env.dbl_press_window then
    let w ← GetPressMapping_ProcessEvent env self .OnPress w
    pure (changeState self .BtnPress w)
  else if GetPressDurationMS (w.impl self) e.time_now > e.holdTime then
    pure (changeState self .DblPressNoPressHold w)
  else
    pure (changeState self .DblPressNoPressTap w)

/-- The second-press branch that `DblPressNoPressTap::react(Pressed)` and
`DblPressNoPressHold::react(Pressed)` each spell out: `changeState` to `DblPressPress`, press
time `now`, a copy of the double-press binding as active binding, `OnPress` on that binding. -/
def dblPressPress (env : Env) (self : Nat) (e : Pressed) (w : World) : Except Fault World :=
  let w := changeState self .DblPressPress w
  let w := w.setImpl self fun i => { i with _press_times := e.time_now }
  match (env.mapping self).getDblPressMap with
  | none => throw Fault.nullDeref
  | some dbl =>
    let w := w.setImpl self fun i =>
      { i with _keyToRelease := some dbl.2
               _nameToRelease := (env.mapping self).getName (env.id self) }
    dbl.2.ProcessEvent env .OnPress self w

/-- Embedding of `DblPressNoPressTap::react(Pressed)`; it does not call the basic press reaction. -/
def DblPressNoPressTap.react_Pressed (env : Env) (self : Nat) (e : Pressed) (w : World) :
    Except Fault World :=
  if GetPressDurationMS (w.impl self) e.time_now > env.dbl_press_window then
    let w := changeState self .BtnPress w
    let w := w.setImpl self fun i => { i with _press_times := e.time_now }
    GetPressMapping_ProcessEvent env self .OnPress w
  else dblPressPress env self e w

/-- Embedding of `DblPressNoPressTap::react(Released)`; it does not call the basic release reaction. -/
def DblPressNoPressTap.react_Released (env : Env) (self : Nat) (e : Released) (w : World) :
    Except Fault World :=
  if GetPressDurationMS (w.impl self) e.time_now > env.dbl_press_window then
    let w := changeState self .BtnPress w
    let w := w.setImpl self fun i => { i with _press_times := e.time_now }
    GetPressMapping_ProcessEvent env self .OnPress w
  else pure w

/-- Embedding of `DblPressNoPressHold::react(Pressed)`. -/
def DblPressNoPressHold.react_Pressed (env : Env) (self : Nat) (e : Pressed) (w : World) :
    Except Fault World :=
  let w := DigitalButtonState.react_Pressed env self w
  if GetPressDurationMS (w.impl self) e.time_now > env.dbl_press_window then
    GetPressMapping_ProcessEvent env self .OnPress (changeState self .BtnPress w)
  else dblPressPress env self e w

/-- Embedding of `DblPressNoPressHold::react(Released)`. -/
def DblPressNoPressHold.react_Released (env : Env) (self : Nat) (e : Released) (w : World) :
    Except Fault World :=
  let w := DigitalButtonState.react_Released env self w
  if GetPressDurationMS (w.impl self) e.time_now > env.dbl_press_window then
    GetPressMapping_ProcessEvent env self .OnPress (changeState self .BtnPress w)
  else pure w

/-- Embedding of `DblPressPress::react(Pressed)`. -/
def DblPressPress.react_Pressed (env : Env) (self : Nat) (e : Pressed) (w : World) :
    Except Fault World :=
  ProcessEvent_Pressed env self e (DigitalButtonState.react_Pressed env self w)

/-- Embedding of `DblPressPress::react(Released)`. -/
def DblPressPress.react_Released (env : Env) (self : Nat) (e : Released) (w : World) :
    Except Fault World := do
  let (next, w) ← ProcessEvent_Released env self e (DigitalButtonState.react_Released env self w)
  pure (changeState self next w)

/-- Embedding of `InstRelease::react(Pressed)`. -/
def InstRelease.react_Pressed (env : Env) (self : Nat) (e : Pressed) (w : World) :
    Except Fault World := do
  let w := DigitalButtonState.react_Pressed env self w
  if GetPressDurationMS (w.impl self) e.time_now > env.MAGIC_INSTANT_DURATION then
    let w ← CheckInstantRelease env self .OnRelease w
    pure (changeState self .NoPress (ClearKey self w))
  else pure w

/-- The call `sendEvent(Pressed)` on classifier `self`: the reaction of its current state.
`SimRelease` does not override the basic reaction. -/
def sendEvent_Pressed (env : Env) (self : Nat) (e : Pressed) (w : World) : Except Fault World :=
  match w.getState self with
  | .NoPress => NoPress.react_Pressed env self e w
  | .BtnPress => BtnPress.react_Pressed env self e w
  | .TapRelease => TapRelease.react_Pressed env self e w
  | .WaitSim => WaitSim.react_Pressed env self e w
  | .SimPress => SimPress.react_Pressed env self e w
  | .SimRelease => pure (DigitalButtonState.react_Pressed env self w)
  | .DblPressStart => DblPressStart.react_Pressed env self e w
  | .DblPressNoPressTap => DblPressNoPressTap.react_Pressed env self e w
  | .DblPressNoPressHold => DblPressNoPressHold.react_Pressed env self e w
  | .DblPressPress => DblPressPress.react_Pressed env self e w
  | .InstRelease => InstRelease.react_Pressed env self e w
  | .INVALID => throw Fault.nullDeref

/-- The call `sendEvent(Released)` on classifier `self`. `NoPress` and `InstRelease` do not
override the basic reaction. -/
def sendEvent_Released (env : Env) (self : Nat) (e : Released) (w : World) : Except Fault World :=
  match w.getState self with
  | .NoPress => pure (DigitalButtonState.react_Released env self w)
  | .BtnPress => BtnPress.react_Released env self e w
  | .TapRelease => TapRelease.react_Released env self e w
  | .WaitSim => WaitSim.react_Released env self e w
  | .SimPress => SimPress.react_Released env self e w
  | .SimRelease => SimRelease.react_Released env self e w
  | .DblPressStart => DblPressStart.react_Released env self e w
  | .DblPressNoPressTap => DblPressNoPressTap.react_Released env self e w
  | .DblPressNoPressHold => DblPressNoPressHold.react_Released env self e w
  | .DblPressPress => DblPressPress.react_Released env self e w
  | .InstRelease => pure (DigitalButtonState.react_Released env self w)
  | .INVALID => throw Fault.nullDeref

/-- One input of the feed: a sample for one classifier. -/
inductive Input where
  | Pressed (button : Nat) (e : Pressed)
  | Released (button : Nat) (e : Released)

/-- The classifier an input is delivered to. -/
def Input.button : Input → Nat
  | .Pressed b _ => b
  | .Released b _ => b

/-- Deliver one input. -/
def step (env : Env) (w : World) : Input → Except Fault World
  | .Pressed b e => sendEvent_Pressed env b e w
  | .Released b e => sendEvent_Released env b e w

/-- Deliver a finite sequence of inputs, stopping at the first fault. -/
def run (env : Env) (w : World) : List Input → Except Fault World
  | [] => pure w
  | i :: rest => do
    let w ← step env w i
    run env w rest

/-! ## `Mapping.cpp`: building a binding from its text

Conventions of this part.

* Text is a list of characters; `std::string` members of the model stay `String`.
* The regular expression of `operator>>` is matched as ECMAScript does: alternatives and
  quantifiers are tried in priority order (greedy first, lazy last) and the first assignment
  of the groups that lets the whole text match is the result. `\s` is `isspace` in the "C"
  locale, `\w` is an ASCII letter, digit or underscore, and `.` is any character but `\n`
  and `\r`.
* The union `Rumble` is read on a little-endian machine with a 32-bit `int`.
* The `KeyCode` constructor, the command validator, the printers of the two modifier enums
  and the key-code constants are declared outside `src/`; they are fields of `MappingEnv`.
-/

/-- Embedding of `Mapping::EventModifier`. -/
inductive EventModifier where
  | None
  | StartPress
  | TapPress
  | HoldPress
  | ReleasePress
  | TurboPress
  | INVALID
  deriving DecidableEq, Repr

/-- Embedding of `Mapping::ActionModifier`. -/
inductive ActionModifier where
  | None
  | Instant
  | Toggle
  | INVALID
  deriving DecidableEq, Repr

/-- What `Mapping.cpp` reads but `src/` does not define, on top of `Env`: key-code constants,
the extended tap duration, the static `Mapping::_isCommandValid` (an empty `std::function`
until assigned), the constructor `KeyCode(in_string)` and `operator<<` of the two modifier
enums. -/
structure MappingEnv extends Env where
  COMMAND_ACTION : Nat
  RUMBLE : Nat
  GYRO_INV_X : Nat
  GYRO_TRACKBALL : Nat
  MAGIC_EXTENDED_TAP_DURATION : ℚ
  _isCommandValid : Option (String → Bool)
  newKeyCode : String → KeyCode
  showActionModifier : ActionModifier → String
  showEventModifier : EventModifier → String

/-- The characters `isspace` accepts in the "C" locale; also the class `\s`. -/
def isspace (c : Char) : Bool :=
  c = ' ' || c = '\t' || c = '\n' || c = Char.ofNat 11 || c = Char.ofNat 12 || c = '\r'

/-- The class `\w`. -/
def regexWord (c : Char) : Bool := c.isAlphanum || c = '_'

/-- The class `[0-9A-Z]`. -/
def regexKeyEnd (c : Char) : Bool := c.isDigit || c.isUpper

/-- The class `.`: any character but a line terminator. -/
def regexDot (c : Char) : Bool := !(c = '\n' || c = '\r')

/-- The class `[!\^]` of the first group. -/
def regexActMod (c : Char) : Bool := c = '!' || c = '^'

/-- The class of the fourth group: backslash, slash, plus, apostrophe, underscore. -/
def regexEvtMod (c : Char) : Bool :=
  c = Char.ofNat 92 || c = '/' || c = '+' || c = Char.ofNat 39 || c = '_'

/-- The groups of a successful `regex_match`: `results[1]`, `results[2]`, `results[4]` and
`results[5]`. `results[0]` is the whole text. -/
structure smatch where
  actMod : List Char
  key : List Char
  evtMod : List Char
  leftovers : List Char
  deriving DecidableEq, Repr

/-- A greedy optional character of class `p`: first with the character, then without. Each
option is the matched text and the rest. -/
def optionalChar (p : Char → Bool) (s : List Char) : List (List Char × List Char) :=
  match s with
  | c :: rest => if p c then [([c], rest), ([], s)] else [([], s)]
  | [] => [([], s)]

/-- The alternative `\".*?\"`: a double quote, lazily as few characters as possible, a double
quote. -/
def quotedOptions (s : List Char) : List (List Char × List Char) :=
  match s with
  | c :: rest =>
    if c = Char.ofNat 34 then
      ((List.range rest.length).filter fun j =>
          decide (rest.get? j = some (Char.ofNat 34)) && (rest.take j).all regexDot).map fun j =>
        (c :: rest.take (j + 1), rest.drop (j + 1))
    else []
  | [] => []

/-- The alternative `\w*[0-9A-Z]`: greedily as many word characters as possible, then a digit
or capital letter. -/
def wordOptions (s : List Char) : List (List Char × List Char) :=
  (((List.range ((s.takeWhile regexWord).length)).reverse).filter fun n =>
      (s.get? n).any regexKeyEnd).map fun n => (s.take (n + 1), s.drop (n + 1))

/-- The alternative `\W`: one character that is not a word character. -/
def symbolOptions (s : List Char) : List (List Char × List Char) :=
  match s with
  | c :: rest => if regexWord c then [] else [([c], rest)]
  | [] => []

/-- The second group, its three alternatives in order. -/
def keyOptions (s : List Char) : List (List Char × List Char) :=
  quotedOptions s ++ wordOptions s ++ symbolOptions s

/-- Every way the expression matches the whole of `s`, in priority order. -/
def regexCandidates (s : List Char) : List smatch :=
  ((List.range ((s.takeWhile isspace).length + 1)).reverse).flatMap fun k =>
    (optionalChar regexActMod (s.drop k)).flatMap fun g1 =>
      (keyOptions g1.2).flatMap fun g2 =>
        (optionalChar regexEvtMod g2.2).flatMap fun g4 =>
          if (g4.2.dropWhile isspace).all regexDot then
            [smatch.mk g1.1 g2.1 g4.1 (g4.2.dropWhile isspace)]
          else []

/-- The call `regex_match(valueName, results, regex(rgx))` with the expression
`\s*([!\^]?)((\".*?\")|\w*[0-9A-Z]|\W)([\\\/+'_]?)\s*(.*)`. -/
def regex_match (valueName : List Char) : Option smatch := (regexCandidates valueName).head?

/-- The calls `in.getline(&valueName[0], 128)` and `valueName.resize(strlen(...))` on a good
stream holding `content`: the line read and whether `getline` set the failure flag (nothing
to extract, or 127 characters stored before the end of the line). -/
def getline (content : List Char) : List Char × Bool :=
  let line := content.takeWhile fun c => c ≠ '\n'
  if content = [] then ([], true)
  else if line.length ≤ 127 then (line.takeWhile fun c => c ≠ Char.ofNat 0, false)
  else ((line.take 127).takeWhile fun c => c ≠ Char.ofNat 0, true)

/-- The value of a hexadecimal digit. -/
def hexDigit? (c : Char) : Option Nat :=
  if c.isDigit then some (c.toNat - 48)
  else if 97 ≤ c.toNat ∧ c.toNat ≤ 102 then some (c.toNat - 87)
  else if 65 ≤ c.toNat ∧ c.toNat ≤ 70 then some (c.toNat - 55)
  else none

/-- The call `stoi(str, nullptr, 16)` on a text of at most four characters: leading white
space, an optional sign, an optional `0x` before a digit, then the digits; without a digit it
throws `invalid_argument`. -/
def stoi16 (str : List Char) : Except Fault Int :=
  let s := str.dropWhile isspace
  let signed : Bool × List Char :=
    match s with
    | c :: r => if c = '-' then (true, r) else if c = '+' then (false, r) else (false, s)
    | [] => (false, s)
  let body : List Char :=
    match signed.2 with
    | z :: x :: d :: r =>
      if z = '0' ∧ (x = 'x' ∨ x = 'X') ∧ (hexDigit? d).isSome then d :: r else signed.2
    | other => other
  let digits := (body.takeWhile fun c => (hexDigit? c).isSome).filterMap hexDigit?
  if digits = [] then throw Fault.invalid_argument
  else
    let v : Int := ((digits.foldl (fun a d => 16 * a + d) 0 : Nat) : Int)
    pure (if signed.1 then -v else v)

/-- The members `bytes[0]` and `bytes[1]` of the union `Rumble` after `raw` is assigned. -/
def rumbleBytes (raw : Int) : Int × Int :=
  (raw % 4294967296 % 256, raw % 4294967296 / 256 % 256)

/-- Embedding of `Mapping::InsertEventMapping`: a new entry, or the existing action chained with the new
one through `RunBothActions`. -/
def Mapping.InsertEventMapping (m : Mapping) (evt : BtnEvent) (action : Callback) : Mapping :=
  match m.find evt with
  | none => { m with _eventMapping := m._eventMapping ++ [(evt, action)] }
  | some existingActions =>
    { m with _eventMapping := m._eventMapping.map fun p =>
        if p.1 = evt then (evt, Callback.RunBothActions existingActions action) else p }

/-- The first part of `Mapping::AddMapping`: the apply and release actions by kind of key,
with the members it sets on the way; `none` where it returns false (invalid command). -/
def Mapping.keyActions (P : MappingEnv) (m : Mapping) (key : KeyCode) :
    Except Fault (Option (Callback × Callback × Mapping)) :=
  if key.code = P.CALIBRATE then
    pure (some (.StartCalibration, .FinishCalibration,
      { m with _tapDurationMs := P.MAGIC_EXTENDED_TAP_DURATION }))
  else if key.code ≥ P.GYRO_INV_X ∧ key.code ≤ P.GYRO_TRACKBALL then
    pure (some (.ApplyGyroAction key, .RemoveGyroAction,
      { m with _tapDurationMs := P.MAGIC_EXTENDED_TAP_DURATION }))
  else if key.code = P.COMMAND_ACTION then
    match P._isCommandValid with
    | none => throw Fault.bad_function_call
    | some valid =>
      if valid key.name then pure (some (.WriteToConsole key.name, .empty, m))
      else pure none
  else if key.code = P.RUMBLE then
    if key.name.data = [] then throw Fault.out_of_range
    else do
      let raw ← stoi16 ((key.name.data.drop 1).take 4)
      pure (some (.SetRumble (rumbleBytes raw).2 (rumbleBytes raw).1, .SetRumble 0 0,
        { m with _tapDurationMs := P.MAGIC_EXTENDED_TAP_DURATION }))
  else
    pure (some (.ApplyBtnPress key, .ApplyBtnRelease key,
      { m with _hasViGEmBtn := m._hasViGEmBtn || P.toEnv.isViGEmBtn key }))

/-- The first `switch` of `Mapping::AddMapping`: the apply event and the release event of an
event modifier; `none` in the default case. -/
def EventModifier.events : EventModifier → Option (BtnEvent × BtnEvent)
  | .StartPress => some (.OnPress, .OnRelease)
  | .TapPress => some (.OnTap, .OnTapRelease)
  | .HoldPress => some (.OnHold, .OnHoldRelease)
  | .ReleasePress => some (.OnRelease, .INVALID)
  | .TurboPress => some (.OnTurbo, .OnTurbo)
  | _ => none

/-- Embedding of `Mapping::AddMapping`: the value returned and the binding as the call leaves it. -/
def Mapping.AddMapping (P : MappingEnv) (m : Mapping) (key : KeyCode) (evtMod : EventModifier)
    (actMod : ActionModifier) : Except Fault (Bool × Mapping) := do
  match (← Mapping.keyActions P m key) with
  | none => pure (false, m)
  | some (apply, release, m) =>
    match evtMod.events with
    | none => pure (false, m)
    | some (applyEvt, releaseEvt) =>
      let modified : Option (Callback × Callback × BtnEvent) :=
        match actMod with
        | .Toggle => some (.ApplyButtonToggle key apply release, .empty, releaseEvt)
        | .Instant =>
          some (.RunBothActions apply (.RegisterInstant applyEvt), release, .OnInstantRelease)
        | .INVALID => none
        | .None => some (apply, release, releaseEvt)
      match modified with
      | none => pure (false, m)
      | some (apply, release, releaseEvt) =>
        let m := m.InsertEventMapping releaseEvt release
        let m := m.InsertEventMapping applyEvt apply
        pure (true, if evtMod = .TurboPress then m.InsertEventMapping .OnRelease release else m)

/-- The local variables of one iteration of the loop of `operator>>`: the iteration count, the
groups matched, the key built from the second group, the two modifiers as they stand when the
target is validated, and whether the target was added to the binding. -/
structure Target where
  count : Nat
  results : smatch
  key : KeyCode
  evtMod : EventModifier
  actMod : ActionModifier
  added : Bool

/-- The action modifier read from the first group. -/
def readActMod (group : List Char) : ActionModifier :=
  match group with
  | [] => .None
  | c :: _ => if c = '!' then .Instant else if c = '^' then .Toggle else .INVALID

/-- The event modifier read from the fourth group. -/
def readEvtMod (group : List Char) : EventModifier :=
  match group with
  | [] => .None
  | c :: _ =>
    if c = Char.ofNat 92 then .StartPress
    else if c = '+' then .TurboPress
    else if c = '/' then .ReleasePress
    else if c = Char.ofNat 39 then .TapPress
    else if c = '_' then .HoldPress
    else .INVALID

/-- The event modifier after the default rule for a target written without one. -/
def defaultEvtMod (count : Nat) (leftovers : List Char) (evtMod : EventModifier) :
    EventModifier :=
  if evtMod = .None then
    if count = 0 then (if leftovers = [] then .StartPress else .TapPress)
    else if count = 1 then .HoldPress else .None
  else evtMod

/-- The action modifier after the two exceptions: a command is instant by default, calibrate
on tap or release toggles by default. -/
def exceptActMod (P : MappingEnv) (key : KeyCode) (evtMod : EventModifier)
    (actMod : ActionModifier) : ActionModifier :=
  if key.code = P.COMMAND_ACTION ∧ actMod = .None then .Instant
  else if key.code = P.CALIBRATE ∧ actMod = .None ∧
      (evtMod = .TapPress ∨ evtMod = .ReleasePress) then .Toggle
  else actMod

/-- The tests of the validation `if` that come before the call of `AddMapping`. -/
def rejected (P : MappingEnv) (count : Nat) (key : KeyCode) (evtMod : EventModifier)
    (actMod : ActionModifier) : Bool :=
  decide (key.code = 0) ||
  (decide (key.code = P.COMMAND_ACTION) && decide (actMod ≠ .Instant)) ||
  decide (actMod = .INVALID) ||
  decide (evtMod = .INVALID) ||
  (decide (evtMod = .None) && decide (count ≥ 2)) ||
  (decide (evtMod = .ReleasePress) && decide (actMod = .None))

/-- The text the `else` branch appends to the description. -/
def describeTarget (P : MappingEnv) (count : Nat) (leftovers : List Char) (key : KeyCode)
    (evtMod : EventModifier) (actMod : ActionModifier) : String :=
  (if actMod ≠ .None then P.showActionModifier actMod ++ " " else "") ++ key.name ++
    (if count ≠ 0 ∨ leftovers ≠ [] ∨ evtMod ≠ .StartPress then
      " on " ++ P.showEventModifier evtMod
    else "")

/-- The body of the loop of `operator>>` for one match: the iteration's variables, the binding
as the iteration leaves it, and the text appended to the description. The target is not added
when a validation test rejects it or `AddMapping` returns false; the loop then sets the
failure flag and ends. -/
def parseTarget (P : MappingEnv) (count : Nat) (results : smatch) (mapping : Mapping) :
    Except Fault (Target × Mapping × String) := do
  let key := P.newKeyCode (String.mk results.key)
  let evtMod := defaultEvtMod count results.leftovers (readEvtMod results.evtMod)
  let actMod := exceptActMod P key evtMod (readActMod results.actMod)
  if rejected P count key evtMod actMod then
    pure (Target.mk count results key evtMod actMod false, mapping, "")
  else do
    let (ok, mapping) ← mapping.AddMapping P key evtMod actMod
    if ok then
      pure (Target.mk count results key evtMod actMod true, mapping,
        describeTarget P count results.leftovers key evtMod actMod)
    else pure (Target.mk count results key evtMod actMod false, mapping, "")

/-- The state `operator>>` leaves: the failure flag of the stream, the binding, and the targets
the loop went through, in order. -/
structure Parsed where
  failbit : Bool
  mapping : Mapping
  targets : List Target

/-- The statement `if (count > 0) ss << " and "` at the head of the loop body. -/
def joinTargets (count : Nat) (ss : String) : String :=
  if count > 0 then ss ++ " and " else ss

/-- The loop of `operator>>`, with `ss` the description so far. Every iteration shortens
`valueName`, so `fuel` above its length is never used up; `none` is "out of fuel". -/
def parseLoop (P : MappingEnv) : Nat → Nat → List Char → Mapping → String → List Target →
    Option (Except Fault Parsed)
  | 0, _, _, _, _, _ => none
  | fuel + 1, count, valueName, mapping, ss, targets =>
    match regex_match valueName with
    | none => some (.ok (Parsed.mk false { mapping with _description := ss } targets))
    | some results =>
      if valueName = [] then
        some (.ok (Parsed.mk false { mapping with _description := ss } targets))
      else
        match parseTarget P count results mapping with
        | .error fault => some (.error fault)
        | .ok (target, mapping, text) =>
          if target.added then
            parseLoop P fuel (count + 1) results.leftovers mapping
              (joinTargets count ss ++ text) (targets ++ [target])
          else
            some (.ok (Parsed.mk true { mapping with _description := joinTargets count ss }
              (targets ++ [target])))

/-- Embedding of `operator>>(istream &in, Mapping &mapping)` on a good stream holding `content`. -/
def operator_extract (P : MappingEnv) (content : List Char) (mapping : Mapping) :
    Option (Except Fault Parsed) :=
  match parseLoop P ((getline content).1.length + 1) 0 (getline content).1
      { mapping with _command := String.mk (getline content).1 } "" [] with
  | some (.ok parsed) =>
    some (.ok (Parsed.mk ((getline content).2 || parsed.failbit) parsed.mapping parsed.targets))
  | other => other

/-! ## `TriggerEffectGenerator.cpp`: trigger effect payloads

Conventions of this part.

* `byte *destinationArray` is the memory the pointer gives access to: a function from the
  offset (an `int`) to the byte stored there. Whether an offset lies inside the caller's buffer
  is the caller's business; no factory tests it.
* A `byte` argument is a natural number; callers pass values below 256, and no definition
  relies on the bound. The conversion of a larger argument to `byte` at the call (300 becomes
  44) is not modelled: the statements are about arguments below 256. The `uint32_t` and `uint16_t` accumulators are natural numbers, reduced
  modulo `2^32` and `2^16` where the source converts to these types; `(byte)` is reduction
  modulo 256. The shifts are `int` shifts of values below 8 by at most 27 bits and do not
  overflow.
* A factory returns the `bool` it returns and the memory as it leaves it.
-/

/-- Embedding of `enum class TriggerEffectType : byte`. -/
inductive TriggerEffectType where
  | Off
  | Feedback
  | Weapon
  | Vibration
  | Bow
  | Galloping
  | Machine
  | Simple_Feedback
  | Simple_Weapon
  | Simple_Vibration
  | Limited_Feedback
  | Limited_Weapon
  | DebugFC
  | DebugFD
  | DebugFE
  deriving DecidableEq, Repr

/-- The value `(byte)` of a `TriggerEffectType`. -/
def TriggerEffectType.toByte : TriggerEffectType → Nat
  | .Off => 0x05
  | .Feedback => 0x21
  | .Weapon => 0x25
  | .Vibration => 0x26
  | .Bow => 0x22
  | .Galloping => 0x23
  | .Machine => 0x27
  | .Simple_Feedback => 0x01
  | .Simple_Weapon => 0x02
  | .Simple_Vibration => 0x06
  | .Limited_Feedback => 0x11
  | .Limited_Weapon => 0x12
  | .DebugFC => 0xFC
  | .DebugFD => 0xFD
  | .DebugFE => 0xFE

/-- The store `destinationArray[index] = value`. -/
def storeByte (destinationArray : Int → Nat) (index : Int) (value : Nat) : Int → Nat :=
  fun j => if j = index then value else destinationArray j

/-- Embedding of `TriggerEffectGenerator::Off`. -/
def TriggerEffectGenerator.Off (destinationArray : Int → Nat) (destinationIndex : Int) :
    Bool × (Int → Nat) :=
  let a := storeByte destinationArray (destinationIndex + 0) TriggerEffectType.Off.toByte
  let a := storeByte a (destinationIndex + 1) 0x00
  let a := storeByte a (destinationIndex + 2) 0x00
  let a := storeByte a (destinationIndex + 3) 0x00
  let a := storeByte a (destinationIndex + 4) 0x00
  let a := storeByte a (destinationIndex + 5) 0x00
  let a := storeByte a (destinationIndex + 6) 0x00
  let a := storeByte a (destinationIndex + 7) 0x00
  let a := storeByte a (destinationIndex + 8) 0x00
  let a := storeByte a (destinationIndex + 9) 0x00
  let a := storeByte a (destinationIndex + 10) 0x00
  (true, a)

/-- The loop `for (int i = position; i < 10; i++)` of `Feedback` and `Vibration` for the 3-bit
value `value`: the accumulators `forceZones` (or `amplitudeZones`) and `activeZones`. -/
def zonesFrom (position value : Nat) : Nat × Nat :=
  (List.range' position (10 - position)).foldl
    (fun z i => (z.1 ||| (value <<< (3 * i)) % 2 ^ 32, z.2 ||| (1 <<< i) % 2 ^ 16)) (0, 0)

/-- The loop `for (int i = 0; i < 10; i++)` of `MultiplePositionFeedback` and
`MultiplePositionVibration` over a vector of 10 entries: the accumulators `forceZones` (or
`strengthZones`) and `activeZones`. -/
def zonesOf (strength : List Nat) : Nat × Nat :=
  (List.range 10).foldl
    (fun z i =>
      if strength.getD i 0 > 0 then
        let forceValue := ((strength.getD i 0 - 1) &&& 0x07) % 256
        (z.1 ||| (forceValue <<< (3 * i)) % 2 ^ 32, z.2 ||| (1 <<< i) % 2 ^ 16)
      else z) (0, 0)

/-- Embedding of `TriggerEffectGenerator::Feedback`. -/
def TriggerEffectGenerator.Feedback (destinationArray : Int → Nat) (destinationIndex : Int)
    (position strength : Nat) : Bool × (Int → Nat) :=
  if position > 9 then (false, destinationArray)
  else if strength > 8 then (false, destinationArray)
  else if strength > 0 then
    let forceValue := ((strength - 1) &&& 0x07) % 256
    let forceZones := (zonesFrom position forceValue).1
    let activeZones := (zonesFrom position forceValue).2
    let a := storeByte destinationArray (destinationIndex + 0) TriggerEffectType.Feedback.toByte
    let a := storeByte a (destinationIndex + 1) (((activeZones >>> 0) &&& 0xff) % 256)
    let a := storeByte a (destinationIndex + 2) (((activeZones >>> 8) &&& 0xff) % 256)
    let a := storeByte a (destinationIndex + 3) (((forceZones >>> 0) &&& 0xff) % 256)
    let a := storeByte a (destinationIndex + 4) (((forceZones >>> 8) &&& 0xff) % 256)
    let a := storeByte a (destinationIndex + 5) (((forceZones >>> 16) &&& 0xff) % 256)
    let a := storeByte a (destinationIndex + 6) (((forceZones >>> 24) &&& 0xff) % 256)
    let a := storeByte a (destinationIndex + 7) 0x00
    let a := storeByte a (destinationIndex + 8) 0x00
    let a := storeByte a (destinationIndex + 9) 0x00
    let a := storeByte a (destinationIndex + 10) 0x00
    (true, a)
  else TriggerEffectGenerator.Off destinationArray destinationIndex

/-- Embedding of `TriggerEffectGenerator::Weapon`. -/
def TriggerEffectGenerator.Weapon (destinationArray : Int → Nat) (destinationIndex : Int)
    (startPosition endPosition strength : Nat) : Bool × (Int → Nat) :=
  if startPosition > 7 ∨ startPosition < 2 then (false, destinationArray)
  else if endPosition > 8 then (false, destinationArray)
  else if endPosition ≤ startPosition then (false, destinationArray)
  else if strength > 8 then (false, destinationArray)
  else if strength > 0 then
    let startAndStopZones := ((1 <<< startPosition) ||| (1 <<< endPosition)) % 2 ^ 16
    let a := storeByte destinationArray (destinationIndex + 0) TriggerEffectType.Weapon.toByte
    let a := storeByte a (destinationIndex + 1) (((startAndStopZones >>> 0) &&& 0xff) % 256)
    let a := storeByte a (destinationIndex + 2) (((startAndStopZones >>> 8) &&& 0xff) % 256)
    let a := storeByte a (destinationIndex + 3) ((strength - 1) % 256)
    let a := storeByte a (destinationIndex + 4) 0x00
    let a := storeByte a (destinationIndex + 5) 0x00
    let a := storeByte a (destinationIndex + 6) 0x00
    let a := storeByte a (destinationIndex + 7) 0x00
    let a := storeByte a (destinationIndex + 8) 0x00
    let a := storeByte a (destinationIndex + 9) 0x00
    let a := storeByte a (destinationIndex + 10) 0x00
    (true, a)
  else TriggerEffectGenerator.Off destinationArray destinationIndex

/-- Embedding of `TriggerEffectGenerator::Vibration`. -/
def TriggerEffectGenerator.Vibration (destinationArray : Int → Nat) (destinationIndex : Int)
    (position amplitude frequency : Nat) : Bool × (Int → Nat) :=
  if position > 9 then (false, destinationArray)
  else if amplitude > 8 then (false, destinationArray)
  else if amplitude > 0 ∧ frequency > 0 then
    let strengthValue := ((amplitude - 1) &&& 0x07) % 256
    let amplitudeZones := (zonesFrom position strengthValue).1
    let activeZones := (zonesFrom position strengthValue).2
    let a := storeByte destinationArray (destinationIndex + 0) TriggerEffectType.Vibration.toByte
    let a := storeByte a (destinationIndex + 1) (((activeZones >>> 0) &&& 0xff) % 256)
    let a := storeByte a (destinationIndex + 2) (((activeZones >>> 8) &&& 0xff) % 256)
    let a := storeByte a (destinationIndex + 3) (((amplitudeZones >>> 0) &&& 0xff) % 256)
    let a := storeByte a (destinationIndex + 4) (((amplitudeZones >>> 8) &&& 0xff) % 256)
    let a := storeByte a (destinationIndex + 5) (((amplitudeZones >>> 16) &&& 0xff) % 256)
    let a := storeByte a (destinationIndex + 6) (((amplitudeZones >>> 24) &&& 0xff) % 256)
    let a := storeByte a (destinationIndex + 7) 0x00
    let a := storeByte a (destinationIndex + 8) 0x00
    let a := storeByte a (destinationIndex + 9) frequency
    let a := storeByte a (destinationIndex + 10) 0x00
    (true, a)
  else TriggerEffectGenerator.Off destinationArray destinationIndex

/-- Embedding of `TriggerEffectGenerator::MultiplePositionFeedback`; `find_if` reaches `strength.end()` when
no entry is above 8. -/
def TriggerEffectGenerator.MultiplePositionFeedback (destinationArray : Int → Nat)
    (destinationIndex : Int) (strength : List Nat) : Bool × (Int → Nat) :=
  if strength.length ≠ 10 then (false, destinationArray)
  else if strength.find? (fun amp => decide (amp > 8)) = none then
    let forceZones := (zonesOf strength).1
    let activeZones := (zonesOf strength).2
    let a := storeByte destinationArray (destinationIndex + 0) TriggerEffectType.Feedback.toByte
    let a := storeByte a (destinationIndex + 1) (((activeZones >>> 0) &&& 0xff) % 256)
    let a := storeByte a (destinationIndex + 2) (((activeZones >>> 8) &&& 0xff) % 256)
    let a := storeByte a (destinationIndex + 3) (((forceZones >>> 0) &&& 0xff) % 256)
    let a := storeByte a (destinationIndex + 4) (((forceZones >>> 8) &&& 0xff) % 256)
    let a := storeByte a (destinationIndex + 5) (((forceZones >>> 16) &&& 0xff) % 256)
    let a := storeByte a (destinationIndex + 6) (((forceZones >>> 24) &&& 0xff) % 256)
    let a := storeByte a (destinationIndex + 7) 0x00
    let a := storeByte a (destinationIndex + 8) 0x00
    let a := storeByte a (destinationIndex + 9) 0x00
    let a := storeByte a (destinationIndex + 10) 0x00
    (true, a)
  else TriggerEffectGenerator.Off destinationArray destinationIndex

/-- Embedding of `TriggerEffectGenerator::MultiplePositionVibration`. -/
def TriggerEffectGenerator.MultiplePositionVibration (destinationArray : Int → Nat)
    (destinationIndex : Int) (frequency : Nat) (amplitude : List Nat) : Bool × (Int → Nat) :=
  if amplitude.length ≠ 10 then (false, destinationArray)
  else if frequency > 0 ∧ amplitude.find? (fun amp => decide (amp > 8)) = none then
    let strengthZones := (zonesOf amplitude).1
    let activeZones := (zonesOf amplitude).2
    let a := storeByte destinationArray (destinationIndex + 0) TriggerEffectType.Vibration.toByte
    let a := storeByte a (destinationIndex + 1) (((activeZones >>> 0) &&& 0xff) % 256)
    let a := storeByte a (destinationIndex + 2) (((activeZones >>> 8) &&& 0xff) % 256)
    let a := storeByte a (destinationIndex + 3) (((strengthZones >>> 0) &&& 0xff) % 256)
    let a := storeByte a (destinationIndex + 4) (((strengthZones >>> 8) &&& 0xff) % 256)
    let a := storeByte a (destinationIndex + 5) (((strengthZones >>> 16) &&& 0xff) % 256)
    let a := storeByte a (destinationIndex + 6) (((strengthZones >>> 24) &&& 0xff) % 256)
    let a := storeByte a (destinationIndex + 7) 0x00
    let a := storeByte a (destinationIndex + 8) 0x00
    let a := storeByte a (destinationIndex + 9) frequency
    let a := storeByte a (destinationIndex + 10) 0x00
    (true, a)
  else TriggerEffectGenerator.Off destinationArray destinationIndex

/-- Embedding of `TriggerEffectGenerator::Machine`. -/
def TriggerEffectGenerator.Machine (destinationArray : Int → Nat) (destinationIndex : Int)
    (startPosition endPosition amplitudeA amplitudeB frequency period : Nat) :
    Bool × (Int → Nat) :=
  if startPosition > 8 then (false, destinationArray)
  else if endPosition > 9 then (false, destinationArray)
  else if endPosition ≤ startPosition then (false, destinationArray)
  else if amplitudeA > 7 then (false, destinationArray)
  else if amplitudeB > 7 then (false, destinationArray)
  else if frequency > 0 then
    let startAndStopZones := ((1 <<< startPosition) ||| (1 <<< endPosition)) % 2 ^ 16
    let strengthPair :=
      (((amplitudeA &&& 0x07) <<< (3 * 0)) ||| ((amplitudeB &&& 0x07) <<< (3 * 1))) % 2 ^ 32
    let a := storeByte destinationArray (destinationIndex + 0) TriggerEffectType.Machine.toByte
    let a := storeByte a (destinationIndex + 1) (((startAndStopZones >>> 0) &&& 0xff) % 256)
    let a := storeByte a (destinationIndex + 2) (((startAndStopZones >>> 8) &&& 0xff) % 256)
    let a := storeByte a (destinationIndex + 3) (((strengthPair >>> 0) &&& 0xff) % 256)
    let a := storeByte a (destinationIndex + 4) frequency
    let a := storeByte a (destinationIndex + 5) period
    let a := storeByte a (destinationIndex + 6) 0x00
    let a := storeByte a (destinationIndex + 7) 0x00
    let a := storeByte a (destinationIndex + 8) 0x00
    let a := storeByte a (destinationIndex + 9) 0x00
    let a := storeByte a (destinationIndex + 10) 0x00
    (true, a)
  else TriggerEffectGenerator.Off destinationArray destinationIndex

/-! ## `win32/Gamepad.cpp`: the d-pad hat of the virtual DS4

Conventions of this part.

* The `DS4_BUTTON_DPAD_*` values (declared by the ViGEm client library) and the key codes
  `X_UP`, `X_DOWN`, `X_LEFT`, `X_RIGHT` are declared outside `src/`; they are the fields of
  `HatCodes`. The case labels of one `switch` are pairwise different constants, which is what
  makes the order of the cases irrelevant; the embedding tests them in the order of the source.
* A `WORD` is a natural number. `PSHat::set` and `PSHat::clear` assign `_value` and return it:
  the embedding takes the `_value` found and returns the `_value` left, which is also the value
  returned.
-/

/-- The constants `PSHat` switches on. -/
structure HatCodes where
  DS4_BUTTON_DPAD_NONE : Nat
  DS4_BUTTON_DPAD_NORTHWEST : Nat
  DS4_BUTTON_DPAD_WEST : Nat
  DS4_BUTTON_DPAD_SOUTHWEST : Nat
  DS4_BUTTON_DPAD_SOUTH : Nat
  DS4_BUTTON_DPAD_SOUTHEAST : Nat
  DS4_BUTTON_DPAD_EAST : Nat
  DS4_BUTTON_DPAD_NORTHEAST : Nat
  DS4_BUTTON_DPAD_NORTH : Nat
  X_UP : Nat
  X_DOWN : Nat
  X_LEFT : Nat
  X_RIGHT : Nat

/-- Embedding of `PSHat::set`. -/
def PSHat.set (c : HatCodes) (_value direction : Nat) : Nat :=
  if _value = c.DS4_BUTTON_DPAD_NONE then
    if direction = c.X_UP then c.DS4_BUTTON_DPAD_NORTH
    else if direction = c.X_DOWN then c.DS4_BUTTON_DPAD_SOUTH
    else if direction = c.X_LEFT then c.DS4_BUTTON_DPAD_WEST
    else if direction = c.X_RIGHT then c.DS4_BUTTON_DPAD_EAST
    else _value
  else if _value = c.DS4_BUTTON_DPAD_NORTHWEST then
    if direction = c.X_DOWN then c.DS4_BUTTON_DPAD_WEST
    else if direction = c.X_RIGHT then c.DS4_BUTTON_DPAD_NORTH
    else _value
  else if _value = c.DS4_BUTTON_DPAD_WEST then
    if direction = c.X_UP then c.DS4_BUTTON_DPAD_NORTHWEST
    else if direction = c.X_DOWN then c.DS4_BUTTON_DPAD_SOUTHWEST
    else if direction = c.X_RIGHT then c.DS4_BUTTON_DPAD_NONE
    else _value
  else if _value = c.DS4_BUTTON_DPAD_SOUTHWEST then
    if direction = c.X_UP then c.DS4_BUTTON_DPAD_WEST
    else if direction = c.X_RIGHT then c.DS4_BUTTON_DPAD_SOUTH
    else _value
  else if _value = c.DS4_BUTTON_DPAD_SOUTH then
    if direction = c.X_UP then c.DS4_BUTTON_DPAD_NONE
    else if direction = c.X_LEFT then c.DS4_BUTTON_DPAD_SOUTHWEST
    else if direction = c.X_RIGHT then c.DS4_BUTTON_DPAD_SOUTHEAST
    else _value
  else if _value = c.DS4_BUTTON_DPAD_SOUTHEAST then
    if direction = c.X_UP then c.DS4_BUTTON_DPAD_EAST
    else if direction = c.X_LEFT then c.DS4_BUTTON_DPAD_SOUTH
    else _value
  else if _value = c.DS4_BUTTON_DPAD_EAST then
    if direction = c.X_UP then c.DS4_BUTTON_DPAD_NORTHEAST
    else if direction = c.X_DOWN then c.DS4_BUTTON_DPAD_SOUTHEAST
    else if direction = c.X_LEFT then c.DS4_BUTTON_DPAD_NONE
    else _value
  else if _value = c.DS4_BUTTON_DPAD_NORTHEAST then
    if direction = c.X_DOWN then c.DS4_BUTTON_DPAD_EAST
    else if direction = c.X_LEFT then c.DS4_BUTTON_DPAD_NORTH
    else _value
  else if _value = c.DS4_BUTTON_DPAD_NORTH then
    if direction = c.X_DOWN then c.DS4_BUTTON_DPAD_NONE
    else if direction = c.X_LEFT then c.DS4_BUTTON_DPAD_NORTHWEST
    else if direction = c.X_RIGHT then c.DS4_BUTTON_DPAD_NORTHEAST
    else _value
  else _value

/-- Embedding of `PSHat::clear`. -/
def PSHat.clear (c : HatCodes) (_value direction : Nat) : Nat :=
  if _value = c.DS4_BUTTON_DPAD_NORTHWEST then
    if direction = c.X_UP then c.DS4_BUTTON_DPAD_WEST
    else if direction = c.X_LEFT then c.DS4_BUTTON_DPAD_NORTH
    else _value
  else if _value = c.DS4_BUTTON_DPAD_WEST then
    if direction = c.X_LEFT then c.DS4_BUTTON_DPAD_NONE
    else _value
  else if _value = c.DS4_BUTTON_DPAD_SOUTHWEST then
    if direction = c.X_DOWN then c.DS4_BUTTON_DPAD_WEST
    else if direction = c.X_LEFT then c.DS4_BUTTON_DPAD_SOUTH
    else _value
  else if _value = c.DS4_BUTTON_DPAD_SOUTH then
    if direction = c.X_DOWN then c.DS4_BUTTON_DPAD_NONE
    else _value
  else if _value = c.DS4_BUTTON_DPAD_SOUTHEAST then
    if direction = c.X_DOWN then c.DS4_BUTTON_DPAD_EAST
    else if direction = c.X_RIGHT then c.DS4_BUTTON_DPAD_SOUTH
    else _value
  else if _value = c.DS4_BUTTON_DPAD_EAST then
    if direction = c.X_RIGHT then c.DS4_BUTTON_DPAD_NONE
    else _value
  else if _value = c.DS4_BUTTON_DPAD_NORTHEAST then
    if direction = c.X_UP then c.DS4_BUTTON_DPAD_EAST
    else if direction = c.X_RIGHT then c.DS4_BUTTON_DPAD_NORTH
    else _value
  else if _value = c.DS4_BUTTON_DPAD_NORTH then
    if direction = c.X_UP then c.DS4_BUTTON_DPAD_NONE
    else _value
  else _value

/-! ## Vocabulary of the statements -/

/-- The binding events of a log, with the classifier and binding they were sent to. -/
def Effect.fired? : Effect → Option (Nat × Mapping × BtnEvent)
  | .ProcessEvent button mapping evt => some (button, mapping, evt)
  | _ => none

/-- The binding events recorded so far, oldest first. -/
def World.fired (w : World) : List (Nat × Mapping × BtnEvent) := w.log.filterMap Effect.fired?

/-- What sending binding events to classifier `button` can change: `w'` differs from `w` only
in the toggle and gyro queues, the `isSameKey` static, the sink calls of the log, and the
instant-release queue of `button`, which grows at the back; `evts` are the binding events
logged on the way. -/
structure Frame (button : Nat) (evts : List (Nat × Mapping × BtnEvent)) (w w' : World) : Prop where
  chord : w'.common.chordStack = w.common.chordStack
  others : ∀ b, b ≠ button → w'.buttons b = w.buttons b
  state : w'.getState button = w.getState button
  turbo : (w'.impl button)._turboCount = (w.impl button)._turboCount
  press : (w'.impl button)._press_times = (w.impl button)._press_times
  key : (w'.impl button)._keyToRelease = (w.impl button)._keyToRelease
  master : (w'.impl button)._simPressMaster = (w.impl button)._simPressMaster
  name : (w'.impl button)._nameToRelease = (w.impl button)._nameToRelease
  queue : ∃ ext, (w'.impl button)._instantReleaseQueue = (w.impl button)._instantReleaseQueue ++ ext
  fired : w'.fired = w.fired ++ evts

/-- The part of `Frame` that every routine working on classifier `button` respects: the chord
stack, the other classifiers, and the state, turbo count, press time and master reference of
`button`; `evts` are the binding events logged on the way. -/
structure Kept (button : Nat) (evts : List (Nat × Mapping × BtnEvent)) (w w' : World) : Prop where
  chord : w'.common.chordStack = w.common.chordStack
  others : ∀ b, b ≠ button → w'.buttons b = w.buttons b
  state : w'.getState button = w.getState button
  turbo : (w'.impl button)._turboCount = (w.impl button)._turboCount
  press : (w'.impl button)._press_times = (w.impl button)._press_times
  master : (w'.impl button)._simPressMaster = (w.impl button)._simPressMaster
  fired : w'.fired = w.fired ++ evts

/-- Every event of `evts` is an `OnInstantRelease` sent to classifier `button`. -/
def OnlyInstant (button : Nat) (evts : List (Nat × Mapping × BtnEvent)) : Prop :=
  ∀ x ∈ evts, x.1 = button ∧ x.2.2 = .OnInstantRelease

/-- The binding `GetPressMapping` returns for button configuration `b`: the active binding
`key`, or, without one, the binding of the first chord of the stack that `b` has a binding
for. -/
def Resolves (b : JSMButton) (key : Option Mapping) (chordStack : List ButtonID) (m : Mapping) :
    Prop :=
  key = some m ∨ (key = none ∧ ∃ c, findChordBinding b chordStack = some (c, m))

/-- Embedding of `Frame` for a routine that first resolves the binding `m` and makes it the active one. -/
structure FrameKey (button : Nat) (m : Mapping) (evts : List (Nat × Mapping × BtnEvent))
    (w w' : World) : Prop where
  chord : w'.common.chordStack = w.common.chordStack
  others : ∀ b, b ≠ button → w'.buttons b = w.buttons b
  state : w'.getState button = w.getState button
  turbo : (w'.impl button)._turboCount = (w.impl button)._turboCount
  press : (w'.impl button)._press_times = (w.impl button)._press_times
  key : (w'.impl button)._keyToRelease = some m
  master : (w'.impl button)._simPressMaster = (w.impl button)._simPressMaster
  queue : ∃ ext, (w'.impl button)._instantReleaseQueue = (w.impl button)._instantReleaseQueue ++ ext
  fired : w'.fired = w.fired ++ evts

/-- Outcome "plain press": `OnPress` went to the resolved binding `m`, which is now the active
binding, and classifier `button` is in `BtnPress`. The press time is not part of it. -/
structure PlainPress (env : Env) (button : Nat) (m : Mapping) (w w' : World) : Prop where
  resolves : Resolves (env.mapping button) (w.impl button)._keyToRelease w.common.chordStack m
  chord : w'.common.chordStack = w.common.chordStack
  others : ∀ b, b ≠ button → w'.buttons b = w.buttons b
  state : w'.getState button = .BtnPress
  turbo : (w'.impl button)._turboCount = (w.impl button)._turboCount
  key : (w'.impl button)._keyToRelease = some m
  master : (w'.impl button)._simPressMaster = (w.impl button)._simPressMaster
  queue : ∃ ext, (w'.impl button)._instantReleaseQueue = (w.impl button)._instantReleaseQueue ++ ext
  fired : w'.fired = w.fired ++ [(button, m, .OnPress)]

/-- Outcome "double press": `OnPress` went to the double-press binding `m`, which is now the
active binding, the press time is `now`, and classifier `button` is in `DblPressPress`. -/
structure DoublePress (env : Env) (button : Nat) (m : Mapping) (now : Int) (w w' : World) : Prop where
  declared : ∃ id, (env.mapping button).getDblPressMap = some (id, m)
  chord : w'.common.chordStack = w.common.chordStack
  others : ∀ b, b ≠ button → w'.buttons b = w.buttons b
  state : w'.getState button = .DblPressPress
  turbo : (w'.impl button)._turboCount = (w.impl button)._turboCount
  press : (w'.impl button)._press_times = now
  key : (w'.impl button)._keyToRelease = some m
  master : (w'.impl button)._simPressMaster = (w.impl button)._simPressMaster
  queue : ∃ ext, (w'.impl button)._instantReleaseQueue = (w.impl button)._instantReleaseQueue ++ ext
  fired : w'.fired = w.fired ++ [(button, m, .OnPress)]

/-- The chord stack after a reaction of classifier `self` is the one its basic reaction left,
or, for the two `DblPressNoPressTap` reactions, the one it found. -/
def ChordKept (base w w' : World) : Prop :=
  w'.common.chordStack = base.common.chordStack ∨ w'.common.chordStack = w.common.chordStack

/-- No classifier other than `self` changes, except a partner that is in `WaitSim` or
`SimPress` and receives a `Sync`. -/
def OthersKept (self : Nat) (w w' : World) : Prop :=
  ∀ b, b ≠ self → w'.buttons b = w.buttons b ∨ w.getState b = .WaitSim ∨ w.getState b = .SimPress

/-- The chord stack and every classifier other than `self` are the same in `w` and `w'`. -/
def Untouched (self : Nat) (w w' : World) : Prop :=
  w'.common.chordStack = w.common.chordStack ∧ ∀ b, b ≠ self → w'.buttons b = w.buttons b

/-- Classifier `b` holds no active binding, no turbo count and no pending instant. -/
def Idle (w : World) (b : Nat) : Prop :=
  (w.impl b)._keyToRelease = none ∧ (w.impl b)._turboCount = 0 ∧
    (w.impl b)._instantReleaseQueue = []

/-- The invariant of a classifier whose button declares no sim-press binding: it is never in
one of the three sim-press states, and in `NoPress` it is idle. -/
def Settled (env : Env) (w : World) (b : Nat) : Prop :=
  (env.mapping b).HasSimMappings = false →
    (w.getState b ≠ .WaitSim ∧ w.getState b ≠ .SimPress ∧ w.getState b ≠ .SimRelease ∧
      w.getState b ≠ .INVALID) ∧ (w.getState b = .NoPress → Idle w b)

/-- A configuration the controller can be in: the result of a run from the attached state. -/
def Reachable (env : Env) (w : World) : Prop :=
  ∃ vigem mainMotion inputs, run env (World.init env vigem mainMotion) inputs = .ok w

/-- Number of `OnTurbo` events sent to classifier `self`. -/
def turboFired (self : Nat) (evts : List (Nat × Mapping × BtnEvent)) : Nat :=
  evts.countP fun x => decide (x.1 = self) && decide (x.2.2 = .OnTurbo)

/-- Number of turbo pulses a `Pressed` tick at elapsed time `d` adds to the count `n`. -/
def turboStep (d holdTime turboTime : ℚ) (n : Nat) : Nat :=
  if n = 0 then (if d > holdTime then 1 else 0)
  else if turboDue d holdTime turboTime n then 1 else 0

/-- The poll time an input carries. -/
def Input.time_now : Input → Int
  | .Pressed _ e => e.time_now
  | .Released _ e => e.time_now

/-- Whole milliseconds from `press` to `now`, as `GetPressDurationMS` measures them. -/
def elapsedMS (press now : Int) : ℚ := ((Int.tdiv (now - press) 1000000 : Int) : ℚ)

/-- Whether a run ended without a fault. -/
def succeeded {α : Type} : Except Fault α → Bool
  | .ok _ => true
  | .error _ => false

/-- The world a run ended in; `fallback` when it ended with a fault. -/
def getOk (r : Except Fault World) (fallback : World) : World :=
  match r with
  | .ok w => w
  | .error _ => fallback

/-- Modelled from the spec: the partner lookup `_getMatchingSimBtn`, which `Common` receives
from outside `src/`. Two classifiers are paired when each one's button declares a sim-press
binding naming the other's id; the lookup returns the first classifier among `handles` that
is paired with a classifier of id `index`, is not that button, and is in `WaitSim`. -/
def getMatchingSimBtn (handles : List Nat) (mapping : Nat → JSMButton) (w : World)
    (index : ButtonID) : Option Nat :=
  handles.find? fun h =>
    decide ((mapping h)._id ≠ index) && decide (w.getState h = .WaitSim) &&
    ((mapping h).AtSimPress index).isSome &&
    handles.any fun c =>
      decide ((mapping c)._id = index) && ((mapping c).AtSimPress (mapping h)._id).isSome

/-- The binding `AddMapping` builds for a key bound to the press event without modifiers. -/
def pressBinding (code : Nat) (name : String) : Mapping :=
  { _eventMapping :=
      [(.OnPress, .ApplyBtnPress ⟨code, name⟩), (.OnRelease, .ApplyBtnRelease ⟨code, name⟩)]
    _command := name
    _description := name
    _tapDurationMs := 40
    _hasViGEmBtn := false }

/-- The binding `AddMapping` builds for a key bound to the press event with the Instant
modifier. -/
def instantBinding (code : Nat) (name : String) : Mapping :=
  { _eventMapping :=
      [(.OnPress, .RunBothActions (.ApplyBtnPress ⟨code, name⟩) (.RegisterInstant .OnPress)),
       (.OnInstantRelease, .ApplyBtnRelease ⟨code, name⟩)]
    _command := "!" ++ name
    _description := "! " ++ name
    _tapDurationMs := 40
    _hasViGEmBtn := false }

/-- A button configuration with base binding `base` and no chorded binding. -/
def plainButton (id : ButtonID) (base : Mapping) : JSMButton :=
  { _id := id
    get := fun chord => if chord = -1 then some base else none
    getName := fun _ => "button"
    simMappings := []
    getSimPressName := fun _ => "sim"
    dblPressMap := none }

/-- Button configurations of a sample controller: handle 0 plainly bound, handle 1 with a
double-press alternate, handles 2 and 3 each other's sim-press partners, handle 4 bound with
the Instant modifier. -/
def demoMapping (h : Nat) : JSMButton :=
  match h with
  | 1 => { plainButton 1 (pressBinding 66 "B") with dblPressMap := some (1, pressBinding 68 "D") }
  | 2 => { plainButton 2 (pressBinding 69 "E") with simMappings := [(3, pressBinding 83 "S")] }
  | 3 => { plainButton 3 (pressBinding 70 "F") with simMappings := [(2, pressBinding 83 "S")] }
  | 4 => plainButton 4 (instantBinding 71 "G")
  | n => plainButton n (pressBinding 65 "A")

/-- A sample environment: hold time and windows in milliseconds. -/
def demo : Env :=
  { NONE := -1
    SIZE := 100
    T1 := 200
    MAGIC_INSTANT_DURATION := 40
    sim_press_window := 50
    dbl_press_window := 200
    X_UP := 232
    X_START := 245
    PS_HOME := 246
    PS_PAD_CLICK := 247
    NO_HOLD_MAPPED := 7
    CALIBRATE := 10
    joycon_gyro_mask := 0
    joycon_motion_mask := 0
    IGNORE_LEFT := 1
    IGNORE_RIGHT := 2
    mapping := demoMapping
    _getMatchingSimBtn := getMatchingSimBtn [0, 1, 2, 3, 4] demoMapping }

/-- The sample controller as attached. -/
def demoInit : World := World.init demo false true

/-- A `Pressed` sample at `t` milliseconds, hold time 150 ms, turbo period 80 ms. -/
def pressedAt (t : Int) : Pressed := ⟨t * 1000000, 80, 150⟩

/-- A `Released` sample at `t` milliseconds, hold time 150 ms, turbo period 80 ms. -/
def releasedAt (t : Int) : Released := ⟨t * 1000000, 80, 150⟩

/-- The world after delivering `inputs` to the sample controller. -/
def demoAfter (inputs : List Input) : World := getOk (run demo demoInit inputs) demoInit

/-- The events sent to classifier `self`, oldest first. -/
def eventsOf (self : Nat) (w : World) : List BtnEvent :=
  (w.fired.filter fun x => decide (x.1 = self)).map fun x => x.2.2

/-- Press, release and second press of the double-press button (handle 1), all within the
window. -/
def doublePressInputs : List Input :=
  [.Pressed 1 (pressedAt 0), .Released 1 (releasedAt 10), .Pressed 1 (pressedAt 20)]

/-- Both buttons of the sim-press pair (handles 2 and 3) go down in the same polls; they are
held past the hold time, then button 2 is released. -/
def simPressInputs : List Input :=
  [.Pressed 2 (pressedAt 0), .Pressed 3 (pressedAt 0), .Pressed 2 (pressedAt 10),
   .Pressed 3 (pressedAt 10), .Pressed 2 (pressedAt 200), .Pressed 3 (pressedAt 200),
   .Released 2 (releasedAt 210)]

/-- A tap of the button bound with the Instant modifier (handle 4): down, still down after 50 ms,
up after 60 ms. -/
def instantTapInputs : List Input :=
  [.Pressed 4 (pressedAt 0), .Pressed 4 (pressedAt 50), .Released 4 (releasedAt 60)]

/-- Ticks of a held button at 100, 160, 200, 240 and 260 ms. -/
def heldTicks : List Pressed :=
  [pressedAt 100, pressedAt 160, pressedAt 200, pressedAt 240, pressedAt 260]

/-- The sample controller with the plain button (handle 0) pressed. -/
def demoHeld : World := demoAfter [.Pressed 0 (pressedAt 0)]

/-- The sample controller with both buttons of the sim-press pair waiting in `WaitSim`. -/
def demoWaiting : World := demoAfter (simPressInputs.take 2)

/-- The sample controller with the sim-press pair in `SimPress`, the master past its hold time. -/
def demoSimHeld : World := demoAfter (simPressInputs.take 6)

/-- The world after one more input; the world itself when the input ends with a fault. -/
def demoStep (w : World) (i : Input) : World := getOk (step demo w i) w

/-- The shared toggle queue after the calls `ClearAllActiveToggle(k)` for the keys `k` of
`keys`, in order. -/
def clearAll (keys : List KeyCode) (w : World) : World :=
  keys.foldl (fun w k => ClearAllActiveToggle k w) w

/-- A world whose toggle queue is `queue`, before the first call of `ClearAllActiveToggle`. -/
def togglesWorld (queue : List (ButtonID × KeyCode)) : World :=
  { demoInit with common := { demoInit.common with activeTogglesQueue := queue } }

/-- The gyro key used in the sample runs. -/
def gyroKey : KeyCode := ⟨300, "GYRO_OFF"⟩

/-- The sample controller with a virtual controller attached and nothing pressed. -/
def demoViGEm : World := World.init demo true true

/-- The binding after `AddMapping` was called for each target of the list, in order, and
returned true each time; `none` when a call returned false or threw. -/
def addTargets (P : MappingEnv) : Mapping → List Target → Option Mapping
  | m, [] => some m
  | m, t :: ts =>
    match m.AddMapping P t.key t.evtMod t.actMod with
    | .ok (true, m) => addTargets P m ts
    | _ => none

/-- What the loop of `operator>>` computes for a target from the groups it matched: the key,
the event modifier after the default rule, the action modifier after the two exceptions; a
target that one of the validation tests rejects is not added. -/
def Target.wellFormed (P : MappingEnv) (t : Target) : Prop :=
  t.key = P.newKeyCode (String.mk t.results.key) ∧
  t.evtMod = defaultEvtMod t.count t.results.leftovers (readEvtMod t.results.evtMod) ∧
  t.actMod = exceptActMod P t.key t.evtMod (readActMod t.results.actMod) ∧
  (rejected P t.count t.key t.evtMod t.actMod = true → t.added = false)

/-- A sample `KeyCode` constructor: single capital letters, `CALIBRATE`, `GYRO_OFF`, the
virtual-controller button `X_A`, a rumble `R` with four hexadecimal digits, and quoted
commands; every other name is unknown (code 0). -/
def demoKeyCode (name : String) : KeyCode :=
  match name.data with
  | [c] => if c.isUpper then ⟨c.toNat, name⟩ else ⟨0, ""⟩
  | c :: rest =>
    if c = Char.ofNat 34 then ⟨400, String.mk rest.dropLast⟩
    else if name = "CALIBRATE" then ⟨10, name⟩
    else if name = "GYRO_OFF" then ⟨300, name⟩
    else if name = "X_A" then ⟨240, name⟩
    else if c = 'R' ∧ rest.length = 4 ∧ rest.all (fun d => (hexDigit? d).isSome) then
      ⟨500, name⟩
    else ⟨0, ""⟩
  | [] => ⟨0, ""⟩

/-- A sample environment for `Mapping.cpp` on top of the sample controller: every non-empty
command is valid. -/
def demoParse : MappingEnv :=
  { toEnv := demo
    COMMAND_ACTION := 400
    RUMBLE := 500
    GYRO_INV_X := 300
    GYRO_TRACKBALL := 310
    MAGIC_EXTENDED_TAP_DURATION := 500
    _isCommandValid := some fun command => command ≠ ""
    newKeyCode := demoKeyCode
    showActionModifier := fun a =>
      match a with
      | .None => "None"
      | .Instant => "Instant"
      | .Toggle => "Toggle"
      | .INVALID => "INVALID"
    showEventModifier := fun e =>
      match e with
      | .None => "None"
      | .StartPress => "StartPress"
      | .TapPress => "TapPress"
      | .HoldPress => "HoldPress"
      | .ReleasePress => "ReleasePress"
      | .TurboPress => "TurboPress"
      | .INVALID => "INVALID" }

/-- A binding with no event bound. -/
def emptyMapping : Mapping :=
  { _eventMapping := []
    _command := ""
    _description := ""
    _tapDurationMs := 40
    _hasViGEmBtn := false }

/-- The sample parse of `text` into the empty binding. -/
def demoExtract (text : String) : Option (Except Fault Parsed) :=
  operator_extract demoParse text.data emptyMapping

/-- The failure flag after a parse; also set here when the parse did not end normally. -/
def parseFailed (out : Option (Except Fault Parsed)) : Bool :=
  match out with
  | some (.ok parsed) => parsed.failbit
  | _ => true

/-- The event table after a parse. -/
def parsedTable (out : Option (Except Fault Parsed)) : List (BtnEvent × Callback) :=
  match out with
  | some (.ok parsed) => parsed.mapping._eventMapping
  | _ => []

/-- The targets of a parse with, for each, the key, the two modifiers and whether it was
added. -/
def parsedTargets (out : Option (Except Fault Parsed)) :
    List (KeyCode × EventModifier × ActionModifier × Bool) :=
  match out with
  | some (.ok parsed) => parsed.targets.map fun t => (t.key, t.evtMod, t.actMod, t.added)
  | _ => []

/-- What a run of the loop of `operator>>` from iteration `count` and binding `m` leaves: the
targets `new` it went through are numbered from `count`, each is computed by the rules of the
loop body, the failure flag is set exactly when one was not added, only the last one can be
that one, and the event table is the one `AddMapping` built from the targets added. -/
structure LoopFacts (P : MappingEnv) (count : Nat) (m : Mapping) (new : List Target)
    (r : Parsed) : Prop where
  counts : ∀ j t, new.get? j = some t → t.count = count + j
  formed : ∀ t ∈ new, t.wellFormed P
  failed : r.failbit = true ↔ ∃ t ∈ new, t.added = false
  last : ∃ pre, (∀ x ∈ pre, x.added = true) ∧
    ((new = pre ∧ ∃ mf, addTargets P m pre = some mf ∧
        r.mapping._eventMapping = mf._eventMapping) ∨
      ∃ t, t.added = false ∧ new = pre ++ [t] ∧ ∃ mf, addTargets P m pre = some mf ∧
        r.mapping._eventMapping = mf._eventMapping)

/-- Number of nodes of a callback. -/
def Callback.size : Callback → Nat
  | .ApplyButtonToggle _ apply release => 1 + apply.size + release.size
  | .RunBothActions action1 action2 => 1 + action1.size + action2.size
  | _ => 1

/-- Size of the action bound to event `e`; 0 when the event has no entry. -/
def Mapping.depth (m : Mapping) (e : BtnEvent) : Nat :=
  match m.find e with
  | none => 0
  | some c => c.size

/-- A callback that contains no `RegisterInstant`. -/
def Callback.plain : Callback → Bool
  | .RegisterInstant _ => false
  | .ApplyButtonToggle _ apply release => apply.plain && release.plain
  | .RunBothActions action1 action2 => action1.plain && action2.plain
  | _ => true

/-- The instant an event of binding `m` registers: the event `e'` when the action bound to
`evt` has the shape `AddMapping` gives a target with the Instant modifier. -/
def Mapping.registers (m : Mapping) (evt : BtnEvent) : List BtnEvent :=
  match m.find evt with
  | some (.RunBothActions _ (.RegisterInstant e')) => [e']
  | _ => []

/-- Every action of binding `m` is a callback without `RegisterInstant`, or such a callback
followed by one `RegisterInstant`: the shapes `AddMapping` gives a single target. -/
def Mapping.Flat (m : Mapping) : Prop :=
  ∀ evt cb, m.find evt = some cb →
    cb.plain = true ∨ ∃ a e', a.plain = true ∧ cb = .RunBothActions a (.RegisterInstant e')

/-- Number of `OnInstantRelease` events sent to classifier `self`. -/
def instantFired (self : Nat) (evts : List (Nat × Mapping × BtnEvent)) : Nat :=
  evts.countP fun x => decide (x.1 = self) && decide (x.2.2 = .OnInstantRelease)

/-- The instant-release queue and the number of `OnInstantRelease` events after
`CheckInstantRelease(ie)`, for a binding `m` of flat shape. -/
def checkInstant (m : Mapping) (ie : BtnEvent) (s : List BtnEvent × Nat) : List BtnEvent × Nat :=
  if ie ∈ s.1 then ((s.1 ++ m.registers .OnInstantRelease).erase ie, s.2 + 1) else s

/-- The instant-release queue after `ProcessEvent(const Pressed &)` at elapsed time `d` with
turbo count `n` and queue `q`, and the number of `OnInstantRelease` events it fires, for an
active binding `m` of flat shape. -/
def tickInstants (MAGIC : ℚ) (m : Mapping) (d H T : ℚ) (n : Nat) (q : List BtnEvent) :
    List BtnEvent × Nat :=
  if n = 0 then
    let s1 := if d > MAGIC then checkInstant m .OnPress (q, 0) else (q, 0)
    if d > H then (s1.1 ++ m.registers .OnHold ++ m.registers .OnTurbo, s1.2) else s1
  else
    let s1 := if d > H + MAGIC then checkInstant m .OnHold (q, 0) else (q, 0)
    let s2 := if turboDue d H T n then (s1.1 ++ m.registers .OnTurbo, s1.2) else s1
    let n' := if turboDue d H T n then n + 1 else n
    if d > H + (n' : ℚ) * T + MAGIC then checkInstant m .OnTurbo s2 else s2

/-- Binding `m` looks up like the binding `AddMapping` builds from one target with the Instant
modifier on event modifier `evtMod`, registered into a binding with no event bound. -/
def InstantOn (P : MappingEnv) (evtMod : EventModifier) (m : Mapping) : Prop :=
  ∃ (m0 m1 : Mapping) (key : KeyCode), m0._eventMapping = [] ∧
    m0.AddMapping P key evtMod ActionModifier.Instant = .ok (true, m1) ∧
    ∀ e, m.find e = m1.find e

/-- A `Pressed` sample at `t` milliseconds, hold time 20 ms, turbo period 80 ms. -/
def shortHoldAt (t : Int) : Pressed := ⟨t * 1000000, 80, 20⟩

/-- The button bound with the Instant modifier (handle 4) held with a hold time of 20 ms,
shorter than the grace period of 40 ms: down, still down after 30, 50 and 90 ms. -/
def shortHoldInputs : List Input :=
  [.Pressed 4 (shortHoldAt 0), .Pressed 4 (shortHoldAt 30), .Pressed 4 (shortHoldAt 50),
   .Pressed 4 (shortHoldAt 90)]

/-- The binding a successful `AddMapping` returns; the empty binding otherwise. -/
def addedMapping (r : Except Fault (Bool × Mapping)) : Mapping :=
  match r with
  | .ok (_, m) => m
  | .error _ => emptyMapping

/-- The binding the sample parse of `text` builds; the empty binding when it does not end. -/
def parsedBinding (text : String) : Mapping :=
  match demoExtract text with
  | some (.ok parsed) => parsed.mapping
  | _ => emptyMapping

/-- A sample controller all of whose buttons are bound to the binding parsed from `!A+`: key
`A` on the turbo event with the Instant modifier. -/
def turboDemo : MappingEnv :=
  { demoParse with
    mapping := fun h => plainButton (h : Int) (parsedBinding "!A+")
    _getMatchingSimBtn := fun _ _ => none }

/-- The turbo sample controller as attached. -/
def turboInit : World := World.init turboDemo.toEnv false true

/-- The turbo sample controller with button 0 pressed at 0 ms. -/
def turboHeld : World :=
  getOk (step turboDemo.toEnv turboInit (.Pressed 0 (pressedAt 0))) turboInit

/-- Ticks of a held button at 100, 160, 220, 280 and 340 ms. -/
def longHeldTicks : List Pressed :=
  [pressedAt 100, pressedAt 160, pressedAt 220, pressedAt 280, pressedAt 340]

/-- A rumble key. -/
def rumbleKey : KeyCode := ⟨500, "R8040"⟩

/-- The bytes at offsets `index .. index + n - 1`. -/
def readBytes (a : Int → Nat) (index : Int) (n : Nat) : List Nat :=
  (List.range n).map fun k => a (index + (k : Int))

/-- Memory `a` with `bytes` stored from offset `index` on, every other offset as it was. -/
def writeBytes (a : Int → Nat) (index : Int) (bytes : List Nat) : Int → Nat :=
  fun j => if index ≤ j ∧ j < index + bytes.length then bytes.getD (j - index).toNat 0 else a j

/-- The 11 bytes `Off` stores: `TriggerEffectType::Off` and ten zero bytes. -/
def offPayload : List Nat := [0x05, 0, 0, 0, 0, 0, 0, 0, 0, 0, 0]

/-- A sample memory: every byte is `0xEE`. -/
def sampleMemory : Int → Nat := fun _ => 0xEE

/-- The bytes `Feedback` stores for a strength above 0. -/
def feedbackPayload (position strength : Nat) : List Nat :=
  [0x21,
   (((zonesFrom position (((strength - 1) &&& 0x07) % 256)).2 >>> 0) &&& 0xff) % 256,
   (((zonesFrom position (((strength - 1) &&& 0x07) % 256)).2 >>> 8) &&& 0xff) % 256,
   (((zonesFrom position (((strength - 1) &&& 0x07) % 256)).1 >>> 0) &&& 0xff) % 256,
   (((zonesFrom position (((strength - 1) &&& 0x07) % 256)).1 >>> 8) &&& 0xff) % 256,
   (((zonesFrom position (((strength - 1) &&& 0x07) % 256)).1 >>> 16) &&& 0xff) % 256,
   (((zonesFrom position (((strength - 1) &&& 0x07) % 256)).1 >>> 24) &&& 0xff) % 256,
   0, 0, 0, 0]

/-- The plain button (handle 0) held: down, a first turbo pulse at 160 ms, then no poll until
1000 ms. -/
def latePollInputs : List Input :=
  [.Pressed 0 (pressedAt 0), .Pressed 0 (pressedAt 160), .Pressed 0 (pressedAt 1000)]

/-- The double-press button (handle 1): pressed, released after 160 ms (past the hold time of
150 ms, inside the window of 200 ms), pressed again at 180 ms. -/
def doublePressHoldInputs : List Input :=
  [.Pressed 1 (pressedAt 0), .Released 1 (releasedAt 160), .Pressed 1 (pressedAt 180)]

/-- Outcome of the branch `WaitSim` falls back to, taken in world `base` (the world `w` after
the basic reaction): the press time is that of `w`; with a double-press alternate the classifier
is in `DblPressStart`, no event is fired and the active binding is as it was; without one,
`OnPress` went to the binding `m` that `GetPressMapping` resolves, which is now the active
binding, and the classifier is in `BtnPress`. -/
def FallThrough (env : Env) (self : Nat) (w base w' : World) : Prop :=
  (w'.impl self)._press_times = (w.impl self)._press_times ∧
  w'.common.chordStack = base.common.chordStack ∧
  if (env.mapping self).getDblPressMap.isSome then
    w'.getState self = .DblPressStart ∧ w'.fired = w.fired ∧
    (w'.impl self)._keyToRelease = (w.impl self)._keyToRelease
  else
    ∃ m, Resolves (env.mapping self) (w.impl self)._keyToRelease base.common.chordStack m ∧
      w'.getState self = .BtnPress ∧ w'.fired = w.fired ++ [(self, m, .OnPress)] ∧
      (w'.impl self)._keyToRelease = some m

/-- The sim-press pair after the slave (handle 2) adopted `NoPress` from its master: the slave is
pressed again at 300 ms and released at 310 ms, the master's button still down. -/
def stalePressInputs : List Input :=
  simPressInputs ++ [.Pressed 2 (pressedAt 300), .Released 2 (releasedAt 310)]

/-- The tidy chord stack: it holds no id twice, and it does not hold the id of a chordable
classifier that is in `DblPressNoPressTap`. -/
def ChordTidy (env : Env) (w : World) : Prop :=
  w.common.chordStack.Nodup ∧
  ∀ b, env.chordable b = true → w.getState b = .DblPressNoPressTap →
    env.id b ∉ w.common.chordStack

/-- The description the loop of `operator>>` builds from the description `ss` so far when it
goes through the targets `ts`: before each target the separator of `joinTargets`, and for a
target that is added the text of `describeTarget`. -/
def describeTargets (P : MappingEnv) (ss : String) (ts : List Target) : String :=
  ts.foldl (fun ss t =>
    if t.added then
      joinTargets t.count ss ++ describeTarget P t.count t.results.leftovers t.key t.evtMod t.actMod
    else joinTargets t.count ss) ss

/-- The description after a parse. -/
def parsedDescription (out : Option (Except Fault Parsed)) : String :=
  match out with
  | some (.ok parsed) => parsed.mapping._description
  | _ => ""

/-- The vector of 10 entries that holds 0 for the zones below `position` and `strength` for the
zones `position .. 9`. -/
def zoneStrengths (position strength : Nat) : List Nat :=
  (List.range 10).map fun zone => if zone < position then 0 else strength

/-- The nine valid hat values: neutral and the eight directions. -/
def HatCodes.hatValues (c : HatCodes) : List Nat :=
  [c.DS4_BUTTON_DPAD_NONE, c.DS4_BUTTON_DPAD_NORTHWEST, c.DS4_BUTTON_DPAD_WEST,
    c.DS4_BUTTON_DPAD_SOUTHWEST, c.DS4_BUTTON_DPAD_SOUTH, c.DS4_BUTTON_DPAD_SOUTHEAST,
    c.DS4_BUTTON_DPAD_EAST, c.DS4_BUTTON_DPAD_NORTHEAST, c.DS4_BUTTON_DPAD_NORTH]

/-- The four d-pad directions: up, down, left, right. -/
def HatCodes.directions (c : HatCodes) : List Nat := [c.X_UP, c.X_DOWN, c.X_LEFT, c.X_RIGHT]

/-- The case labels of each `switch` are pairwise different, as the language requires. -/
def HatCodes.labelsDistinct (c : HatCodes) : Prop := c.hatValues.Nodup ∧ c.directions.Nodup

/-- The hat values with a component in `direction`: north, north-east and north-west for up,
and so on. -/
def HatCodes.towards (c : HatCodes) (direction : Nat) : List Nat :=
  if direction = c.X_UP then
    [c.DS4_BUTTON_DPAD_NORTH, c.DS4_BUTTON_DPAD_NORTHEAST, c.DS4_BUTTON_DPAD_NORTHWEST]
  else if direction = c.X_DOWN then
    [c.DS4_BUTTON_DPAD_SOUTH, c.DS4_BUTTON_DPAD_SOUTHEAST, c.DS4_BUTTON_DPAD_SOUTHWEST]
  else if direction = c.X_LEFT then
    [c.DS4_BUTTON_DPAD_WEST, c.DS4_BUTTON_DPAD_NORTHWEST, c.DS4_BUTTON_DPAD_SOUTHWEST]
  else if direction = c.X_RIGHT then
    [c.DS4_BUTTON_DPAD_EAST, c.DS4_BUTTON_DPAD_NORTHEAST, c.DS4_BUTTON_DPAD_SOUTHEAST]
  else []

/-- The direction on the same axis that points the other way. -/
def HatCodes.opposite (c : HatCodes) (direction : Nat) : Nat :=
  if direction = c.X_UP then c.X_DOWN
  else if direction = c.X_DOWN then c.X_UP
  else if direction = c.X_LEFT then c.X_RIGHT
  else if direction = c.X_RIGHT then c.X_LEFT
  else direction

/-- The hat value has no component on the axis of `direction`. -/
def HatCodes.offAxis (c : HatCodes) (value direction : Nat) : Prop :=
  value ∉ c.towards direction ∧ value ∉ c.towards (c.opposite direction)

/-- Sample codes: the hat values of the ViGEm client library and four key codes. -/
def sampleHatCodes : HatCodes :=
  { DS4_BUTTON_DPAD_NONE := 0x8
    DS4_BUTTON_DPAD_NORTHWEST := 0x7
    DS4_BUTTON_DPAD_WEST := 0x6
    DS4_BUTTON_DPAD_SOUTHWEST := 0x5
    DS4_BUTTON_DPAD_SOUTH := 0x4
    DS4_BUTTON_DPAD_SOUTHEAST := 0x3
    DS4_BUTTON_DPAD_EAST := 0x2
    DS4_BUTTON_DPAD_NORTHEAST := 0x1
    DS4_BUTTON_DPAD_NORTH := 0x0
    X_UP := 0xE8
    X_DOWN := 0xE9
    X_LEFT := 0xEA
    X_RIGHT := 0xEB }

/-- No `ApplyButtonToggle` occurs in the callback: it is one of the actions `AddMapping` binds
as `apply` and `release` of a key, or a chain of such actions. -/
def Callback.toggleFree : Callback → Bool
  | .ApplyButtonToggle _ _ _ => false
  | .RunBothActions action1 action2 => action1.toggleFree && action2.toggleFree
  | _ => true

/-- One operation on the queue of active toggles, by classifier `button`. -/
inductive ToggleOp where
  | ApplyButtonToggle (button : Nat) (key : KeyCode) (apply release : Callback)
  | ApplyBtnRelease (button : Nat) (key : KeyCode)
  | ClearAllActiveToggle (key : KeyCode)

/-- The `apply` and `release` actions of a toggle operation do not toggle themselves. -/
def ToggleOp.plain : ToggleOp → Bool
  | .ApplyButtonToggle _ _ apply release => apply.toggleFree && release.toggleFree
  | _ => true

/-- Perform one operation. -/
def ToggleOp.perform (env : Env) (w : World) : ToggleOp → Except Fault World
  | .ApplyButtonToggle button key apply release =>
    runCallback env button (.ApplyButtonToggle key apply release) w
  | .ApplyBtnRelease button key => runCallback env button (.ApplyBtnRelease key) w
  | .ClearAllActiveToggle key => pure (JoyShockMapper.ClearAllActiveToggle key w)

/-- Perform a sequence of operations, stopping at the first fault. -/
def performAll (env : Env) (w : World) : List ToggleOp → Except Fault World
  | [] => pure w
  | op :: rest => do
    let w ← op.perform env w
    performAll env w rest

/-- The queue of active toggles of `w'` is what is left of the queue of `w` after erasing some
entries. -/
def TogglesShrink (w w' : World) : Prop :=
  w'.common.activeTogglesQueue.Sublist w.common.activeTogglesQueue

/-- Sample operations: two buttons toggle key `K`, one of them toggles it again and then key
`L`, and key `L` is released. -/
def sampleToggleOps : List ToggleOp :=
  [.ApplyButtonToggle 0 ⟨75, "K"⟩ (.ApplyBtnPress ⟨75, "K"⟩) (.ApplyBtnRelease ⟨75, "K"⟩),
   .ApplyButtonToggle 1 ⟨75, "K"⟩ (.ApplyBtnPress ⟨75, "K"⟩) (.ApplyBtnRelease ⟨75, "K"⟩),
   .ApplyButtonToggle 0 ⟨76, "L"⟩ (.ApplyBtnPress ⟨76, "L"⟩) (.ApplyBtnRelease ⟨76, "L"⟩),
   .ApplyButtonToggle 1 ⟨245, "X_START"⟩ (.ApplyBtnPress ⟨245, "X_START"⟩)
     (.ApplyBtnRelease ⟨245, "X_START"⟩),
   .ApplyButtonToggle 1 ⟨245, "X_START"⟩ (.ApplyBtnPress ⟨245, "X_START"⟩)
     (.ApplyBtnRelease ⟨245, "X_START"⟩),
   .ApplyBtnRelease 0 ⟨76, "L"⟩,
   .ApplyButtonToggle 0 ⟨76, "L"⟩ (.ApplyBtnPress ⟨76, "L"⟩) (.ApplyBtnRelease ⟨76, "L"⟩),
   .ClearAllActiveToggle ⟨76, "L"⟩]

/-- The button bound with the Instant modifier (handle 4) held with a hold time of 20 ms, so
that the hold starts before the grace period of 40 ms has passed, released at 100 ms and
pressed again at 200 ms. -/
def instantHoldInputs : List Input :=
  shortHoldInputs ++ [.Released 4 (releasedAt 100), .Pressed 4 (shortHoldAt 200)]

/-- A classifier without an active binding has no pending instant. -/
def Bound (w : World) (b : Nat) : Prop :=
  (w.impl b)._keyToRelease = none → (w.impl b)._instantReleaseQueue = []

/-- What a routine does to the active binding and the queue of classifier `b`: it leaves an
active binding, or it leaves the classifier idle, or it leaves both as they were. -/
def KeyStep (b : Nat) (w w' : World) : Prop :=
  (∃ m, (w'.impl b)._keyToRelease = some m) ∨
    ((w'.impl b)._keyToRelease = none ∧ (w'.impl b)._instantReleaseQueue = []) ∨
    ((w'.impl b)._keyToRelease = (w.impl b)._keyToRelease ∧
      (w'.impl b)._instantReleaseQueue = (w.impl b)._instantReleaseQueue)

/-- No classifier other than `self` changes, except the target of a `Sync`, which is bound
afterwards. -/
def OthersBound (self : Nat) (w w' : World) : Prop :=
  ∀ b, b ≠ self → w'.buttons b = w.buttons b ∨ Bound w' b

/-- A sample controller all of whose buttons are bound to the binding parsed from `!A'`: key
`A` on the tap event with the Instant modifier. -/
def tapDemo : MappingEnv :=
  { demoParse with
    mapping := fun h => plainButton (h : Int) (parsedBinding "!A'")
    _getMatchingSimBtn := fun _ _ => none }

/-- The tap sample controller as attached. -/
def tapInit : World := World.init tapDemo.toEnv false true

/-- The tap sample controller after `inputs`. -/
def tapAfter (inputs : List Input) : World := getOk (run tapDemo.toEnv tapInit inputs) tapInit

/-- A tap of button 0: down at 0 ms, up at 10 ms, still up at 30 ms. -/
def tapInputs : List Input :=
  [.Pressed 0 (pressedAt 0), .Released 0 (releasedAt 10), .Released 0 (releasedAt 30)]

/-- Number of `OnTapRelease` events sent to classifier `self`. -/
def tapReleaseFired (self : Nat) (evts : List (Nat × Mapping × BtnEvent)) : Nat :=
  evts.countP fun x => decide (x.1 = self) && decide (x.2.2 = .OnTapRelease)

/-- Every event of `evts` is an `OnTapRelease` or an `OnInstantRelease` sent to `button`. -/
def OnlyTapRelease (button : Nat) (evts : List (Nat × Mapping × BtnEvent)) : Prop :=
  ∀ x ∈ evts, x.1 = button ∧ (x.2.2 = .OnTapRelease ∨ x.2.2 = .OnInstantRelease)

/-- A tap of button 0 of the sample controller (down at 0 ms, up at 10 ms) followed by a second
press: down at 20 ms, still down at 30 ms, up at 40 ms. -/
def tapThenPressInputs : List Input :=
  [.Pressed 0 (pressedAt 0), .Released 0 (releasedAt 10), .Pressed 0 (pressedAt 20),
   .Pressed 0 (pressedAt 30), .Released 0 (releasedAt 40)]

/-- The hold of the button bound with the Instant modifier (handle 4), its release at 100 ms,
and two later polls that find it at rest, at 200 ms and at 900 ms. -/
def restAfterHoldInputs : List Input :=
  instantHoldInputs.take 5 ++ [.Released 4 (releasedAt 200), .Released 4 (releasedAt 900)]

/-- Button configurations of a second sample controller: handles 2 and 3 are each other's
sim-press partners, and their sim-press binding is key `S` on the press event with the Instant
modifier. -/
def simInstantMapping (h : Nat) : JSMButton :=
  match h with
  | 2 => { plainButton 2 (pressBinding 69 "E") with simMappings := [(3, instantBinding 83 "S")] }
  | 3 => { plainButton 3 (pressBinding 70 "F") with simMappings := [(2, instantBinding 83 "S")] }
  | n => plainButton n (pressBinding 65 "A")

/-- The sample environment with the sim-press binding bound with the Instant modifier. -/
def simInstantDemo : Env :=
  { demo with
    mapping := simInstantMapping
    _getMatchingSimBtn := getMatchingSimBtn [0, 1, 2, 3, 4] simInstantMapping }

/-- The second sample controller as attached. -/
def simInstantInit : World := World.init simInstantDemo false true

/-- The second sample controller after `inputs`. -/
def simInstantAfter (inputs : List Input) : World :=
  getOk (run simInstantDemo simInstantInit inputs) simInstantInit

/-- Both buttons of the pair go down in the same polls (rendezvous at 10 ms, button 2 is the
slave), are found held at 60 ms and at 100 ms, 50 ms and 90 ms after the rendezvous and before
the hold time of 150 ms, and are then released and polled at rest. -/
def simInstantInputs : List Input :=
  [.Pressed 2 (pressedAt 0), .Pressed 3 (pressedAt 0), .Pressed 2 (pressedAt 10),
   .Pressed 3 (pressedAt 10), .Pressed 2 (pressedAt 60), .Pressed 3 (pressedAt 60),
   .Pressed 2 (pressedAt 100), .Pressed 3 (pressedAt 100),
   .Released 2 (releasedAt 120), .Released 3 (releasedAt 120), .Released 2 (releasedAt 130),
   .Released 3 (releasedAt 130), .Released 2 (releasedAt 200)]

/-- A `Pressed` tick of the sim-press pair `slave`, `master` while both are held and the hold
time of the master is not reached: a tick of the slave, or a tick of the master whose elapsed
time is at most its hold time. -/
def HeldTick (w : World) (slave master : Nat) (i : Input) : Prop :=
  ∃ e : Pressed, i = .Pressed slave e ∨
    (i = .Pressed master e ∧ GetPressDurationMS (w.impl master) e.time_now ≤ e.holdTime)

/-- The classifiers and the binding events of `w'` are those of `w`. -/
def SameButtons (w w' : World) : Prop := w'.buttons = w.buttons ∧ w'.fired = w.fired

/-- Whether running the table entry `entry` runs `action`: the entry is the action, or it is a
`RunBothActions` chain one of whose two parts runs it. -/
def Callback.runs (action : Callback) : Callback → Bool
  | .RunBothActions action1 action2 =>
    decide (Callback.RunBothActions action1 action2 = action) || Callback.runs action action1 ||
      Callback.runs action action2
  | entry => decide (entry = action)

/-- The event table of `m` has an entry for `evt` and that entry runs `action`. -/
def Mapping.runsOn (m : Mapping) (evt : BtnEvent) (action : Callback) : Prop :=
  ∃ entry, m.find evt = some entry ∧ Callback.runs action entry = true

/-- What it means for the table of `m` that a key with actions `apply` and `release` is bound
with apply event `applyEvt` and release event `releaseEvt` under an action modifier: with no
modifier the apply action runs on the apply event and the release action on the release event;
with Toggle the toggle of the two actions runs on the apply event; with Instant the apply
action and the registration of the instant run on the apply event and the release action runs
on `OnInstantRelease`. -/
def Mapping.boundAs (m : Mapping) (key : KeyCode) (apply release : Callback)
    (actMod : ActionModifier) (applyEvt releaseEvt : BtnEvent) : Prop :=
  match actMod with
  | .None => m.runsOn applyEvt apply ∧ m.runsOn releaseEvt release
  | .Toggle => m.runsOn applyEvt (.ApplyButtonToggle key apply release)
  | .Instant =>
    m.runsOn applyEvt apply ∧ m.runsOn applyEvt (.RegisterInstant applyEvt) ∧
      m.runsOn .OnInstantRelease release
  | .INVALID => False

/-- The sample controller as attached, with a chord stack that holds the id of handle 0 twice; no
run of the controller produces such a stack. -/
def doubledStack : World :=
  { demoInit with common := { demoInit.common with chordStack := [0, 0, -1] } }

/-! ## Lemmas and theorems -/

theorem bind_eq_ok {ε α β : Type} (x : Except ε α) (f : α → Except ε β) (b : β) :
    (x >>= f) = Except.ok b ↔ ∃ a, x = Except.ok a ∧ f a = Except.ok b := by
  cases x <;> simp [bind, Except.bind]

theorem pure_eq_ok {ε α : Type} (a b : α) : (pure a : Except ε α) = Except.ok b ↔ a = b := by
  simp [pure, Except.pure]

theorem throw_ne_ok {ε α : Type} (e : ε) (b : α) : (throw e : Except ε α) = Except.ok b ↔ False := by
  simp [throw, throwThe, MonadExceptOf.throw]

theorem Frame_refl (self : Nat) (w : World) : Frame self [] w w :=
  ⟨rfl, fun _ _ => rfl, rfl, rfl, rfl, rfl, rfl, rfl, ⟨[], by simp⟩, by simp⟩

theorem Frame_trans {self : Nat} {e1 e2 : List (Nat × Mapping × BtnEvent)} {w1 w2 w3 : World}
    (h12 : Frame self e1 w1 w2) (h23 : Frame self e2 w2 w3) : Frame self (e1 ++ e2) w1 w3 := by
  obtain ⟨x, hx⟩ := h12.queue
  obtain ⟨y, hy⟩ := h23.queue
  exact ⟨h23.chord.trans h12.chord, fun b hb => (h23.others b hb).trans (h12.others b hb),
    h23.state.trans h12.state, h23.turbo.trans h12.turbo, h23.press.trans h12.press,
    h23.key.trans h12.key, h23.master.trans h12.master, h23.name.trans h12.name,
    ⟨x ++ y, by rw [hy, hx, List.append_assoc]⟩, by rw [h23.fired, h12.fired, List.append_assoc]⟩

theorem Frame_trans_nil {self : Nat} {w1 w2 w3 : World}
    (h12 : Frame self [] w1 w2) (h23 : Frame self [] w2 w3) : Frame self [] w1 w3 := by
  simpa using Frame_trans h12 h23

theorem Frame_emit (self : Nat) (w : World) (e : Effect) (he : e.fired? = none) :
    Frame self [] w (w.emit e) :=
  ⟨rfl, fun _ _ => rfl, rfl, rfl, rfl, rfl, rfl, rfl, ⟨[], by simp [World.emit, World.impl]⟩,
    by simp [World.fired, World.emit, List.filterMap_append, he]⟩

theorem Frame_ClearAllActiveToggle (self : Nat) (key : KeyCode) (w : World) :
    Frame self [] w (ClearAllActiveToggle key w) :=
  ⟨rfl, fun _ _ => rfl, rfl, rfl, rfl, rfl, rfl, rfl,
    ⟨[], by simp [ClearAllActiveToggle, World.impl]⟩, by simp [World.fired, ClearAllActiveToggle]⟩

theorem Frame_setCommon_queues (self : Nat) (w : World) (f : Common → Common)
    (hf : ∀ c, (f c).chordStack = c.chordStack) : Frame self [] w (w.setCommon f) :=
  ⟨by simp [World.setCommon, hf], fun _ _ => rfl, rfl, rfl, rfl, rfl, rfl, rfl,
    ⟨[], by simp [World.setCommon, World.impl]⟩, by simp [World.fired, World.setCommon]⟩

theorem Frame_ApplyBtnPress (env : Env) (self : Nat) (key : KeyCode) (w : World) :
    Frame self [] w (ApplyBtnPress env key w) := by
  unfold ApplyBtnPress
  split_ifs
  all_goals first | exact Frame_refl _ _ | exact Frame_emit _ _ _ (by rfl)

theorem Frame_ApplyBtnRelease (env : Env) (self : Nat) (key : KeyCode) (w : World) :
    Frame self [] w (ApplyBtnRelease env key w) := by
  unfold ApplyBtnRelease
  split_ifs
  all_goals first
    | exact Frame_refl _ _
    | exact Frame_emit _ _ _ (by rfl)
    | exact Frame_trans_nil (Frame_emit _ _ _ (by rfl)) (Frame_ClearAllActiveToggle _ _ _)

theorem Frame_RegisterInstant (self : Nat) (evt : BtnEvent) (w : World) :
    Frame self [] w (RegisterInstant self evt w) :=
  ⟨rfl, fun b hb => by simp [RegisterInstant, World.setImpl, Function.update, hb],
    by simp [RegisterInstant, World.setImpl, World.getState],
    by simp [RegisterInstant, World.setImpl, World.impl],
    by simp [RegisterInstant, World.setImpl, World.impl],
    by simp [RegisterInstant, World.setImpl, World.impl],
    by simp [RegisterInstant, World.setImpl, World.impl],
    by simp [RegisterInstant, World.setImpl, World.impl],
    ⟨[evt], by simp [RegisterInstant, World.setImpl, World.impl]⟩,
    by simp [World.fired, RegisterInstant, World.setImpl]⟩

theorem Frame_ApplyGyroAction (env : Env) (self : Nat) (key : KeyCode) (w : World) :
    Frame self [] w (ApplyGyroAction env self key w) :=
  Frame_setCommon_queues _ _ _ (fun _ => rfl)

theorem Frame_RemoveGyroAction (env : Env) (self : Nat) (w : World) :
    Frame self [] w (RemoveGyroAction env self w) := by
  unfold RemoveGyroAction
  dsimp only
  split
  · exact Frame_trans_nil (Frame_ClearAllActiveToggle _ _ _) (Frame_setCommon_queues _ _ _ (fun _ => rfl))
  · exact Frame_refl _ _

theorem Frame_emit2 (self : Nat) (w : World) (e1 e2 : Effect) (h1 : e1.fired? = none)
    (h2 : e2.fired? = none) : Frame self [] w ((w.emit e1).emit e2) :=
  Frame_trans_nil (Frame_emit _ _ _ h1) (Frame_emit _ _ _ h2)

theorem ite_ok_cases {α : Type} {c : Prop} [Decidable c] {x y : Except Fault α} {a : α}
    (h : (if c then x else y) = .ok a) : (c ∧ x = .ok a) ∨ (¬c ∧ y = .ok a) := by
  split_ifs at h with hc
  · exact Or.inl ⟨hc, h⟩
  · exact Or.inr ⟨hc, h⟩

theorem Frame_ite_emit (self : Nat) (c : Prop) [Decidable c] (w w' : World) (e : Effect)
    (he : e.fired? = none)
    (h : (if c then pure (w.emit e) else throw Fault.nullDeref : Except Fault World) = .ok w') :
    Frame self [] w w' := by
  rcases ite_ok_cases h with ⟨_, h⟩ | ⟨_, h⟩
  · simp only [pure_eq_ok] at h; subst h; exact Frame_emit _ _ _ he
  · simp only [throw_ne_ok] at h

theorem Frame_ite_emit2 (self : Nat) (c : Prop) [Decidable c] (w w' : World) (e1 e2 : Effect)
    (h1 : e1.fired? = none) (h2 : e2.fired? = none)
    (h : (if c then pure ((w.emit e1).emit e2) else throw Fault.nullDeref : Except Fault World)
      = .ok w') :
    Frame self [] w w' := by
  rcases ite_ok_cases h with ⟨_, h⟩ | ⟨_, h⟩
  · simp only [pure_eq_ok] at h; subst h; exact Frame_emit2 _ _ _ _ h1 h2
  · simp only [throw_ne_ok] at h

theorem Frame_StartCalibration (env : Env) (self : Nat) (w w' : World)
    (h : StartCalibration env w = .ok w') : Frame self [] w w' := by
  unfold StartCalibration at h
  rcases ite_ok_cases h with ⟨_, h⟩ | ⟨_, h⟩
  · simp only [bind_eq_ok] at h
    obtain ⟨a, ha, h⟩ := h
    have fa : Frame self [] w a := by
      rcases ite_ok_cases ha with ⟨_, ha⟩ | ⟨_, ha⟩
      · exact Frame_ite_emit2 self _ _ _ _ _ (by rfl) (by rfl) ha
      · simp only [pure_eq_ok] at ha; subst ha; exact Frame_refl _ _
    refine Frame_trans_nil fa ?_
    rcases ite_ok_cases h with ⟨_, h⟩ | ⟨_, h⟩
    · simp only [pure_eq_ok] at h; subst h; exact Frame_emit2 _ _ _ _ (by rfl) (by rfl)
    · simp only [pure_eq_ok] at h; subst h; exact Frame_refl _ _
  · exact Frame_ite_emit2 self _ _ _ _ _ (by rfl) (by rfl) h

theorem Frame_FinishCalibration (env : Env) (self : Nat) (w w' : World)
    (h : FinishCalibration env w = .ok w') : Frame self [] w w' := by
  unfold FinishCalibration at h
  simp only [bind_eq_ok, pure_eq_ok] at h
  obtain ⟨w1, h1, rfl⟩ := h
  refine Frame_trans_nil ?_ (Frame_ClearAllActiveToggle _ _ _)
  rcases ite_ok_cases h1 with ⟨_, h1⟩ | ⟨_, h1⟩
  · simp only [bind_eq_ok] at h1
    obtain ⟨a, ha, h1⟩ := h1
    have fa : Frame self [] w a := by
      rcases ite_ok_cases ha with ⟨_, ha⟩ | ⟨_, ha⟩
      · exact Frame_ite_emit self _ _ _ _ (by rfl) ha
      · simp only [pure_eq_ok] at ha; subst ha; exact Frame_refl _ _
    refine Frame_trans_nil fa ?_
    rcases ite_ok_cases h1 with ⟨_, h1⟩ | ⟨_, h1⟩
    · exact Frame_ite_emit self _ _ _ _ (by rfl) h1
    · simp only [pure_eq_ok] at h1; subst h1; exact Frame_refl _ _
  · exact Frame_ite_emit self _ _ _ _ (by rfl) h1

theorem Frame_runCallback (env : Env) (self : Nat) (cb : Callback) :
    ∀ (w w' : World), runCallback env self cb w = .ok w' → Frame self [] w w' := by
  induction cb with
  | empty => intro w w' h; simp [runCallback, throw_ne_ok] at h
  | StartCalibration => intro w w' h; exact Frame_StartCalibration env self w w' h
  | FinishCalibration => intro w w' h; exact Frame_FinishCalibration env self w w' h
  | ApplyGyroAction key =>
    intro w w' h; simp only [runCallback, pure_eq_ok] at h; subst h
    exact Frame_ApplyGyroAction _ _ _ _
  | RemoveGyroAction =>
    intro w w' h; simp only [runCallback, pure_eq_ok] at h; subst h
    exact Frame_RemoveGyroAction _ _ _
  | WriteToConsole c =>
    intro w w' h; simp only [runCallback, pure_eq_ok] at h; subst h
    exact Frame_emit _ _ _ (by rfl)
  | SetRumble a b =>
    intro w w' h; simp only [runCallback, pure_eq_ok] at h; subst h
    exact Frame_emit _ _ _ (by rfl)
  | ApplyBtnPress key =>
    intro w w' h; simp only [runCallback, pure_eq_ok] at h; subst h
    exact Frame_ApplyBtnPress _ _ _ _
  | ApplyBtnRelease key =>
    intro w w' h; simp only [runCallback, pure_eq_ok] at h; subst h
    exact Frame_ApplyBtnRelease _ _ _ _
  | ApplyButtonToggle key apply release iha ihr =>
    intro w w' h
    simp only [runCallback] at h
    rcases ite_ok_cases h with ⟨_, h⟩ | ⟨_, h⟩
    · exact ihr _ _ h
    · simp only [bind_eq_ok, pure_eq_ok] at h
      obtain ⟨w1, h1, rfl⟩ := h
      exact Frame_trans_nil (iha _ _ h1) (Frame_setCommon_queues _ _ _ (fun _ => rfl))
  | RegisterInstant evt =>
    intro w w' h; simp only [runCallback, pure_eq_ok] at h; subst h
    exact Frame_RegisterInstant _ _ _
  | RunBothActions a1 a2 ih1 ih2 =>
    intro w w' h
    simp only [runCallback, bind_eq_ok] at h
    obtain ⟨w1, h1, h2⟩ := h
    have f1 : Frame self [] w w1 := by
      rcases ite_ok_cases h1 with ⟨_, h1⟩ | ⟨_, h1⟩
      · simp only [pure_eq_ok] at h1; subst h1; exact Frame_refl _ _
      · exact ih1 _ _ h1
    have f2 : Frame self [] w1 w' := by
      rcases ite_ok_cases h2 with ⟨_, h2⟩ | ⟨_, h2⟩
      · simp only [pure_eq_ok] at h2; subst h2; exact Frame_refl _ _
      · exact ih2 _ _ h2
    exact Frame_trans_nil f1 f2

theorem Frame_ProcessEvent (env : Env) (m : Mapping) (evt : BtnEvent) (self : Nat) (w w' : World)
    (h : m.ProcessEvent env evt self w = .ok w') : Frame self [(self, m, evt)] w w' := by
  unfold Mapping.ProcessEvent at h
  have f0 : Frame self [(self, m, evt)] w (w.emit (.ProcessEvent self m evt)) :=
    ⟨rfl, fun _ _ => rfl, rfl, rfl, rfl, rfl, rfl, rfl, ⟨[], by simp [World.emit, World.impl]⟩,
      by simp [World.fired, World.emit, List.filterMap_append, Effect.fired?]⟩
  dsimp only at h
  split at h
  · rcases ite_ok_cases h with ⟨_, h⟩ | ⟨_, h⟩
    · simp only [pure_eq_ok] at h; subst h; exact f0
    · simpa using Frame_trans f0 (Frame_runCallback env self _ _ _ h)
  · simp only [pure_eq_ok] at h; subst h; exact f0

theorem Frame_Kept {self : Nat} {evts : List (Nat × Mapping × BtnEvent)} {w w' : World}
    (h : Frame self evts w w') : Kept self evts w w' :=
  ⟨h.chord, h.others, h.state, h.turbo, h.press, h.master, h.fired⟩

theorem Kept_refl (self : Nat) (w : World) : Kept self [] w w :=
  ⟨rfl, fun _ _ => rfl, rfl, rfl, rfl, rfl, by simp⟩

theorem Kept_trans {self : Nat} {e1 e2 : List (Nat × Mapping × BtnEvent)} {w1 w2 w3 : World}
    (h12 : Kept self e1 w1 w2) (h23 : Kept self e2 w2 w3) : Kept self (e1 ++ e2) w1 w3 :=
  ⟨h23.chord.trans h12.chord, fun b hb => (h23.others b hb).trans (h12.others b hb),
    h23.state.trans h12.state, h23.turbo.trans h12.turbo, h23.press.trans h12.press,
    h23.master.trans h12.master, by rw [h23.fired, h12.fired, List.append_assoc]⟩

theorem Kept_setQueue (self : Nat) (w : World) (q : List BtnEvent → List BtnEvent) :
    Kept self [] w (w.setImpl self fun i => { i with _instantReleaseQueue := q i._instantReleaseQueue }) :=
  ⟨rfl, fun b hb => by simp [World.setImpl, Function.update, hb],
    by simp [World.setImpl, World.getState], by simp [World.setImpl, World.impl],
    by simp [World.setImpl, World.impl], by simp [World.setImpl, World.impl],
    by simp [World.fired, World.setImpl]⟩

theorem keyToRelease_ProcessEvent_spec (env : Env) (self : Nat) (evt : BtnEvent) (w w' : World)
    (h : keyToRelease_ProcessEvent env self evt w = .ok w') :
    ∃ m, (w.impl self)._keyToRelease = some m ∧ Frame self [(self, m, evt)] w w' := by
  unfold keyToRelease_ProcessEvent at h
  split at h
  · next m hm => exact ⟨m, hm, Frame_ProcessEvent env m evt self w w' h⟩
  · simp only [throw_ne_ok] at h

theorem CheckInstantRelease_spec (env : Env) (self : Nat) (ie : BtnEvent) (w w' : World)
    (h : CheckInstantRelease env self ie w = .ok w') :
    (ie ∉ (w.impl self)._instantReleaseQueue ∧ w' = w) ∨
    (ie ∈ (w.impl self)._instantReleaseQueue ∧ ∃ m ext, (w.impl self)._keyToRelease = some m ∧
      Kept self [(self, m, .OnInstantRelease)] w w' ∧
      (w'.impl self)._keyToRelease = some m ∧
      (w'.impl self)._instantReleaseQueue = ((w.impl self)._instantReleaseQueue ++ ext).erase ie) := by
  unfold CheckInstantRelease at h
  rcases ite_ok_cases h with ⟨hin, h⟩ | ⟨hin, h⟩
  · right
    simp only [bind_eq_ok, pure_eq_ok] at h
    obtain ⟨w1, h1, rfl⟩ := h
    obtain ⟨m, hm, f⟩ := keyToRelease_ProcessEvent_spec env self _ w w1 h1
    obtain ⟨ext, hext⟩ := f.queue
    refine ⟨hin, m, ext, hm, ?_, ?_, ?_⟩
    · simpa using Kept_trans (Frame_Kept f) (Kept_setQueue self w1 (fun q => q.erase ie))
    · have := f.key
      simp only [World.impl] at this hm ⊢
      simp [World.setImpl, this, hm]
    · simp only [World.impl] at hext ⊢
      simp [World.setImpl, hext]
  · left
    simp only [pure_eq_ok] at h
    exact ⟨hin, h.symm⟩

/-- What `CheckInstantRelease` can log: nothing, or one `OnInstantRelease` of the active
binding. -/
theorem CheckInstantRelease_Kept (env : Env) (self : Nat) (ie : BtnEvent) (w w' : World)
    (h : CheckInstantRelease env self ie w = .ok w') :
    ∃ evts, Kept self evts w w' ∧ (w'.impl self)._keyToRelease = (w.impl self)._keyToRelease ∧
      (evts = [] ∨ ∃ m, (w.impl self)._keyToRelease = some m ∧ evts = [(self, m, .OnInstantRelease)]) := by
  rcases CheckInstantRelease_spec env self ie w w' h with ⟨_, rfl⟩ | ⟨_, m, ext, hm, hk, hk', _⟩
  · exact ⟨[], Kept_refl _ _, rfl, Or.inl rfl⟩
  · exact ⟨_, hk, hk'.trans hm.symm, Or.inr ⟨m, hm, rfl⟩⟩

theorem OnlyInstant_nil (self : Nat) : OnlyInstant self [] := by
  intro x hx; simp at hx

theorem OnlyInstant_append {self : Nat} {a b : List (Nat × Mapping × BtnEvent)}
    (ha : OnlyInstant self a) (hb : OnlyInstant self b) : OnlyInstant self (a ++ b) := by
  intro x hx
  rcases List.mem_append.mp hx with h | h
  · exact ha x h
  · exact hb x h

theorem CheckInstantRelease_OnlyInstant (env : Env) (self : Nat) (ie : BtnEvent) (w w' : World)
    (h : CheckInstantRelease env self ie w = .ok w') :
    ∃ evts, Kept self evts w w' ∧ (w'.impl self)._keyToRelease = (w.impl self)._keyToRelease ∧
      OnlyInstant self evts := by
  obtain ⟨evts, hk, hkey, hev⟩ := CheckInstantRelease_Kept env self ie w w' h
  refine ⟨evts, hk, hkey, ?_⟩
  rcases hev with rfl | ⟨m, _, rfl⟩
  · exact OnlyInstant_nil _
  · intro x hx; simp at hx; subst hx; exact ⟨rfl, rfl⟩

theorem guarded_CheckInstantRelease (env : Env) (self : Nat) (c : Prop) [Decidable c]
    (ie : BtnEvent) (w w' : World)
    (h : (if c then CheckInstantRelease env self ie w else pure w) = .ok w') :
    ∃ evts, Kept self evts w w' ∧ (w'.impl self)._keyToRelease = (w.impl self)._keyToRelease ∧
      OnlyInstant self evts := by
  rcases ite_ok_cases h with ⟨_, h⟩ | ⟨_, h⟩
  · exact CheckInstantRelease_OnlyInstant env self ie w w' h
  · simp only [pure_eq_ok] at h; subst h
    exact ⟨[], Kept_refl _ _, rfl, OnlyInstant_nil _⟩

theorem Kept_turboIncr (self : Nat) (w : World) :
    let w' := w.setImpl self fun i => { i with _turboCount := i._turboCount + 1 }
    w'.common.chordStack = w.common.chordStack ∧ (∀ b, b ≠ self → w'.buttons b = w.buttons b) ∧
    w'.getState self = w.getState self ∧ (w'.impl self)._press_times = (w.impl self)._press_times ∧
    (w'.impl self)._simPressMaster = (w.impl self)._simPressMaster ∧
    (w'.impl self)._keyToRelease = (w.impl self)._keyToRelease ∧
    (w'.impl self)._instantReleaseQueue = (w.impl self)._instantReleaseQueue ∧
    w'.fired = w.fired ∧ (w'.impl self)._turboCount = (w.impl self)._turboCount + 1 := by
  refine ⟨rfl, fun b hb => by simp [World.setImpl, Function.update, hb], ?_, ?_, ?_, ?_, ?_, ?_, ?_⟩ <;>
    simp [World.setImpl, World.getState, World.impl, World.fired]

/-- About `ProcessEvent(const Pressed &)`: what it keeps, and the events and turbo count it produces. -/
theorem ProcessEvent_Pressed_spec (env : Env) (self : Nat) (evt : Pressed) (w w' : World)
    (h : ProcessEvent_Pressed env self evt w = .ok w') :
    w'.common.chordStack = w.common.chordStack ∧ (∀ b, b ≠ self → w'.buttons b = w.buttons b) ∧
    w'.getState self = w.getState self ∧ (w'.impl self)._press_times = (w.impl self)._press_times ∧
    (w'.impl self)._simPressMaster = (w.impl self)._simPressMaster ∧
    (w'.impl self)._keyToRelease = (w.impl self)._keyToRelease ∧
    ∃ pre mid post, w'.fired = w.fired ++ pre ++ mid ++ post ∧ OnlyInstant self pre ∧
      OnlyInstant self post ∧
      (if (w.impl self)._turboCount = 0 then
        post = [] ∧
        if GetPressDurationMS (w.impl self) evt.time_now > evt.holdTime then
          ∃ m, (w.impl self)._keyToRelease = some m ∧
            mid = [(self, m, .OnHold), (self, m, .OnTurbo)] ∧ (w'.impl self)._turboCount = 1
        else mid = [] ∧ (w'.impl self)._turboCount = 0
      else
        if turboDue (GetPressDurationMS (w.impl self) evt.time_now) evt.holdTime evt.turboTime
            (w.impl self)._turboCount then
          ∃ m, (w.impl self)._keyToRelease = some m ∧ mid = [(self, m, .OnTurbo)] ∧
            (w'.impl self)._turboCount = (w.impl self)._turboCount + 1
        else mid = [] ∧ (w'.impl self)._turboCount = (w.impl self)._turboCount) := by
  unfold ProcessEvent_Pressed at h
  dsimp only at h
  rcases ite_ok_cases h with ⟨ht, h⟩ | ⟨ht, h⟩
  · simp only [bind_eq_ok] at h
    obtain ⟨w1, h1, h⟩ := h
    obtain ⟨pre, k1, key1, hpre⟩ := guarded_CheckInstantRelease env self _ _ w w1 h1
    rcases ite_ok_cases h with ⟨hd, h⟩ | ⟨hd, h⟩
    · simp only [bind_eq_ok, pure_eq_ok] at h
      obtain ⟨w2, h2, w3, h3, rfl⟩ := h
      obtain ⟨m, hm, f2⟩ := keyToRelease_ProcessEvent_spec env self _ w1 w2 h2
      obtain ⟨m', hm', f3⟩ := keyToRelease_ProcessEvent_spec env self _ w2 w3 h3
      have hmm : m' = m := by
        have := f2.key; rw [hm, hm'] at this; exact (Option.some.inj this)
      subst hmm
      obtain ⟨c, o, st, pr, ma, ky, _, fi, tu⟩ := Kept_turboIncr self w3
      refine ⟨by rw [c, f3.chord, f2.chord, k1.chord],
        fun b hb => by rw [o b hb, f3.others b hb, f2.others b hb, k1.others b hb],
        by rw [st, f3.state, f2.state, k1.state], by rw [pr, f3.press, f2.press, k1.press],
        by rw [ma, f3.master, f2.master, k1.master], by rw [ky, f3.key, f2.key, key1],
        pre, [(self, m', .OnHold), (self, m', .OnTurbo)], [], ?_, hpre, OnlyInstant_nil _, ?_⟩
      · rw [fi, f3.fired, f2.fired, k1.fired]; simp
      · rw [if_pos ht, if_pos hd]
        refine ⟨rfl, m', by rw [← key1, hm], rfl, ?_⟩
        rw [tu, f3.turbo, f2.turbo, k1.turbo, ht]
    · simp only [pure_eq_ok] at h; subst h
      refine ⟨k1.chord, k1.others, k1.state, k1.press, k1.master, key1, pre, [], [], ?_, hpre,
        OnlyInstant_nil _, ?_⟩
      · rw [k1.fired]; simp
      · rw [if_pos ht, if_neg hd]
        exact ⟨rfl, rfl, by rw [k1.turbo, ht]⟩
  · simp only [bind_eq_ok] at h
    obtain ⟨w1, h1, w2, h2, h⟩ := h
    obtain ⟨pre, k1, key1, hpre⟩ := guarded_CheckInstantRelease env self _ _ w w1 h1
    obtain ⟨post, k3, key3, hpost⟩ := guarded_CheckInstantRelease env self _ _ w2 w' h
    rw [k1.turbo] at h2
    rcases ite_ok_cases h2 with ⟨hd, h2⟩ | ⟨hd, h2⟩
    · simp only [bind_eq_ok, pure_eq_ok] at h2
      obtain ⟨w3, h3, rfl⟩ := h2
      obtain ⟨m, hm, f3⟩ := keyToRelease_ProcessEvent_spec env self _ w1 w3 h3
      obtain ⟨c, o, st, pr, ma, ky, _, fi, tu⟩ := Kept_turboIncr self w3
      refine ⟨by rw [k3.chord, c, f3.chord, k1.chord],
        fun b hb => by rw [k3.others b hb, o b hb, f3.others b hb, k1.others b hb],
        by rw [k3.state, st, f3.state, k1.state], by rw [k3.press, pr, f3.press, k1.press],
        by rw [k3.master, ma, f3.master, k1.master], by rw [key3, ky, f3.key, key1],
        pre, [(self, m, .OnTurbo)], post, ?_, hpre, hpost, ?_⟩
      · rw [k3.fired, fi, f3.fired, k1.fired]
      · rw [if_neg ht, if_pos hd]
        refine ⟨m, by rw [← key1, hm], rfl, ?_⟩
        rw [k3.turbo, tu, f3.turbo, k1.turbo]
    · simp only [pure_eq_ok] at h2; subst h2
      refine ⟨by rw [k3.chord, k1.chord], fun b hb => by rw [k3.others b hb, k1.others b hb],
        by rw [k3.state, k1.state], by rw [k3.press, k1.press], by rw [k3.master, k1.master],
        by rw [key3, key1], pre, [], post, ?_, hpre, hpost, ?_⟩
      · rw [k3.fired, k1.fired]; simp
      · rw [if_neg ht, if_neg hd]
        exact ⟨rfl, by rw [k3.turbo, k1.turbo]⟩

theorem setPressTime_facts (self : Nat) (t : Int) (w : World) :
    let w' := w.setImpl self fun i => { i with _press_times := t }
    w'.common.chordStack = w.common.chordStack ∧ (∀ b, b ≠ self → w'.buttons b = w.buttons b) ∧
    w'.getState self = w.getState self ∧ (w'.impl self)._press_times = t ∧
    (w'.impl self)._simPressMaster = (w.impl self)._simPressMaster ∧
    (w'.impl self)._keyToRelease = (w.impl self)._keyToRelease ∧
    (w'.impl self)._instantReleaseQueue = (w.impl self)._instantReleaseQueue ∧
    w'.fired = w.fired ∧ (w'.impl self)._turboCount = (w.impl self)._turboCount := by
  refine ⟨rfl, fun b hb => by simp [World.setImpl, Function.update, hb], ?_, ?_, ?_, ?_, ?_, ?_, ?_⟩ <;>
    simp [World.setImpl, World.getState, World.impl, World.fired]

theorem ClearKey_facts (self : Nat) (w : World) :
    (ClearKey self w).common.chordStack = w.common.chordStack ∧
    (∀ b, b ≠ self → (ClearKey self w).buttons b = w.buttons b) ∧
    (ClearKey self w).getState self = w.getState self ∧
    ((ClearKey self w).impl self)._press_times = (w.impl self)._press_times ∧
    ((ClearKey self w).impl self)._simPressMaster = (w.impl self)._simPressMaster ∧
    ((ClearKey self w).impl self)._keyToRelease = none ∧
    ((ClearKey self w).impl self)._instantReleaseQueue = [] ∧
    (ClearKey self w).fired = w.fired ∧ ((ClearKey self w).impl self)._turboCount = 0 := by
  refine ⟨rfl, fun b hb => by simp [ClearKey, World.setImpl, Function.update, hb],
    ?_, ?_, ?_, ?_, ?_, ?_, ?_⟩ <;>
    simp [ClearKey, World.setImpl, World.getState, World.impl, World.fired]

/-- About `ProcessEvent(const Released &)`: the release classification. -/
theorem ProcessEvent_Released_spec (env : Env) (self : Nat) (evt : Released) (w w' : World)
    (next : BtnState) (h : ProcessEvent_Released env self evt w = .ok (next, w')) :
    ∃ m, (w.impl self)._keyToRelease = some m ∧
    w'.common.chordStack = w.common.chordStack ∧ (∀ b, b ≠ self → w'.buttons b = w.buttons b) ∧
    w'.getState self = w.getState self ∧
    (w'.impl self)._simPressMaster = (w.impl self)._simPressMaster ∧
    ∃ ext,
      if (w.impl self)._turboCount = 0 then
        next = .TapRelease ∧ w'.fired = w.fired ++ [(self, m, .OnRelease), (self, m, .OnTap)] ∧
        (w'.impl self)._press_times = evt.time_now ∧ (w'.impl self)._keyToRelease = some m ∧
        (w'.impl self)._turboCount = 0 ∧
        (w'.impl self)._instantReleaseQueue = (w.impl self)._instantReleaseQueue ++ ext
      else
        w'.fired = w.fired ++ [(self, m, .OnRelease), (self, m, .OnHoldRelease)] ∧
        if (w.impl self)._instantReleaseQueue ++ ext = [] then
          next = .NoPress ∧ (w'.impl self)._keyToRelease = none ∧
          (w'.impl self)._instantReleaseQueue = [] ∧ (w'.impl self)._turboCount = 0 ∧
          (w'.impl self)._press_times = (w.impl self)._press_times
        else
          next = .InstRelease ∧ (w'.impl self)._press_times = evt.time_now ∧
          (w'.impl self)._keyToRelease = some m ∧
          (w'.impl self)._instantReleaseQueue = (w.impl self)._instantReleaseQueue ++ ext ∧
          (w'.impl self)._turboCount = (w.impl self)._turboCount := by
  unfold ProcessEvent_Released at h
  simp only [bind_eq_ok] at h
  obtain ⟨w1, h1, h⟩ := h
  obtain ⟨m, hm, f1⟩ := keyToRelease_ProcessEvent_spec env self _ w w1 h1
  obtain ⟨x1, hx1⟩ := f1.queue
  rw [f1.turbo] at h
  rcases ite_ok_cases h with ⟨ht, h⟩ | ⟨ht, h⟩
  · simp only [bind_eq_ok, pure_eq_ok, Prod.mk.injEq] at h
    obtain ⟨w2, h2, rfl, rfl⟩ := h
    obtain ⟨m', hm', f2⟩ := keyToRelease_ProcessEvent_spec env self _ w1 w2 h2
    have hmm : m' = m := by
      have := f1.key; rw [hm, hm'] at this; exact (Option.some.inj this)
    subst hmm
    obtain ⟨x2, hx2⟩ := f2.queue
    obtain ⟨c, o, st, pr, ma, ky, qu, fi, tu⟩ := setPressTime_facts self evt.time_now w2
    refine ⟨m', hm, by rw [c, f2.chord, f1.chord],
      fun b hb => by rw [o b hb, f2.others b hb, f1.others b hb],
      by rw [st, f2.state, f1.state], by rw [ma, f2.master, f1.master], x1 ++ x2, ?_⟩
    rw [if_pos ht]
    refine ⟨rfl, ?_, pr, by rw [ky, f2.key, hm'], by rw [tu, f2.turbo, f1.turbo, ht], ?_⟩
    · rw [fi, f2.fired, f1.fired]; simp
    · rw [qu, hx2, hx1, List.append_assoc]
  · simp only [bind_eq_ok] at h
    obtain ⟨w2, h2, h⟩ := h
    obtain ⟨m', hm', f2⟩ := keyToRelease_ProcessEvent_spec env self _ w1 w2 h2
    have hmm : m' = m := by
      have := f1.key; rw [hm, hm'] at this; exact (Option.some.inj this)
    subst hmm
    obtain ⟨x2, hx2⟩ := f2.queue
    have hq : (w2.impl self)._instantReleaseQueue = (w.impl self)._instantReleaseQueue ++ (x1 ++ x2) := by
      rw [hx2, hx1, List.append_assoc]
    have hfired : w2.fired = w.fired ++ [(self, m', .OnRelease), (self, m', .OnHoldRelease)] := by
      rw [f2.fired, f1.fired]; simp
    rcases ite_ok_cases h with ⟨he, h⟩ | ⟨he, h⟩
    · simp only [pure_eq_ok, Prod.mk.injEq] at h
      obtain ⟨rfl, rfl⟩ := h
      obtain ⟨c, o, st, pr, ma, ky, qu, fi, tu⟩ := ClearKey_facts self w2
      refine ⟨m', hm, by rw [c, f2.chord, f1.chord],
        fun b hb => by rw [o b hb, f2.others b hb, f1.others b hb],
        by rw [st, f2.state, f1.state], by rw [ma, f2.master, f1.master], x1 ++ x2, ?_⟩
      rw [if_neg ht]
      refine ⟨by rw [fi, hfired], ?_⟩
      have he' : (w.impl self)._instantReleaseQueue ++ (x1 ++ x2) = [] := by
        rw [← hq]; simpa using he
      rw [if_pos he']
      exact ⟨rfl, ky, qu, tu, by rw [pr, f2.press, f1.press]⟩
    · simp only [pure_eq_ok, Prod.mk.injEq] at h
      obtain ⟨rfl, rfl⟩ := h
      obtain ⟨c, o, st, pr, ma, ky, qu, fi, tu⟩ := setPressTime_facts self evt.time_now w2
      refine ⟨m', hm, by rw [c, f2.chord, f1.chord],
        fun b hb => by rw [o b hb, f2.others b hb, f1.others b hb],
        by rw [st, f2.state, f1.state], by rw [ma, f2.master, f1.master], x1 ++ x2, ?_⟩
      rw [if_neg ht]
      refine ⟨by rw [fi, hfired], ?_⟩
      have he' : ¬ (w.impl self)._instantReleaseQueue ++ (x1 ++ x2) = [] := by
        rw [← hq]; simpa using he
      rw [if_neg he']
      exact ⟨rfl, pr, by rw [ky, f2.key, hm'], by rw [qu, hq], by rw [tu, f2.turbo, f1.turbo]⟩

@[simp]
theorem setImpl_common (w : World) (self : Nat) (f : DigitalButtonImpl → DigitalButtonImpl) :
    (w.setImpl self f).common = w.common := rfl

@[simp]
theorem setImpl_fired (w : World) (self : Nat) (f : DigitalButtonImpl → DigitalButtonImpl) :
    (w.setImpl self f).fired = w.fired := rfl

@[simp]
theorem setImpl_getState (w : World) (self b : Nat) (f : DigitalButtonImpl → DigitalButtonImpl) :
    (w.setImpl self f).getState b = w.getState b := by
  by_cases h : b = self
  · subst h; simp [World.setImpl, World.getState]
  · simp [World.setImpl, World.getState, Function.update, h]

@[simp]
theorem setImpl_impl_self (w : World) (self : Nat) (f : DigitalButtonImpl → DigitalButtonImpl) :
    (w.setImpl self f).impl self = f (w.impl self) := by
  simp [World.setImpl, World.impl]

theorem setImpl_buttons_ne (w : World) (self b : Nat) (f : DigitalButtonImpl → DigitalButtonImpl)
    (h : b ≠ self) : (w.setImpl self f).buttons b = w.buttons b := by
  simp [World.setImpl, Function.update, h]

theorem setImpl_impl_ne (w : World) (self b : Nat) (f : DigitalButtonImpl → DigitalButtonImpl)
    (h : b ≠ self) : (w.setImpl self f).impl b = w.impl b := by
  simp [World.impl, setImpl_buttons_ne w self b f h]

@[simp]
theorem changeState_common (self : Nat) (next : BtnState) (w : World) :
    (changeState self next w).common = w.common := by
  cases next <;> rfl

@[simp]
theorem changeState_fired (self : Nat) (next : BtnState) (w : World) :
    (changeState self next w).fired = w.fired := by
  cases next <;> rfl

@[simp]
theorem changeState_impl (self b : Nat) (next : BtnState) (w : World) :
    (changeState self next w).impl b = w.impl b := by
  by_cases h : b = self
  · subst h; cases next <;> simp [changeState, World.impl]
  · cases next <;> simp [changeState, World.impl, Function.update, h]

theorem changeState_getState_self (self : Nat) (next : BtnState) (w : World)
    (h : next ≠ .INVALID) : (changeState self next w).getState self = next := by
  cases next <;> simp [changeState, World.getState] at h ⊢

theorem changeState_buttons_ne (self b : Nat) (next : BtnState) (w : World) (h : b ≠ self) :
    (changeState self next w).buttons b = w.buttons b := by
  cases next <;> simp [changeState, Function.update, h]

theorem changeState_getState_ne (self b : Nat) (next : BtnState) (w : World) (h : b ≠ self) :
    (changeState self next w).getState b = w.getState b := by
  simp [World.getState, changeState_buttons_ne self b next w h]

@[simp]
theorem react_Pressed_buttons (env : Env) (self : Nat) (w : World) :
    (DigitalButtonState.react_Pressed env self w).buttons = w.buttons := by
  unfold DigitalButtonState.react_Pressed; split_ifs <;> rfl

@[simp]
theorem react_Pressed_impl (env : Env) (self b : Nat) (w : World) :
    (DigitalButtonState.react_Pressed env self w).impl b = w.impl b := by
  simp [World.impl]

@[simp]
theorem react_Pressed_getState (env : Env) (self b : Nat) (w : World) :
    (DigitalButtonState.react_Pressed env self w).getState b = w.getState b := by
  simp [World.getState]

@[simp]
theorem react_Pressed_fired (env : Env) (self : Nat) (w : World) :
    (DigitalButtonState.react_Pressed env self w).fired = w.fired := by
  unfold DigitalButtonState.react_Pressed; split_ifs <;> rfl

@[simp]
theorem react_Released_buttons (env : Env) (self : Nat) (w : World) :
    (DigitalButtonState.react_Released env self w).buttons = w.buttons := by
  unfold DigitalButtonState.react_Released; split_ifs <;> rfl

@[simp]
theorem react_Released_impl (env : Env) (self b : Nat) (w : World) :
    (DigitalButtonState.react_Released env self w).impl b = w.impl b := by
  simp [World.impl]

@[simp]
theorem react_Released_getState (env : Env) (self b : Nat) (w : World) :
    (DigitalButtonState.react_Released env self w).getState b = w.getState b := by
  simp [World.getState]

@[simp]
theorem react_Released_fired (env : Env) (self : Nat) (w : World) :
    (DigitalButtonState.react_Released env self w).fired = w.fired := by
  unfold DigitalButtonState.react_Released; split_ifs <;> rfl

/-- The chord stack after the basic press reaction. -/
theorem react_Pressed_chord (env : Env) (self : Nat) (w : World) :
    (DigitalButtonState.react_Pressed env self w).common.chordStack =
      if env.chordable self = true ∧ env.id self ∉ w.common.chordStack then
        env.id self :: w.common.chordStack
      else w.common.chordStack := by
  unfold DigitalButtonState.react_Pressed
  by_cases hc : env.chordable self = true <;> by_cases hm : env.id self ∈ w.common.chordStack <;>
    simp [hc, hm, World.setCommon]

/-- The chord stack after the basic release reaction. -/
theorem react_Released_chord (env : Env) (self : Nat) (w : World) :
    (DigitalButtonState.react_Released env self w).common.chordStack =
      if env.chordable self = true then w.common.chordStack.erase (env.id self)
      else w.common.chordStack := by
  unfold DigitalButtonState.react_Released
  by_cases hc : env.chordable self = true <;> simp [hc, World.setCommon]

theorem GetPressMapping_spec (env : Env) (self : Nat) (w w' : World) (m : Mapping)
    (h : GetPressMapping env self w = .ok (m, w')) :
    Resolves (env.mapping self) (w.impl self)._keyToRelease w.common.chordStack m ∧ FrameKey self m [] w w' ∧
      (w'.impl self)._instantReleaseQueue = (w.impl self)._instantReleaseQueue := by
  unfold GetPressMapping at h
  split at h
  · next m0 hm0 =>
    simp only [pure_eq_ok, Prod.mk.injEq] at h
    obtain ⟨rfl, rfl⟩ := h
    exact ⟨Or.inl hm0, ⟨rfl, fun _ _ => rfl, rfl, rfl, rfl, hm0, rfl, ⟨[], by simp⟩, by simp⟩, rfl⟩
  · next hnone =>
    split at h
    · next c binding hfind =>
      simp only [pure_eq_ok, Prod.mk.injEq] at h
      obtain ⟨rfl, rfl⟩ := h
      refine ⟨Or.inr ⟨hnone, c, hfind⟩, ⟨rfl, fun b hb => setImpl_buttons_ne _ _ _ _ hb, by simp,
        by simp, by simp, by simp, by simp, ⟨[], by simp⟩, by simp⟩, by simp⟩
    · simp only [throw_ne_ok] at h

theorem GetPressMapping_ProcessEvent_spec (env : Env) (self : Nat) (evt : BtnEvent) (w w' : World)
    (h : GetPressMapping_ProcessEvent env self evt w = .ok w') :
    ∃ m, Resolves (env.mapping self) (w.impl self)._keyToRelease w.common.chordStack m ∧ FrameKey self m [(self, m, evt)] w w' := by
  unfold GetPressMapping_ProcessEvent at h
  simp only [bind_eq_ok] at h
  obtain ⟨⟨m, w1⟩, h1, h2⟩ := h
  obtain ⟨hres, fk, hq⟩ := GetPressMapping_spec env self w w1 m h1
  have f := Frame_ProcessEvent env m evt self w1 w' h2
  obtain ⟨ext, hext⟩ := f.queue
  exact ⟨m, hres, ⟨f.chord.trans fk.chord, fun b hb => (f.others b hb).trans (fk.others b hb),
    f.state.trans fk.state, f.turbo.trans fk.turbo, f.press.trans fk.press, f.key.trans fk.key,
    f.master.trans fk.master, ⟨ext, by rw [hext, hq]⟩, by rw [f.fired, fk.fired]; simp⟩⟩

/-- About `startPress`: either the wait for a second press starts, or `OnPress` goes to the resolved
binding and the classifier is in `BtnPress`. -/
theorem startPress_spec (env : Env) (self : Nat) (w w' : World)
    (h : startPress env self w = .ok w') :
    w'.common.chordStack = w.common.chordStack ∧ (∀ b, b ≠ self → w'.buttons b = w.buttons b) ∧
    (w'.impl self)._press_times = (w.impl self)._press_times ∧
    (w'.impl self)._simPressMaster = (w.impl self)._simPressMaster ∧
    (w'.impl self)._turboCount = (w.impl self)._turboCount ∧
    if (env.mapping self).getDblPressMap.isSome then
      w'.getState self = .DblPressStart ∧ w'.fired = w.fired ∧
      (w'.impl self)._keyToRelease = (w.impl self)._keyToRelease ∧
      (w'.impl self)._instantReleaseQueue = (w.impl self)._instantReleaseQueue
    else
      ∃ m, Resolves (env.mapping self) (w.impl self)._keyToRelease w.common.chordStack m ∧
        w'.getState self = .BtnPress ∧ w'.fired = w.fired ++ [(self, m, .OnPress)] ∧
        (w'.impl self)._keyToRelease = some m ∧
        ∃ ext, (w'.impl self)._instantReleaseQueue = (w.impl self)._instantReleaseQueue ++ ext := by
  unfold startPress at h
  rcases ite_ok_cases h with ⟨hd, h⟩ | ⟨hd, h⟩
  · simp only [pure_eq_ok] at h; subst h
    rw [if_pos hd]
    exact ⟨by simp, fun b hb => changeState_buttons_ne _ _ _ _ hb, by simp, by simp, by simp,
      changeState_getState_self _ _ _ (by decide), by simp, by simp, by simp⟩
  · obtain ⟨m, hres, fk⟩ := GetPressMapping_ProcessEvent_spec env self _ _ w' h
    rw [if_neg hd]
    obtain ⟨ext, hext⟩ := fk.queue
    refine ⟨by simpa using fk.chord,
      fun b hb => (fk.others b hb).trans (changeState_buttons_ne _ _ _ _ hb),
      by simpa using fk.press, by simpa using fk.master, by simpa using fk.turbo,
      m, by simpa using hres, ?_, by simpa using fk.fired, fk.key, ext, by simpa using hext⟩
    rw [fk.state]; exact changeState_getState_self _ _ _ (by decide)

/-- About `NoPress::react(Pressed)`. -/
theorem NoPress_react_Pressed_spec (env : Env) (self : Nat) (e : Pressed) (w w' : World)
    (h : NoPress.react_Pressed env self e w = .ok w') :
    w'.common.chordStack = (DigitalButtonState.react_Pressed env self w).common.chordStack ∧
    (∀ b, b ≠ self → w'.buttons b = w.buttons b) ∧
    (w'.impl self)._press_times = e.time_now ∧
    (w'.impl self)._simPressMaster = (w.impl self)._simPressMaster ∧
    (w'.impl self)._turboCount = (w.impl self)._turboCount ∧
    if (env.mapping self).HasSimMappings = true then
      w'.getState self = .WaitSim ∧ w'.fired = w.fired ∧
      (w'.impl self)._keyToRelease = (w.impl self)._keyToRelease ∧
      (w'.impl self)._instantReleaseQueue = (w.impl self)._instantReleaseQueue
    else if (env.mapping self).getDblPressMap.isSome then
      w'.getState self = .DblPressStart ∧ w'.fired = w.fired ∧
      (w'.impl self)._keyToRelease = (w.impl self)._keyToRelease ∧
      (w'.impl self)._instantReleaseQueue = (w.impl self)._instantReleaseQueue
    else
      ∃ m, Resolves (env.mapping self) (w.impl self)._keyToRelease
          (DigitalButtonState.react_Pressed env self w).common.chordStack m ∧
        w'.getState self = .BtnPress ∧ w'.fired = w.fired ++ [(self, m, .OnPress)] ∧
        (w'.impl self)._keyToRelease = some m ∧
        ∃ ext, (w'.impl self)._instantReleaseQueue = (w.impl self)._instantReleaseQueue ++ ext := by
  unfold NoPress.react_Pressed at h
  dsimp only at h
  rcases ite_ok_cases h with ⟨hs, h⟩ | ⟨hs, h⟩
  · simp only [pure_eq_ok] at h; subst h
    rw [if_pos hs]
    exact ⟨by simp, fun b hb => by
        rw [changeState_buttons_ne _ _ _ _ hb, setImpl_buttons_ne _ _ _ _ hb]; simp,
      by simp, by simp, by simp,
      changeState_getState_self _ _ _ (by decide), by simp, by simp, by simp⟩
  · obtain ⟨c, o, pr, ma, tu, rest⟩ := startPress_spec env self _ w' h
    rw [if_neg hs]
    refine ⟨by simpa using c, fun b hb => by
        rw [o b hb, setImpl_buttons_ne _ _ _ _ hb]; simp,
      by simpa using pr, by simpa using ma, by simpa using tu, ?_⟩
    split_ifs at rest ⊢ with hd
    · simpa using rest
    · simpa using rest

/-- The body shared by the `Pressed` reactions of `BtnPress`, `DblPressPress` and the master in
`SimPress`: basic press reaction, then the turbo and hold timing. -/
theorem pressedTick_spec (env : Env) (self : Nat) (e : Pressed) (w w' : World)
    (h : ProcessEvent_Pressed env self e (DigitalButtonState.react_Pressed env self w) = .ok w') :
    w'.common.chordStack = (DigitalButtonState.react_Pressed env self w).common.chordStack ∧
    (∀ b, b ≠ self → w'.buttons b = w.buttons b) ∧
    w'.getState self = w.getState self ∧ (w'.impl self)._press_times = (w.impl self)._press_times ∧
    (w'.impl self)._simPressMaster = (w.impl self)._simPressMaster ∧
    (w'.impl self)._keyToRelease = (w.impl self)._keyToRelease ∧
    ∃ pre mid post, w'.fired = w.fired ++ pre ++ mid ++ post ∧ OnlyInstant self pre ∧
      OnlyInstant self post ∧
      (if (w.impl self)._turboCount = 0 then
        post = [] ∧
        if GetPressDurationMS (w.impl self) e.time_now > e.holdTime then
          ∃ m, (w.impl self)._keyToRelease = some m ∧
            mid = [(self, m, .OnHold), (self, m, .OnTurbo)] ∧ (w'.impl self)._turboCount = 1
        else mid = [] ∧ (w'.impl self)._turboCount = 0
      else
        if turboDue (GetPressDurationMS (w.impl self) e.time_now) e.holdTime e.turboTime
            (w.impl self)._turboCount then
          ∃ m, (w.impl self)._keyToRelease = some m ∧ mid = [(self, m, .OnTurbo)] ∧
            (w'.impl self)._turboCount = (w.impl self)._turboCount + 1
        else mid = [] ∧ (w'.impl self)._turboCount = (w.impl self)._turboCount) := by
  have := ProcessEvent_Pressed_spec env self e _ w' h
  simpa using this

/-- The body shared by the `Released` reactions of `BtnPress`, `DblPressPress` and the master in
`SimPress`: basic release reaction, release classification, change to the state it returns. -/
theorem releasedTick_spec (env : Env) (self : Nat) (e : Released) (w w' : World)
    (h : (do
      let (next, w) ← ProcessEvent_Released env self e (DigitalButtonState.react_Released env self w)
      pure (changeState self next w) : Except Fault World) = .ok w') :
    ∃ m, (w.impl self)._keyToRelease = some m ∧
    w'.common.chordStack = (DigitalButtonState.react_Released env self w).common.chordStack ∧
    (∀ b, b ≠ self → w'.buttons b = w.buttons b) ∧
    (w'.impl self)._simPressMaster = (w.impl self)._simPressMaster ∧
    ∃ ext,
      if (w.impl self)._turboCount = 0 then
        w'.getState self = .TapRelease ∧
        w'.fired = w.fired ++ [(self, m, .OnRelease), (self, m, .OnTap)] ∧
        (w'.impl self)._press_times = e.time_now ∧ (w'.impl self)._keyToRelease = some m ∧
        (w'.impl self)._turboCount = 0 ∧
        (w'.impl self)._instantReleaseQueue = (w.impl self)._instantReleaseQueue ++ ext
      else
        w'.fired = w.fired ++ [(self, m, .OnRelease), (self, m, .OnHoldRelease)] ∧
        if (w.impl self)._instantReleaseQueue ++ ext = [] then
          w'.getState self = .NoPress ∧ (w'.impl self)._keyToRelease = none ∧
          (w'.impl self)._instantReleaseQueue = [] ∧ (w'.impl self)._turboCount = 0 ∧
          (w'.impl self)._press_times = (w.impl self)._press_times
        else
          w'.getState self = .InstRelease ∧ (w'.impl self)._press_times = e.time_now ∧
          (w'.impl self)._keyToRelease = some m ∧
          (w'.impl self)._instantReleaseQueue = (w.impl self)._instantReleaseQueue ++ ext ∧
          (w'.impl self)._turboCount = (w.impl self)._turboCount := by
  simp only [bind_eq_ok, pure_eq_ok] at h
  obtain ⟨⟨next, w1⟩, h1, rfl⟩ := h
  obtain ⟨m, hm, c, o, st, ma, ext, rest⟩ := ProcessEvent_Released_spec env self e _ w1 next h1
  refine ⟨m, by simpa using hm, by simpa using c,
    fun b hb => by rw [changeState_buttons_ne _ _ _ _ hb, o b hb]; simp,
    by simpa using ma, ext, ?_⟩
  simp only [react_Released_impl, react_Released_fired] at rest
  split_ifs at rest ⊢ with ht he
  · obtain ⟨rfl, r⟩ := rest
    exact ⟨changeState_getState_self _ _ _ (by simp), by simpa using r⟩
  · obtain ⟨hf, rfl, r⟩ := rest
    exact ⟨by simpa using hf, changeState_getState_self _ _ _ (by simp), by simpa using r⟩
  · obtain ⟨hf, rfl, r⟩ := rest
    exact ⟨by simpa using hf, changeState_getState_self _ _ _ (by simp), by simpa using r⟩

theorem BtnPress_react_Released_eq (env : Env) (self : Nat) (e : Released) (w : World) :
    BtnPress.react_Released env self e w = (do
      let (next, w) ← ProcessEvent_Released env self e (DigitalButtonState.react_Released env self w)
      pure (changeState self next w)) := rfl

theorem DblPressPress_react_Released_eq (env : Env) (self : Nat) (e : Released) (w : World) :
    DblPressPress.react_Released env self e w = (do
      let (next, w) ← ProcessEvent_Released env self e (DigitalButtonState.react_Released env self w)
      pure (changeState self next w)) := rfl

theorem plainPress_after (env : Env) (self : Nat) (w w' : World)
    (h : GetPressMapping_ProcessEvent env self .OnPress (changeState self .BtnPress w) = .ok w') :
    ∃ m, PlainPress env self m w w' ∧ (w'.impl self)._press_times = (w.impl self)._press_times := by
  obtain ⟨m, hres, fk⟩ := GetPressMapping_ProcessEvent_spec env self _ _ w' h
  obtain ⟨ext, hext⟩ := fk.queue
  refine ⟨m, ⟨by simpa using hres, by simpa using fk.chord,
    fun b hb => (fk.others b hb).trans (changeState_buttons_ne _ _ _ _ hb), ?_,
    by simpa using fk.turbo, fk.key, by simpa using fk.master, ⟨ext, by simpa using hext⟩,
    by simpa using fk.fired⟩, by simpa using fk.press⟩
  rw [fk.state]; exact changeState_getState_self _ _ _ (by decide)

theorem plainPress_before (env : Env) (self : Nat) (w w' : World)
    (h : (do
      let w ← GetPressMapping_ProcessEvent env self .OnPress w
      pure (changeState self .BtnPress w) : Except Fault World) = .ok w') :
    ∃ m, PlainPress env self m w w' ∧ (w'.impl self)._press_times = (w.impl self)._press_times := by
  simp only [bind_eq_ok, pure_eq_ok] at h
  obtain ⟨w1, h1, rfl⟩ := h
  obtain ⟨m, hres, fk⟩ := GetPressMapping_ProcessEvent_spec env self _ _ w1 h1
  obtain ⟨ext, hext⟩ := fk.queue
  exact ⟨m, ⟨hres, by simpa using fk.chord,
    fun b hb => (changeState_buttons_ne _ _ _ _ hb).trans (fk.others b hb),
    changeState_getState_self _ _ _ (by decide),
    by simpa using fk.turbo, by simpa using fk.key, by simpa using fk.master,
    ⟨ext, by simpa using hext⟩, by simpa using fk.fired⟩, by simpa using fk.press⟩

theorem plainPress_reset (env : Env) (self : Nat) (now : Int) (w w' : World)
    (h : GetPressMapping_ProcessEvent env self .OnPress
      ((changeState self .BtnPress w).setImpl self fun i => { i with _press_times := now }) = .ok w') :
    ∃ m, PlainPress env self m w w' ∧ (w'.impl self)._press_times = now := by
  obtain ⟨m, hres, fk⟩ := GetPressMapping_ProcessEvent_spec env self _ _ w' h
  obtain ⟨ext, hext⟩ := fk.queue
  refine ⟨m, ⟨by simpa using hres, by simpa using fk.chord,
    fun b hb => by
      rw [fk.others b hb, setImpl_buttons_ne _ _ _ _ hb, changeState_buttons_ne _ _ _ _ hb], ?_,
    by simpa using fk.turbo, fk.key, by simpa using fk.master, ⟨ext, by simpa using hext⟩,
    by simpa using fk.fired⟩, by simpa using fk.press⟩
  rw [fk.state, setImpl_getState]; exact changeState_getState_self _ _ _ (by decide)

theorem dblPressPress_spec (env : Env) (self : Nat) (e : Pressed) (w w' : World)
    (h : dblPressPress env self e w = .ok w') :
    ∃ m, DoublePress env self m e.time_now w w' := by
  unfold dblPressPress at h
  dsimp only at h
  split at h
  · simp only [throw_ne_ok] at h
  · next dbl hdbl =>
    have f := Frame_ProcessEvent env dbl.2 .OnPress self _ w' h
    obtain ⟨ext, hext⟩ := f.queue
    refine ⟨dbl.2, ⟨⟨dbl.1, hdbl⟩, by simpa using f.chord, fun b hb => by
        rw [f.others b hb, setImpl_buttons_ne _ _ _ _ hb, setImpl_buttons_ne _ _ _ _ hb,
          changeState_buttons_ne _ _ _ _ hb], ?_,
      by simpa using f.turbo, by simpa using f.press, by simpa using f.key,
      by simpa using f.master, ⟨ext, by simpa using hext⟩, by simpa using f.fired⟩⟩
    rw [f.state, setImpl_getState, setImpl_getState]
    exact changeState_getState_self _ _ _ (by decide)

/-- About `DblPressStart::react(Pressed)`. -/
theorem DblPressStart_react_Pressed_spec (env : Env) (self : Nat) (e : Pressed) (w w' : World)
    (h : DblPressStart.react_Pressed env self e w = .ok w') :
    if GetPressDurationMS (w.impl self) e.time_now > env.dbl_press_window then
      ∃ m, PlainPress env self m (DigitalButtonState.react_Pressed env self w) w' ∧
        (w'.impl self)._press_times = (w.impl self)._press_times
    else w' = DigitalButtonState.react_Pressed env self w := by
  unfold DblPressStart.react_Pressed at h
  simp only [react_Pressed_impl] at h
  split_ifs at h ⊢ with hd
  · simpa using plainPress_before env self _ w' h
  · exact ((pure_eq_ok _ _).mp h).symm

/-- About `DblPressStart::react(Released)`. -/
theorem DblPressStart_react_Released_spec (env : Env) (self : Nat) (e : Released) (w w' : World)
    (h : DblPressStart.react_Released env self e w = .ok w') :
    if GetPressDurationMS (w.impl self) e.time_now > env.dbl_press_window then
      ∃ m, PlainPress env self m (DigitalButtonState.react_Released env self w) w' ∧
        (w'.impl self)._press_times = (w.impl self)._press_times
    else if GetPressDurationMS (w.impl self) e.time_now > e.holdTime then
      w' = changeState self .DblPressNoPressHold (DigitalButtonState.react_Released env self w)
    else
      w' = changeState self .DblPressNoPressTap (DigitalButtonState.react_Released env self w) := by
  unfold DblPressStart.react_Released at h
  simp only [react_Released_impl] at h
  split_ifs at h ⊢ with hd hh
  · simpa using plainPress_before env self _ w' h
  · exact ((pure_eq_ok _ _).mp h).symm
  · exact ((pure_eq_ok _ _).mp h).symm

/-- About `DblPressNoPressTap::react(Pressed)`: the chord stack is left alone. -/
theorem DblPressNoPressTap_react_Pressed_spec (env : Env) (self : Nat) (e : Pressed)
    (w w' : World) (h : DblPressNoPressTap.react_Pressed env self e w = .ok w') :
    if GetPressDurationMS (w.impl self) e.time_now > env.dbl_press_window then
      ∃ m, PlainPress env self m w w' ∧ (w'.impl self)._press_times = e.time_now
    else ∃ m, DoublePress env self m e.time_now w w' := by
  unfold DblPressNoPressTap.react_Pressed at h
  split_ifs at h ⊢ with hd
  · exact plainPress_reset env self _ w w' h
  · exact dblPressPress_spec env self e w w' h

/-- About `DblPressNoPressTap::react(Released)`: the chord stack is left alone. -/
theorem DblPressNoPressTap_react_Released_spec (env : Env) (self : Nat) (e : Released)
    (w w' : World) (h : DblPressNoPressTap.react_Released env self e w = .ok w') :
    if GetPressDurationMS (w.impl self) e.time_now > env.dbl_press_window then
      ∃ m, PlainPress env self m w w' ∧ (w'.impl self)._press_times = e.time_now
    else w' = w := by
  unfold DblPressNoPressTap.react_Released at h
  split_ifs at h ⊢ with hd
  · exact plainPress_reset env self _ w w' h
  · exact ((pure_eq_ok _ _).mp h).symm

/-- About `DblPressNoPressHold::react(Pressed)`. -/
theorem DblPressNoPressHold_react_Pressed_spec (env : Env) (self : Nat) (e : Pressed)
    (w w' : World) (h : DblPressNoPressHold.react_Pressed env self e w = .ok w') :
    if GetPressDurationMS (w.impl self) e.time_now > env.dbl_press_window then
      ∃ m, PlainPress env self m (DigitalButtonState.react_Pressed env self w) w' ∧
        (w'.impl self)._press_times = (w.impl self)._press_times
    else ∃ m, DoublePress env self m e.time_now (DigitalButtonState.react_Pressed env self w) w' := by
  unfold DblPressNoPressHold.react_Pressed at h
  simp only [react_Pressed_impl] at h
  split_ifs at h ⊢ with hd
  · simpa using plainPress_after env self _ w' h
  · exact dblPressPress_spec env self e _ w' h

/-- About `DblPressNoPressHold::react(Released)`. -/
theorem DblPressNoPressHold_react_Released_spec (env : Env) (self : Nat) (e : Released)
    (w w' : World) (h : DblPressNoPressHold.react_Released env self e w = .ok w') :
    if GetPressDurationMS (w.impl self) e.time_now > env.dbl_press_window then
      ∃ m, PlainPress env self m (DigitalButtonState.react_Released env self w) w' ∧
        (w'.impl self)._press_times = (w.impl self)._press_times
    else w' = DigitalButtonState.react_Released env self w := by
  unfold DblPressNoPressHold.react_Released at h
  simp only [react_Released_impl] at h
  split_ifs at h ⊢ with hd
  · simpa using plainPress_after env self _ w' h
  · exact ((pure_eq_ok _ _).mp h).symm

/-- About `WaitSim::react(Sync)` with the message of the rendezvous. -/
theorem WaitSim_react_Sync_spec (target : Nat) (e : Sync) (w w' : World) (e' : Sync)
    (h : WaitSim.react_Sync target e w = .ok (e', w')) :
    ∃ m next, e.activeMapping = some m ∧ e.nextState = some next ∧ e' = e ∧
      w' = changeState target next (w.setImpl target fun i =>
        { i with _simPressMaster := none
                 _press_times := e.pressTime
                 _keyToRelease := some m
                 _nameToRelease := e.nameToRelease }) := by
  unfold WaitSim.react_Sync at h
  split at h
  · next m next hm hn =>
    simp only [pure_eq_ok, Prod.mk.injEq] at h
    exact ⟨m, next, hm, hn, h.1.symm, h.2.symm⟩
  · simp only [throw_ne_ok] at h

/-- What a `Sync` can touch: the chord stack is kept, and no classifier but the target changes,
which itself changes only when it is in `WaitSim` or `SimPress`. -/
theorem sendEvent_Sync_frame (env : Env) (target : Nat) (e e' : Sync) (w w' : World)
    (h : sendEvent_Sync env target e w = .ok (e', w')) :
    w'.common.chordStack = w.common.chordStack ∧
    (∀ b, b ≠ target → w'.buttons b = w.buttons b) ∧
    (w' = w ∨ w.getState target = .WaitSim ∨ w.getState target = .SimPress) := by
  unfold sendEvent_Sync at h
  split at h
  · next hs =>
    obtain ⟨m, next, _, _, _, rfl⟩ := WaitSim_react_Sync_spec target e w w' e' h
    exact ⟨by simp, fun b hb => by
      rw [changeState_buttons_ne _ _ _ _ hb, setImpl_buttons_ne _ _ _ _ hb], Or.inr (Or.inl hs)⟩
  · next hs =>
    unfold SimPress.react_Sync at h
    simp only [bind_eq_ok, pure_eq_ok, Prod.mk.injEq] at h
    obtain ⟨⟨next, w1⟩, h1, _, rfl⟩ := h
    obtain ⟨m, _, c, o, _⟩ := ProcessEvent_Released_spec env target _ w w1 next h1
    exact ⟨by simpa using c, fun b hb => by rw [changeState_buttons_ne _ _ _ _ hb, o b hb],
      Or.inr (Or.inr hs)⟩
  · simp only [DigitalButtonState.react_Sync, throw_ne_ok] at h

theorem OthersKept_of_eq (self : Nat) (w w' : World)
    (h : ∀ b, b ≠ self → w'.buttons b = w.buttons b) : OthersKept self w w' :=
  fun b hb => Or.inl (h b hb)

theorem Untouched_refl (self : Nat) (w : World) : Untouched self w w := ⟨rfl, fun _ _ => rfl⟩

theorem Untouched_trans {self : Nat} {w1 w2 w3 : World} (h12 : Untouched self w1 w2)
    (h23 : Untouched self w2 w3) : Untouched self w1 w3 :=
  ⟨h23.1.trans h12.1, fun b hb => (h23.2 b hb).trans (h12.2 b hb)⟩

theorem Untouched_setImpl (self : Nat) (f : DigitalButtonImpl → DigitalButtonImpl) (w : World) :
    Untouched self w (w.setImpl self f) :=
  ⟨rfl, fun _ hb => setImpl_buttons_ne _ _ _ _ hb⟩

theorem Untouched_changeState (self : Nat) (next : BtnState) (w : World) :
    Untouched self w (changeState self next w) :=
  ⟨by simp, fun _ hb => changeState_buttons_ne _ _ _ _ hb⟩

theorem Untouched_ClearKey (self : Nat) (w : World) : Untouched self w (ClearKey self w) :=
  Untouched_setImpl _ _ _

theorem Untouched_CheckInstantRelease (env : Env) (self : Nat) (ie : BtnEvent) (w w' : World)
    (h : CheckInstantRelease env self ie w = .ok w') : Untouched self w w' := by
  obtain ⟨_, k, _⟩ := CheckInstantRelease_Kept env self ie w w' h
  exact ⟨k.chord, k.others⟩

theorem Untouched_GetPressMapping_ProcessEvent (env : Env) (self : Nat) (evt : BtnEvent)
    (w w' : World) (h : GetPressMapping_ProcessEvent env self evt w = .ok w') :
    Untouched self w w' := by
  obtain ⟨_, _, fk⟩ := GetPressMapping_ProcessEvent_spec env self evt w w' h
  exact ⟨fk.chord, fk.others⟩

theorem Untouched_ProcessEvent_Pressed (env : Env) (self : Nat) (e : Pressed) (w w' : World)
    (h : ProcessEvent_Pressed env self e w = .ok w') : Untouched self w w' := by
  obtain ⟨c, o, _⟩ := ProcessEvent_Pressed_spec env self e w w' h
  exact ⟨c, o⟩

theorem Untouched_ProcessEvent_Released (env : Env) (self : Nat) (e : Released) (w w' : World)
    (next : BtnState) (h : ProcessEvent_Released env self e w = .ok (next, w')) :
    Untouched self w w' := by
  obtain ⟨_, _, c, o, _⟩ := ProcessEvent_Released_spec env self e w w' next h
  exact ⟨c, o⟩

theorem Untouched_startPress (env : Env) (self : Nat) (w w' : World)
    (h : startPress env self w = .ok w') : Untouched self w w' := by
  obtain ⟨c, o, _⟩ := startPress_spec env self w w' h
  exact ⟨c, o⟩

theorem Untouched_releasedTick (env : Env) (self : Nat) (e : Released) (w w' : World)
    (h : (do
      let (next, w) ← ProcessEvent_Released env self e w
      pure (changeState self next w) : Except Fault World) = .ok w') : Untouched self w w' := by
  simp only [bind_eq_ok, pure_eq_ok] at h
  obtain ⟨⟨next, w1⟩, h1, rfl⟩ := h
  exact Untouched_trans (Untouched_ProcessEvent_Released env self e w w1 next h1)
    (Untouched_changeState _ _ _)

theorem TapRelease_react_Pressed_frame (env : Env) (self : Nat) (e : Pressed) (w w' : World)
    (h : TapRelease.react_Pressed env self e w = .ok w') :
    Untouched self (DigitalButtonState.react_Pressed env self w) w' := by
  unfold TapRelease.react_Pressed at h
  simp only [bind_eq_ok, pure_eq_ok] at h
  obtain ⟨w1, h1, w2, h2, w3, h3, rfl⟩ := h
  exact Untouched_trans (Untouched_trans (Untouched_trans
    (Untouched_CheckInstantRelease _ _ _ _ _ h1) (Untouched_CheckInstantRelease _ _ _ _ _ h2))
    (Untouched_GetPressMapping_ProcessEvent _ _ _ _ _ h3)) (Untouched_ClearKey _ _)

theorem TapRelease_react_Released_frame (env : Env) (self : Nat) (e : Released) (w w' : World)
    (h : TapRelease.react_Released env self e w = .ok w') :
    Untouched self (DigitalButtonState.react_Released env self w) w' := by
  unfold TapRelease.react_Released at h
  simp only [bind_eq_ok] at h
  obtain ⟨w1, h1, h⟩ := h
  have u1 : Untouched self (DigitalButtonState.react_Released env self w) w1 := by
    rcases ite_ok_cases h1 with ⟨_, h1⟩ | ⟨_, h1⟩
    · simp only [bind_eq_ok] at h1
      obtain ⟨w0, h0, h1⟩ := h1
      exact Untouched_trans (Untouched_CheckInstantRelease _ _ _ _ _ h0)
        (Untouched_CheckInstantRelease _ _ _ _ _ h1)
    · simp only [pure_eq_ok] at h1; subst h1; exact Untouched_refl _ _
  refine Untouched_trans u1 ?_
  rcases ite_ok_cases h with ⟨_, h⟩ | ⟨_, h⟩
  · simp only [bind_eq_ok, pure_eq_ok] at h
    obtain ⟨w2, h2, rfl⟩ := h
    exact Untouched_trans (Untouched_GetPressMapping_ProcessEvent _ _ _ _ _ h2)
      (Untouched_trans (Untouched_changeState _ _ _) (Untouched_ClearKey _ _))
  · simp only [pure_eq_ok] at h; subst h; exact Untouched_refl _ _

theorem InstRelease_react_Pressed_frame (env : Env) (self : Nat) (e : Pressed) (w w' : World)
    (h : InstRelease.react_Pressed env self e w = .ok w') :
    Untouched self (DigitalButtonState.react_Pressed env self w) w' := by
  unfold InstRelease.react_Pressed at h
  rcases ite_ok_cases h with ⟨_, h⟩ | ⟨_, h⟩
  · simp only [bind_eq_ok, pure_eq_ok] at h
    obtain ⟨w1, h1, rfl⟩ := h
    exact Untouched_trans (Untouched_CheckInstantRelease _ _ _ _ _ h1)
      (Untouched_trans (Untouched_ClearKey _ _) (Untouched_changeState _ _ _))
  · simp only [pure_eq_ok] at h; subst h; exact Untouched_refl _ _

theorem Untouched_OthersKept {self : Nat} {base w w' : World} (hb : base.buttons = w.buttons)
    (h : Untouched self base w') : OthersKept self w w' :=
  fun _ hne => Or.inl (by rw [h.2 _ hne, hb])

/-- A `Sync` sent by `self` to another classifier, seen from `self`. -/
theorem sendEvent_Sync_OthersKept (env : Env) (self target : Nat) (e e' : Sync) (w w' : World)
    (h : sendEvent_Sync env target e w = .ok (e', w')) :
    w'.common.chordStack = w.common.chordStack ∧ OthersKept self w w' := by
  obtain ⟨c, o, hs⟩ := sendEvent_Sync_frame env target e e' w w' h
  refine ⟨c, fun b _ => ?_⟩
  by_cases hb : b = target
  · subst hb
    rcases hs with rfl | hs
    · exact Or.inl rfl
    · exact Or.inr hs
  · exact Or.inl (o b hb)

theorem OthersKept_trans {self : Nat} {w1 w2 w3 : World} (h12 : OthersKept self w1 w2)
    (h23 : OthersKept self w2 w3) : OthersKept self w1 w3 := by
  intro b hb
  rcases h12 b hb with h | h
  · rcases h23 b hb with h' | h'
    · exact Or.inl (h'.trans h)
    · right; simpa [World.getState, h] using h'
  · exact Or.inr h

theorem OthersKept_setImpl_left {self : Nat} {w w' : World} (f : DigitalButtonImpl → DigitalButtonImpl)
    (h : OthersKept self (w.setImpl self f) w') : OthersKept self w w' := by
  intro b hb
  rcases h b hb with h | h
  · left; rw [h, setImpl_buttons_ne _ _ _ _ hb]
  · right; simpa using h

theorem OthersKept_changeState_left {self : Nat} {w w' : World} (next : BtnState)
    (h : OthersKept self (changeState self next w) w') : OthersKept self w w' := by
  intro b hb
  rcases h b hb with h | h
  · left; rw [h, changeState_buttons_ne _ _ _ _ hb]
  · right; simpa [changeState_getState_ne _ _ _ _ hb] using h

theorem OthersKept_Untouched_right {self : Nat} {w1 w2 w3 : World} (h12 : OthersKept self w1 w2)
    (h23 : Untouched self w2 w3) : OthersKept self w1 w3 :=
  OthersKept_trans h12 (fun b hb => Or.inl (h23.2 b hb))

theorem WaitSim_react_Pressed_frame (env : Env) (self : Nat) (e : Pressed) (w w' : World)
    (h : WaitSim.react_Pressed env self e w = .ok w') :
    w'.common.chordStack = (DigitalButtonState.react_Pressed env self w).common.chordStack ∧
    OthersKept self w w' := by
  unfold WaitSim.react_Pressed at h
  dsimp only at h
  split at h
  · next simBtn hlook =>
    split at h
    · simp only [throw_ne_ok] at h
    · next simMapping hsim =>
      rcases ite_ok_cases h with ⟨_, h⟩ | ⟨hne, h⟩
      · simp only [throw_ne_ok] at h
      · simp only [bind_eq_ok] at h
        obtain ⟨⟨e1, w1⟩, h1, h2⟩ := h
        obtain ⟨c1, o1⟩ := sendEvent_Sync_OthersKept env self simBtn _ e1 _ w1 h1
        obtain ⟨m, _, f⟩ := keyToRelease_ProcessEvent_spec env self _ w1 w' h2
        constructor
        · rw [f.chord, c1]; simp
        · have o2 : OthersKept self w1 w' := fun b hb => Or.inl (f.others b hb)
          have o := OthersKept_trans o1 o2
          have o' := OthersKept_changeState_left _
            (OthersKept_setImpl_left _ (OthersKept_setImpl_left _ o))
          intro b hb
          simpa [World.getState] using o' b hb
  · rcases ite_ok_cases h with ⟨_, h⟩ | ⟨_, h⟩
    · have u := Untouched_startPress env self _ w' h
      exact ⟨u.1, Untouched_OthersKept (by simp) u⟩
    · simp only [pure_eq_ok] at h; subst h
      exact ⟨rfl, fun b _ => Or.inl (by simp)⟩

theorem SimPress_react_Pressed_frame (env : Env) (self : Nat) (e : Pressed) (w w' : World)
    (h : SimPress.react_Pressed env self e w = .ok w') :
    Untouched self (DigitalButtonState.react_Pressed env self w) w' := by
  unfold SimPress.react_Pressed at h
  dsimp only at h
  split at h
  · rcases ite_ok_cases h with ⟨_, h⟩ | ⟨_, h⟩
    · simp only [pure_eq_ok] at h; subst h
      exact Untouched_trans (Untouched_changeState _ _ _) (Untouched_setImpl _ _ _)
    · simp only [pure_eq_ok] at h; subst h; exact Untouched_refl _ _
  · exact Untouched_ProcessEvent_Pressed _ _ _ _ _ h

theorem SimPress_react_Released_frame (env : Env) (self : Nat) (e : Released) (w w' : World)
    (h : SimPress.react_Released env self e w = .ok w') :
    w'.common.chordStack = (DigitalButtonState.react_Released env self w).common.chordStack ∧
    OthersKept self w w' := by
  unfold SimPress.react_Released at h
  dsimp only at h
  split at h
  · next master hm =>
    rcases ite_ok_cases h with ⟨_, h⟩ | ⟨_, h⟩
    · simp only [pure_eq_ok] at h; subst h
      have u : Untouched self (DigitalButtonState.react_Released env self w) _ :=
        Untouched_trans (Untouched_changeState self .SimRelease _)
          (Untouched_setImpl self (fun i => { i with _simPressMaster := none }) _)
      exact ⟨u.1, Untouched_OthersKept (by simp) u⟩
    · rcases ite_ok_cases h with ⟨_, h⟩ | ⟨_, h⟩
      · simp only [throw_ne_ok] at h
      · simp only [bind_eq_ok] at h
        obtain ⟨⟨e1, w1⟩, h1, h2⟩ := h
        obtain ⟨c1, o1⟩ := sendEvent_Sync_OthersKept env self master _ e1 _ w1 h1
        split at h2
        · next next _ =>
          simp only [pure_eq_ok] at h2; subst h2
          constructor
          · simp [c1]
          · have o := OthersKept_Untouched_right o1 (Untouched_changeState self next w1)
            intro b hb
            simpa [World.getState] using o b hb
        · simp only [throw_ne_ok] at h2
  · have u := Untouched_releasedTick env self e _ w' h
    exact ⟨u.1, Untouched_OthersKept (by simp) u⟩

/-- Chord stack and other classifiers after any `Pressed` reaction. -/
theorem sendEvent_Pressed_frame (env : Env) (self : Nat) (e : Pressed) (w w' : World)
    (h : sendEvent_Pressed env self e w = .ok w') :
    ChordKept (DigitalButtonState.react_Pressed env self w) w w' ∧ OthersKept self w w' := by
  have key : ∀ {w'}, Untouched self (DigitalButtonState.react_Pressed env self w) w' →
      ChordKept (DigitalButtonState.react_Pressed env self w) w w' ∧ OthersKept self w w' :=
    fun u => ⟨Or.inl u.1, Untouched_OthersKept (by simp) u⟩
  have key' : ∀ {w'}, Untouched self w w' →
      ChordKept (DigitalButtonState.react_Pressed env self w) w w' ∧ OthersKept self w w' :=
    fun u => ⟨Or.inr u.1, Untouched_OthersKept rfl u⟩
  unfold sendEvent_Pressed at h
  split at h
  · obtain ⟨c, o, _⟩ := NoPress_react_Pressed_spec env self e w w' h
    exact ⟨Or.inl c, OthersKept_of_eq _ _ _ o⟩
  · exact key (Untouched_ProcessEvent_Pressed _ _ _ _ _ h)
  · exact key (TapRelease_react_Pressed_frame _ _ _ _ _ h)
  · obtain ⟨c, o⟩ := WaitSim_react_Pressed_frame env self e w w' h
    exact ⟨Or.inl c, o⟩
  · exact key (SimPress_react_Pressed_frame _ _ _ _ _ h)
  · simp only [pure_eq_ok] at h; subst h; exact key (Untouched_refl _ _)
  · have s := DblPressStart_react_Pressed_spec env self e w w' h
    split_ifs at s
    · obtain ⟨m, p, _⟩ := s; exact key ⟨p.chord, p.others⟩
    · subst s; exact key (Untouched_refl _ _)
  · have s := DblPressNoPressTap_react_Pressed_spec env self e w w' h
    split_ifs at s
    · obtain ⟨m, p, _⟩ := s; exact key' ⟨p.chord, p.others⟩
    · obtain ⟨m, p⟩ := s; exact key' ⟨p.chord, p.others⟩
  · have s := DblPressNoPressHold_react_Pressed_spec env self e w w' h
    split_ifs at s
    · obtain ⟨m, p, _⟩ := s; exact key ⟨p.chord, p.others⟩
    · obtain ⟨m, p⟩ := s; exact key ⟨p.chord, p.others⟩
  · exact key (Untouched_ProcessEvent_Pressed _ _ _ _ _ h)
  · exact key (InstRelease_react_Pressed_frame _ _ _ _ _ h)
  · simp only [throw_ne_ok] at h

/-- Chord stack and other classifiers after any `Released` reaction. -/
theorem sendEvent_Released_frame (env : Env) (self : Nat) (e : Released) (w w' : World)
    (h : sendEvent_Released env self e w = .ok w') :
    ChordKept (DigitalButtonState.react_Released env self w) w w' ∧ OthersKept self w w' := by
  have key : ∀ {w'}, Untouched self (DigitalButtonState.react_Released env self w) w' →
      ChordKept (DigitalButtonState.react_Released env self w) w w' ∧ OthersKept self w w' :=
    fun u => ⟨Or.inl u.1, Untouched_OthersKept (by simp) u⟩
  have key' : ∀ {w'}, Untouched self w w' →
      ChordKept (DigitalButtonState.react_Released env self w) w w' ∧ OthersKept self w w' :=
    fun u => ⟨Or.inr u.1, Untouched_OthersKept rfl u⟩
  unfold sendEvent_Released at h
  split at h
  · simp only [pure_eq_ok] at h; subst h; exact key (Untouched_refl _ _)
  · exact key (Untouched_releasedTick _ _ _ _ _ h)
  · exact key (TapRelease_react_Released_frame _ _ _ _ _ h)
  · exact key (Untouched_startPress _ _ _ _ h)
  · obtain ⟨c, o⟩ := SimPress_react_Released_frame env self e w w' h
    exact ⟨Or.inl c, o⟩
  · unfold SimRelease.react_Released at h
    simp only [pure_eq_ok] at h; subst h
    exact key (Untouched_trans (Untouched_changeState _ _ _) (Untouched_ClearKey _ _))
  · have s := DblPressStart_react_Released_spec env self e w w' h
    split_ifs at s
    · obtain ⟨m, p, _⟩ := s; exact key ⟨p.chord, p.others⟩
    · subst s; exact key (Untouched_changeState _ _ _)
    · subst s; exact key (Untouched_changeState _ _ _)
  · have s := DblPressNoPressTap_react_Released_spec env self e w w' h
    split_ifs at s
    · obtain ⟨m, p, _⟩ := s; exact key' ⟨p.chord, p.others⟩
    · subst s; exact key' (Untouched_refl _ _)
  · have s := DblPressNoPressHold_react_Released_spec env self e w w' h
    split_ifs at s
    · obtain ⟨m, p, _⟩ := s; exact key ⟨p.chord, p.others⟩
    · subst s; exact key (Untouched_refl _ _)
  · exact key (Untouched_releasedTick _ _ _ _ _ h)
  · simp only [pure_eq_ok] at h; subst h; exact key (Untouched_refl _ _)
  · simp only [throw_ne_ok] at h

theorem getLast?_cons_of_getLast? {α : Type} (a n : α) (l : List α) (h : l.getLast? = some n) :
    (a :: l).getLast? = some n := by
  cases l with
  | nil => simp at h
  | cons b t => simpa [List.getLast?_cons_cons] using h

theorem getLast?_erase_of_ne {α : Type} [DecidableEq α] (a n : α) (hne : a ≠ n) :
    ∀ l : List α, l.getLast? = some n → (l.erase a).getLast? = some n := by
  intro l
  induction l with
  | nil => intro h; simp at h
  | cons b t ih =>
    intro h
    cases t with
    | nil =>
      simp at h
      subst h
      have : (b == a) = false := by simpa using fun hba => hne hba.symm
      simp [List.erase_cons, this]
    | cons c t' =>
      rw [List.getLast?_cons_cons] at h
      by_cases hba : b = a
      · subst hba; simpa using h
      · have : (b == a) = false := by simpa using hba
        rw [List.erase_cons, this]
        simp only [Bool.false_eq_true, ↓reduceIte]
        exact getLast?_cons_of_getLast? _ _ _ (ih h)

/-- One input to a classifier whose id is not `NONE` keeps `NONE` at the back of the chord stack. -/
theorem step_keeps_NONE_last (env : Env) (w w' : World) (i : Input)
    (hid : env.id i.button ≠ env.NONE) (h : step env w i = .ok w')
    (hw : w.common.chordStack.getLast? = some env.NONE) :
    w'.common.chordStack.getLast? = some env.NONE := by
  cases i with
  | Pressed b e =>
    obtain ⟨c, _⟩ := sendEvent_Pressed_frame env b e w w' h
    rcases c with c | c
    · rw [c, react_Pressed_chord]
      split_ifs
      · exact getLast?_cons_of_getLast? _ _ _ hw
      · exact hw
    · rw [c]; exact hw
  | Released b e =>
    obtain ⟨c, _⟩ := sendEvent_Released_frame env b e w w' h
    rcases c with c | c
    · rw [c, react_Released_chord]
      split_ifs
      · exact getLast?_erase_of_ne _ _ hid _ hw
      · exact hw
    · rw [c]; exact hw

theorem run_keeps_NONE_last (env : Env) (inputs : List Input) :
    ∀ (w w' : World), (∀ i ∈ inputs, env.id i.button ≠ env.NONE) → run env w inputs = .ok w' →
      w.common.chordStack.getLast? = some env.NONE →
      w'.common.chordStack.getLast? = some env.NONE := by
  induction inputs with
  | nil => intro w w' _ h hw; simp only [run, pure_eq_ok] at h; subst h; exact hw
  | cons i rest ih =>
    intro w w' hids h hw
    simp only [run, bind_eq_ok] at h
    obtain ⟨w1, h1, h2⟩ := h
    exact ih w1 w' (fun j hj => hids j (List.mem_cons_of_mem _ hj)) h2
      (step_keeps_NONE_last env w w1 i (hids i (List.mem_cons_self _ _)) h1 hw)

/-- C1. Starting from the shared state built by the constructor of `Common` (chord stack
`[NONE]`), after every finite sequence of `Pressed` and `Released` inputs delivered to
classifiers whose id is not `NONE`, the last element of the chord stack is `NONE`; in
particular the chord stack contains `NONE`. -/
theorem chordStack_last_is_NONE (env : Env) (vigem mainMotion : Bool) (inputs : List Input)
    (w' : World) (hids : ∀ i ∈ inputs, env.id i.button ≠ env.NONE)
    (h : run env (World.init env vigem mainMotion) inputs = .ok w') :
    w'.common.chordStack.getLast? = some env.NONE ∧ env.NONE ∈ w'.common.chordStack := by
  have hl := run_keeps_NONE_last env inputs _ w' hids h (by simp [World.init, Common.Common])
  exact ⟨hl, List.mem_of_getLast?_eq_some hl⟩

theorem Idle_ClearKey (self : Nat) (w : World) : Idle (ClearKey self w) self := by
  obtain ⟨_, _, _, _, _, ky, qu, _, tu⟩ := ClearKey_facts self w
  exact ⟨ky, tu, qu⟩

theorem TapRelease_react_Pressed_self (env : Env) (self : Nat) (e : Pressed) (w w' : World)
    (h : TapRelease.react_Pressed env self e w = .ok w') :
    w'.getState self = w.getState self ∧ Idle w' self := by
  unfold TapRelease.react_Pressed at h
  simp only [bind_eq_ok, pure_eq_ok] at h
  obtain ⟨w1, h1, w2, h2, w3, h3, rfl⟩ := h
  obtain ⟨_, k1, _⟩ := CheckInstantRelease_Kept env self _ _ w1 h1
  obtain ⟨_, k2, _⟩ := CheckInstantRelease_Kept env self _ _ w2 h2
  obtain ⟨_, _, fk⟩ := GetPressMapping_ProcessEvent_spec env self _ w2 w3 h3
  refine ⟨?_, Idle_ClearKey _ _⟩
  rw [(ClearKey_facts self w3).2.2.1, fk.state, k2.state, k1.state]; simp

theorem TapRelease_react_Released_self (env : Env) (self : Nat) (e : Released) (w w' : World)
    (h : TapRelease.react_Released env self e w = .ok w') :
    (w'.getState self = .NoPress ∧ Idle w' self) ∨ w'.getState self = w.getState self := by
  unfold TapRelease.react_Released at h
  simp only [bind_eq_ok] at h
  obtain ⟨w1, h1, h⟩ := h
  have s1 : w1.getState self = w.getState self := by
    rcases ite_ok_cases h1 with ⟨_, h1⟩ | ⟨_, h1⟩
    · simp only [bind_eq_ok] at h1
      obtain ⟨w0, h0, h1⟩ := h1
      obtain ⟨_, k0, _⟩ := CheckInstantRelease_Kept env self _ _ w0 h0
      obtain ⟨_, k1, _⟩ := CheckInstantRelease_Kept env self _ _ w1 h1
      rw [k1.state, k0.state]; simp
    · simp only [pure_eq_ok] at h1; subst h1; simp
  rcases ite_ok_cases h with ⟨_, h⟩ | ⟨_, h⟩
  · simp only [bind_eq_ok, pure_eq_ok] at h
    obtain ⟨w2, h2, rfl⟩ := h
    left
    refine ⟨?_, Idle_ClearKey _ _⟩
    rw [(ClearKey_facts self _).2.2.1]
    exact changeState_getState_self _ _ _ (by decide)
  · simp only [pure_eq_ok] at h; subst h; exact Or.inr s1

theorem InstRelease_react_Pressed_self (env : Env) (self : Nat) (e : Pressed) (w w' : World)
    (h : InstRelease.react_Pressed env self e w = .ok w') :
    (w'.getState self = .NoPress ∧ Idle w' self) ∨
      w' = DigitalButtonState.react_Pressed env self w := by
  unfold InstRelease.react_Pressed at h
  rcases ite_ok_cases h with ⟨_, h⟩ | ⟨_, h⟩
  · simp only [bind_eq_ok, pure_eq_ok] at h
    obtain ⟨w1, h1, rfl⟩ := h
    left
    refine ⟨changeState_getState_self _ _ _ (by decide), ?_⟩
    have := Idle_ClearKey self w1
    simpa [Idle] using this
  · simp only [pure_eq_ok] at h; exact Or.inr h.symm

theorem Settled_of_buttons_eq (env : Env) (w w' : World) (b : Nat)
    (h : w'.buttons b = w.buttons b) (hs : Settled env w b) : Settled env w' b := by
  intro hn
  have := hs hn
  simpa [Idle, World.getState, World.impl, h] using this

theorem Settled_of_state (env : Env) (w' : World) (b : Nat) (s : BtnState)
    (h : w'.getState b = s) (hs : s = .BtnPress ∨ s = .TapRelease ∨ s = .DblPressStart ∨
      s = .DblPressNoPressTap ∨ s = .DblPressNoPressHold ∨ s = .DblPressPress ∨ s = .InstRelease) :
    Settled env w' b := by
  intro _
  rw [h]
  rcases hs with rfl | rfl | rfl | rfl | rfl | rfl | rfl <;> simp

theorem Settled_of_Idle (env : Env) (w' : World) (b : Nat)
    (h : w'.getState b = .NoPress) (hi : Idle w' b) : Settled env w' b := by
  intro _
  rw [h]
  exact ⟨by simp, fun _ => hi⟩

theorem Settled_of_state_eq (env : Env) (w w' : World) (b : Nat) (hs : Settled env w b)
    (h : w'.getState b = w.getState b) (hne : w.getState b ≠ .NoPress) : Settled env w' b := by
  intro hn
  rw [h]
  exact ⟨(hs hn).1, fun h0 => absurd h0 hne⟩

theorem sendEvent_Pressed_Settled_self (env : Env) (self : Nat) (e : Pressed) (w w' : World)
    (h : sendEvent_Pressed env self e w = .ok w') (hs : Settled env w self) :
    Settled env w' self := by
  by_cases hn : (env.mapping self).HasSimMappings = false
  swap
  · intro hn'; exact absurd hn' hn
  have hs' := hs hn
  unfold sendEvent_Pressed at h
  split at h
  · next hst =>
    obtain ⟨_, _, _, _, _, rest⟩ := NoPress_react_Pressed_spec env self e w w' h
    rw [if_neg (by simp [hn])] at rest
    split_ifs at rest
    · exact Settled_of_state env w' self _ rest.1 (by simp)
    · obtain ⟨m, _, st, _⟩ := rest
      exact Settled_of_state env w' self _ st (by simp)
  · next hst =>
    obtain ⟨_, _, st, _⟩ := pressedTick_spec env self e w w' h
    exact Settled_of_state env w' self _ (st.trans hst) (by simp)
  · next hst =>
    obtain ⟨st, _⟩ := TapRelease_react_Pressed_self env self e w w' h
    exact Settled_of_state env w' self _ (st.trans hst) (by simp)
  · next hst => exact absurd hst hs'.1.1
  · next hst => exact absurd hst hs'.1.2.1
  · next hst => exact absurd hst hs'.1.2.2.1
  · next hst =>
    have s := DblPressStart_react_Pressed_spec env self e w w' h
    split_ifs at s
    · obtain ⟨m, p, _⟩ := s; exact Settled_of_state env w' self _ p.state (by simp)
    · subst s; exact Settled_of_state env _ self _ (by simpa using hst) (by simp)
  · next hst =>
    have s := DblPressNoPressTap_react_Pressed_spec env self e w w' h
    split_ifs at s
    · obtain ⟨m, p, _⟩ := s; exact Settled_of_state env w' self _ p.state (by simp)
    · obtain ⟨m, p⟩ := s; exact Settled_of_state env w' self _ p.state (by simp)
  · next hst =>
    have s := DblPressNoPressHold_react_Pressed_spec env self e w w' h
    split_ifs at s
    · obtain ⟨m, p, _⟩ := s; exact Settled_of_state env w' self _ p.state (by simp)
    · obtain ⟨m, p⟩ := s; exact Settled_of_state env w' self _ p.state (by simp)
  · next hst =>
    obtain ⟨_, _, st, _⟩ := pressedTick_spec env self e w w' h
    exact Settled_of_state env w' self _ (st.trans hst) (by simp)
  · next hst =>
    rcases InstRelease_react_Pressed_self env self e w w' h with ⟨st, hi⟩ | rfl
    · exact Settled_of_Idle env w' self st hi
    · exact Settled_of_state env _ self _ (by simpa using hst) (by simp)
  · simp only [throw_ne_ok] at h

theorem sendEvent_Released_Settled_self (env : Env) (self : Nat) (e : Released) (w w' : World)
    (h : sendEvent_Released env self e w = .ok w') (hs : Settled env w self) :
    Settled env w' self := by
  by_cases hn : (env.mapping self).HasSimMappings = false
  swap
  · intro hn'; exact absurd hn' hn
  have hs' := hs hn
  have tick : ∀ (hst : w.getState self = .BtnPress ∨ w.getState self = .DblPressPress)
      (h : (do
        let (next, w) ← ProcessEvent_Released env self e (DigitalButtonState.react_Released env self w)
        pure (changeState self next w) : Except Fault World) = .ok w'), Settled env w' self := by
    intro _ h
    obtain ⟨m, _, _, _, _, ext, rest⟩ := releasedTick_spec env self e w w' h
    split_ifs at rest
    · exact Settled_of_state env w' self _ rest.1 (by simp)
    · obtain ⟨_, st, ky, qu, tu, _⟩ := rest
      exact Settled_of_Idle env w' self st ⟨ky, tu, qu⟩
    · exact Settled_of_state env w' self _ rest.2.1 (by simp)
  unfold sendEvent_Released at h
  split at h
  · next hst =>
    simp only [pure_eq_ok] at h; subst h
    exact Settled_of_buttons_eq env w _ self (by simp) hs
  · next hst => exact tick (Or.inl hst) h
  · next hst =>
    rcases TapRelease_react_Released_self env self e w w' h with ⟨st, hi⟩ | st
    · exact Settled_of_Idle env w' self st hi
    · exact Settled_of_state env w' self _ (st.trans hst) (by simp)
  · next hst => exact absurd hst hs'.1.1
  · next hst => exact absurd hst hs'.1.2.1
  · next hst => exact absurd hst hs'.1.2.2.1
  · next hst =>
    have s := DblPressStart_react_Released_spec env self e w w' h
    split_ifs at s
    · obtain ⟨m, p, _⟩ := s; exact Settled_of_state env w' self _ p.state (by simp)
    · subst s
      exact Settled_of_state env _ self _ (changeState_getState_self _ _ _ (by decide)) (by simp)
    · subst s
      exact Settled_of_state env _ self _ (changeState_getState_self _ _ _ (by decide)) (by simp)
  · next hst =>
    have s := DblPressNoPressTap_react_Released_spec env self e w w' h
    split_ifs at s
    · obtain ⟨m, p, _⟩ := s; exact Settled_of_state env w' self _ p.state (by simp)
    · subst s; exact hs
  · next hst =>
    have s := DblPressNoPressHold_react_Released_spec env self e w w' h
    split_ifs at s
    · obtain ⟨m, p, _⟩ := s; exact Settled_of_state env w' self _ p.state (by simp)
    · subst s; exact Settled_of_buttons_eq env w _ self (by simp) hs
  · next hst => exact tick (Or.inr hst) h
  · next hst =>
    simp only [pure_eq_ok] at h; subst h
    exact Settled_of_buttons_eq env w _ self (by simp) hs
  · simp only [throw_ne_ok] at h

theorem Settled_of_OthersKept (env : Env) (self b : Nat) (w w' : World) (hb : b ≠ self)
    (o : OthersKept self w w') (hs : Settled env w b) : Settled env w' b := by
  rcases o b hb with h | h | h
  · exact Settled_of_buttons_eq env w w' b h hs
  · intro hn; exact absurd h (hs hn).1.1
  · intro hn; exact absurd h (hs hn).1.2.1

/-- One input keeps every classifier settled. -/
theorem step_Settled (env : Env) (w w' : World) (i : Input) (h : step env w i = .ok w')
    (hs : ∀ b, Settled env w b) : ∀ b, Settled env w' b := by
  intro b
  cases i with
  | Pressed self e =>
    by_cases hb : b = self
    · subst hb; exact sendEvent_Pressed_Settled_self env b e w w' h (hs b)
    · exact Settled_of_OthersKept env self b w w' hb (sendEvent_Pressed_frame env self e w w' h).2 (hs b)
  | Released self e =>
    by_cases hb : b = self
    · subst hb; exact sendEvent_Released_Settled_self env b e w w' h (hs b)
    · exact Settled_of_OthersKept env self b w w' hb (sendEvent_Released_frame env self e w w' h).2 (hs b)

theorem run_Settled (env : Env) (inputs : List Input) :
    ∀ (w w' : World), run env w inputs = .ok w' → (∀ b, Settled env w b) →
      ∀ b, Settled env w' b := by
  induction inputs with
  | nil => intro w w' h hs; simp only [run, pure_eq_ok] at h; subst h; exact hs
  | cons i rest ih =>
    intro w w' h hs
    simp only [run, bind_eq_ok] at h
    obtain ⟨w1, h1, h2⟩ := h
    exact ih w1 w' h2 (step_Settled env w w1 i h1 hs)

/-- In a reachable configuration, a classifier without sim-press bindings that is in `NoPress`
is idle. -/
theorem Reachable_NoPress_Idle (env : Env) (w : World) (hr : Reachable env w) (b : Nat)
    (hn : (env.mapping b).HasSimMappings = false) (hst : w.getState b = .NoPress) : Idle w b := by
  obtain ⟨vigem, mainMotion, inputs, h⟩ := hr
  have := run_Settled env inputs _ w h (fun b _ => ⟨by simp [World.init, World.getState, DigitalButton.new],
    fun _ => by simp [Idle, World.init, World.impl, DigitalButton.new, DigitalButtonImpl.new]⟩) b hn
  exact this.2 hst

theorem findChordBinding_some (b : JSMButton) (cs : List ButtonID) (c : ButtonID) (m : Mapping)
    (h : findChordBinding b cs = some (c, m)) : c ∈ cs ∧ b.get c = some m ∧ c ≠ b._id := by
  unfold findChordBinding at h
  obtain ⟨a, ha, hf⟩ := List.exists_of_findSome?_eq_some h
  split at hf
  · next binding hb =>
    split_ifs at hf with hne
    simp only [Option.some.injEq, Prod.mk.injEq] at hf
    obtain ⟨rfl, rfl⟩ := hf
    exact ⟨ha, hb, hne⟩
  · simp at hf

/-- C4. In a reachable configuration, a `Pressed` input handled in `NoPress` records `now` as
the press time; with a sim-press partner declared the classifier moves to `WaitSim` and no
event is fired; else with a double-press alternate declared it moves to `DblPressStart` and no
event is fired; else `OnPress` is fired exactly once, on the chord-resolved binding (the
binding of the first chord of the stack, own id skipped, that the button has a binding for),
and the classifier moves to `BtnPress`. -/
theorem NoPress_Pressed_branches (env : Env) (w w' : World) (hr : Reachable env w) (self : Nat)
    (e : Pressed) (hst : w.getState self = .NoPress)
    (h : sendEvent_Pressed env self e w = .ok w') :
    (w'.impl self)._press_times = e.time_now ∧
    if (env.mapping self).HasSimMappings = true then
      w'.getState self = .WaitSim ∧ w'.fired = w.fired
    else if (env.mapping self).getDblPressMap.isSome then
      w'.getState self = .DblPressStart ∧ w'.fired = w.fired
    else
      ∃ c m, findChordBinding (env.mapping self)
          (DigitalButtonState.react_Pressed env self w).common.chordStack = some (c, m) ∧
        w'.fired = w.fired ++ [(self, m, .OnPress)] ∧ w'.getState self = .BtnPress := by
  unfold sendEvent_Pressed at h
  rw [hst] at h
  obtain ⟨_, _, pr, _, _, rest⟩ := NoPress_react_Pressed_spec env self e w w' h
  refine ⟨pr, ?_⟩
  split_ifs at rest ⊢ with hs hd
  · exact ⟨rest.1, rest.2.1⟩
  · exact ⟨rest.1, rest.2.1⟩
  · obtain ⟨m, hres, st, fi, _⟩ := rest
    have hidle := Reachable_NoPress_Idle env w hr self (by simpa using hs) hst
    rcases hres with hk | ⟨_, c, hc⟩
    · rw [hidle.1] at hk; simp at hk
    · exact ⟨c, m, hc, fi, st⟩

theorem turboFired_OnlyInstant (self : Nat) (evts : List (Nat × Mapping × BtnEvent))
    (h : OnlyInstant self evts) : turboFired self evts = 0 := by
  unfold turboFired
  rw [List.countP_eq_zero]
  intro x hx
  have := (h x hx).2
  simp [this]

/-- A `Pressed` tick in `BtnPress`: the classifier stays in `BtnPress`, the press time is kept,
and the turbo count and the number of `OnTurbo` events grow by `turboStep`. -/
theorem BtnPress_tick (env : Env) (self : Nat) (t : Pressed) (w w' : World)
    (hst : w.getState self = .BtnPress) (h : sendEvent_Pressed env self t w = .ok w') :
    w'.getState self = .BtnPress ∧ (w'.impl self)._press_times = (w.impl self)._press_times ∧
    (w'.impl self)._turboCount = (w.impl self)._turboCount +
      turboStep (GetPressDurationMS (w.impl self) t.time_now) t.holdTime t.turboTime
        (w.impl self)._turboCount ∧
    turboFired self w'.fired = turboFired self w.fired +
      turboStep (GetPressDurationMS (w.impl self) t.time_now) t.holdTime t.turboTime
        (w.impl self)._turboCount := by
  unfold sendEvent_Pressed at h
  rw [hst] at h
  obtain ⟨_, _, st, pr, _, _, pre, mid, post, fi, hpre, hpost, rest⟩ :=
    pressedTick_spec env self t w w' h
  refine ⟨st.trans hst, pr, ?_⟩
  have hf : turboFired self w'.fired = turboFired self w.fired + turboFired self mid := by
    rw [fi]
    simp only [turboFired, List.countP_append]
    have h1 := turboFired_OnlyInstant self pre hpre
    have h2 := turboFired_OnlyInstant self post hpost
    simp only [turboFired] at h1 h2
    omega
  rw [hf]
  unfold turboStep
  split_ifs at rest ⊢ with h0 hd
  · obtain ⟨_, m, _, rfl, tu⟩ := rest
    exact ⟨by rw [tu, h0], by simp [turboFired]⟩
  · obtain ⟨_, rfl, tu⟩ := rest
    exact ⟨by rw [tu, h0], by simp [turboFired]⟩
  · obtain ⟨m, _, rfl, tu⟩ := rest
    exact ⟨tu, by simp [turboFired]⟩
  · obtain ⟨rfl, tu⟩ := rest
    exact ⟨tu, by simp [turboFired]⟩

theorem floor_step (h t p d : ℚ) (ht : 0 < t) (hpd : p ≤ d) (hdp : d - p < t) :
    ⌊(d - h) / t⌋ = ⌊(p - h) / t⌋ ∨ ⌊(d - h) / t⌋ = ⌊(p - h) / t⌋ + 1 := by
  have h1 : ⌊(p - h) / t⌋ ≤ ⌊(d - h) / t⌋ := by
    apply Int.floor_mono
    exact div_le_div_of_nonneg_right (by linarith) ht.le
  have h2 : ⌊(d - h) / t⌋ < ⌊(p - h) / t⌋ + 2 := by
    rw [Int.floor_lt]
    have hlt : (d - h) / t < (p - h) / t + 1 := by
      rw [div_add_one (ne_of_gt ht)]
      exact div_lt_div_of_pos_right (by linarith) ht
    have := Int.lt_floor_add_one ((p - h) / t)
    push_cast
    linarith
  omega

theorem GetPressDurationMS_eq (impl : DigitalButtonImpl) (now : Int) :
    GetPressDurationMS impl now = elapsedMS impl._press_times now := rfl

/-- Ticks after the hold threshold was crossed: with the count in step with the previous tick,
it stays in step with every later one. -/
theorem turbo_after (env : Env) (self : Nat) (H T : ℚ) (hT : 0 < T) (press : Int) :
    ∀ (ticks : List Pressed) (w w' : World) (p : ℚ),
      w.getState self = .BtnPress → (w.impl self)._press_times = press →
      H < p → ((w.impl self)._turboCount : ℤ) = ⌊(p - H) / T⌋ + 1 →
      (∀ t ∈ ticks, t.holdTime = H ∧ t.turboTime = T) →
      List.Chain (· ≤ ·) p (ticks.map fun t => elapsedMS press t.time_now) →
      List.Chain (fun a b => b - a < T) p (ticks.map fun t => elapsedMS press t.time_now) →
      run env w (ticks.map (Input.Pressed self)) = .ok w' →
      ∀ D, (p :: ticks.map fun t => elapsedMS press t.time_now).getLast? = some D →
        ((w'.impl self)._turboCount : ℤ) = ⌊(D - H) / T⌋ + 1 ∧
        (turboFired self w'.fired : ℤ) + (w.impl self)._turboCount =
          turboFired self w.fired + (w'.impl self)._turboCount := by
  intro ticks
  induction ticks with
  | nil =>
    intro w w' p _ _ _ hn _ _ _ h D hD
    simp only [List.map_nil, run, pure_eq_ok] at h
    subst h
    simp only [List.map_nil, List.getLast?_singleton, Option.some.injEq] at hD
    subst hD
    exact ⟨hn, rfl⟩
  | cons t rest ih =>
    intro w w' p hst hpr hp hn hticks hmono hdense h D hD
    simp only [List.map_cons, run, bind_eq_ok] at h
    obtain ⟨w1, h1, h2⟩ := h
    simp only [List.map_cons, List.chain_cons] at hmono hdense
    obtain ⟨st1, pr1, tu1, fi1⟩ := BtnPress_tick env self t w w1 hst h1
    obtain ⟨hH, hTt⟩ := hticks t (List.mem_cons_self _ _)
    rw [GetPressDurationMS_eq, hpr, hH, hTt] at tu1 fi1
    set d := elapsedMS press t.time_now with hd
    have hdH : H < d := lt_of_lt_of_le hp hmono.1
    have hn0 : (w.impl self)._turboCount ≠ 0 := by
      intro h0
      rw [h0] at hn
      have : (0 : ℤ) ≤ ⌊(p - H) / T⌋ := Int.floor_nonneg.mpr (div_nonneg (by linarith) hT.le)
      simp at hn
      omega
    have hstep : ((w1.impl self)._turboCount : ℤ) = ⌊(d - H) / T⌋ + 1 := by
      rw [tu1]
      unfold turboStep turboDue
      rw [if_neg hn0, if_neg (ne_of_gt hT)]
      rcases floor_step H T p d hT hmono.1 hdense.1 with hfl | hfl
      · have : ¬ (⌊(d - H) / T⌋ ≥ ((w.impl self)._turboCount : ℤ)) := by rw [hfl]; omega
        simp only [this, decide_False, Bool.false_eq_true, ↓reduceIte]
        push_cast
        rw [hfl]; omega
      · have : ⌊(d - H) / T⌋ ≥ ((w.impl self)._turboCount : ℤ) := by rw [hfl]; omega
        simp only [this, decide_True, ↓reduceIte]
        push_cast
        rw [hfl]; omega
    have hD' : (d :: rest.map fun t => elapsedMS press t.time_now).getLast? = some D := by
      rw [List.map_cons, List.getLast?_cons_cons] at hD
      exact hD
    obtain ⟨r1, r2⟩ := ih w1 w' d st1 (pr1.trans hpr) hdH hstep
      (fun t' ht' => hticks t' (List.mem_cons_of_mem _ ht')) hmono.2 hdense.2 h2 D hD'
    refine ⟨r1, ?_⟩
    have : (turboFired self w1.fired : ℤ) + (w.impl self)._turboCount
        = turboFired self w.fired + (w1.impl self)._turboCount := by
      rw [fi1, tu1]; push_cast; ring
    omega

/-- Ticks before the hold threshold is crossed: once a tick has passed it, the turbo count is
`floor((D - holdTime) / turboTime) + 1` at every later tick `D`. -/
theorem turbo_before (env : Env) (self : Nat) (H T : ℚ) (hT : 0 < T) (press : Int) :
    ∀ (ticks : List Pressed) (w w' : World),
      w.getState self = .BtnPress → (w.impl self)._press_times = press →
      (w.impl self)._turboCount = 0 →
      (∀ t ∈ ticks, t.holdTime = H ∧ t.turboTime = T) →
      List.Chain' (· ≤ ·) (ticks.map fun t => elapsedMS press t.time_now) →
      List.Chain' (fun a b => b - a < T) (ticks.map fun t => elapsedMS press t.time_now) →
      (∀ d, (ticks.map fun t => elapsedMS press t.time_now).find? (fun d => decide (H < d)) = some d →
        d - H < T) →
      run env w (ticks.map (Input.Pressed self)) = .ok w' →
      ∀ D, (ticks.map fun t => elapsedMS press t.time_now).getLast? = some D → H < D →
        ((w'.impl self)._turboCount : ℤ) = ⌊(D - H) / T⌋ + 1 ∧
        (turboFired self w'.fired : ℤ) = turboFired self w.fired + (w'.impl self)._turboCount := by
  intro ticks
  induction ticks with
  | nil => intro w w' _ _ _ _ _ _ _ _ D hD; simp at hD
  | cons t rest ih =>
    intro w w' hst hpr h0 hticks hmono hdense hfirst h D hD hHD
    simp only [List.map_cons, run, bind_eq_ok] at h
    obtain ⟨w1, h1, h2⟩ := h
    obtain ⟨st1, pr1, tu1, fi1⟩ := BtnPress_tick env self t w w1 hst h1
    obtain ⟨hH, hTt⟩ := hticks t (List.mem_cons_self _ _)
    rw [GetPressDurationMS_eq, hpr, hH, hTt, h0] at tu1 fi1
    simp only [List.map_cons] at hmono hdense hfirst hD
    set d := elapsedMS press t.time_now with hd
    by_cases hdH : H < d
    · have hdT : d - H < T := hfirst d (by simp [hdH])
      have hfl : ⌊(d - H) / T⌋ = 0 := by
        rw [Int.floor_eq_iff]
        constructor
        · simpa using div_nonneg (by linarith : (0:ℚ) ≤ d - H) hT.le
        · simpa using (div_lt_one hT).mpr hdT
      have hstep : turboStep d H T 0 = 1 := by simp [turboStep, hdH]
      rw [hstep] at tu1 fi1
      have hn1 : ((w1.impl self)._turboCount : ℤ) = ⌊(d - H) / T⌋ + 1 := by rw [tu1, hfl]; simp
      obtain ⟨r1, r2⟩ := turbo_after env self H T hT press rest w1 w' d st1 (pr1.trans hpr) hdH hn1
        (fun t' ht' => hticks t' (List.mem_cons_of_mem _ ht')) hmono hdense h2 D hD
      refine ⟨r1, ?_⟩
      rw [fi1, tu1] at *
      push_cast at r2 ⊢
      omega
    · have hstep : turboStep d H T 0 = 0 := by simp [turboStep, hdH]
      rw [hstep] at tu1 fi1
      cases hrest : rest with
      | nil =>
        subst hrest
        simp only [List.map_nil, List.getLast?_singleton, Option.some.injEq] at hD
        exact absurd (hD ▸ hHD) hdH
      | cons t2 rest2 =>
        rw [hrest] at hmono hdense hfirst hD h2 ih hticks
        have hD' : ((t2 :: rest2).map fun t => elapsedMS press t.time_now).getLast? = some D := by
          simp only [List.map_cons] at hD ⊢
          rw [List.getLast?_cons_cons] at hD
          exact hD
        obtain ⟨r1, r2⟩ := ih w1 w' st1 (pr1.trans hpr) (by simpa using tu1)
          (fun t' ht' => hticks t' (List.mem_cons_of_mem _ ht'))
          (by simp only [List.map_cons] at hmono ⊢; exact (List.chain'_cons.mp hmono).2)
          (by simp only [List.map_cons] at hdense ⊢; exact (List.chain'_cons.mp hdense).2)
          (fun d' hd' => hfirst d' (by
            rw [List.find?_cons_of_neg _ (by simpa using hdH)]
            exact hd')) h2 D hD' hHD
        refine ⟨r1, ?_⟩
        rw [r2, fi1]; simp

/-- C6. For a button held in `BtnPress` with `turboTime > 0` and no turbo pulse so far, and for
every schedule of `Pressed` ticks (elapsed times non-decreasing) in which the first tick past
`holdTime` comes less than `turboTime` after `holdTime` and consecutive ticks are less than
`turboTime` apart, the number of `OnTurbo` events fired up to and including a tick at elapsed
time `D > holdTime` is `floor((D - holdTime) / turboTime) + 1`, and so is the turbo count. -/
theorem turbo_pulse_count (env : Env) (self : Nat) (w w' : World) (ticks : List Pressed)
    (H T D : ℚ) (hst : w.getState self = .BtnPress) (h0 : (w.impl self)._turboCount = 0)
    (hT : 0 < T) (hticks : ∀ t ∈ ticks, t.holdTime = H ∧ t.turboTime = T)
    (hmono : List.Chain' (· ≤ ·) (ticks.map fun t => GetPressDurationMS (w.impl self) t.time_now))
    (hdense : List.Chain' (fun a b => b - a < T)
      (ticks.map fun t => GetPressDurationMS (w.impl self) t.time_now))
    (hfirst : ∀ d, (ticks.map fun t => GetPressDurationMS (w.impl self) t.time_now).find?
      (fun d => decide (H < d)) = some d → d - H < T)
    (hlast : (ticks.map fun t => GetPressDurationMS (w.impl self) t.time_now).getLast? = some D)
    (hD : H < D) (h : run env w (ticks.map (Input.Pressed self)) = .ok w') :
    (turboFired self w'.fired : ℤ) - turboFired self w.fired = ⌊(D - H) / T⌋ + 1 ∧
    ((w'.impl self)._turboCount : ℤ) = ⌊(D - H) / T⌋ + 1 := by
  obtain ⟨r1, r2⟩ := turbo_before env self H T hT (w.impl self)._press_times ticks w w' hst rfl h0
    hticks hmono hdense hfirst h D hlast hD
  exact ⟨by rw [r2, r1]; ring, r1⟩

theorem run_append (env : Env) (l1 l2 : List Input) :
    ∀ (w w' : World), run env w (l1 ++ l2) = .ok w' ↔
      ∃ w1, run env w l1 = .ok w1 ∧ run env w1 l2 = .ok w' := by
  induction l1 with
  | nil => intro w w'; simp [run, pure_eq_ok]
  | cons i rest ih =>
    intro w w'
    rw [List.cons_append]
    simp only [run, bind_eq_ok]
    constructor
    · rintro ⟨a, ha, h⟩
      obtain ⟨w1, h1, h2⟩ := (ih a w').mp h
      exact ⟨w1, ⟨a, ha, h1⟩, h2⟩
    · rintro ⟨w1, ⟨a, ha, h1⟩, h2⟩
      exact ⟨a, ha, (ih a w').mpr ⟨w1, h1, h2⟩⟩

theorem run_singleton (env : Env) (i : Input) (w w' : World) :
    run env w [i] = .ok w' ↔ step env w i = .ok w' := by
  simp [run, bind_eq_ok, pure_eq_ok]

/-- About `Pressed` ticks in `BtnPress` before the hold threshold, no turbo pulse so far: nothing
changes but instants being released. -/
theorem held_ticks (env : Env) (self : Nat) :
    ∀ (ticks : List Pressed) (w w' : World),
      w.getState self = .BtnPress → (w.impl self)._turboCount = 0 →
      (∀ t ∈ ticks, GetPressDurationMS (w.impl self) t.time_now ≤ t.holdTime) →
      run env w (ticks.map (Input.Pressed self)) = .ok w' →
      w'.getState self = .BtnPress ∧ (w'.impl self)._turboCount = 0 ∧
      (w'.impl self)._keyToRelease = (w.impl self)._keyToRelease ∧
      (w'.impl self)._press_times = (w.impl self)._press_times ∧
      ∃ ir, OnlyInstant self ir ∧ w'.fired = w.fired ++ ir := by
  intro ticks
  induction ticks with
  | nil =>
    intro w w' hst h0 _ h
    simp only [List.map_nil, run, pure_eq_ok] at h
    subst h
    exact ⟨hst, h0, rfl, rfl, [], OnlyInstant_nil _, by simp⟩
  | cons t rest ih =>
    intro w w' hst h0 hticks h
    simp only [List.map_cons, run, bind_eq_ok] at h
    obtain ⟨w1, h1, h2⟩ := h
    have h1' : ProcessEvent_Pressed env self t (DigitalButtonState.react_Pressed env self w) = .ok w1 := by
      simp only [step] at h1
      unfold sendEvent_Pressed at h1
      rw [hst] at h1
      exact h1
    obtain ⟨_, _, st, pr, _, ky, pre, mid, post, fi, hpre, _, rest1⟩ :=
      pressedTick_spec env self t w w1 h1'
    rw [if_pos h0, if_neg (not_lt.mpr (hticks t (List.mem_cons_self _ _)))] at rest1
    obtain ⟨rfl, rfl, tu⟩ := rest1
    obtain ⟨st', tu', ky', pr', ir, hir, fi'⟩ := ih w1 w' (st.trans hst) tu
      (fun t' ht' => by
        rw [GetPressDurationMS_eq, pr, ← GetPressDurationMS_eq]
        exact hticks t' (List.mem_cons_of_mem _ ht')) h2
    exact ⟨st', tu', ky'.trans ky, pr'.trans pr, pre ++ ir, OnlyInstant_append hpre hir,
      by rw [fi', fi]; simp⟩

theorem filter_OnlyInstant (self : Nat) (ir : List (Nat × Mapping × BtnEvent))
    (h : OnlyInstant self ir) :
    ir.filter (fun x => decide (x.2.2 ≠ .OnInstantRelease)) = [] := by
  rw [List.filter_eq_nil_iff]
  intro x hx
  simp [(h x hx).2]

theorem Resolves_of_key {b : JSMButton} {cs : List ButtonID} {m m' : Mapping}
    (h : Resolves b (some m) cs m') : m' = m := by
  rcases h with h | ⟨h, _⟩
  · exact (Option.some.inj h).symm
  · simp at h

/-- About `TapRelease::react(Pressed)` with an active binding `m`: pending instants are released and
`OnTapRelease` goes to `m`. -/
theorem TapRelease_react_Pressed_fires (env : Env) (self : Nat) (e : Pressed) (w w' : World)
    (m : Mapping) (hk : (w.impl self)._keyToRelease = some m)
    (h : TapRelease.react_Pressed env self e w = .ok w') :
    ∃ ir, OnlyInstant self ir ∧ w'.fired = w.fired ++ ir ++ [(self, m, .OnTapRelease)] := by
  unfold TapRelease.react_Pressed at h
  simp only [bind_eq_ok, pure_eq_ok] at h
  obtain ⟨w1, h1, w2, h2, w3, h3, rfl⟩ := h
  obtain ⟨i1, k1, key1, hi1⟩ := CheckInstantRelease_OnlyInstant env self _ _ w1 h1
  obtain ⟨i2, k2, key2, hi2⟩ := CheckInstantRelease_OnlyInstant env self _ _ w2 h2
  obtain ⟨m', hres, fk⟩ := GetPressMapping_ProcessEvent_spec env self _ w2 w3 h3
  rw [key2, key1, react_Pressed_impl, hk] at hres
  have := Resolves_of_key hres
  subst this
  refine ⟨i1 ++ i2, OnlyInstant_append hi1 hi2, ?_⟩
  rw [(ClearKey_facts self w3).2.2.2.2.2.2.2.1, fk.fired, k2.fired, k1.fired]
  simp

/-- About `TapRelease::react(Released)` with an active binding `m` whose tap duration has elapsed:
pending instants are released, `OnTapRelease` goes to `m`, and the classifier is in `NoPress`. -/
theorem TapRelease_react_Released_fires (env : Env) (self : Nat) (e : Released) (w w' : World)
    (m : Mapping) (hk : (w.impl self)._keyToRelease = some m)
    (hd : GetPressDurationMS (w.impl self) e.time_now > m.getTapDuration)
    (h : TapRelease.react_Released env self e w = .ok w') :
    ∃ ir, OnlyInstant self ir ∧ w'.fired = w.fired ++ ir ++ [(self, m, .OnTapRelease)] ∧
      w'.getState self = .NoPress := by
  unfold TapRelease.react_Released at h
  simp only [bind_eq_ok] at h
  obtain ⟨w1, h1, h⟩ := h
  have s1 : ∃ ir, OnlyInstant self ir ∧ w1.fired = w.fired ++ ir ∧
      (w1.impl self)._keyToRelease = some m ∧
      (w1.impl self)._press_times = (w.impl self)._press_times := by
    rcases ite_ok_cases h1 with ⟨_, h1⟩ | ⟨_, h1⟩
    · simp only [bind_eq_ok] at h1
      obtain ⟨w0, h0, h1⟩ := h1
      obtain ⟨i1, k1, key1, hi1⟩ := CheckInstantRelease_OnlyInstant env self _ _ w0 h0
      obtain ⟨i2, k2, key2, hi2⟩ := CheckInstantRelease_OnlyInstant env self _ _ w1 h1
      refine ⟨i1 ++ i2, OnlyInstant_append hi1 hi2, ?_, ?_, ?_⟩
      · rw [k2.fired, k1.fired]; simp
      · rw [key2, key1]; simpa using hk
      · rw [k2.press, k1.press]; simp
    · simp only [pure_eq_ok] at h1; subst h1
      exact ⟨[], OnlyInstant_nil _, by simp, by simpa using hk, by simp⟩
  obtain ⟨ir, hir, fi1, ky1, pr1⟩ := s1
  have hexp : GetPressDurationMS (w1.impl self) e.time_now > m.getTapDuration := by
    rw [GetPressDurationMS_eq, pr1, ← GetPressDurationMS_eq]; exact hd
  simp only [ky1, hexp, decide_True, if_true, bind_eq_ok, pure_eq_ok] at h
  obtain ⟨w2, h2, rfl⟩ := h
  obtain ⟨m', hres, fk⟩ := GetPressMapping_ProcessEvent_spec env self _ w1 w2 h2
  rw [ky1] at hres
  have := Resolves_of_key hres
  subst this
  refine ⟨ir, hir, ?_, ?_⟩
  · rw [(ClearKey_facts self _).2.2.2.2.2.2.2.1, changeState_fired, fk.fired, fi1]
  · rw [(ClearKey_facts self _).2.2.1]
    exact changeState_getState_self _ _ _ (by decide)

/-- C7, as amended. For a plainly bound button (no sim-press, no double-press) in a reachable
configuration, a first `Pressed` in `NoPress`, any number of further `Pressed` ticks all with
elapsed time at most `holdTime`, and then a `Released` fire, on the chord-resolved binding and
leaving aside the `OnInstantRelease` events of instants released on the way, exactly `OnPress`,
then `OnRelease`, then `OnTap`; in particular neither `OnHold` nor `OnTurbo` is fired. The
classifier is in `TapRelease` afterwards, and `OnTapRelease` is fired later: by its next
`Pressed` input, or by its next `Released` input whose elapsed time since the release exceeds
the tap duration of the binding. -/
theorem tap_fires_press_release_tap (env : Env) (w w' : World) (hr : Reachable env w)
    (self : Nat) (first : Pressed) (ticks : List Pressed) (rel : Released)
    (hns : (env.mapping self).HasSimMappings = false)
    (hnd : (env.mapping self).getDblPressMap = none)
    (hst : w.getState self = .NoPress)
    (hticks : ∀ t ∈ ticks, elapsedMS first.time_now t.time_now ≤ t.holdTime)
    (h : run env w (Input.Pressed self first :: (ticks.map (Input.Pressed self) ++
      [Input.Released self rel])) = .ok w') :
    ∃ c m new, findChordBinding (env.mapping self)
        (DigitalButtonState.react_Pressed env self w).common.chordStack = some (c, m) ∧
      w'.fired = w.fired ++ new ∧
      new.filter (fun x => decide (x.2.2 ≠ .OnInstantRelease)) =
        [(self, m, .OnPress), (self, m, .OnRelease), (self, m, .OnTap)] ∧
      (∀ x ∈ new, x.2.2 ≠ .OnHold ∧ x.2.2 ≠ .OnTurbo) ∧
      w'.getState self = .TapRelease ∧
      ∀ (later : Input) (w'' : World), later.button = self → step env w' later = .ok w'' →
        ((∃ second, later = Input.Pressed self second) ∨
          elapsedMS rel.time_now later.time_now > m.getTapDuration) →
        ∃ ir, OnlyInstant self ir ∧ w''.fired = w'.fired ++ ir ++ [(self, m, .OnTapRelease)] := by
  simp only [run, bind_eq_ok] at h
  obtain ⟨w1, h1, h2⟩ := h
  rw [run_append] at h2
  obtain ⟨w2, h2, h3⟩ := h2
  rw [run_singleton] at h3
  have hidle := Reachable_NoPress_Idle env w hr self hns hst
  -- the first press
  simp only [step] at h1
  have s1 : NoPress.react_Pressed env self first w = .ok w1 := by
    unfold sendEvent_Pressed at h1; rw [hst] at h1; exact h1
  obtain ⟨_, _, pr1, _, tu1, rest1⟩ := NoPress_react_Pressed_spec env self first w w1 s1
  rw [if_neg (by simp [hns]), if_neg (by simp [hnd])] at rest1
  obtain ⟨m, hres, st1, fi1, ky1, _⟩ := rest1
  obtain ⟨c, hc⟩ : ∃ c, findChordBinding (env.mapping self)
      (DigitalButtonState.react_Pressed env self w).common.chordStack = some (c, m) := by
    rcases hres with hk | ⟨_, c, hc⟩
    · rw [hidle.1] at hk; simp at hk
    · exact ⟨c, hc⟩
  -- the ticks below the hold threshold
  obtain ⟨st2, tu2, ky2, pr2, ir, hir, fi2⟩ := held_ticks env self ticks w1 w2 st1
    (by rw [tu1]; exact hidle.2.1)
    (fun t ht => by rw [GetPressDurationMS_eq, pr1]; exact hticks t ht) h2
  -- the release
  simp only [step] at h3
  have s3 : (do
      let (next, w) ← ProcessEvent_Released env self rel (DigitalButtonState.react_Released env self w2)
      pure (changeState self next w) : Except Fault World) = .ok w' := by
    unfold sendEvent_Released at h3; rw [st2] at h3; exact h3
  obtain ⟨m', hm', _, _, _, ext, rest3⟩ := releasedTick_spec env self rel w2 w' s3
  rw [if_pos tu2] at rest3
  obtain ⟨st3, fi3, pr3, ky3, _⟩ := rest3
  have hmm : m' = m := by
    rw [ky2, ky1] at hm'; exact (Option.some.inj hm').symm
  subst hmm
  refine ⟨c, m', [(self, m', .OnPress)] ++ ir ++ [(self, m', .OnRelease), (self, m', .OnTap)],
    hc, by rw [fi3, fi2, fi1]; simp, ?_, ?_, st3, ?_⟩
  · simp only [List.filter_append, filter_OnlyInstant self ir hir]
    simp
  · intro x hx
    simp only [List.mem_append, List.mem_singleton, List.mem_cons, List.mem_nil_iff,
      or_false] at hx
    rcases hx with (rfl | hx) | rfl | rfl
    · simp
    · rw [(hir x hx).2]; simp
    · simp
    · simp
  · intro later w'' hb hstep hcond
    cases later with
    | Pressed b second =>
      simp only [Input.button] at hb
      subst hb
      simp only [step] at hstep
      unfold sendEvent_Pressed at hstep
      rw [st3] at hstep
      exact TapRelease_react_Pressed_fires env b second w' w'' m' ky3 hstep
    | Released b e =>
      simp only [Input.button] at hb
      subst hb
      rcases hcond with ⟨second, hsec⟩ | hgt
      · cases hsec
      · simp only [step] at hstep
        unfold sendEvent_Released at hstep
        rw [st3] at hstep
        obtain ⟨ir', hir', fi', _⟩ := TapRelease_react_Released_fires env b e w' w'' m' ky3
          (by rw [GetPressDurationMS_eq, pr3]; exact hgt) hstep
        exact ⟨ir', hir', fi'⟩

theorem PlainPress_chorded {env : Env} {self : Nat} {m : Mapping} {w w' : World}
    (p : PlainPress env self m w w') (hk : (w.impl self)._keyToRelease = none) :
    ∃ c, (env.mapping self).get c = some m ∧ c ≠ env.id self := by
  rcases p.resolves with h | ⟨_, c, hc⟩
  · rw [hk] at h; simp at h
  · obtain ⟨_, hg, hne⟩ := findChordBinding_some _ _ _ _ hc
    exact ⟨c, hg, hne⟩

/-- C8. For a button with a double-press alternate `dbl` and no sim-press partner, in a reachable
configuration where it is in `NoPress`: after a first `Pressed` and a `Released` no later than
the window `dbl_press_window` after the first press, a second `Pressed` that is also within the
window fires `OnPress` of the double-press binding and nothing else and leaves the classifier in
`DblPressPress`; if instead the next input arrives more than the window after the first press,
`OnPress` is fired on one of the button's chorded (plain) bindings and nothing else, and the
classifier is in `BtnPress`. Elapsed times are measured from the first press. -/
theorem double_press_within_window (env : Env) (w w' : World) (hr : Reachable env w) (self : Nat)
    (first : Pressed) (rel : Released) (third : Input) (id : ButtonID) (dbl : Mapping)
    (hns : (env.mapping self).HasSimMappings = false)
    (hd : (env.mapping self).getDblPressMap = some (id, dbl))
    (hst : w.getState self = .NoPress) (hthird : third.button = self)
    (hrel : elapsedMS first.time_now rel.time_now ≤ env.dbl_press_window)
    (h : run env w [Input.Pressed self first, Input.Released self rel, third] = .ok w') :
    ((∃ second, third = Input.Pressed self second) →
      elapsedMS first.time_now third.time_now ≤ env.dbl_press_window →
      w'.fired = w.fired ++ [(self, dbl, .OnPress)] ∧ w'.getState self = .DblPressPress) ∧
    (elapsedMS first.time_now third.time_now > env.dbl_press_window →
      ∃ c m, (env.mapping self).get c = some m ∧ c ≠ env.id self ∧
        w'.fired = w.fired ++ [(self, m, .OnPress)] ∧ w'.getState self = .BtnPress) := by
  simp only [run, bind_eq_ok, pure_eq_ok] at h
  obtain ⟨w1, h1, w2, h2, w3, h3, rfl⟩ := h
  have hidle := Reachable_NoPress_Idle env w hr self hns hst
  -- the first press leads to `DblPressStart`
  simp only [step] at h1
  have s1 : NoPress.react_Pressed env self first w = .ok w1 := by
    unfold sendEvent_Pressed at h1; rw [hst] at h1; exact h1
  obtain ⟨_, _, pr1, _, _, rest1⟩ := NoPress_react_Pressed_spec env self first w w1 s1
  rw [if_neg (by simp [hns]), if_pos (by simp [hd])] at rest1
  obtain ⟨st1, fi1, ky1, _⟩ := rest1
  -- the release within the window leads to one of the two waiting states
  simp only [step] at h2
  have s2 := DblPressStart_react_Released_spec env self rel w1 w2 (by
    unfold sendEvent_Released at h2; rw [st1] at h2; exact h2)
  rw [GetPressDurationMS_eq, pr1, if_neg (not_lt.mpr hrel)] at s2
  have st2 : w2.getState self = .DblPressNoPressHold ∨ w2.getState self = .DblPressNoPressTap := by
    split_ifs at s2
    · left; rw [s2]; exact changeState_getState_self _ _ _ (by decide)
    · right; rw [s2]; exact changeState_getState_self _ _ _ (by decide)
  have pr2 : (w2.impl self)._press_times = first.time_now := by
    split_ifs at s2 <;> rw [s2] <;> simpa using pr1
  have ky2 : (w2.impl self)._keyToRelease = none := by
    split_ifs at s2 <;> rw [s2] <;> simpa [hidle.1] using ky1
  have fi2 : w2.fired = w.fired := by
    split_ifs at s2 <;> rw [s2] <;> simpa using fi1
  -- the third input
  have plain : ∀ {base : World}, (base.impl self)._keyToRelease = (w2.impl self)._keyToRelease →
      base.fired = w2.fired → (∃ m, PlainPress env self m base w3 ∧ True) →
      ∃ c m, (env.mapping self).get c = some m ∧ c ≠ env.id self ∧
        w3.fired = w.fired ++ [(self, m, .OnPress)] ∧ w3.getState self = .BtnPress := by
    rintro base hk hf ⟨m, p, _⟩
    obtain ⟨c, hg, hne⟩ := PlainPress_chorded p (hk.trans ky2)
    exact ⟨c, m, hg, hne, by rw [p.fired, hf, fi2], p.state⟩
  have double : ∀ {base : World} {now : Int}, base.fired = w2.fired →
      (∃ m, DoublePress env self m now base w3) →
      w3.fired = w.fired ++ [(self, dbl, .OnPress)] ∧ w3.getState self = .DblPressPress := by
    rintro base now hf ⟨m, p⟩
    obtain ⟨id', hid'⟩ := p.declared
    rw [hd] at hid'
    simp only [Option.some.injEq, Prod.mk.injEq] at hid'
    obtain ⟨_, rfl⟩ := hid'
    exact ⟨by rw [p.fired, hf, fi2], p.state⟩
  cases third with
  | Pressed b second =>
    simp only [Input.button] at hthird
    subst hthird
    simp only [step] at h3
    unfold sendEvent_Pressed at h3
    simp only [Input.time_now]
    rcases st2 with st2 | st2
    · rw [st2] at h3
      have s3 := DblPressNoPressHold_react_Pressed_spec env b second w2 w3 h3
      rw [GetPressDurationMS_eq, pr2] at s3
      constructor
      · intro _ hle
        rw [if_neg (not_lt.mpr hle)] at s3
        exact double (by simp) s3
      · intro hgt
        rw [if_pos hgt] at s3
        obtain ⟨m, p, _⟩ := s3
        exact plain (by simp) (by simp) ⟨m, p, trivial⟩
    · rw [st2] at h3
      have s3 := DblPressNoPressTap_react_Pressed_spec env b second w2 w3 h3
      rw [GetPressDurationMS_eq, pr2] at s3
      constructor
      · intro _ hle
        rw [if_neg (not_lt.mpr hle)] at s3
        exact double rfl s3
      · intro hgt
        rw [if_pos hgt] at s3
        obtain ⟨m, p, _⟩ := s3
        exact plain rfl rfl ⟨m, p, trivial⟩
  | Released b e =>
    simp only [Input.button] at hthird
    subst hthird
    simp only [step] at h3
    unfold sendEvent_Released at h3
    simp only [Input.time_now]
    constructor
    · rintro ⟨second, hsec⟩; cases hsec
    · intro hgt
      rcases st2 with st2 | st2
      · rw [st2] at h3
        have s3 := DblPressNoPressHold_react_Released_spec env b e w2 w3 h3
        rw [GetPressDurationMS_eq, pr2, if_pos hgt] at s3
        obtain ⟨m, p, _⟩ := s3
        exact plain (by simp) (by simp) ⟨m, p, trivial⟩
      · rw [st2] at h3
        have s3 := DblPressNoPressTap_react_Released_spec env b e w2 w3 h3
        rw [GetPressDurationMS_eq, pr2, if_pos hgt] at s3
        obtain ⟨m, p, _⟩ := s3
        exact plain rfl rfl ⟨m, p, trivial⟩

/-- C9. When a classifier in `WaitSim` handles a `Pressed` input and the partner lookup returns
another classifier `partner` that is in `WaitSim` and with which it has a sim-press binding
`sim`: after the handler both classifiers are in `SimPress`, both have press time `now`, both
hold a copy of `sim` as active binding, `OnPress` of `sim` has been fired exactly once, and
exactly one of the two holds a master reference: the handling classifier references the
partner, the partner references nobody. -/
theorem WaitSim_rendezvous (env : Env) (w w' : World) (self partner : Nat) (e : Pressed)
    (sim : Mapping) (hst : w.getState self = .WaitSim)
    (hlook : env._getMatchingSimBtn (DigitalButtonState.react_Pressed env self w) (env.id self)
      = some partner)
    (hne : partner ≠ self) (hpst : w.getState partner = .WaitSim)
    (hsim : (env.mapping self).AtSimPress (env.id partner) = some sim)
    (h : sendEvent_Pressed env self e w = .ok w') :
    w'.getState self = .SimPress ∧ w'.getState partner = .SimPress ∧
    (w'.impl self)._press_times = e.time_now ∧ (w'.impl partner)._press_times = e.time_now ∧
    (w'.impl self)._keyToRelease = some sim ∧ (w'.impl partner)._keyToRelease = some sim ∧
    w'.fired = w.fired ++ [(self, sim, .OnPress)] ∧
    (w'.impl self)._simPressMaster = some partner ∧ (w'.impl partner)._simPressMaster = none := by
  unfold sendEvent_Pressed at h
  rw [hst] at h
  unfold WaitSim.react_Pressed at h
  simp only [hlook, hsim, if_neg hne, bind_eq_ok] at h
  obtain ⟨⟨e1, w1⟩, h1, h2⟩ := h
  unfold sendEvent_Sync at h1
  have hp : World.getState
      (((changeState self BtnState.SimPress (DigitalButtonState.react_Pressed env self w)).setImpl self
        fun i => { i with _press_times := e.time_now }).setImpl self fun i =>
          { i with _keyToRelease := some sim
                   _nameToRelease := (env.mapping self).getSimPressName (env.id partner)
                   _simPressMaster := some partner }) partner = .WaitSim := by
    simp [changeState_getState_ne _ _ _ _ hne, hpst]
  rw [hp] at h1
  obtain ⟨m, next, hm, hn, _, hw1⟩ := WaitSim_react_Sync_spec partner _ _ w1 e1 h1
  simp only [Option.some.injEq] at hm hn
  subst hm hn hw1
  obtain ⟨m', hm', f⟩ := keyToRelease_ProcessEvent_spec env self .OnPress _ w' h2
  have hsp := Ne.symm hne
  have hkey : m' = sim := by
    simp [setImpl_impl_ne _ _ _ _ hsp] at hm'
    exact hm'.symm
  subst hkey
  have hpb := f.others partner hne
  refine ⟨?_, ?_, ?_, ?_, ?_, ?_, ?_, ?_, ?_⟩
  · rw [f.state, changeState_getState_ne _ _ _ _ hsp]
    simp [changeState_getState_self]
  · rw [World.getState, hpb]
    exact changeState_getState_self partner .SimPress _ (by decide)
  · rw [f.press]; simp [setImpl_impl_ne _ _ _ _ hsp]
  · rw [World.impl, hpb]
    simp [changeState, World.setImpl, Function.update, hne]
  · rw [f.key]; simp [setImpl_impl_ne _ _ _ _ hsp]
  · rw [World.impl, hpb]
    simp [changeState, World.setImpl, Function.update, hne]
  · rw [f.fired]; simp
  · rw [f.master]; simp [setImpl_impl_ne _ _ _ _ hsp]
  · rw [World.impl, hpb]
    simp [changeState, World.setImpl, Function.update, hne]

/-- C10. For a sim-press pair in which both classifiers are in `SimPress`, when the slave (the
one holding a master reference) handles `Released`: the master runs the ordinary release
classification on its own record with the slave's `now`, `holdTime` and `turboTime`, which is
observed on the outcome: the master's active binding `m` receives `OnRelease` and then `OnTap`
(turbo count 0) or `OnHoldRelease` (turbo count positive), and nothing else is fired; the
master ends in `SimRelease` whatever the classification returned; the slave ends in exactly
the state returned and its record is untouched. That state is `TapRelease` if the master's
turbo count was 0 (the master's press time becomes `now`); otherwise, with `ext` the instants
the release actions registered, it is `NoPress` when the master's resulting queue is empty
(the master's record is then cleared) and `InstRelease` when the master's resulting queue,
its old queue followed by `ext`, is not empty (the master keeps its binding and takes `now`
as press time). -/
theorem SimPress_slave_release (env : Env) (w w' : World) (self master : Nat) (e : Released)
    (hst : w.getState self = .SimPress) (hm : (w.impl self)._simPressMaster = some master)
    (hne : master ≠ self) (hmst : w.getState master = .SimPress)
    (h : sendEvent_Released env self e w = .ok w') :
    ∃ m ext next w1,
      (w.impl master)._keyToRelease = some m ∧
      ProcessEvent_Released env master ⟨e.time_now, e.turboTime, e.holdTime⟩
        (DigitalButtonState.react_Released env self w) = .ok (next, w1) ∧
      w' = changeState self next (changeState master .SimRelease w1) ∧
      w'.getState master = .SimRelease ∧ w'.getState self = next ∧
      w'.impl self = w.impl self ∧
      (∀ b, b ≠ master → b ≠ self → w'.buttons b = w.buttons b) ∧
      w'.common.chordStack = (DigitalButtonState.react_Released env self w).common.chordStack ∧
      if (w.impl master)._turboCount = 0 then
        next = .TapRelease ∧
        w'.fired = w.fired ++ [(master, m, .OnRelease), (master, m, .OnTap)] ∧
        (w'.impl master)._press_times = e.time_now ∧ (w'.impl master)._keyToRelease = some m ∧
        (w'.impl master)._instantReleaseQueue = (w.impl master)._instantReleaseQueue ++ ext
      else
        w'.fired = w.fired ++ [(master, m, .OnRelease), (master, m, .OnHoldRelease)] ∧
        if (w.impl master)._instantReleaseQueue ++ ext = [] then
          next = .NoPress ∧ Idle w' master
        else
          next = .InstRelease ∧ (w'.impl master)._press_times = e.time_now ∧
          (w'.impl master)._keyToRelease = some m ∧
          (w'.impl master)._instantReleaseQueue = (w.impl master)._instantReleaseQueue ++ ext := by
  unfold sendEvent_Released at h
  rw [hst] at h
  unfold SimPress.react_Released at h
  simp only [react_Released_impl, hm, react_Released_getState, hmst, ne_eq, not_true_eq_false,
    if_false, if_neg hne, bind_eq_ok] at h
  obtain ⟨⟨e1, w1⟩, h1, h2⟩ := h
  unfold sendEvent_Sync at h1
  simp only [react_Released_getState, hmst] at h1
  unfold SimPress.react_Sync at h1
  simp only [bind_eq_ok, pure_eq_ok, Prod.mk.injEq, Option.getD_some] at h1
  obtain ⟨⟨next, w0⟩, h0, rfl, rfl⟩ := h1
  simp only [pure_eq_ok] at h2
  subst h2
  obtain ⟨mm, hmm, hch, hoth, _, _, ext, rest⟩ :=
    ProcessEvent_Released_spec env master _ _ w0 next h0
  simp only [react_Released_impl, react_Released_fired] at rest hmm
  have hnext : next = (if (w.impl master)._turboCount = 0 then BtnState.TapRelease
      else if (w.impl master)._instantReleaseQueue ++ ext = [] then BtnState.NoPress
      else BtnState.InstRelease) := by
    split_ifs at rest ⊢
    · exact rest.1
    · exact rest.2.1
    · exact rest.2.1
  have hvalid : next ≠ .INVALID := by
    rw [hnext]; split_ifs <;> decide
  have hself : w0.impl self = w.impl self := by
    have := hoth self (Ne.symm hne)
    simp only [react_Released_buttons] at this
    simp [World.impl, this]
  refine ⟨mm, ext, next, w0, hmm, h0, rfl, ?_, changeState_getState_self _ _ _ hvalid, ?_, ?_, ?_,
    ?_⟩
  · rw [changeState_getState_ne _ _ _ _ hne]
    exact changeState_getState_self _ _ _ (by decide)
  · simp only [changeState_impl]
    exact hself
  · intro b hb1 hb2
    rw [changeState_buttons_ne _ _ _ _ hb2, changeState_buttons_ne _ _ _ _ hb1, hoth b hb1]
    simp
  · simp only [changeState_common]
    exact hch
  · simp only [changeState_fired, changeState_impl, Idle]
    split_ifs at rest ⊢
    · exact ⟨rest.1, rest.2.1, rest.2.2.1, rest.2.2.2.1, rest.2.2.2.2.2⟩
    · exact ⟨rest.1, rest.2.1, rest.2.2.1, rest.2.2.2.2.1, rest.2.2.2.1⟩
    · exact ⟨rest.1, rest.2.1, rest.2.2.1, rest.2.2.2.1, rest.2.2.2.2.1⟩

theorem eq_ok_getOk (r : Except Fault World) (fallback : World) (h : succeeded r = true) :
    r = .ok (getOk r fallback) := by
  cases r with
  | ok w => rfl
  | error e => simp [succeeded] at h

/-- C2, evaluated on the sample controller. The second press of a double press is handled in
`DblPressNoPressTap`, whose reaction does not perform the basic press bookkeeping: the button
is chordable and pressed, and its id is not on the chord stack afterwards. -/
theorem DblPressNoPressTap_Pressed_skips_chord_push :
    succeeded (run demo demoInit doublePressInputs) = true ∧
    (demoAfter (doublePressInputs.take 2)).getState 1 = .DblPressNoPressTap ∧
    demo.chordable 1 = true ∧
    (demoAfter doublePressInputs).getState 1 = .DblPressPress ∧
    demo.id 1 ∉ (demoAfter doublePressInputs).common.chordStack := by
  decide

/-- C3, evaluated on the sample controller. After the slave of a sim-press pair adopts the
outcome `NoPress` computed by its master, it is in `NoPress` and still holds the sim-press
binding as active binding, while the master, in `SimRelease`, holds none. -/
theorem slave_in_NoPress_keeps_binding :
    succeeded (run demo demoInit simPressInputs) = true ∧
    (demoAfter simPressInputs).getState 2 = .NoPress ∧
    ((demoAfter simPressInputs).impl 2)._keyToRelease = some (pressBinding 83 "S") ∧
    (demoAfter simPressInputs).getState 3 = .SimRelease ∧
    ((demoAfter simPressInputs).impl 3)._keyToRelease = none := by
  decide

/-- C7 as stated fails on the sample controller. The button of handle 4 is plainly bound (no
sim-press, no double-press); it is pressed in `NoPress`, is still down 50 ms later (hold time
150 ms) and is released: the events fired are `OnPress`, `OnInstantRelease`, `OnRelease`,
`OnTap`, which is not exactly `OnPress`, `OnRelease`, `OnTap`. -/
theorem tap_with_instant_fires_OnInstantRelease :
    (demo.mapping 4).HasSimMappings = false ∧ (demo.mapping 4).getDblPressMap = none ∧
    demoInit.getState 4 = .NoPress ∧ succeeded (run demo demoInit instantTapInputs) = true ∧
    elapsedMS (pressedAt 0).time_now (pressedAt 50).time_now ≤ (pressedAt 50).holdTime ∧
    eventsOf 4 (demoAfter instantTapInputs) = [.OnPress, .OnInstantRelease, .OnRelease, .OnTap] ∧
    eventsOf 4 (demoAfter instantTapInputs) ≠ [.OnPress, .OnRelease, .OnTap] := by
  decide

/-- C1 on the sample controller, for the inputs of the sim-press scenario. -/
theorem chordStack_last_is_NONE_witness :
    (∀ i ∈ simPressInputs, demo.id i.button ≠ demo.NONE) ∧
    run demo (World.init demo false true) simPressInputs = .ok (demoAfter simPressInputs) ∧
    (demoAfter simPressInputs).common.chordStack.getLast? = some demo.NONE ∧
    demo.NONE ∈ (demoAfter simPressInputs).common.chordStack :=
  ⟨by decide, eq_ok_getOk _ _ (by decide),
    chordStack_last_is_NONE demo false true simPressInputs (demoAfter simPressInputs) (by decide)
      (eq_ok_getOk _ _ (by decide))⟩

/-- The attached sample controller is reachable, by the empty run. -/
theorem demoInit_Reachable : Reachable demo demoInit := ⟨false, true, [], rfl⟩

/-- C4 on the sample controller: the plain button (handle 0) is pressed in `NoPress`. -/
theorem NoPress_Pressed_branches_witness :
    demoInit.getState 0 = .NoPress ∧
    ((demoAfter [.Pressed 0 (pressedAt 0)]).impl 0)._press_times = (pressedAt 0).time_now ∧
    if (demo.mapping 0).HasSimMappings = true then
      (demoAfter [.Pressed 0 (pressedAt 0)]).getState 0 = .WaitSim ∧
        (demoAfter [.Pressed 0 (pressedAt 0)]).fired = demoInit.fired
    else if (demo.mapping 0).getDblPressMap.isSome then
      (demoAfter [.Pressed 0 (pressedAt 0)]).getState 0 = .DblPressStart ∧
        (demoAfter [.Pressed 0 (pressedAt 0)]).fired = demoInit.fired
    else
      ∃ c m, findChordBinding (demo.mapping 0)
          (DigitalButtonState.react_Pressed demo 0 demoInit).common.chordStack = some (c, m) ∧
        (demoAfter [.Pressed 0 (pressedAt 0)]).fired = demoInit.fired ++ [(0, m, .OnPress)] ∧
        (demoAfter [.Pressed 0 (pressedAt 0)]).getState 0 = .BtnPress :=
  ⟨by decide, NoPress_Pressed_branches demo demoInit (demoAfter [.Pressed 0 (pressedAt 0)])
    demoInit_Reachable 0 (pressedAt 0) (by decide)
    (by
      have h := eq_ok_getOk (run demo demoInit [.Pressed 0 (pressedAt 0)]) demoInit (by decide)
      rw [run_singleton] at h
      exact h)⟩

/-- Elapsed times of `heldTicks` for the plain button pressed at 0 ms. -/
theorem heldTicks_elapsed :
    heldTicks.map (fun t => GetPressDurationMS (demoHeld.impl 0) t.time_now) =
      [100, 160, 200, 240, 260] := by
  decide

/-- C6 on the sample controller: hold time 150 ms, turbo period 80 ms, last tick at 260 ms, two
pulses. -/
theorem turbo_pulse_count_witness :
    demoHeld.getState 0 = .BtnPress ∧ (demoHeld.impl 0)._turboCount = 0 ∧
    (turboFired 0 (getOk (run demo demoHeld (heldTicks.map (Input.Pressed 0))) demoHeld).fired : ℤ)
      - turboFired 0 demoHeld.fired = ⌊((260 : ℚ) - 150) / 80⌋ + 1 ∧
    (((getOk (run demo demoHeld (heldTicks.map (Input.Pressed 0))) demoHeld).impl 0)._turboCount : ℤ)
      = ⌊((260 : ℚ) - 150) / 80⌋ + 1 :=
  ⟨by decide, by decide, turbo_pulse_count demo 0 demoHeld
    (getOk (run demo demoHeld (heldTicks.map (Input.Pressed 0))) demoHeld) heldTicks 150 80 260
    (by decide) (by decide) (by norm_num) (by decide)
    (by rw [heldTicks_elapsed]; norm_num [List.chain'_cons])
    (by rw [heldTicks_elapsed]; norm_num [List.chain'_cons])
    (by
      rw [heldTicks_elapsed]
      intro d hd
      have hf : ([100, 160, 200, 240, 260] : List ℚ).find? (fun d => decide (150 < d)) = some 160 := by
        decide
      rw [hf] at hd
      cases hd
      norm_num)
    (by rw [heldTicks_elapsed]; rfl)
    (by norm_num) (eq_ok_getOk _ _ (by with_unfolding_all decide))⟩

/-- C7 as amended, on the sample controller: the tap of the button bound with the Instant
modifier. -/
theorem tap_fires_press_release_tap_witness :
    demoInit.getState 4 = .NoPress ∧
    (∀ t ∈ [pressedAt 50], elapsedMS (pressedAt 0).time_now t.time_now ≤ t.holdTime) ∧
    ∃ c m new, findChordBinding (demo.mapping 4)
        (DigitalButtonState.react_Pressed demo 4 demoInit).common.chordStack = some (c, m) ∧
      (demoAfter instantTapInputs).fired = demoInit.fired ++ new ∧
      new.filter (fun x => decide (x.2.2 ≠ .OnInstantRelease)) =
        [(4, m, .OnPress), (4, m, .OnRelease), (4, m, .OnTap)] ∧
      (∀ x ∈ new, x.2.2 ≠ .OnHold ∧ x.2.2 ≠ .OnTurbo) ∧
      (demoAfter instantTapInputs).getState 4 = .TapRelease ∧
      ∀ (later : Input) (w'' : World), later.button = 4 →
        step demo (demoAfter instantTapInputs) later = .ok w'' →
        ((∃ second, later = Input.Pressed 4 second) ∨
          elapsedMS (releasedAt 60).time_now later.time_now > m.getTapDuration) →
        ∃ ir, OnlyInstant 4 ir ∧
          w''.fired = (demoAfter instantTapInputs).fired ++ ir ++ [(4, m, .OnTapRelease)] :=
  ⟨by decide, by decide,
    tap_fires_press_release_tap demo demoInit (demoAfter instantTapInputs) demoInit_Reachable 4
      (pressedAt 0) [pressedAt 50] (releasedAt 60) (by decide) (by decide) (by decide) (by decide)
      (eq_ok_getOk (run demo demoInit instantTapInputs) demoInit (by decide))⟩

/-- C8 on the sample controller: press, release and second press within 20 ms. -/
theorem double_press_within_window_witness :
    demoInit.getState 1 = .NoPress ∧
    elapsedMS (pressedAt 0).time_now (releasedAt 10).time_now ≤ demo.dbl_press_window ∧
    ((∃ second, Input.Pressed 1 (pressedAt 20) = Input.Pressed 1 second) →
      elapsedMS (pressedAt 0).time_now (Input.Pressed 1 (pressedAt 20)).time_now
        ≤ demo.dbl_press_window →
      (demoAfter doublePressInputs).fired = demoInit.fired ++ [(1, pressBinding 68 "D", .OnPress)] ∧
      (demoAfter doublePressInputs).getState 1 = .DblPressPress) ∧
    (elapsedMS (pressedAt 0).time_now (Input.Pressed 1 (pressedAt 20)).time_now
        > demo.dbl_press_window →
      ∃ c m, (demo.mapping 1).get c = some m ∧ c ≠ demo.id 1 ∧
        (demoAfter doublePressInputs).fired = demoInit.fired ++ [(1, m, .OnPress)] ∧
        (demoAfter doublePressInputs).getState 1 = .BtnPress) :=
  ⟨by decide, by decide,
    double_press_within_window demo demoInit (demoAfter doublePressInputs) demoInit_Reachable 1
      (pressedAt 0) (releasedAt 10) (Input.Pressed 1 (pressedAt 20)) 1 (pressBinding 68 "D")
      (by decide) (by decide) (by decide) rfl (by decide)
      (eq_ok_getOk (run demo demoInit doublePressInputs) demoInit (by decide))⟩

/-- C9 on the sample controller: button 2 finds button 3 waiting. -/
theorem WaitSim_rendezvous_witness :
    demoWaiting.getState 2 = .WaitSim ∧ demoWaiting.getState 3 = .WaitSim ∧
    demo._getMatchingSimBtn (DigitalButtonState.react_Pressed demo 2 demoWaiting) (demo.id 2)
      = some 3 ∧
    (demoStep demoWaiting (.Pressed 2 (pressedAt 10))).getState 2 = .SimPress ∧
    (demoStep demoWaiting (.Pressed 2 (pressedAt 10))).getState 3 = .SimPress ∧
    ((demoStep demoWaiting (.Pressed 2 (pressedAt 10))).impl 2)._press_times
      = (pressedAt 10).time_now ∧
    ((demoStep demoWaiting (.Pressed 2 (pressedAt 10))).impl 3)._press_times
      = (pressedAt 10).time_now ∧
    ((demoStep demoWaiting (.Pressed 2 (pressedAt 10))).impl 2)._keyToRelease
      = some (pressBinding 83 "S") ∧
    ((demoStep demoWaiting (.Pressed 2 (pressedAt 10))).impl 3)._keyToRelease
      = some (pressBinding 83 "S") ∧
    (demoStep demoWaiting (.Pressed 2 (pressedAt 10))).fired
      = demoWaiting.fired ++ [(2, pressBinding 83 "S", .OnPress)] ∧
    ((demoStep demoWaiting (.Pressed 2 (pressedAt 10))).impl 2)._simPressMaster = some 3 ∧
    ((demoStep demoWaiting (.Pressed 2 (pressedAt 10))).impl 3)._simPressMaster = none :=
  ⟨by decide, by decide, by decide,
    WaitSim_rendezvous demo demoWaiting (demoStep demoWaiting (.Pressed 2 (pressedAt 10))) 2 3
      (pressedAt 10) (pressBinding 83 "S") (by decide) (by decide) (by decide) (by decide)
      (by decide)
      (eq_ok_getOk (step demo demoWaiting (.Pressed 2 (pressedAt 10))) demoWaiting (by decide))⟩

/-- C10 on the sample controller: the slave (button 2) is released while the master (button 3)
is held past its hold time; the master's binding receives `OnRelease` and `OnHoldRelease`, the
master parks in `SimRelease` with a cleared record and the slave adopts `NoPress`. -/
theorem SimPress_slave_release_witness :
    demoSimHeld.getState 2 = .SimPress ∧ (demoSimHeld.impl 2)._simPressMaster = some 3 ∧
    demoSimHeld.getState 3 = .SimPress ∧
    ((demoSimHeld.impl 3)._turboCount = 1 ∧ (demoSimHeld.impl 3)._instantReleaseQueue = [] ∧
      (demoStep demoSimHeld (.Released 2 (releasedAt 210))).getState 2 = .NoPress ∧
      (demoStep demoSimHeld (.Released 2 (releasedAt 210))).getState 3 = .SimRelease ∧
      (demoStep demoSimHeld (.Released 2 (releasedAt 210))).fired =
        demoSimHeld.fired ++
          [(3, pressBinding 83 "S", .OnRelease), (3, pressBinding 83 "S", .OnHoldRelease)]) ∧
    ∃ m ext next w1,
      (demoSimHeld.impl 3)._keyToRelease = some m ∧
      ProcessEvent_Released demo 3
        ⟨(releasedAt 210).time_now, (releasedAt 210).turboTime, (releasedAt 210).holdTime⟩
        (DigitalButtonState.react_Released demo 2 demoSimHeld) = .ok (next, w1) ∧
      demoStep demoSimHeld (.Released 2 (releasedAt 210)) =
        changeState 2 next (changeState 3 .SimRelease w1) ∧
      (demoStep demoSimHeld (.Released 2 (releasedAt 210))).getState 3 = .SimRelease ∧
      (demoStep demoSimHeld (.Released 2 (releasedAt 210))).getState 2 = next ∧
      (demoStep demoSimHeld (.Released 2 (releasedAt 210))).impl 2 = demoSimHeld.impl 2 ∧
      (∀ b, b ≠ 3 → b ≠ 2 →
        (demoStep demoSimHeld (.Released 2 (releasedAt 210))).buttons b = demoSimHeld.buttons b) ∧
      (demoStep demoSimHeld (.Released 2 (releasedAt 210))).common.chordStack =
        (DigitalButtonState.react_Released demo 2 demoSimHeld).common.chordStack ∧
      if (demoSimHeld.impl 3)._turboCount = 0 then
        next = .TapRelease ∧
        (demoStep demoSimHeld (.Released 2 (releasedAt 210))).fired =
          demoSimHeld.fired ++ [(3, m, .OnRelease), (3, m, .OnTap)] ∧
        ((demoStep demoSimHeld (.Released 2 (releasedAt 210))).impl 3)._press_times =
          (releasedAt 210).time_now ∧
        ((demoStep demoSimHeld (.Released 2 (releasedAt 210))).impl 3)._keyToRelease = some m ∧
        ((demoStep demoSimHeld (.Released 2 (releasedAt 210))).impl 3)._instantReleaseQueue =
          (demoSimHeld.impl 3)._instantReleaseQueue ++ ext
      else
        (demoStep demoSimHeld (.Released 2 (releasedAt 210))).fired =
          demoSimHeld.fired ++ [(3, m, .OnRelease), (3, m, .OnHoldRelease)] ∧
        if (demoSimHeld.impl 3)._instantReleaseQueue ++ ext = [] then
          next = .NoPress ∧ Idle (demoStep demoSimHeld (.Released 2 (releasedAt 210))) 3
        else
          next = .InstRelease ∧
          ((demoStep demoSimHeld (.Released 2 (releasedAt 210))).impl 3)._press_times =
            (releasedAt 210).time_now ∧
          ((demoStep demoSimHeld (.Released 2 (releasedAt 210))).impl 3)._keyToRelease = some m ∧
          ((demoStep demoSimHeld (.Released 2 (releasedAt 210))).impl 3)._instantReleaseQueue =
            (demoSimHeld.impl 3)._instantReleaseQueue ++ ext :=
  ⟨by decide, by decide, by decide, by decide,
    SimPress_slave_release demo demoSimHeld (demoStep demoSimHeld (.Released 2 (releasedAt 210)))
      2 3 (releasedAt 210) (by decide) (by decide) (by decide) (by decide)
      (eq_ok_getOk (step demo demoSimHeld (.Released 2 (releasedAt 210))) demoSimHeld (by decide))⟩

theorem findChordBinding_none (b : JSMButton) (cs : List ButtonID) :
    findChordBinding b cs = none ↔ ∀ c ∈ cs, b.get c = none ∨ c = b._id := by
  unfold findChordBinding
  rw [List.findSome?_eq_none_iff]
  constructor
  · intro h c hc
    have := h c hc
    cases hg : b.get c with
    | none => exact Or.inl rfl
    | some m =>
      rw [hg] at this
      by_cases hid : c = b._id
      · exact Or.inr hid
      · simp [hid] at this
  · intro h c hc
    rcases h c hc with hg | hid
    · rw [hg]
    · cases hg : b.get c with
      | none => rfl
      | some m => simp [hid]

theorem findChordBinding_first (b : JSMButton) (pre post : List ButtonID) (c : ButtonID)
    (m : Mapping) (hpre : ∀ x ∈ pre, b.get x = none ∨ x = b._id) (hget : b.get c = some m)
    (hne : c ≠ b._id) : findChordBinding b (pre ++ c :: post) = some (c, m) := by
  unfold findChordBinding
  rw [List.findSome?_append]
  have h1 := (findChordBinding_none b pre).mpr hpre
  unfold findChordBinding at h1
  rw [h1]
  simp [List.findSome?_cons, hget, hne]

theorem GetPressMapping_error_iff (env : Env) (self : Nat) (w : World)
    (hkey : (w.impl self)._keyToRelease = none) :
    (∃ e, GetPressMapping env self w = .error e) ↔
      findChordBinding (env.mapping self) w.common.chordStack = none := by
  unfold GetPressMapping
  rw [hkey]
  cases hf : findChordBinding (env.mapping self) w.common.chordStack with
  | none => simp [throw, throwThe, MonadExceptOf.throw]
  | some p => simp [pure, Except.pure]

/-- C20. When classifier `self` holds no active binding, `GetPressMapping` walks the chord stack
from the front: the first chord `c` for which the button has a binding `m` and which is not the
button's own id decides the result, a copy of `m` that becomes the active binding (named after
`c`); the call raises an error if and only if the chord stack holds no such chord; and it does
not raise when the stack contains `NONE`, the button has a base binding, and `NONE` is not the
button's own id (it is the id of no button). -/
theorem GetPressMapping_chord_resolution (env : Env) (self : Nat) (w : World)
    (hkey : (w.impl self)._keyToRelease = none) :
    (∀ pre c post m, w.common.chordStack = pre ++ c :: post →
        (∀ x ∈ pre, (env.mapping self).get x = none ∨ x = env.id self) →
        (env.mapping self).get c = some m → c ≠ env.id self →
        GetPressMapping env self w = .ok (m, w.setImpl self fun i =>
          { i with _keyToRelease := some m
                   _nameToRelease := (env.mapping self).getName c })) ∧
    ((∃ e, GetPressMapping env self w = .error e) ↔
        ∀ c ∈ w.common.chordStack, (env.mapping self).get c = none ∨ c = env.id self) ∧
    (env.NONE ∈ w.common.chordStack → (env.mapping self).get env.NONE ≠ none →
        env.id self ≠ env.NONE → ∃ r, GetPressMapping env self w = .ok r) := by
  have hiff := (GetPressMapping_error_iff env self w hkey).trans
    (findChordBinding_none (env.mapping self) w.common.chordStack)
  refine ⟨?_, hiff, ?_⟩
  · intro pre c post m hcs hpre hget hne
    have hf := findChordBinding_first (env.mapping self) pre post c m hpre hget hne
    unfold GetPressMapping
    rw [hkey, hcs, hf]
    rfl
  · intro hin hbase hid
    cases hr : GetPressMapping env self w with
    | ok r => exact ⟨r, rfl⟩
    | error e =>
      exfalso
      rcases hiff.mp ⟨e, hr⟩ env.NONE hin with h | h
      · exact hbase h
      · exact hid h.symm

theorem GetPressMapping_chord_resolution_witness :
    (demoInit.impl 0)._keyToRelease = none ∧
    GetPressMapping demo 0 demoInit = .ok (pressBinding 65 "A", demoInit.setImpl 0 fun i =>
      { i with _keyToRelease := some (pressBinding 65 "A")
               _nameToRelease := (demo.mapping 0).getName (-1) }) :=
  ⟨rfl, (GetPressMapping_chord_resolution demo 0 demoInit rfl).1 [] (-1) [] (pressBinding 65 "A")
    rfl (by simp) rfl (by decide)⟩

theorem ClearAllActiveToggle_captured (key : KeyCode) (w : World) :
    (ClearAllActiveToggle key w).isSameKey = some (w.isSameKey.getD key) ∧
    (ClearAllActiveToggle key w).common.activeTogglesQueue =
      w.common.activeTogglesQueue.filter (fun p => p.2 ≠ w.isSameKey.getD key) := ⟨rfl, rfl⟩

theorem clearAll_captured (keys : List KeyCode) (first : KeyCode) (w : World)
    (h : w.isSameKey = some first)
    (hq : ∀ p ∈ w.common.activeTogglesQueue, p.2 ≠ first) :
    (clearAll keys w).common.activeTogglesQueue = w.common.activeTogglesQueue := by
  induction keys generalizing w with
  | nil => rfl
  | cons k ks ih =>
    have hstep : (ClearAllActiveToggle k w).common.activeTogglesQueue =
        w.common.activeTogglesQueue := by
      rw [(ClearAllActiveToggle_captured k w).2, h]
      simp only [Option.getD_some]
      rw [List.filter_eq_self]
      intro p hp
      simpa using hq p hp
    have := ih (ClearAllActiveToggle k w) (by rw [(ClearAllActiveToggle_captured k w).1, h]; rfl)
      (by rw [hstep]; exact hq)
    simp only [clearAll, List.foldl_cons] at this ⊢
    rw [this, hstep]

/-- C12. The predicate of `ClearAllActiveToggle` is built once, at the first call, and keeps that
call's key: over every sequence of calls that starts with the first call ever made, the first
call removes the entries of its key `first` and every later call, whatever its argument, removes
nothing more, so that the queue ends as the initial queue without the entries of `first`. -/
theorem ClearAllActiveToggle_keeps_first_key (first : KeyCode) (keys : List KeyCode) (w : World)
    (h : w.isSameKey = none) :
    (clearAll (first :: keys) w).common.activeTogglesQueue =
      w.common.activeTogglesQueue.filter (fun p => p.2 ≠ first) := by
  have h1 := ClearAllActiveToggle_captured first w
  rw [h] at h1
  simp only [Option.getD_none] at h1
  have := clearAll_captured keys first (ClearAllActiveToggle first w) h1.1
    (by rw [h1.2]; intro p hp; simpa using (List.mem_filter.mp hp).2)
  simp only [clearAll, List.foldl_cons] at this ⊢
  rw [this, h1.2]

theorem ClearAllActiveToggle_keeps_first_key_witness :
    (togglesWorld [(1, ⟨65, "A"⟩), (2, ⟨66, "B"⟩)]).isSameKey = none ∧
    (clearAll [⟨67, "C"⟩, ⟨66, "B"⟩] (togglesWorld [(1, ⟨65, "A"⟩), (2, ⟨66, "B"⟩)])
      ).common.activeTogglesQueue = [(1, ⟨65, "A"⟩), (2, ⟨66, "B"⟩)] :=
  ⟨rfl, (ClearAllActiveToggle_keeps_first_key ⟨67, "C"⟩ [⟨66, "B"⟩]
    (togglesWorld [(1, ⟨65, "A"⟩), (2, ⟨66, "B"⟩)]) rfl).trans (by decide)⟩

theorem RemoveGyroAction_not_found (env : Env) (self : Nat) (w : World) (owner : ButtonID)
    (ho : (match (w.impl self)._simPressMaster with
      | some master => env.id master
      | none => env.id self) = owner)
    (hq : ∀ p ∈ w.common.gyroActionQueue, p.1 ≠ owner) :
    RemoveGyroAction env self w = w := by
  subst ho
  unfold RemoveGyroAction
  dsimp only
  split
  · next g hg =>
    have h1 := List.find?_some hg
    have h2 := List.mem_of_find?_eq_some hg
    exact absurd (by simpa using h1) (hq g h2)
  · rfl

/-- C13. `ApplyGyroAction` keys the entry it pushes by the calling classifier's own id, also
when the caller is a sim-press slave, while `RemoveGyroAction` looks for an entry of the
master's id when the caller holds a master reference: after a slave's `ApplyGyroAction`, with no
entry of the master's id in the queue, `RemoveGyroAction` called by the slave or by the master
changes nothing and the slave's entry stays in the queue. -/
theorem gyro_entry_keyed_by_own_id (env : Env) (self master : Nat) (key : KeyCode) (w : World)
    (hm : (w.impl self)._simPressMaster = some master)
    (hmm : (w.impl master)._simPressMaster = none)
    (hne : env.id master ≠ env.id self)
    (hfree : ∀ p ∈ w.common.gyroActionQueue, p.1 ≠ env.id master) :
    (ApplyGyroAction env self key w).common.gyroActionQueue =
      w.common.gyroActionQueue ++ [(env.id self, key)] ∧
    RemoveGyroAction env self (ApplyGyroAction env self key w) = ApplyGyroAction env self key w ∧
    RemoveGyroAction env master (ApplyGyroAction env self key w) =
      ApplyGyroAction env self key w := by
  have hfind : ∀ p ∈ (ApplyGyroAction env self key w).common.gyroActionQueue,
      p.1 ≠ env.id master := by
    intro p hp
    have hp' : p ∈ w.common.gyroActionQueue ++ [(env.id self, key)] := hp
    rcases List.mem_append.mp hp' with h | h
    · exact hfree p h
    · simp only [List.mem_singleton] at h
      rw [h]
      exact fun h => hne h.symm
  refine ⟨rfl, ?_, ?_⟩
  · apply RemoveGyroAction_not_found env self _ (env.id master) _ hfind
    show (match (w.impl self)._simPressMaster with
      | some master => env.id master
      | none => env.id self) = env.id master
    rw [hm]
  · apply RemoveGyroAction_not_found env master _ (env.id master) _ hfind
    show (match (w.impl master)._simPressMaster with
      | some master => env.id master
      | none => env.id master) = env.id master
    rw [hmm]

theorem gyro_entry_keyed_by_own_id_witness :
    ((demoSimHeld.impl 2)._simPressMaster = some 3 ∧ (demoSimHeld.impl 3)._simPressMaster = none ∧
      demo.id 3 ≠ demo.id 2 ∧ demoSimHeld.common.gyroActionQueue = []) ∧
    (ApplyGyroAction demo 2 gyroKey demoSimHeld).common.gyroActionQueue = [(2, gyroKey)] ∧
    (RemoveGyroAction demo 2 (ApplyGyroAction demo 2 gyroKey demoSimHeld)).common.gyroActionQueue
      = [(2, gyroKey)] ∧
    (RemoveGyroAction demo 3 (ApplyGyroAction demo 2 gyroKey demoSimHeld)).common.gyroActionQueue
      = [(2, gyroKey)] := by
  have hq : demoSimHeld.common.gyroActionQueue = [] := by decide
  have h := gyro_entry_keyed_by_own_id demo 2 3 gyroKey demoSimHeld (by decide) (by decide)
    (by decide) (by rw [hq]; simp)
  refine ⟨⟨by decide, by decide, by decide, hq⟩, ?_, ?_, ?_⟩
  · rw [h.1, hq]; rfl
  · rw [h.2.1, h.1, hq]; rfl
  · rw [h.2.2, h.1, hq]; rfl

theorem toggle_present (env : Env) (self : Nat) (key : KeyCode) (apply release : Callback)
    (w : World) (h : (env.id self, key) ∈ w.common.activeTogglesQueue) :
    runCallback env self (.ApplyButtonToggle key apply release) w =
      runCallback env self release w := by
  rw [runCallback]
  simp only [h, if_true]

theorem toggle_absent (env : Env) (self : Nat) (key : KeyCode) (apply release : Callback)
    (w applied : World) (h : (env.id self, key) ∉ w.common.activeTogglesQueue)
    (ha : runCallback env self apply w = .ok applied) :
    runCallback env self (.ApplyButtonToggle key apply release) w =
      .ok (applied.setCommon fun c =>
        { c with activeTogglesQueue := (env.id self, key) :: c.activeTogglesQueue }) := by
  rw [runCallback]
  simp only [h, if_false, ha]
  rfl

theorem release_without_clear (env : Env) (self : Nat) (key : KeyCode) (release : Callback)
    (hkind : release = .SetRumble 0 0 ∨
      (release = .ApplyBtnRelease key ∧ env.isViGEmBtn key = true)) (w : World) :
    ∃ w', runCallback env self release w = .ok w' ∧ w'.common = w.common := by
  rcases hkind with rfl | ⟨rfl, hv⟩
  · exact ⟨w.emit (.rumble 0 0), by rw [runCallback]; rfl, rfl⟩
  · refine ⟨ApplyBtnRelease env key w, by rw [runCallback]; rfl, ?_⟩
    unfold ApplyBtnRelease
    rw [hv]
    simp only [if_true]
    split_ifs <;> rfl

/-- C11. For a rumble target (release action `SetRumble(0, 0)`) and for a virtual-controller
button (release action `ApplyBtnRelease` of a ViGEm key) bound with the Toggle modifier: the
first activation runs the apply action and puts `(buttonID, key)` at the front of the toggle
queue; the second activation runs the release action, which does not touch the queue, so the
record is still there; the third activation therefore runs the release action again, not the
apply action. -/
theorem toggle_release_keeps_record (env : Env) (self : Nat) (key : KeyCode)
    (apply release : Callback) (w applied : World)
    (hkind : release = .SetRumble 0 0 ∨
      (release = .ApplyBtnRelease key ∧ env.isViGEmBtn key = true))
    (ha : runCallback env self apply w = .ok applied)
    (habs : (env.id self, key) ∉ w.common.activeTogglesQueue) :
    ∃ w1 w2 w3,
      runCallback env self (.ApplyButtonToggle key apply release) w = .ok w1 ∧
      w1.log = applied.log ∧
      w1.common.activeTogglesQueue = (env.id self, key) :: applied.common.activeTogglesQueue ∧
      runCallback env self (.ApplyButtonToggle key apply release) w1 = .ok w2 ∧
      runCallback env self release w1 = .ok w2 ∧
      w2.common.activeTogglesQueue = w1.common.activeTogglesQueue ∧
      runCallback env self (.ApplyButtonToggle key apply release) w2 = .ok w3 ∧
      runCallback env self release w2 = .ok w3 ∧
      w3.common.activeTogglesQueue = w1.common.activeTogglesQueue := by
  have h1 := toggle_absent env self key apply release w applied habs ha
  obtain ⟨w2, hr2, hc2⟩ := release_without_clear env self key release hkind
    (applied.setCommon fun c =>
      { c with activeTogglesQueue := (env.id self, key) :: c.activeTogglesQueue })
  obtain ⟨w3, hr3, hc3⟩ := release_without_clear env self key release hkind w2
  have hin1 : (env.id self, key) ∈ (applied.setCommon fun c =>
      { c with activeTogglesQueue := (env.id self, key) :: c.activeTogglesQueue }
      ).common.activeTogglesQueue := List.mem_cons_self _ _
  have hin2 : (env.id self, key) ∈ w2.common.activeTogglesQueue := by rw [hc2]; exact hin1
  refine ⟨_, w2, w3, h1, rfl, rfl, ?_, hr2, by rw [hc2], ?_, hr3, by rw [hc3, hc2]⟩
  · rw [toggle_present env self key apply release _ hin1]; exact hr2
  · rw [toggle_present env self key apply release _ hin2]; exact hr3

theorem optionalChar_length (p : Char → Bool) (s : List Char) (x : List Char × List Char)
    (h : x ∈ optionalChar p s) : x.2.length ≤ s.length := by
  unfold optionalChar at h
  split at h
  · next c rest =>
    split_ifs at h
    · simp only [List.mem_cons, List.mem_singleton, List.not_mem_nil, or_false] at h
      rcases h with rfl | rfl <;> simp
    · simp only [List.mem_singleton] at h
      subst h; simp
  · simp only [List.mem_singleton] at h
    subst h; simp

theorem quotedOptions_length (s : List Char) (x : List Char × List Char)
    (h : x ∈ quotedOptions s) : x.2.length < s.length := by
  unfold quotedOptions at h
  split at h
  · next c rest =>
    split_ifs at h
    · simp only [List.mem_map, List.mem_filter] at h
      obtain ⟨j, _, rfl⟩ := h
      simp only [List.length_drop, List.length_cons]
      omega
    · simp at h
  · simp at h

theorem wordOptions_length (s : List Char) (x : List Char × List Char)
    (h : x ∈ wordOptions s) : x.2.length < s.length := by
  unfold wordOptions at h
  simp only [List.mem_map, List.mem_filter] at h
  obtain ⟨n, ⟨_, hn⟩, rfl⟩ := h
  have hlt : n < s.length := by
    by_contra hge
    have : s.get? n = none := List.get?_eq_none.mpr (by omega)
    rw [this] at hn
    simp at hn
  simp only [List.length_drop]
  omega

theorem symbolOptions_length (s : List Char) (x : List Char × List Char)
    (h : x ∈ symbolOptions s) : x.2.length < s.length := by
  unfold symbolOptions at h
  split at h
  · next c rest =>
    split_ifs at h
    · simp at h
    · simp only [List.mem_singleton] at h
      subst h; simp
  · simp at h

theorem keyOptions_length (s : List Char) (x : List Char × List Char)
    (h : x ∈ keyOptions s) : x.2.length < s.length := by
  unfold keyOptions at h
  rcases List.mem_append.mp h with h | h
  · rcases List.mem_append.mp h with h | h
    · exact quotedOptions_length s x h
    · exact wordOptions_length s x h
  · exact symbolOptions_length s x h

theorem regex_match_shorter (s : List Char) (r : smatch) (h : regex_match s = some r) :
    r.leftovers.length < s.length := by
  unfold regex_match at h
  have hm : r ∈ regexCandidates s := List.mem_of_mem_head? (by rw [h]; rfl)
  unfold regexCandidates at hm
  simp only [List.mem_flatMap] at hm
  obtain ⟨k, _, g1, hg1, g2, hg2, g4, hg4, hr⟩ := hm
  have h1 := optionalChar_length _ _ _ hg1
  have h2 := keyOptions_length _ _ hg2
  have h4 := optionalChar_length _ _ _ hg4
  have h0 : (s.drop k).length ≤ s.length := by simp
  split_ifs at hr
  · simp only [List.mem_singleton] at hr
    subst hr
    have h5 := (List.dropWhile_suffix isspace : g4.2.dropWhile isspace <:+ g4.2).length_le
    simp only
    omega
  · simp at hr

theorem parseLoop_ends (P : MappingEnv) : ∀ (fuel count : Nat) (s : List Char) (m : Mapping)
    (ss : String) (ts : List Target), s.length < fuel → parseLoop P fuel count s m ss ts ≠ none
  | 0, _, _, _, _, _, h => by omega
  | fuel + 1, count, s, m, ss, ts, h => by
    unfold parseLoop
    cases hr : regex_match s with
    | none => simp
    | some results =>
      simp only
      by_cases hs : s = []
      · simp [hs]
      · simp only [hs, if_false]
        cases hp : parseTarget P count results m with
        | error f => simp
        | ok v =>
          obtain ⟨t, m', text⟩ := v
          simp only
          by_cases ha : t.added = true
          · simp only [ha, if_true]
            apply parseLoop_ends P fuel
            have := regex_match_shorter s results hr
            omega
          · simp [ha]

theorem operator_extract_ends (P : MappingEnv) (content : List Char) (m : Mapping) :
    operator_extract P content m ≠ none := by
  unfold operator_extract
  have h := parseLoop_ends P ((getline content).1.length + 1) 0 (getline content).1
    { m with _command := String.mk (getline content).1 } "" [] (by omega)
  cases hl : parseLoop P ((getline content).1.length + 1) 0 (getline content).1
    { m with _command := String.mk (getline content).1 } "" [] with
  | none => exact absurd hl h
  | some out =>
    cases out with
    | error f => simp
    | ok r => simp

theorem keyActions_table (P : MappingEnv) (m : Mapping) (key : KeyCode)
    (apply release : Callback) (m1 : Mapping)
    (h : Mapping.keyActions P m key = .ok (some (apply, release, m1))) :
    m1._eventMapping = m._eventMapping := by
  unfold Mapping.keyActions at h
  rcases ite_ok_cases h with ⟨_, h⟩ | ⟨_, h⟩
  · simp only [pure_eq_ok, Option.some.injEq, Prod.mk.injEq] at h
    obtain ⟨_, _, rfl⟩ := h; rfl
  rcases ite_ok_cases h with ⟨_, h⟩ | ⟨_, h⟩
  · simp only [pure_eq_ok, Option.some.injEq, Prod.mk.injEq] at h
    obtain ⟨_, _, rfl⟩ := h; rfl
  rcases ite_ok_cases h with ⟨_, h⟩ | ⟨_, h⟩
  · split at h
    · simp only [throw_ne_ok] at h
    · rcases ite_ok_cases h with ⟨_, h⟩ | ⟨_, h⟩
      · simp only [pure_eq_ok, Option.some.injEq, Prod.mk.injEq] at h
        obtain ⟨_, _, rfl⟩ := h; rfl
      · simp only [pure_eq_ok] at h
        cases h
  rcases ite_ok_cases h with ⟨_, h⟩ | ⟨_, h⟩
  · rcases ite_ok_cases h with ⟨_, h⟩ | ⟨_, h⟩
    · simp only [throw_ne_ok] at h
    · simp only [bind_eq_ok, pure_eq_ok, Option.some.injEq, Prod.mk.injEq] at h
      obtain ⟨_, _, _, _, rfl⟩ := h; rfl
  · simp only [pure_eq_ok, Option.some.injEq, Prod.mk.injEq] at h
    obtain ⟨_, _, rfl⟩ := h; rfl

theorem AddMapping_false (P : MappingEnv) (m m' : Mapping) (key : KeyCode)
    (evtMod : EventModifier) (actMod : ActionModifier)
    (h : m.AddMapping P key evtMod actMod = .ok (false, m')) :
    m'._eventMapping = m._eventMapping := by
  unfold Mapping.AddMapping at h
  simp only [bind_eq_ok] at h
  obtain ⟨ka, hka, h⟩ := h
  cases ka with
  | none =>
    simp only [pure_eq_ok, Prod.mk.injEq] at h
    rw [← h.2]
  | some v =>
    obtain ⟨apply, release, m1⟩ := v
    have ht := keyActions_table P m key apply release m1 hka
    simp only at h
    cases he : evtMod.events with
    | none =>
      rw [he] at h
      simp only [pure_eq_ok, Prod.mk.injEq] at h
      rw [← h.2, ht]
    | some ev =>
      obtain ⟨applyEvt, releaseEvt⟩ := ev
      rw [he] at h
      cases actMod <;> simp [pure_eq_ok] at h
      rw [← h, ht]

theorem parseTarget_spec (P : MappingEnv) (count : Nat) (results : smatch) (m m' : Mapping)
    (t : Target) (text : String) (h : parseTarget P count results m = .ok (t, m', text)) :
    t.count = count ∧ t.results = results ∧ t.wellFormed P ∧
    (t.added = true → m.AddMapping P t.key t.evtMod t.actMod = .ok (true, m')) ∧
    (t.added = false → m'._eventMapping = m._eventMapping) := by
  unfold parseTarget at h
  simp only at h
  rcases ite_ok_cases h with ⟨hrej, h⟩ | ⟨hrej, h⟩
  · simp only [pure_eq_ok, Prod.mk.injEq] at h
    obtain ⟨rfl, rfl, _⟩ := h
    exact ⟨rfl, rfl, ⟨rfl, rfl, rfl, fun _ => rfl⟩, (fun h => by simp at h), fun _ => rfl⟩
  · simp only [bind_eq_ok] at h
    obtain ⟨⟨ok, m2⟩, hadd, h⟩ := h
    simp only at h
    rcases ite_ok_cases h with ⟨hok, h⟩ | ⟨hok, h⟩
    · simp only [pure_eq_ok, Prod.mk.injEq] at h
      obtain ⟨rfl, rfl, _⟩ := h
      subst hok
      exact ⟨rfl, rfl, ⟨rfl, rfl, rfl, fun hr => absurd hr hrej⟩, fun _ => hadd,
        (fun h => by simp at h)⟩
    · simp only [pure_eq_ok, Prod.mk.injEq] at h
      obtain ⟨rfl, rfl, _⟩ := h
      have hf : ok = false := by simpa using hok
      subst hf
      exact ⟨rfl, rfl, ⟨rfl, rfl, rfl, fun _ => rfl⟩, (fun h => by simp at h),
        fun _ => AddMapping_false P m m2 _ _ _ hadd⟩

theorem parseLoop_facts (P : MappingEnv) : ∀ (fuel count : Nat) (s : List Char) (m : Mapping)
    (ss : String) (ts : List Target) (r : Parsed),
    parseLoop P fuel count s m ss ts = some (.ok r) →
    ∃ new, r.targets = ts ++ new ∧ LoopFacts P count m new r
  | 0, _, _, _, _, _, _, h => by simp [parseLoop] at h
  | fuel + 1, count, s, m, ss, ts, r, h => by
    have stop : ∀ m0 : Mapping, m0._eventMapping = m._eventMapping →
        ∃ new, (Parsed.mk false m0 ts).targets = ts ++ new ∧
          LoopFacts P count m new (Parsed.mk false m0 ts) := fun m0 hm0 =>
      ⟨[], by simp, ⟨by simp, by simp, by simp,
        ⟨[], by simp, Or.inl ⟨rfl, m, rfl, hm0⟩⟩⟩⟩
    unfold parseLoop at h
    cases hr : regex_match s with
    | none =>
      rw [hr] at h
      simp only [Option.some.injEq, Except.ok.injEq] at h
      subst h
      exact stop _ rfl
    | some results =>
      rw [hr] at h
      simp only at h
      by_cases hs : s = []
      · simp only [hs, if_true, Option.some.injEq, Except.ok.injEq] at h
        subst h
        exact stop _ rfl
      · simp only [hs, if_false] at h
        cases hp : parseTarget P count results m with
        | error f => rw [hp] at h; simp at h
        | ok v =>
          obtain ⟨t, m', text⟩ := v
          rw [hp] at h
          simp only at h
          obtain ⟨hc, _, hwf, hadd, hkeep⟩ := parseTarget_spec P count results m m' t text hp
          by_cases ha : t.added = true
          · simp only [ha, if_true] at h
            obtain ⟨new, hnew, facts⟩ := parseLoop_facts P fuel _ _ _ _ _ r h
            refine ⟨t :: new, by rw [hnew]; simp, ?_, ?_, ?_, ?_⟩
            · intro j t' hj
              cases j with
              | zero =>
                simp only [List.get?_cons_zero, Option.some.injEq] at hj
                subst hj; simpa using hc
              | succ j =>
                simp only [List.get?_cons_succ] at hj
                have := facts.counts j t' hj
                omega
            · intro t' ht'
              rcases List.mem_cons.mp ht' with rfl | h'
              · exact hwf
              · exact facts.formed t' h'
            · rw [facts.failed]
              constructor
              · rintro ⟨t', ht', hf⟩
                exact ⟨t', List.mem_cons_of_mem _ ht', hf⟩
              · rintro ⟨t', ht', hf⟩
                rcases List.mem_cons.mp ht' with rfl | h'
                · rw [ha] at hf; cases hf
                · exact ⟨t', h', hf⟩
            · obtain ⟨pre, hpre, hcase⟩ := facts.last
              have hstep : ∀ mf, addTargets P m' pre = some mf →
                  addTargets P m (t :: pre) = some mf := by
                intro mf hmf
                simp only [addTargets, hadd ha]
                exact hmf
              refine ⟨t :: pre, ?_, ?_⟩
              · intro x hx
                rcases List.mem_cons.mp hx with rfl | h'
                · exact ha
                · exact hpre x h'
              · rcases hcase with ⟨rfl, mf, hmf, htab⟩ | ⟨t0, ht0, rfl, mf, hmf, htab⟩
                · exact Or.inl ⟨rfl, mf, hstep mf hmf, htab⟩
                · exact Or.inr ⟨t0, ht0, rfl, mf, hstep mf hmf, htab⟩
          · have hf : t.added = false := by simpa using ha
            simp only [hf, Bool.false_eq_true, if_false, Option.some.injEq,
              Except.ok.injEq] at h
            subst h
            refine ⟨[t], rfl, ?_, ?_, ?_, ?_⟩
            · intro j t' hj
              cases j with
              | zero =>
                simp only [List.get?_cons_zero, Option.some.injEq] at hj
                subst hj; simpa using hc
              | succ j => simp at hj
            · intro t' ht'
              simp only [List.mem_singleton] at ht'
              subst ht'; exact hwf
            · simp [hf]
            · exact ⟨[], by simp, Or.inr ⟨t, hf, rfl, m, rfl, hkeep hf⟩⟩

theorem operator_extract_facts (P : MappingEnv) (content : List Char) (m : Mapping)
    (r : Parsed) (h : operator_extract P content m = some (.ok r)) :
    ∃ r0, r.failbit = ((getline content).2 || r0.failbit) ∧ r.mapping = r0.mapping ∧
      LoopFacts P 0 { m with _command := String.mk (getline content).1 } r.targets r0 := by
  unfold operator_extract at h
  cases hl : parseLoop P ((getline content).1.length + 1) 0 (getline content).1
    { m with _command := String.mk (getline content).1 } "" [] with
  | none => rw [hl] at h; simp at h
  | some out =>
    rw [hl] at h
    cases out with
    | error f => simp at h
    | ok r0 =>
      simp only [Option.some.injEq, Except.ok.injEq] at h
      subst h
      obtain ⟨new, hnew, facts⟩ := parseLoop_facts P _ _ _ _ _ _ r0 hl
      simp only [List.nil_append] at hnew
      refine ⟨r0, rfl, rfl, ?_⟩
      simp only
      rw [hnew]
      exact facts

theorem Callback.size_pos (c : Callback) : 0 < c.size := by
  cases c <;> simp [Callback.size]

theorem find?_map_other (l : List (BtnEvent × Callback)) (e e' : BtnEvent) (g : Callback)
    (h : e' ≠ e) :
    (l.map fun p => if p.1 = e then (e, g) else p).find? (fun p => p.1 = e') =
      l.find? (fun p => p.1 = e') := by
  induction l with
  | nil => rfl
  | cons p l ih =>
    simp only [List.map_cons, List.find?_cons]
    by_cases hp : p.1 = e
    · have h1 : ¬ e = e' := fun h' => h h'.symm
      have h2 : ¬ p.1 = e' := fun h' => h (h'.symm.trans hp)
      simp only [hp, if_true, h1, decide_False, h2]
      simpa [hp] using ih
    · simp only [hp, if_false]
      by_cases hp' : p.1 = e'
      · simp [hp']
      · simp only [hp', decide_False]
        exact ih

theorem find?_map_self (l : List (BtnEvent × Callback)) (e : BtnEvent) (g : Callback)
    (p0 : BtnEvent × Callback) (h : l.find? (fun p => p.1 = e) = some p0) :
    (l.map fun p => if p.1 = e then (e, g) else p).find? (fun p => p.1 = e) = some (e, g) := by
  induction l with
  | nil => simp at h
  | cons p l ih =>
    simp only [List.map_cons, List.find?_cons] at h ⊢
    by_cases hp : p.1 = e
    · simp [hp]
    · simp only [hp, decide_False] at h
      simp only [hp, if_false, decide_False]
      exact ih h

theorem find_insert_self (m : Mapping) (e : BtnEvent) (a : Callback) :
    (m.InsertEventMapping e a).find e =
      some (match m.find e with
        | none => a
        | some c => .RunBothActions c a) := by
  unfold Mapping.InsertEventMapping
  cases hf : m.find e with
  | none =>
    simp only [Mapping.find] at hf ⊢
    have hn : m._eventMapping.find? (fun p => p.1 = e) = none := by
      cases h : m._eventMapping.find? (fun p => p.1 = e) with
      | none => rfl
      | some x => rw [h] at hf; simp at hf
    rw [List.find?_append, hn]
    simp
  | some c =>
    simp only [Mapping.find] at hf ⊢
    cases h : m._eventMapping.find? (fun p => p.1 = e) with
    | none => rw [h] at hf; simp at hf
    | some p0 =>
      rw [find?_map_self _ e _ p0 h]
      rfl

theorem find_insert_other (m : Mapping) (e e' : BtnEvent) (a : Callback) (h : e' ≠ e) :
    (m.InsertEventMapping e a).find e' = m.find e' := by
  unfold Mapping.InsertEventMapping
  cases hf : m.find e with
  | none =>
    simp only [Mapping.find]
    rw [List.find?_append]
    have : ([(e, a)] : List (BtnEvent × Callback)).find? (fun p => p.1 = e') = none := by
      have hne : ¬ e = e' := fun h' => h h'.symm
      simp [List.find?_cons, hne]
    rw [this]
    simp
  | some c =>
    simp only [Mapping.find]
    rw [find?_map_other _ e e' _ h]

theorem depth_insert_self (m : Mapping) (e : BtnEvent) (a : Callback) :
    m.depth e < (m.InsertEventMapping e a).depth e := by
  unfold Mapping.depth
  rw [find_insert_self]
  cases m.find e with
  | none => exact Callback.size_pos a
  | some c =>
    simp only [Callback.size]
    have := Callback.size_pos a
    omega

theorem depth_insert_le (m : Mapping) (e e' : BtnEvent) (a : Callback) :
    m.depth e' ≤ (m.InsertEventMapping e a).depth e' := by
  by_cases h : e' = e
  · subst h; exact Nat.le_of_lt (depth_insert_self m e' a)
  · unfold Mapping.depth
    rw [find_insert_other m e e' a h]

theorem depth_congr (m m1 : Mapping) (h : m1._eventMapping = m._eventMapping) (e : BtnEvent) :
    m1.depth e = m.depth e := by
  unfold Mapping.depth Mapping.find
  rw [h]

theorem AddMapping_true_depth (P : MappingEnv) (m m' : Mapping) (key : KeyCode)
    (evtMod : EventModifier) (actMod : ActionModifier)
    (h : m.AddMapping P key evtMod actMod = .ok (true, m')) :
    (∃ e, m.depth e < m'.depth e) ∧ ∀ e, m.depth e ≤ m'.depth e := by
  unfold Mapping.AddMapping at h
  simp only [bind_eq_ok] at h
  obtain ⟨ka, hka, h⟩ := h
  cases ka with
  | none => simp [pure_eq_ok] at h
  | some v =>
    obtain ⟨apply, release, m1⟩ := v
    have ht := keyActions_table P m key apply release m1 hka
    simp only at h
    cases he : evtMod.events with
    | none => rw [he] at h; simp [pure_eq_ok] at h
    | some ev =>
      obtain ⟨applyEvt, releaseEvt⟩ := ev
      rw [he] at h
      have key : ∀ (ap rl : Callback) (re : BtnEvent),
          m' = (if evtMod = .TurboPress then
              ((m1.InsertEventMapping re rl).InsertEventMapping applyEvt ap).InsertEventMapping
                .OnRelease rl
            else (m1.InsertEventMapping re rl).InsertEventMapping applyEvt ap) →
          (∃ e, m.depth e < m'.depth e) ∧ ∀ e, m.depth e ≤ m'.depth e := by
        intro ap rl re hm'
        have h1 : ∀ e, m.depth e ≤ (m1.InsertEventMapping re rl).depth e := fun e => by
          rw [← depth_congr m m1 ht e]; exact depth_insert_le _ _ _ _
        have h2 : m.depth applyEvt <
            ((m1.InsertEventMapping re rl).InsertEventMapping applyEvt ap).depth applyEvt :=
          Nat.lt_of_le_of_lt (h1 applyEvt) (depth_insert_self _ _ _)
        have h3 : ∀ e, m.depth e ≤
            ((m1.InsertEventMapping re rl).InsertEventMapping applyEvt ap).depth e := fun e =>
          Nat.le_trans (h1 e) (depth_insert_le _ _ _ _)
        subst hm'
        split_ifs
        · exact ⟨⟨applyEvt, Nat.lt_of_lt_of_le h2 (depth_insert_le _ _ _ _)⟩,
            fun e => Nat.le_trans (h3 e) (depth_insert_le _ _ _ _)⟩
        · exact ⟨⟨applyEvt, h2⟩, h3⟩
      cases actMod <;> simp only [pure_eq_ok, Prod.mk.injEq, true_and, Bool.false_eq_true,
        false_and] at h
      · exact key _ _ _ h.symm
      · exact key _ _ _ h.symm
      · exact key _ _ _ h.symm

theorem addTargets_depth (P : MappingEnv) : ∀ (pre : List Target) (m mf : Mapping),
    addTargets P m pre = some mf →
    (∀ e, m.depth e ≤ mf.depth e) ∧ (pre ≠ [] → ∃ e, m.depth e < mf.depth e)
  | [], m, mf, h => by
    simp only [addTargets, Option.some.injEq] at h
    subst h
    exact ⟨fun _ => Nat.le_refl _, fun h => absurd rfl h⟩
  | t :: ts, m, mf, h => by
    simp only [addTargets] at h
    cases ha : m.AddMapping P t.key t.evtMod t.actMod with
    | error f => rw [ha] at h; simp at h
    | ok v =>
      obtain ⟨ok, m1⟩ := v
      rw [ha] at h
      cases ok with
      | false => simp at h
      | true =>
        simp only at h
        obtain ⟨⟨e0, hlt⟩, hle⟩ := AddMapping_true_depth P m m1 _ _ _ ha
        obtain ⟨hle', _⟩ := addTargets_depth P ts m1 mf h
        exact ⟨fun e => Nat.le_trans (hle e) (hle' e),
          fun _ => ⟨e0, Nat.lt_of_lt_of_le hlt (hle' e0)⟩⟩

theorem addTargets_table_ne (P : MappingEnv) (pre : List Target) (m m0 mf : Mapping)
    (h : addTargets P m pre = some mf) (hne : pre ≠ [])
    (hm0 : m._eventMapping = m0._eventMapping) : mf._eventMapping ≠ m0._eventMapping := by
  intro heq
  obtain ⟨e, he⟩ := (addTargets_depth P pre m mf h).2 hne
  have := depth_congr m mf (heq.trans hm0.symm) e
  omega

theorem operator_extract_cases (P : MappingEnv) (content : List Char) (m : Mapping)
    (Q : Parsed → Prop)
    (h : ∀ r, operator_extract P content m = some (.ok r) → Q r) :
    ∃ out, operator_extract P content m = some out ∧ ∀ r, out = .ok r → Q r := by
  cases ho : operator_extract P content m with
  | none => exact absurd ho (operator_extract_ends P content m)
  | some out =>
    refine ⟨out, rfl, ?_⟩
    intro r hr
    subst hr
    exact h r ho

theorem failbit_of_not_added (P : MappingEnv) (content : List Char) (m : Mapping) (r : Parsed)
    (h : operator_extract P content m = some (.ok r)) (t : Target) (ht : t ∈ r.targets)
    (ha : t.added = false) : r.failbit = true := by
  obtain ⟨r0, hfail, _, facts⟩ := operator_extract_facts P content m r h
  rw [hfail, facts.failed.mpr ⟨t, ht, ha⟩]
  simp

/-- C15, the claim as stated fails: the text `A B C` fails at its third target, the failure
flag is set, and the event table of the binding, empty before the parse, holds what the first
two targets registered. -/
theorem failed_parse_leaves_earlier_targets :
    parseFailed (demoExtract "A B C") = true ∧
    emptyMapping._eventMapping = [] ∧
    parsedTable (demoExtract "A B C") =
      [(.OnTapRelease, .ApplyBtnRelease ⟨65, "A"⟩), (.OnTap, .ApplyBtnPress ⟨65, "A"⟩),
       (.OnHoldRelease, .ApplyBtnRelease ⟨66, "B"⟩), (.OnHold, .ApplyBtnPress ⟨66, "B"⟩)] := by
  decide

/-- C15, amended. The parse of every text ends. When a parse that ends without an exception
did not add some target, the failure flag is set, that target is the last one the loop went
through, every target before it was added, and the event table is the table it had before the
parse with those earlier targets added by `AddMapping`: it equals the table it had before the
parse when the failing target is the first one, and differs from it otherwise. -/
theorem failed_parse_keeps_earlier_targets (P : MappingEnv) (content : List Char)
    (m : Mapping) :
    ∃ out, operator_extract P content m = some out ∧ ∀ r, out = .ok r →
      ∀ t ∈ r.targets, t.added = false →
        r.failbit = true ∧
        ∃ pre, r.targets = pre ++ [t] ∧ (∀ x ∈ pre, x.added = true) ∧
          (∃ mf, addTargets P { m with _command := String.mk (getline content).1 } pre =
              some mf ∧ r.mapping._eventMapping = mf._eventMapping) ∧
          (pre = [] → r.mapping._eventMapping = m._eventMapping) ∧
          (pre ≠ [] → r.mapping._eventMapping ≠ m._eventMapping) := by
  apply operator_extract_cases
  intro r h t ht ha
  refine ⟨failbit_of_not_added P content m r h t ht ha, ?_⟩
  obtain ⟨r0, hfail, hmap, facts⟩ := operator_extract_facts P content m r h
  obtain ⟨pre, hpre, hcase⟩ := facts.last
  rcases hcase with ⟨hnew, _⟩ | ⟨t0, ht0, hnew, mf, hmf, htab⟩
  · rw [hnew] at ht
    have := hpre t ht
    rw [ha] at this
    cases this
  · have ht' : t = t0 := by
      rw [hnew] at ht
      rcases List.mem_append.mp ht with h1 | h1
      · have := hpre t h1
        rw [ha] at this
        cases this
      · simpa using h1
    subst ht'
    refine ⟨pre, hnew, hpre, ⟨mf, hmf, by rw [hmap]; exact htab⟩, ?_, ?_⟩
    · intro hnil
      subst hnil
      simp only [addTargets, Option.some.injEq] at hmf
      rw [hmap, htab, ← hmf]
    · intro hne
      rw [hmap, htab]
      exact addTargets_table_ne P pre _ m mf hmf hne rfl

theorem failed_parse_keeps_earlier_targets_witness :
    parsedTargets (demoExtract "A/") = [(⟨65, "A"⟩, .ReleasePress, .None, false)] ∧
    parsedTable (demoExtract "A/") = [] ∧
    ∃ out, operator_extract demoParse "A/".data emptyMapping = some out ∧ ∀ r, out = .ok r →
      ∀ t ∈ r.targets, t.added = false →
        r.failbit = true ∧
        ∃ pre, r.targets = pre ++ [t] ∧ (∀ x ∈ pre, x.added = true) ∧
          (∃ mf, addTargets demoParse
              { emptyMapping with _command := String.mk (getline "A/".data).1 } pre =
              some mf ∧ r.mapping._eventMapping = mf._eventMapping) ∧
          (pre = [] → r.mapping._eventMapping = emptyMapping._eventMapping) ∧
          (pre ≠ [] → r.mapping._eventMapping ≠ emptyMapping._eventMapping) :=
  ⟨by decide, by decide, failed_parse_keeps_earlier_targets demoParse "A/".data emptyMapping⟩

/-- C16, the claim as stated fails: `CALIBRATE/` and a command followed by `/`, both written
without an action-modifier prefix, parse without failure; calibrate is bound to the release
event with Toggle and the command with Instant. -/
theorem bare_release_calibrate_and_command_parse :
    parseFailed (demoExtract "CALIBRATE/") = false ∧
    parsedTargets (demoExtract "CALIBRATE/") =
      [(⟨10, "CALIBRATE"⟩, .ReleasePress, .Toggle, true)] ∧
    parseFailed (operator_extract demoParse [Char.ofNat 34, 'c', Char.ofNat 34, '/']
      emptyMapping) = false ∧
    parsedTargets (operator_extract demoParse [Char.ofNat 34, 'c', Char.ofNat 34, '/']
      emptyMapping) = [(⟨400, "c"⟩, .ReleasePress, .Instant, true)] := by
  decide

/-- C16, amended. The parse of every text ends. In a parse that ends without an exception, a
target written with the suffix `/` and without an action-modifier prefix is not added and the
failure flag is set, unless its key is calibrate or a command: a command gets the Instant
modifier and calibrate the Toggle modifier, and the test "ReleasePress without an action
modifier" does not apply to them. -/
theorem bare_release_rejected (P : MappingEnv) (content : List Char) (m : Mapping) :
    ∃ out, operator_extract P content m = some out ∧ ∀ r, out = .ok r →
      ∀ t ∈ r.targets, t.results.evtMod = ['/'] → t.results.actMod = [] →
        t.evtMod = .ReleasePress ∧
        (t.key.code ≠ P.CALIBRATE → t.key.code ≠ P.COMMAND_ACTION →
          t.added = false ∧ r.failbit = true) ∧
        (t.key.code = P.COMMAND_ACTION → t.actMod = .Instant) ∧
        (t.key.code = P.CALIBRATE → t.key.code ≠ P.COMMAND_ACTION → t.actMod = .Toggle) := by
  apply operator_extract_cases
  intro r h t ht hsuf hpre
  obtain ⟨r0, hfail, hmap, facts⟩ := operator_extract_facts P content m r h
  obtain ⟨_, hevt, hact, hrej⟩ := facts.formed t ht
  have hrel : t.evtMod = .ReleasePress := by
    have hread : readEvtMod ['/'] = .ReleasePress := by decide
    rw [hevt, hsuf, hread]
    rfl
  rw [hpre, hrel] at hact
  refine ⟨hrel, ?_, ?_, ?_⟩
  · intro hcal hcmd
    have hnone : t.actMod = .None := by
      rw [hact]
      simp [exceptActMod, readActMod, hcal, hcmd]
    have ha : t.added = false := by
      apply hrej
      unfold rejected
      rw [hnone, hrel]
      simp
    exact ⟨ha, failbit_of_not_added P content m r h t ht ha⟩
  · intro hcmd
    rw [hact]
    simp [exceptActMod, readActMod, hcmd]
  · intro hcal hcmd
    have hne : ¬ P.CALIBRATE = P.COMMAND_ACTION := fun h' => hcmd (hcal.trans h')
    rw [hact]
    simp [exceptActMod, readActMod, hcal, hne]

theorem bare_release_rejected_witness :
    parsedTargets (demoExtract "A/") = [(⟨65, "A"⟩, .ReleasePress, .None, false)] ∧
    parseFailed (demoExtract "A/") = true ∧
    ∃ out, operator_extract demoParse "A/".data emptyMapping = some out ∧ ∀ r, out = .ok r →
      ∀ t ∈ r.targets, t.results.evtMod = ['/'] → t.results.actMod = [] →
        t.evtMod = .ReleasePress ∧
        (t.key.code ≠ demoParse.CALIBRATE → t.key.code ≠ demoParse.COMMAND_ACTION →
          t.added = false ∧ r.failbit = true) ∧
        (t.key.code = demoParse.COMMAND_ACTION → t.actMod = .Instant) ∧
        (t.key.code = demoParse.CALIBRATE → t.key.code ≠ demoParse.COMMAND_ACTION →
          t.actMod = .Toggle) :=
  ⟨by decide, by decide, bare_release_rejected demoParse "A/".data emptyMapping⟩

theorem StartCalibration_buttons (env : Env) (w w' : World)
    (h : StartCalibration env w = .ok w') : w'.buttons = w.buttons := by
  funext b
  exact (Frame_StartCalibration env (b + 1) w w' h).others b (by omega)

theorem FinishCalibration_buttons (env : Env) (w w' : World)
    (h : FinishCalibration env w = .ok w') : w'.buttons = w.buttons := by
  funext b
  exact (Frame_FinishCalibration env (b + 1) w w' h).others b (by omega)

theorem runCallback_plain (env : Env) (self : Nat) (cb : Callback) :
    ∀ (w w' : World), cb.plain = true → runCallback env self cb w = .ok w' →
      w'.buttons = w.buttons := by
  induction cb with
  | empty => intro w w' _ h; simp [runCallback, throw_ne_ok] at h
  | StartCalibration => intro w w' _ h; exact StartCalibration_buttons env w w' h
  | FinishCalibration => intro w w' _ h; exact FinishCalibration_buttons env w w' h
  | ApplyGyroAction key =>
    intro w w' _ h; simp only [runCallback, pure_eq_ok] at h; subst h; rfl
  | RemoveGyroAction =>
    intro w w' _ h; simp only [runCallback, pure_eq_ok] at h; subst h
    unfold RemoveGyroAction
    dsimp only
    split <;> rfl
  | WriteToConsole c => intro w w' _ h; simp only [runCallback, pure_eq_ok] at h; subst h; rfl
  | SetRumble a b => intro w w' _ h; simp only [runCallback, pure_eq_ok] at h; subst h; rfl
  | ApplyBtnPress key =>
    intro w w' _ h; simp only [runCallback, pure_eq_ok] at h; subst h
    unfold ApplyBtnPress
    split_ifs <;> rfl
  | ApplyBtnRelease key =>
    intro w w' _ h; simp only [runCallback, pure_eq_ok] at h; subst h
    unfold ApplyBtnRelease
    split_ifs <;> rfl
  | ApplyButtonToggle key apply release iha ihr =>
    intro w w' hp h
    simp only [Callback.plain, Bool.and_eq_true] at hp
    simp only [runCallback] at h
    rcases ite_ok_cases h with ⟨_, h⟩ | ⟨_, h⟩
    · exact ihr _ _ hp.2 h
    · simp only [bind_eq_ok, pure_eq_ok] at h
      obtain ⟨w1, h1, rfl⟩ := h
      exact iha w w1 hp.1 h1
  | RegisterInstant evt => intro w w' hp _; simp [Callback.plain] at hp
  | RunBothActions a1 a2 ih1 ih2 =>
    intro w w' hp h
    simp only [Callback.plain, Bool.and_eq_true] at hp
    simp only [runCallback, bind_eq_ok] at h
    obtain ⟨w1, h1, h2⟩ := h
    have f1 : w1.buttons = w.buttons := by
      rcases ite_ok_cases h1 with ⟨_, h1⟩ | ⟨_, h1⟩
      · simp only [pure_eq_ok] at h1; subst h1; rfl
      · exact ih1 _ _ hp.1 h1
    have f2 : w'.buttons = w1.buttons := by
      rcases ite_ok_cases h2 with ⟨_, h2⟩ | ⟨_, h2⟩
      · simp only [pure_eq_ok] at h2; subst h2; rfl
      · exact ih2 _ _ hp.2 h2
    rw [f2, f1]

theorem registers_of_plain (m : Mapping) (evt : BtnEvent) (cb : Callback)
    (hf : m.find evt = some cb) (hp : cb.plain = true) : m.registers evt = [] := by
  unfold Mapping.registers
  rw [hf]
  split
  · next a e' heq =>
    simp only [Option.some.injEq] at heq
    subst heq
    simp [Callback.plain] at hp
  · rfl

/-- The instant-release queue after `Mapping::ProcessEvent` on a binding of flat shape. -/
theorem ProcessEvent_queue (env : Env) (m : Mapping) (evt : BtnEvent) (self : Nat)
    (w w' : World) (hflat : m.Flat) (h : m.ProcessEvent env evt self w = .ok w') :
    (w'.impl self)._instantReleaseQueue =
      (w.impl self)._instantReleaseQueue ++ m.registers evt := by
  unfold Mapping.ProcessEvent at h
  dsimp only at h
  cases hf : m.find evt with
  | none =>
    rw [hf] at h
    simp only [pure_eq_ok] at h
    subst h
    simp [Mapping.registers, hf, World.emit, World.impl]
  | some cb =>
    rw [hf] at h
    simp only at h
    rcases ite_ok_cases h with ⟨he, h⟩ | ⟨he, h⟩
    · simp only [pure_eq_ok] at h
      subst h
      subst he
      rw [registers_of_plain m evt _ hf rfl]
      simp [World.emit, World.impl]
    · rcases hflat evt cb hf with hp | ⟨a, e', ha, rfl⟩
      · have := runCallback_plain env self cb _ _ hp h
        rw [registers_of_plain m evt cb hf hp]
        simp [World.impl, this, World.emit]
      · simp only [runCallback, bind_eq_ok] at h
        obtain ⟨w1, h1, h2⟩ := h
        have f1 : w1.buttons = w.buttons := by
          rcases ite_ok_cases h1 with ⟨_, h1⟩ | ⟨_, h1⟩
          · simp only [pure_eq_ok] at h1; subst h1; rfl
          · exact runCallback_plain env self a (w.emit (.ProcessEvent self m evt)) w1 ha h1
        rw [if_neg (by simp)] at h2
        simp only [runCallback, pure_eq_ok] at h2
        subst h2
        simp [Mapping.registers, hf, RegisterInstant, World.impl, World.setImpl, f1]

theorem instantFired_append (self : Nat) (a b : List (Nat × Mapping × BtnEvent)) :
    instantFired self (a ++ b) = instantFired self a + instantFired self b := by
  simp [instantFired, List.countP_append]

/-- The call `_keyToRelease->ProcessEvent(evt)` on an active binding of flat shape: the
binding and the turbo count stay, the queue grows by what the event registers. -/
theorem keyToRelease_ProcessEvent_exact (env : Env) (self : Nat) (evt : BtnEvent)
    (w w' : World) (m : Mapping) (hkey : (w.impl self)._keyToRelease = some m)
    (hflat : m.Flat) (h : keyToRelease_ProcessEvent env self evt w = .ok w') :
    (w'.impl self)._keyToRelease = some m ∧
    (w'.impl self)._turboCount = (w.impl self)._turboCount ∧
    (w'.impl self)._instantReleaseQueue =
      (w.impl self)._instantReleaseQueue ++ m.registers evt ∧
    w'.fired = w.fired ++ [(self, m, evt)] := by
  obtain ⟨m', hm', f⟩ := keyToRelease_ProcessEvent_spec env self evt w w' h
  have hmm : m' = m := by rw [hkey] at hm'; exact (Option.some.inj hm').symm
  subst hmm
  unfold keyToRelease_ProcessEvent at h
  rw [hkey] at h
  exact ⟨f.key.trans hkey, f.turbo, ProcessEvent_queue env m' evt self w w' hflat h, f.fired⟩

/-- About `CheckInstantRelease` on an active binding of flat shape: the queue and the number of
`OnInstantRelease` events are those of `checkInstant`. -/
theorem CheckInstantRelease_exact (env : Env) (self : Nat) (ie : BtnEvent) (w w' : World)
    (m : Mapping) (hkey : (w.impl self)._keyToRelease = some m) (hflat : m.Flat)
    (h : CheckInstantRelease env self ie w = .ok w') :
    (w'.impl self)._keyToRelease = some m ∧
    (w'.impl self)._turboCount = (w.impl self)._turboCount ∧
    ((w'.impl self)._instantReleaseQueue, instantFired self w'.fired) =
      checkInstant m ie ((w.impl self)._instantReleaseQueue, instantFired self w.fired) := by
  unfold CheckInstantRelease at h
  unfold checkInstant
  rcases ite_ok_cases h with ⟨hin, h⟩ | ⟨hin, h⟩
  · simp only [bind_eq_ok, pure_eq_ok] at h
    obtain ⟨w1, h1, rfl⟩ := h
    obtain ⟨k1, t1, q1, f1⟩ := keyToRelease_ProcessEvent_exact env self _ w w1 m hkey hflat h1
    simp only [hin, if_true, setImpl_impl_self, setImpl_fired]
    refine ⟨k1, t1, ?_⟩
    rw [q1, f1, instantFired_append]
    simp [instantFired]
  · simp only [pure_eq_ok] at h
    subst h
    simp only [hin, if_false]
    exact ⟨hkey, trivial, trivial⟩

theorem checkInstant_shift (m : Mapping) (ie : BtnEvent) (q : List BtnEvent) (f : Nat) :
    checkInstant m ie (q, f) = ((checkInstant m ie (q, 0)).1, f + (checkInstant m ie (q, 0)).2) := by
  unfold checkInstant
  split_ifs <;> simp

theorem guarded_CheckInstantRelease_exact (env : Env) (self : Nat) (c : Prop) [Decidable c]
    (ie : BtnEvent) (w w' : World) (m : Mapping)
    (hkey : (w.impl self)._keyToRelease = some m) (hflat : m.Flat)
    (h : (if c then CheckInstantRelease env self ie w else pure w) = .ok w') :
    (w'.impl self)._keyToRelease = some m ∧
    (w'.impl self)._turboCount = (w.impl self)._turboCount ∧
    ((w'.impl self)._instantReleaseQueue, instantFired self w'.fired) =
      if c then checkInstant m ie ((w.impl self)._instantReleaseQueue, instantFired self w.fired)
      else ((w.impl self)._instantReleaseQueue, instantFired self w.fired) := by
  rcases ite_ok_cases h with ⟨hc, h⟩ | ⟨hc, h⟩
  · rw [if_pos hc]
    exact CheckInstantRelease_exact env self ie w w' m hkey hflat h
  · simp only [pure_eq_ok] at h
    subst h
    rw [if_neg hc]
    exact ⟨hkey, rfl, rfl⟩

theorem fired_event_exact (env : Env) (self : Nat) (evt : BtnEvent) (w w' : World)
    (m : Mapping) (hkey : (w.impl self)._keyToRelease = some m) (hflat : m.Flat)
    (hevt : evt ≠ .OnInstantRelease)
    (h : keyToRelease_ProcessEvent env self evt w = .ok w') :
    (w'.impl self)._keyToRelease = some m ∧
    (w'.impl self)._turboCount = (w.impl self)._turboCount ∧
    (w'.impl self)._instantReleaseQueue =
      (w.impl self)._instantReleaseQueue ++ m.registers evt ∧
    instantFired self w'.fired = instantFired self w.fired := by
  obtain ⟨k, t, q, f⟩ := keyToRelease_ProcessEvent_exact env self evt w w' m hkey hflat h
  refine ⟨k, t, q, ?_⟩
  rw [f, instantFired_append]
  simp [instantFired, hevt]

/-- The instant-release queue and the number of `OnInstantRelease` events after
`ProcessEvent(const Pressed &)`, for an active binding of flat shape. -/
theorem ProcessEvent_Pressed_exact (env : Env) (self : Nat) (evt : Pressed) (w w' : World)
    (m : Mapping) (hkey : (w.impl self)._keyToRelease = some m) (hflat : m.Flat)
    (h : ProcessEvent_Pressed env self evt w = .ok w') :
    (w'.impl self)._keyToRelease = some m ∧
    (w'.impl self)._instantReleaseQueue =
      (tickInstants env.MAGIC_INSTANT_DURATION m (GetPressDurationMS (w.impl self) evt.time_now)
        evt.holdTime evt.turboTime (w.impl self)._turboCount
        (w.impl self)._instantReleaseQueue).1 ∧
    instantFired self w'.fired = instantFired self w.fired +
      (tickInstants env.MAGIC_INSTANT_DURATION m (GetPressDurationMS (w.impl self) evt.time_now)
        evt.holdTime evt.turboTime (w.impl self)._turboCount
        (w.impl self)._instantReleaseQueue).2 := by
  unfold ProcessEvent_Pressed at h
  unfold tickInstants
  dsimp only at h ⊢
  rcases ite_ok_cases h with ⟨ht, h⟩ | ⟨ht, h⟩
  · rw [if_pos ht]
    simp only [bind_eq_ok] at h
    obtain ⟨w1, h1, h⟩ := h
    obtain ⟨k1, t1, qf1⟩ := guarded_CheckInstantRelease_exact env self _ _ w w1 m hkey hflat h1
    rw [checkInstant_shift] at qf1
    have hq1 : (w1.impl self)._instantReleaseQueue =
        (if GetPressDurationMS (w.impl self) evt.time_now > env.MAGIC_INSTANT_DURATION then
          checkInstant m .OnPress ((w.impl self)._instantReleaseQueue, 0)
        else ((w.impl self)._instantReleaseQueue, 0)).1 := by
      have := congrArg Prod.fst qf1
      split_ifs at this ⊢ <;> simpa using this
    have hf1 : instantFired self w1.fired = instantFired self w.fired +
        (if GetPressDurationMS (w.impl self) evt.time_now > env.MAGIC_INSTANT_DURATION then
          checkInstant m .OnPress ((w.impl self)._instantReleaseQueue, 0)
        else ((w.impl self)._instantReleaseQueue, 0)).2 := by
      have := congrArg Prod.snd qf1
      split_ifs at this ⊢ <;> simpa using this
    rcases ite_ok_cases h with ⟨hd, h⟩ | ⟨hd, h⟩
    · rw [if_pos hd]
      simp only [bind_eq_ok, pure_eq_ok] at h
      obtain ⟨w2, h2, w3, h3, rfl⟩ := h
      obtain ⟨k2, _, q2, f2⟩ := fired_event_exact env self _ w1 w2 m k1 hflat (by decide) h2
      obtain ⟨k3, _, q3, f3⟩ := fired_event_exact env self _ w2 w3 m k2 hflat (by decide) h3
      refine ⟨by simpa using k3, ?_, ?_⟩
      · simp only [setImpl_impl_self]
        rw [q3, q2, hq1]
      · simp only [setImpl_fired]
        rw [f3, f2, hf1]
    · rw [if_neg hd]
      simp only [pure_eq_ok] at h
      subst h
      exact ⟨k1, hq1, hf1⟩
  · rw [if_neg ht]
    simp only [bind_eq_ok] at h
    obtain ⟨w1, h1, w2, h2, h⟩ := h
    obtain ⟨k1, t1, qf1⟩ := guarded_CheckInstantRelease_exact env self _ _ w w1 m hkey hflat h1
    rw [checkInstant_shift] at qf1
    have hq1 : (w1.impl self)._instantReleaseQueue =
        (if GetPressDurationMS (w.impl self) evt.time_now >
            evt.holdTime + env.MAGIC_INSTANT_DURATION then
          checkInstant m .OnHold ((w.impl self)._instantReleaseQueue, 0)
        else ((w.impl self)._instantReleaseQueue, 0)).1 := by
      have := congrArg Prod.fst qf1
      split_ifs at this ⊢ <;> simpa using this
    have hf1 : instantFired self w1.fired = instantFired self w.fired +
        (if GetPressDurationMS (w.impl self) evt.time_now >
            evt.holdTime + env.MAGIC_INSTANT_DURATION then
          checkInstant m .OnHold ((w.impl self)._instantReleaseQueue, 0)
        else ((w.impl self)._instantReleaseQueue, 0)).2 := by
      have := congrArg Prod.snd qf1
      split_ifs at this ⊢ <;> simpa using this
    rw [t1] at h2
    have step2 : (w2.impl self)._keyToRelease = some m ∧
        (w2.impl self)._turboCount =
          (if turboDue (GetPressDurationMS (w.impl self) evt.time_now) evt.holdTime
            evt.turboTime (w.impl self)._turboCount = true then (w.impl self)._turboCount + 1
          else (w.impl self)._turboCount) ∧
        (w2.impl self)._instantReleaseQueue =
          (if turboDue (GetPressDurationMS (w.impl self) evt.time_now) evt.holdTime
            evt.turboTime (w.impl self)._turboCount = true then
            (w1.impl self)._instantReleaseQueue ++ m.registers .OnTurbo
          else (w1.impl self)._instantReleaseQueue) ∧
        instantFired self w2.fired = instantFired self w1.fired := by
      rcases ite_ok_cases h2 with ⟨hd, h2⟩ | ⟨hd, h2⟩
      · simp only [bind_eq_ok, pure_eq_ok] at h2
        obtain ⟨w3, h3, rfl⟩ := h2
        obtain ⟨k3, t3, q3, f3⟩ := fired_event_exact env self _ w1 w3 m k1 hflat (by decide) h3
        rw [if_pos hd, if_pos hd]
        refine ⟨by simpa using k3, ?_, ?_, ?_⟩
        · simp only [setImpl_impl_self]
          rw [t3, t1]
        · simp only [setImpl_impl_self]
          exact q3
        · simp only [setImpl_fired]
          exact f3
      · simp only [pure_eq_ok] at h2
        subst h2
        rw [if_neg hd, if_neg hd]
        exact ⟨k1, t1, rfl, rfl⟩
    obtain ⟨k2, t2, q2, f2⟩ := step2
    obtain ⟨k3, _, qf3⟩ := guarded_CheckInstantRelease_exact env self _ _ w2 w' m k2 hflat h
    rw [checkInstant_shift] at qf3
    rw [t2, q2, f2, hq1, hf1] at qf3
    refine ⟨k3, ?_, ?_⟩
    · have := congrArg Prod.fst qf3
      simp only at this
      rw [this]
      split_ifs <;> simp [checkInstant_shift m .OnTurbo _ (Prod.snd _)]
    · have := congrArg Prod.snd qf3
      simp only at this
      rw [this]
      split_ifs <;> simp [checkInstant_shift m .OnTurbo _ (Prod.snd _)] <;> omega

theorem keyActions_plain (P : MappingEnv) (m : Mapping) (key : KeyCode)
    (apply release : Callback) (m1 : Mapping)
    (h : Mapping.keyActions P m key = .ok (some (apply, release, m1))) :
    apply.plain = true ∧ release.plain = true := by
  unfold Mapping.keyActions at h
  rcases ite_ok_cases h with ⟨_, h⟩ | ⟨_, h⟩
  · simp only [pure_eq_ok, Option.some.injEq, Prod.mk.injEq] at h
    obtain ⟨rfl, rfl, _⟩ := h; exact ⟨rfl, rfl⟩
  rcases ite_ok_cases h with ⟨_, h⟩ | ⟨_, h⟩
  · simp only [pure_eq_ok, Option.some.injEq, Prod.mk.injEq] at h
    obtain ⟨rfl, rfl, _⟩ := h; exact ⟨rfl, rfl⟩
  rcases ite_ok_cases h with ⟨_, h⟩ | ⟨_, h⟩
  · split at h
    · simp only [throw_ne_ok] at h
    · rcases ite_ok_cases h with ⟨_, h⟩ | ⟨_, h⟩
      · simp only [pure_eq_ok, Option.some.injEq, Prod.mk.injEq] at h
        obtain ⟨rfl, rfl, _⟩ := h; exact ⟨rfl, rfl⟩
      · simp only [pure_eq_ok] at h
        cases h
  rcases ite_ok_cases h with ⟨_, h⟩ | ⟨_, h⟩
  · rcases ite_ok_cases h with ⟨_, h⟩ | ⟨_, h⟩
    · simp only [throw_ne_ok] at h
    · simp only [bind_eq_ok, pure_eq_ok, Option.some.injEq, Prod.mk.injEq] at h
      obtain ⟨_, _, rfl, rfl, _⟩ := h; exact ⟨rfl, rfl⟩
  · simp only [pure_eq_ok, Option.some.injEq, Prod.mk.injEq] at h
    obtain ⟨rfl, rfl, _⟩ := h; exact ⟨rfl, rfl⟩

/-- The table `AddMapping` builds from one target on the press event with the Instant
modifier. -/
theorem AddMapping_StartPress_Instant (P : MappingEnv) (m0 m1 : Mapping) (key : KeyCode)
    (h0 : m0._eventMapping = [])
    (h : m0.AddMapping P key .StartPress .Instant = .ok (true, m1)) :
    ∃ apply release, apply.plain = true ∧ release.plain = true ∧
      m1._eventMapping = [(.OnInstantRelease, release),
        (.OnPress, .RunBothActions apply (.RegisterInstant .OnPress))] := by
  unfold Mapping.AddMapping at h
  simp only [bind_eq_ok] at h
  obtain ⟨ka, hka, h⟩ := h
  cases ka with
  | none => simp [pure_eq_ok] at h
  | some v =>
    obtain ⟨apply, release, m2⟩ := v
    have ht := keyActions_table P m0 key apply release m2 hka
    rw [h0] at ht
    obtain ⟨hp, hr⟩ := keyActions_plain P m0 key apply release m2 hka
    simp only [EventModifier.events, pure_eq_ok, Prod.mk.injEq, true_and] at h
    refine ⟨apply, release, hp, hr, ?_⟩
    rw [← h]
    simp [Mapping.InsertEventMapping, Mapping.find, ht]

/-- The table `AddMapping` builds from one target on the turbo event with the Instant
modifier. -/
theorem AddMapping_TurboPress_Instant (P : MappingEnv) (m0 m1 : Mapping) (key : KeyCode)
    (h0 : m0._eventMapping = [])
    (h : m0.AddMapping P key .TurboPress .Instant = .ok (true, m1)) :
    ∃ apply release, apply.plain = true ∧ release.plain = true ∧
      m1._eventMapping = [(.OnInstantRelease, release),
        (.OnTurbo, .RunBothActions apply (.RegisterInstant .OnTurbo)), (.OnRelease, release)] := by
  unfold Mapping.AddMapping at h
  simp only [bind_eq_ok] at h
  obtain ⟨ka, hka, h⟩ := h
  cases ka with
  | none => simp [pure_eq_ok] at h
  | some v =>
    obtain ⟨apply, release, m2⟩ := v
    have ht := keyActions_table P m0 key apply release m2 hka
    rw [h0] at ht
    obtain ⟨hp, hr⟩ := keyActions_plain P m0 key apply release m2 hka
    simp only [EventModifier.events, pure_eq_ok, Prod.mk.injEq, true_and] at h
    refine ⟨apply, release, hp, hr, ?_⟩
    rw [← h]
    simp [Mapping.InsertEventMapping, Mapping.find, ht]

theorem registers_congr (m m1 : Mapping) (h : ∀ e, m.find e = m1.find e) (e : BtnEvent) :
    m.registers e = m1.registers e := by
  unfold Mapping.registers
  rw [h e]

theorem Flat_congr (m m1 : Mapping) (h : ∀ e, m.find e = m1.find e) (hf : m1.Flat) : m.Flat := by
  intro evt cb hcb
  exact hf evt cb (by rw [← h evt]; exact hcb)

/-- A binding with one Instant target on the press event: it is of flat shape, `OnPress` runs
the target's apply action and registers `OnPress`, and no other event registers an instant. -/
theorem InstantOn_StartPress (P : MappingEnv) (m : Mapping)
    (h : InstantOn P .StartPress m) :
    m.Flat ∧ (∃ apply, apply.plain = true ∧
      m.find .OnPress = some (.RunBothActions apply (.RegisterInstant .OnPress))) ∧
    m.registers .OnPress = [.OnPress] ∧ m.registers .OnInstantRelease = [] ∧
    m.registers .OnHold = [] ∧ m.registers .OnTurbo = [] := by
  obtain ⟨m0, m1, key, h0, hadd, hfind⟩ := h
  obtain ⟨apply, release, hp, hr, htab⟩ := AddMapping_StartPress_Instant P m0 m1 key h0 hadd
  have hflat1 : m1.Flat := by
    intro evt cb hcb
    simp only [Mapping.find, htab, List.find?_cons] at hcb
    cases evt <;> simp at hcb <;> subst hcb
    · exact Or.inr ⟨apply, _, hp, rfl⟩
    · exact Or.inl hr
  refine ⟨Flat_congr m m1 hfind hflat1, ⟨apply, hp, ?_⟩, ?_, ?_, ?_, ?_⟩
  · rw [hfind]; simp [Mapping.find, htab, List.find?_cons]
  · rw [registers_congr m m1 hfind]; simp [Mapping.registers, Mapping.find, htab, List.find?_cons]
  · rw [registers_congr m m1 hfind]
    exact registers_of_plain m1 _ release (by simp [Mapping.find, htab, List.find?_cons]) hr
  · rw [registers_congr m m1 hfind]; simp [Mapping.registers, Mapping.find, htab, List.find?_cons]
  · rw [registers_congr m m1 hfind]; simp [Mapping.registers, Mapping.find, htab, List.find?_cons]

/-- A binding with one Instant target on the turbo event: it is of flat shape, `OnTurbo`
registers `OnTurbo`, and neither `OnPress`, `OnHold` nor `OnInstantRelease` registers an
instant. -/
theorem InstantOn_TurboPress (P : MappingEnv) (m : Mapping)
    (h : InstantOn P .TurboPress m) :
    m.Flat ∧ m.registers .OnTurbo = [.OnTurbo] ∧ m.registers .OnInstantRelease = [] ∧
    m.registers .OnHold = [] ∧ m.registers .OnPress = [] := by
  obtain ⟨m0, m1, key, h0, hadd, hfind⟩ := h
  obtain ⟨apply, release, hp, hr, htab⟩ := AddMapping_TurboPress_Instant P m0 m1 key h0 hadd
  have hflat1 : m1.Flat := by
    intro evt cb hcb
    simp only [Mapping.find, htab, List.find?_cons] at hcb
    cases evt <;> simp at hcb <;> subst hcb
    · exact Or.inl hr
    · exact Or.inr ⟨apply, _, hp, rfl⟩
    · exact Or.inl hr
  refine ⟨Flat_congr m m1 hfind hflat1, ?_, ?_, ?_, ?_⟩
  · rw [registers_congr m m1 hfind]; simp [Mapping.registers, Mapping.find, htab, List.find?_cons]
  · rw [registers_congr m m1 hfind]
    exact registers_of_plain m1 _ release (by simp [Mapping.find, htab, List.find?_cons]) hr
  · rw [registers_congr m m1 hfind]; simp [Mapping.registers, Mapping.find, htab, List.find?_cons]
  · rw [registers_congr m m1 hfind]; simp [Mapping.registers, Mapping.find, htab, List.find?_cons]

theorem OnlyInstant_instantFired (self : Nat) (evts : List (Nat × Mapping × BtnEvent))
    (h : OnlyInstant self evts) : instantFired self evts = evts.length := by
  unfold instantFired
  rw [List.countP_eq_length]
  intro x hx
  obtain ⟨h1, h2⟩ := h x hx
  simp [h1, h2]

/-- A `Pressed` tick in `BtnPress` with an active binding `m` of flat shape: state, press time
and binding stay, the turbo count grows by `turboStep`, the instant-release queue and the
number of `OnInstantRelease` events follow `tickInstants`, and the events fired are those
instant releases and the `OnHold` and `OnTurbo` of the tick. -/
theorem BtnPress_tick_exact (env : Env) (self : Nat) (t : Pressed) (w w' : World) (m : Mapping)
    (hst : w.getState self = .BtnPress) (hkey : (w.impl self)._keyToRelease = some m)
    (hflat : m.Flat) (h : sendEvent_Pressed env self t w = .ok w') :
    w'.getState self = .BtnPress ∧ (w'.impl self)._press_times = (w.impl self)._press_times ∧
    (w'.impl self)._keyToRelease = some m ∧
    (w'.impl self)._turboCount = (w.impl self)._turboCount +
      turboStep (GetPressDurationMS (w.impl self) t.time_now) t.holdTime t.turboTime
        (w.impl self)._turboCount ∧
    (w'.impl self)._instantReleaseQueue =
      (tickInstants env.MAGIC_INSTANT_DURATION m (GetPressDurationMS (w.impl self) t.time_now)
        t.holdTime t.turboTime (w.impl self)._turboCount
        (w.impl self)._instantReleaseQueue).1 ∧
    instantFired self w'.fired = instantFired self w.fired +
      (tickInstants env.MAGIC_INSTANT_DURATION m (GetPressDurationMS (w.impl self) t.time_now)
        t.holdTime t.turboTime (w.impl self)._turboCount
        (w.impl self)._instantReleaseQueue).2 := by
  obtain ⟨st, pr, tu, _⟩ := BtnPress_tick env self t w w' hst h
  unfold sendEvent_Pressed at h
  rw [hst] at h
  unfold BtnPress.react_Pressed at h
  obtain ⟨k, q, f⟩ := ProcessEvent_Pressed_exact env self t _ w' m (by simpa using hkey) hflat h
  simp only [react_Pressed_impl, react_Pressed_fired] at q f
  exact ⟨st, pr, k, tu, q, f⟩

/-- The first `Pressed` of a plainly bound, idle button in `NoPress`, all of whose bindings are
of flat shape: `OnPress` goes to the chord-resolved binding `m`, which becomes the active
binding, and the instant-release queue holds what `OnPress` registers. -/
theorem first_press_exact (env : Env) (self : Nat) (first : Pressed) (w w1 : World)
    (hst : w.getState self = .NoPress) (hidle : Idle w self)
    (hns : (env.mapping self).HasSimMappings = false)
    (hnd : (env.mapping self).getDblPressMap = none)
    (hflat : ∀ c m, (env.mapping self).get c = some m → m.Flat)
    (h : step env w (.Pressed self first) = .ok w1) :
    ∃ c m, (env.mapping self).get c = some m ∧ w1.getState self = .BtnPress ∧
      (w1.impl self)._keyToRelease = some m ∧ (w1.impl self)._press_times = first.time_now ∧
      (w1.impl self)._turboCount = 0 ∧
      (w1.impl self)._instantReleaseQueue = m.registers .OnPress ∧
      w1.fired = w.fired ++ [(self, m, .OnPress)] := by
  obtain ⟨hk0, hc0, hq0⟩ := hidle
  simp only [step] at h
  unfold sendEvent_Pressed at h
  rw [hst] at h
  unfold NoPress.react_Pressed at h
  simp only [hns, Bool.false_eq_true, if_false] at h
  unfold startPress at h
  simp only [hnd, Option.isSome_none, Bool.false_eq_true, if_false] at h
  unfold GetPressMapping_ProcessEvent at h
  simp only [bind_eq_ok] at h
  obtain ⟨⟨m, wk⟩, hg, hp⟩ := h
  simp only at hp
  obtain ⟨hres, fk, hqk⟩ := GetPressMapping_spec env self _ wk m hg
  have fp := Frame_ProcessEvent env m .OnPress self wk w1 hp
  have hkA : ((changeState self .BtnPress ((DigitalButtonState.react_Pressed env self w).setImpl
      self fun i => { i with _press_times := first.time_now })).impl self)._keyToRelease =
      none := by simpa using hk0
  obtain ⟨c, hc⟩ : ∃ c, findChordBinding (env.mapping self)
      (changeState self .BtnPress ((DigitalButtonState.react_Pressed env self w).setImpl
        self fun i => { i with _press_times := first.time_now })).common.chordStack =
      some (c, m) := by
    rcases hres with h1 | ⟨_, c, hc⟩
    · rw [hkA] at h1; simp at h1
    · exact ⟨c, hc⟩
  obtain ⟨_, hget, _⟩ := findChordBinding_some _ _ _ _ hc
  have hq := ProcessEvent_queue env m .OnPress self wk w1 (hflat c m hget) hp
  refine ⟨c, m, hget, ?_, ?_, ?_, ?_, ?_, ?_⟩
  · rw [fp.state, fk.state]
    exact changeState_getState_self _ _ _ (by decide)
  · rw [fp.key, fk.key]
  · rw [fp.press, fk.press]; simp
  · rw [fp.turbo, fk.turbo]; simpa using hc0
  · rw [hq, hqk]; simp [hq0]
  · rw [fp.fired, fk.fired]; simp

theorem tickInstants_quiet (MAGIC : ℚ) (m : Mapping) (d H T : ℚ) (q : List BtnEvent)
    (h1 : d ≤ MAGIC) (h2 : d ≤ H) : tickInstants MAGIC m d H T 0 q = (q, 0) := by
  unfold tickInstants
  simp [not_lt.mpr h1, not_lt.mpr h2]

theorem tickInstants_release (MAGIC : ℚ) (m : Mapping) (d H T : ℚ) (h1 : d > MAGIC)
    (hI : m.registers .OnInstantRelease = []) (hH : m.registers .OnHold = [])
    (hT : m.registers .OnTurbo = []) : tickInstants MAGIC m d H T 0 [.OnPress] = ([], 1) := by
  unfold tickInstants checkInstant
  simp [h1, hI, hH, hT]

theorem tickInstants_empty (MAGIC : ℚ) (m : Mapping) (d H T : ℚ) (n : Nat)
    (hH : m.registers .OnHold = []) (hT : m.registers .OnTurbo = []) :
    tickInstants MAGIC m d H T n [] = ([], 0) := by
  unfold tickInstants checkInstant
  simp only [hH, hT, List.not_mem_nil, if_false, List.append_nil, ite_self]

/-- Ticks of a held button before the grace period and the hold time have passed: nothing is
released and the queue stays. -/
theorem ticks_early (env : Env) (self : Nat) (m : Mapping) (hflat : m.Flat) (p : Int)
    (q : List BtnEvent) : ∀ (early : List Pressed) (w w' : World),
      w.getState self = .BtnPress → (w.impl self)._keyToRelease = some m →
      (w.impl self)._turboCount = 0 → (w.impl self)._press_times = p →
      (w.impl self)._instantReleaseQueue = q →
      (∀ t ∈ early, elapsedMS p t.time_now ≤ env.MAGIC_INSTANT_DURATION ∧
        elapsedMS p t.time_now ≤ t.holdTime) →
      run env w (early.map (Input.Pressed self)) = .ok w' →
      w'.getState self = .BtnPress ∧ (w'.impl self)._keyToRelease = some m ∧
      (w'.impl self)._turboCount = 0 ∧ (w'.impl self)._press_times = p ∧
      (w'.impl self)._instantReleaseQueue = q ∧
      instantFired self w'.fired = instantFired self w.fired := by
  intro early
  induction early with
  | nil =>
    intro w w' hst hk hc hp hq _ h
    simp only [List.map_nil, run, pure_eq_ok] at h
    subst h
    exact ⟨hst, hk, hc, hp, hq, rfl⟩
  | cons t rest ih =>
    intro w w' hst hk hc hp hq hearly h
    simp only [List.map_cons, run, bind_eq_ok] at h
    obtain ⟨w1, h1, h2⟩ := h
    obtain ⟨st, pr, ky, tu, qu, fi⟩ := BtnPress_tick_exact env self t w w1 m hst hk hflat h1
    obtain ⟨e1, e2⟩ := hearly t (List.mem_cons_self _ _)
    rw [GetPressDurationMS_eq, hp, hc, hq, tickInstants_quiet _ _ _ _ _ _ e1 e2] at qu fi
    rw [GetPressDurationMS_eq, hp, hc] at tu
    have hstep : turboStep (elapsedMS p t.time_now) t.holdTime t.turboTime 0 = 0 := by
      simp [turboStep, not_lt.mpr e2]
    rw [hstep] at tu
    obtain ⟨r1, r2, r3, r4, r5, r6⟩ := ih w1 w' st ky tu (pr.trans hp) qu
      (fun t' ht' => hearly t' (List.mem_cons_of_mem _ ht')) h2
    exact ⟨r1, r2, r3, r4, r5, by rw [r6, fi]; rfl⟩

/-- Ticks of a held button whose instant-release queue is empty and whose binding registers no
instant on the hold and turbo events: no `OnInstantRelease` is fired and the queue stays
empty. -/
theorem ticks_later (env : Env) (self : Nat) (m : Mapping) (hflat : m.Flat)
    (hH : m.registers .OnHold = []) (hT : m.registers .OnTurbo = []) :
    ∀ (later : List Pressed) (w w' : World),
      w.getState self = .BtnPress → (w.impl self)._keyToRelease = some m →
      (w.impl self)._instantReleaseQueue = [] →
      run env w (later.map (Input.Pressed self)) = .ok w' →
      (w'.impl self)._instantReleaseQueue = [] ∧
      instantFired self w'.fired = instantFired self w.fired := by
  intro later
  induction later with
  | nil =>
    intro w w' _ _ hq h
    simp only [List.map_nil, run, pure_eq_ok] at h
    subst h
    exact ⟨hq, rfl⟩
  | cons t rest ih =>
    intro w w' hst hk hq h
    simp only [List.map_cons, run, bind_eq_ok] at h
    obtain ⟨w1, h1, h2⟩ := h
    obtain ⟨st, _, ky, _, qu, fi⟩ := BtnPress_tick_exact env self t w w1 m hst hk hflat h1
    rw [hq, tickInstants_empty _ _ _ _ _ _ hH hT] at qu fi
    obtain ⟨r1, r2⟩ := ih w1 w' st ky qu h2
    exact ⟨r1, by rw [r2, fi]; rfl⟩

/-- The path on which the instant of the press event is released (the grace period passes
before the hold time). For a plainly bound button (no sim-press partner, no double-press alternate)
all of whose bindings hold one target, bound to the press event with the Instant modifier, in a
reachable configuration where it is in `NoPress`: the first `Pressed` fires `OnPress` on the
resolved binding, whose action runs the target's apply action and registers `OnPress`, so that
the instant-release queue is `[OnPress]`; `Pressed` ticks whose elapsed time exceeds neither
the grace period nor the hold time change neither the queue nor the number of
`OnInstantRelease` events; the first tick after them whose elapsed time exceeds the grace
period fires `OnInstantRelease` exactly once and empties the queue; every later `Pressed` tick
fires no `OnInstantRelease` and leaves the queue empty. -/
theorem instant_press_released_once (P : MappingEnv) (w w' : World)
    (hr : Reachable P.toEnv w) (self : Nat) (first : Pressed) (early : List Pressed)
    (late : Pressed) (later : List Pressed)
    (hns : (P.mapping self).HasSimMappings = false)
    (hnd : (P.mapping self).getDblPressMap = none)
    (hbind : ∀ c m, (P.mapping self).get c = some m → InstantOn P .StartPress m)
    (hst : w.getState self = .NoPress)
    (hearly : ∀ t ∈ early, elapsedMS first.time_now t.time_now ≤ P.MAGIC_INSTANT_DURATION ∧
      elapsedMS first.time_now t.time_now ≤ t.holdTime)
    (hlate : elapsedMS first.time_now late.time_now > P.MAGIC_INSTANT_DURATION)
    (h : run P.toEnv w ((first :: (early ++ late :: later)).map (Input.Pressed self)) =
      .ok w') :
    ∃ w1 w2 w3 m apply,
      step P.toEnv w (.Pressed self first) = .ok w1 ∧
      m.find .OnPress = some (.RunBothActions apply (.RegisterInstant .OnPress)) ∧
      w1.fired = w.fired ++ [(self, m, .OnPress)] ∧
      (w1.impl self)._instantReleaseQueue = [.OnPress] ∧
      run P.toEnv w1 (early.map (Input.Pressed self)) = .ok w2 ∧
      instantFired self w2.fired = instantFired self w.fired ∧
      (w2.impl self)._instantReleaseQueue = [.OnPress] ∧
      step P.toEnv w2 (.Pressed self late) = .ok w3 ∧
      instantFired self w3.fired = instantFired self w.fired + 1 ∧
      (w3.impl self)._instantReleaseQueue = [] ∧
      run P.toEnv w3 (later.map (Input.Pressed self)) = .ok w' ∧
      instantFired self w'.fired = instantFired self w.fired + 1 ∧
      (w'.impl self)._instantReleaseQueue = [] := by
  simp only [List.map_cons, List.map_append, run, bind_eq_ok] at h
  obtain ⟨w1, h1, h⟩ := h
  obtain ⟨w2, h2, h⟩ := (run_append P.toEnv _ _ w1 w').mp h
  simp only [run, bind_eq_ok] at h
  obtain ⟨w3, h3, h4⟩ := h
  have hidle := Reachable_NoPress_Idle P.toEnv w hr self hns hst
  obtain ⟨c, m, hget, st1, k1, p1, c1, q1, f1⟩ := first_press_exact P.toEnv self first w w1 hst
    hidle hns hnd (fun c m hg => (InstantOn_StartPress P m (hbind c m hg)).1) h1
  obtain ⟨hflat, ⟨apply, _, hfind⟩, rP, rI, rH, rT⟩ := InstantOn_StartPress P m (hbind c m hget)
  rw [rP] at q1
  obtain ⟨st2, k2, c2, p2, q2, f2⟩ := ticks_early P.toEnv self m hflat first.time_now [.OnPress]
    early w1 w2 st1 k1 c1 p1 q1 hearly h2
  have h3' : sendEvent_Pressed P.toEnv self late w2 = .ok w3 := h3
  obtain ⟨st3, _, k3, _, q3, f3⟩ := BtnPress_tick_exact P.toEnv self late w2 w3 m st2 k2 hflat h3'
  rw [GetPressDurationMS_eq, p2, c2, q2, tickInstants_release _ _ _ _ _ hlate rI rH rT] at q3 f3
  obtain ⟨q4, f4⟩ := ticks_later P.toEnv self m hflat rH rT later w3 w' st3 k3 q3 h4
  have f1' : instantFired self w1.fired = instantFired self w.fired := by
    rw [f1, instantFired_append]
    simp [instantFired]
  exact ⟨w1, w2, w3, m, apply, h1, hfind, f1, q1, h2, f2.trans f1', q2, h3,
    by rw [f3, f2, f1'], q3, h4, by rw [f4, f3, f2, f1'], q4⟩

/-- A tick of a held button whose queue holds one `OnTurbo` per turbo pulse so far and whose
binding registers `OnTurbo` on the turbo event: unless the elapsed time has passed the release
point of the newest pulse, the queue holds one `OnTurbo` per pulse afterwards as well. -/
theorem tickInstants_turbo (MAGIC : ℚ) (m : Mapping) (d H T : ℚ) (n : Nat)
    (hH : m.registers .OnHold = []) (hT : m.registers .OnTurbo = [.OnTurbo])
    (hno : d ≤ H + ((n + turboStep d H T n : Nat) : ℚ) * T + MAGIC) :
    tickInstants MAGIC m d H T n (List.replicate n .OnTurbo) =
      (List.replicate (n + turboStep d H T n) .OnTurbo, 0) := by
  unfold tickInstants checkInstant
  by_cases hn : n = 0
  · subst hn
    simp only [turboStep, if_true, List.replicate_zero, List.not_mem_nil, if_false, ite_self,
      hH, hT, List.append_nil, List.nil_append, Nat.zero_add]
    split_ifs <;> rfl
  · have hmem : BtnEvent.OnHold ∉ List.replicate n BtnEvent.OnTurbo := by
      simp [List.mem_replicate]
    simp only [if_neg hn, hmem, if_false, ite_self, hT]
    unfold turboStep at hno ⊢
    rw [if_neg hn] at hno ⊢
    by_cases hdue : turboDue d H T n = true
    · simp only [hdue, if_true] at hno ⊢
      rw [if_neg (not_lt.mpr hno)]
      simp [List.replicate_succ']
    · simp only [hdue, if_false] at hno ⊢
      rw [if_neg (not_lt.mpr (by simpa using hno))]
      simp

/-- Ticks after the hold threshold was crossed, for a binding that registers `OnTurbo` on the
turbo event: the queue holds one `OnTurbo` per pulse and no instant is released. -/
theorem turbo_queue_after (env : Env) (self : Nat) (m : Mapping) (hflat : m.Flat)
    (hrH : m.registers .OnHold = []) (hrT : m.registers .OnTurbo = [.OnTurbo])
    (hmagic : 0 ≤ env.MAGIC_INSTANT_DURATION) (H T : ℚ) (hT : 0 < T) (press : Int) :
    ∀ (ticks : List Pressed) (w w' : World) (p : ℚ),
      w.getState self = .BtnPress → (w.impl self)._keyToRelease = some m →
      (w.impl self)._press_times = press →
      H < p → ((w.impl self)._turboCount : ℤ) = ⌊(p - H) / T⌋ + 1 →
      (w.impl self)._instantReleaseQueue = List.replicate (w.impl self)._turboCount .OnTurbo →
      (∀ t ∈ ticks, t.holdTime = H ∧ t.turboTime = T) →
      List.Chain (· ≤ ·) p (ticks.map fun t => elapsedMS press t.time_now) →
      List.Chain (fun a b => b - a < T) p (ticks.map fun t => elapsedMS press t.time_now) →
      run env w (ticks.map (Input.Pressed self)) = .ok w' →
      (w'.impl self)._instantReleaseQueue = List.replicate (w'.impl self)._turboCount .OnTurbo ∧
      instantFired self w'.fired = instantFired self w.fired := by
  intro ticks
  induction ticks with
  | nil =>
    intro w w' p _ _ _ _ _ hq _ _ _ h
    simp only [List.map_nil, run, pure_eq_ok] at h
    subst h
    exact ⟨hq, rfl⟩
  | cons t rest ih =>
    intro w w' p hst hk hpr hp hn hq hticks hmono hdense h
    simp only [List.map_cons, run, bind_eq_ok] at h
    obtain ⟨w1, h1, h2⟩ := h
    simp only [List.map_cons, List.chain_cons] at hmono hdense
    obtain ⟨st1, pr1, ky1, tu1, qu1, fi1⟩ := BtnPress_tick_exact env self t w w1 m hst hk hflat h1
    obtain ⟨hH, hTt⟩ := hticks t (List.mem_cons_self _ _)
    rw [GetPressDurationMS_eq, hpr, hH, hTt] at tu1 qu1 fi1
    have hdH : H < elapsedMS press t.time_now := lt_of_lt_of_le hp hmono.1
    obtain ⟨hn1, _⟩ := turbo_after env self H T hT press [t] w w1 p hst hpr hp hn
      (fun t' ht' => by
        rw [List.mem_singleton] at ht'
        subst ht'
        exact ⟨hH, hTt⟩)
      (by simpa using hmono.1) (by simpa using hdense.1)
      ((run_singleton env _ w w1).mpr h1) (elapsedMS press t.time_now) (by simp)
    have hno : elapsedMS press t.time_now ≤ H + (((w.impl self)._turboCount +
        turboStep (elapsedMS press t.time_now) H T (w.impl self)._turboCount : Nat) : ℚ) * T +
        env.MAGIC_INSTANT_DURATION := by
      rw [← tu1]
      have hc : (((w1.impl self)._turboCount : Nat) : ℚ) =
          ((⌊(elapsedMS press t.time_now - H) / T⌋ + 1 : ℤ) : ℚ) := by
        rw [← hn1]; simp
      rw [hc]
      have hlt := Int.lt_floor_add_one ((elapsedMS press t.time_now - H) / T)
      rw [div_lt_iff₀ hT] at hlt
      push_cast
      linarith
    rw [hq, tickInstants_turbo _ m _ H T _ hrH hrT hno, ← tu1] at qu1 fi1
    obtain ⟨r1, r2⟩ := ih w1 w' (elapsedMS press t.time_now) st1 ky1 (pr1.trans hpr) hdH hn1 qu1
      (fun t' ht' => hticks t' (List.mem_cons_of_mem _ ht')) hmono.2 hdense.2 h2
    exact ⟨r1, by rw [r2, fi1]; rfl⟩

/-- Ticks from the press on, for a binding that registers `OnTurbo` on the turbo event: the
queue holds one `OnTurbo` per pulse and no instant is released. -/
theorem turbo_queue_before (env : Env) (self : Nat) (m : Mapping) (hflat : m.Flat)
    (hrH : m.registers .OnHold = []) (hrT : m.registers .OnTurbo = [.OnTurbo])
    (hmagic : 0 ≤ env.MAGIC_INSTANT_DURATION) (H T : ℚ) (hT : 0 < T) (press : Int) :
    ∀ (ticks : List Pressed) (w w' : World),
      w.getState self = .BtnPress → (w.impl self)._keyToRelease = some m →
      (w.impl self)._press_times = press → (w.impl self)._turboCount = 0 →
      (w.impl self)._instantReleaseQueue = [] →
      (∀ t ∈ ticks, t.holdTime = H ∧ t.turboTime = T) →
      List.Chain' (· ≤ ·) (ticks.map fun t => elapsedMS press t.time_now) →
      List.Chain' (fun a b => b - a < T) (ticks.map fun t => elapsedMS press t.time_now) →
      (∀ d, (ticks.map fun t => elapsedMS press t.time_now).find? (fun d => decide (H < d)) = some d →
        d - H < T) →
      run env w (ticks.map (Input.Pressed self)) = .ok w' →
      (w'.impl self)._instantReleaseQueue = List.replicate (w'.impl self)._turboCount .OnTurbo ∧
      instantFired self w'.fired = instantFired self w.fired := by
  intro ticks
  induction ticks with
  | nil =>
    intro w w' _ _ _ h0 hq _ _ _ _ h
    simp only [List.map_nil, run, pure_eq_ok] at h
    subst h
    exact ⟨by rw [hq, h0]; rfl, rfl⟩
  | cons t rest ih =>
    intro w w' hst hk hpr h0 hq hticks hmono hdense hfirst h
    simp only [List.map_cons, run, bind_eq_ok] at h
    obtain ⟨w1, h1, h2⟩ := h
    obtain ⟨st1, pr1, ky1, tu1, qu1, fi1⟩ := BtnPress_tick_exact env self t w w1 m hst hk hflat h1
    obtain ⟨hH, hTt⟩ := hticks t (List.mem_cons_self _ _)
    rw [GetPressDurationMS_eq, hpr, hH, hTt, h0] at tu1 qu1 fi1
    simp only [List.map_cons] at hmono hdense hfirst
    have hno : elapsedMS press t.time_now ≤ H + (((0 : Nat) +
        turboStep (elapsedMS press t.time_now) H T 0 : Nat) : ℚ) * T +
        env.MAGIC_INSTANT_DURATION := by
      by_cases hdH : H < elapsedMS press t.time_now
      · have hdT : elapsedMS press t.time_now - H < T := hfirst _ (by simp [hdH])
        have hstep : turboStep (elapsedMS press t.time_now) H T 0 = 1 := by simp [turboStep, hdH]
        rw [hstep]
        push_cast
        linarith
      · have hstep : turboStep (elapsedMS press t.time_now) H T 0 = 0 := by simp [turboStep, hdH]
        rw [hstep]
        push_cast
        linarith [not_lt.mp hdH]
    have hq0 : (w.impl self)._instantReleaseQueue = List.replicate 0 .OnTurbo := by rw [hq]; rfl
    rw [hq0, tickInstants_turbo _ m _ H T 0 hrH hrT hno, ← tu1] at qu1 fi1
    by_cases hdH : H < elapsedMS press t.time_now
    · have hdT : elapsedMS press t.time_now - H < T := hfirst _ (by simp [hdH])
      have hfl : ⌊(elapsedMS press t.time_now - H) / T⌋ = 0 := by
        rw [Int.floor_eq_iff]
        constructor
        · simpa using div_nonneg (by linarith : (0:ℚ) ≤ elapsedMS press t.time_now - H) hT.le
        · simpa using (div_lt_one hT).mpr hdT
      have hstep : turboStep (elapsedMS press t.time_now) H T 0 = 1 := by simp [turboStep, hdH]
      rw [hstep] at tu1
      have hn1 : ((w1.impl self)._turboCount : ℤ) =
          ⌊(elapsedMS press t.time_now - H) / T⌋ + 1 := by rw [tu1, hfl]; simp
      obtain ⟨r1, r2⟩ := turbo_queue_after env self m hflat hrH hrT hmagic H T hT press rest w1 w'
        (elapsedMS press t.time_now) st1 ky1 (pr1.trans hpr) hdH hn1 qu1
        (fun t' ht' => hticks t' (List.mem_cons_of_mem _ ht')) hmono hdense h2
      exact ⟨r1, by rw [r2, fi1]; rfl⟩
    · have hstep : turboStep (elapsedMS press t.time_now) H T 0 = 0 := by simp [turboStep, hdH]
      rw [hstep] at tu1
      have hq1 : (w1.impl self)._instantReleaseQueue = [] := by rw [qu1, tu1]; rfl
      obtain ⟨r1, r2⟩ := ih w1 w' st1 ky1 (pr1.trans hpr) (by simpa using tu1) hq1
        (fun t' ht' => hticks t' (List.mem_cons_of_mem _ ht'))
        (List.Chain'.tail hmono) (List.Chain'.tail hdense)
        (fun d' hd' => hfirst d' (by
          rw [List.find?_cons_of_neg _ (by simpa using hdH)]
          exact hd')) h2
      exact ⟨r1, by rw [r2, fi1]; rfl⟩

/-- C19, the defect. The instant-release queue is not bounded by 2, the capacity the
constructor reserves: the test that guards `CheckInstantRelease(OnTurbo)` reads the turbo count
after the pulse of the same tick has incremented it, so with dense polling it never holds and
the instants of the turbo pulses pile up. For a button held in `BtnPress` whose active binding
holds one target, bound to the turbo event with the Instant modifier, with no turbo pulse so
far and an empty queue, a grace period that is not negative and `turboTime > 0`, and for every
schedule of `Pressed` ticks (elapsed times non-decreasing) in which the first tick past
`holdTime` comes less than `turboTime` after `holdTime` and consecutive ticks are less than
`turboTime` apart: up to and including a tick at elapsed time `D > holdTime` no
`OnInstantRelease` is fired, and the queue holds one `OnTurbo` entry for each turbo pulse. With
the times and the quotient of the turbo test taken as exact rationals (the code takes `floorf`
of a `float` quotient, which can differ at the boundary of a pulse) that number is
`floor((D - holdTime) / turboTime) + 1`. -/
theorem turbo_instants_accumulate (P : MappingEnv) (self : Nat) (w w' : World) (m : Mapping)
    (ticks : List Pressed) (H T D : ℚ) (hst : w.getState self = .BtnPress)
    (hkey : (w.impl self)._keyToRelease = some m) (hm : InstantOn P .TurboPress m)
    (h0 : (w.impl self)._turboCount = 0) (hq : (w.impl self)._instantReleaseQueue = [])
    (hmagic : 0 ≤ P.MAGIC_INSTANT_DURATION)
    (hT : 0 < T) (hticks : ∀ t ∈ ticks, t.holdTime = H ∧ t.turboTime = T)
    (hmono : List.Chain' (· ≤ ·) (ticks.map fun t => GetPressDurationMS (w.impl self) t.time_now))
    (hdense : List.Chain' (fun a b => b - a < T)
      (ticks.map fun t => GetPressDurationMS (w.impl self) t.time_now))
    (hfirst : ∀ d, (ticks.map fun t => GetPressDurationMS (w.impl self) t.time_now).find?
      (fun d => decide (H < d)) = some d → d - H < T)
    (hlast : (ticks.map fun t => GetPressDurationMS (w.impl self) t.time_now).getLast? = some D)
    (hD : H < D) (h : run P.toEnv w (ticks.map (Input.Pressed self)) = .ok w') :
    (w'.impl self)._instantReleaseQueue =
      List.replicate (w'.impl self)._turboCount .OnTurbo ∧
    (((w'.impl self)._instantReleaseQueue.length : Nat) : ℤ) = ⌊(D - H) / T⌋ + 1 ∧
    instantFired self w'.fired = instantFired self w.fired := by
  obtain ⟨hflat, rT, _, rH, _⟩ := InstantOn_TurboPress P m hm
  obtain ⟨c, _⟩ := turbo_before P.toEnv self H T hT (w.impl self)._press_times ticks w w' hst rfl
    h0 hticks hmono hdense hfirst h D hlast hD
  obtain ⟨r1, r2⟩ := turbo_queue_before P.toEnv self m hflat rH rT hmagic H T hT
    (w.impl self)._press_times ticks w w' hst hkey rfl h0 hq hticks hmono hdense hfirst h
  exact ⟨r1, by rw [r1, List.length_replicate]; exact c, r2⟩

/-- C11 on the sample controller: a rumble target toggled three times by button 0. -/
theorem toggle_release_keeps_record_witness :
    (demo.id 0, rumbleKey) ∉ demoInit.common.activeTogglesQueue ∧
    ∃ w1 w2 w3,
      runCallback demo 0 (.ApplyButtonToggle rumbleKey (.SetRumble 128 64) (.SetRumble 0 0))
        demoInit = .ok w1 ∧
      w1.log = (demoInit.emit (.rumble 128 64)).log ∧
      w1.common.activeTogglesQueue =
        (demo.id 0, rumbleKey) :: (demoInit.emit (.rumble 128 64)).common.activeTogglesQueue ∧
      runCallback demo 0 (.ApplyButtonToggle rumbleKey (.SetRumble 128 64) (.SetRumble 0 0))
        w1 = .ok w2 ∧
      runCallback demo 0 (.SetRumble 0 0) w1 = .ok w2 ∧
      w2.common.activeTogglesQueue = w1.common.activeTogglesQueue ∧
      runCallback demo 0 (.ApplyButtonToggle rumbleKey (.SetRumble 128 64) (.SetRumble 0 0))
        w2 = .ok w3 ∧
      runCallback demo 0 (.SetRumble 0 0) w2 = .ok w3 ∧
      w3.common.activeTogglesQueue = w1.common.activeTogglesQueue :=
  ⟨by decide, toggle_release_keeps_record demo 0 rumbleKey (.SetRumble 128 64) (.SetRumble 0 0)
    demoInit (demoInit.emit (.rumble 128 64)) (Or.inl rfl) rfl (by decide)⟩

/-- The binding of handle 4 of the sample controller is the one `AddMapping` builds from key `G`
on the press event with the Instant modifier. -/
theorem demo_instant_binding (c : ButtonID) (m : Mapping)
    (h : (demoParse.mapping 4).get c = some m) : InstantOn demoParse .StartPress m := by
  have hm : m = instantBinding 71 "G" := by
    simp only [demoParse, demo, demoMapping, plainButton] at h
    split_ifs at h
    exact (Option.some.inj h).symm
  subst hm
  refine ⟨emptyMapping,
    addedMapping (emptyMapping.AddMapping demoParse ⟨71, "G"⟩ .StartPress .Instant),
    ⟨71, "G"⟩, rfl, rfl, ?_⟩
  intro e
  cases e <;> rfl

/-- The releasing path on the sample controller: the button bound with the Instant modifier is
pressed at 0 ms and ticks at 30, 50, 200 and 300 ms; the grace period is 40 ms, the hold time
150 ms. -/
theorem instant_press_released_once_witness :
    demoInit.getState 4 = .NoPress ∧
    (∀ t ∈ [pressedAt 30], elapsedMS (pressedAt 0).time_now t.time_now ≤
        demoParse.MAGIC_INSTANT_DURATION ∧
      elapsedMS (pressedAt 0).time_now t.time_now ≤ t.holdTime) ∧
    elapsedMS (pressedAt 0).time_now (pressedAt 50).time_now > demoParse.MAGIC_INSTANT_DURATION ∧
    ∃ w1 w2 w3 m apply,
      step demoParse.toEnv demoInit (.Pressed 4 (pressedAt 0)) = .ok w1 ∧
      m.find .OnPress = some (.RunBothActions apply (.RegisterInstant .OnPress)) ∧
      w1.fired = demoInit.fired ++ [(4, m, .OnPress)] ∧
      (w1.impl 4)._instantReleaseQueue = [.OnPress] ∧
      run demoParse.toEnv w1 ([pressedAt 30].map (Input.Pressed 4)) = .ok w2 ∧
      instantFired 4 w2.fired = instantFired 4 demoInit.fired ∧
      (w2.impl 4)._instantReleaseQueue = [.OnPress] ∧
      step demoParse.toEnv w2 (.Pressed 4 (pressedAt 50)) = .ok w3 ∧
      instantFired 4 w3.fired = instantFired 4 demoInit.fired + 1 ∧
      (w3.impl 4)._instantReleaseQueue = [] ∧
      run demoParse.toEnv w3 ([pressedAt 200, pressedAt 300].map (Input.Pressed 4)) =
        .ok (demoAfter ((pressedAt 0 :: ([pressedAt 30] ++
          pressedAt 50 :: [pressedAt 200, pressedAt 300])).map (Input.Pressed 4))) ∧
      instantFired 4 (demoAfter ((pressedAt 0 :: ([pressedAt 30] ++
          pressedAt 50 :: [pressedAt 200, pressedAt 300])).map (Input.Pressed 4))).fired =
        instantFired 4 demoInit.fired + 1 ∧
      ((demoAfter ((pressedAt 0 :: ([pressedAt 30] ++
          pressedAt 50 :: [pressedAt 200, pressedAt 300])).map (Input.Pressed 4))).impl
        4)._instantReleaseQueue = [] :=
  ⟨by decide, by decide, by decide,
    instant_press_released_once demoParse demoInit _ demoInit_Reachable 4 (pressedAt 0)
      [pressedAt 30] (pressedAt 50) [pressedAt 200, pressedAt 300] (by decide) (by decide)
      demo_instant_binding (by decide) (by decide) (by decide)
      (eq_ok_getOk _ _ (by with_unfolding_all decide))⟩

/-- C19, the failing input on the turbo sample controller. Its bindings are parsed from `!A+`,
an Instant target on the turbo event. Button 0 is pressed at 0 ms and polled at 100, 160, 220,
280 and 340 ms (hold time 150 ms, turbo period 80 ms, grace period 40 ms): the pulses at 160,
280 and 340 ms each press key `A` and register `OnTurbo`, none of them is released, and the
instant-release queue of this reachable configuration holds 3 entries. -/
theorem turbo_instants_exceed_two :
    parseFailed (demoExtract "!A+") = false ∧
    Reachable turboDemo.toEnv (getOk (run turboDemo.toEnv turboInit
      ((pressedAt 0 :: longHeldTicks).map (Input.Pressed 0))) turboInit) ∧
    ((getOk (run turboDemo.toEnv turboInit
      ((pressedAt 0 :: longHeldTicks).map (Input.Pressed 0))) turboInit).impl
        0)._instantReleaseQueue = [.OnTurbo, .OnTurbo, .OnTurbo] ∧
    ¬ ((getOk (run turboDemo.toEnv turboInit
      ((pressedAt 0 :: longHeldTicks).map (Input.Pressed 0))) turboInit).impl
        0)._instantReleaseQueue.length ≤ 2 ∧
    (getOk (run turboDemo.toEnv turboInit
      ((pressedAt 0 :: longHeldTicks).map (Input.Pressed 0))) turboInit).log.count
        (.pressKey ⟨65, "A"⟩ true) = 3 ∧
    (getOk (run turboDemo.toEnv turboInit
      ((pressedAt 0 :: longHeldTicks).map (Input.Pressed 0))) turboInit).log.count
        (.pressKey ⟨65, "A"⟩ false) = 0 :=
  ⟨by decide, ⟨false, true, _, eq_ok_getOk _ _ (by with_unfolding_all decide)⟩,
    by with_unfolding_all decide, by with_unfolding_all decide, by with_unfolding_all decide,
    by with_unfolding_all decide⟩

/-- The binding parsed from `!A+` is the one `AddMapping` builds from key `A` on the turbo event
with the Instant modifier. -/
theorem turboDemo_binding : InstantOn turboDemo .TurboPress (parsedBinding "!A+") := by
  refine ⟨emptyMapping,
    addedMapping (emptyMapping.AddMapping turboDemo ⟨65, "A"⟩ .TurboPress .Instant),
    ⟨65, "A"⟩, rfl, rfl, ?_⟩
  intro e
  cases e <;> rfl

/-- Elapsed times of `longHeldTicks` for button 0 of the turbo sample controller, pressed at
0 ms. -/
theorem longHeldTicks_elapsed :
    longHeldTicks.map (fun t => GetPressDurationMS (turboHeld.impl 0) t.time_now) =
      [100, 160, 220, 280, 340] := by
  decide

/-- C19 on the turbo sample controller: hold time 150 ms, turbo period 80 ms, last
tick at 340 ms, three pulses and three queued instants. -/
theorem turbo_instants_accumulate_witness :
    turboHeld.getState 0 = .BtnPress ∧
    (turboHeld.impl 0)._keyToRelease = some (parsedBinding "!A+") ∧
    (turboHeld.impl 0)._turboCount = 0 ∧ (turboHeld.impl 0)._instantReleaseQueue = [] ∧
    ((getOk (run turboDemo.toEnv turboHeld (longHeldTicks.map (Input.Pressed 0)))
        turboHeld).impl 0)._instantReleaseQueue =
      List.replicate ((getOk (run turboDemo.toEnv turboHeld
        (longHeldTicks.map (Input.Pressed 0))) turboHeld).impl 0)._turboCount .OnTurbo ∧
    ((((getOk (run turboDemo.toEnv turboHeld (longHeldTicks.map (Input.Pressed 0)))
        turboHeld).impl 0)._instantReleaseQueue.length : Nat) : ℤ) =
      ⌊((340 : ℚ) - 150) / 80⌋ + 1 ∧
    instantFired 0 (getOk (run turboDemo.toEnv turboHeld (longHeldTicks.map (Input.Pressed 0)))
        turboHeld).fired = instantFired 0 turboHeld.fired :=
  ⟨by decide, by decide, by decide, by decide,
    turbo_instants_accumulate turboDemo 0 turboHeld
      (getOk (run turboDemo.toEnv turboHeld (longHeldTicks.map (Input.Pressed 0))) turboHeld)
      (parsedBinding "!A+") longHeldTicks 150 80 340 (by decide) (by decide) turboDemo_binding
      (by decide) (by decide) (by decide) (by norm_num) (by decide)
      (by rw [longHeldTicks_elapsed]; norm_num [List.chain'_cons])
      (by rw [longHeldTicks_elapsed]; norm_num [List.chain'_cons])
      (by
        rw [longHeldTicks_elapsed]
        intro d hd
        have hf : ([100, 160, 220, 280, 340] : List ℚ).find? (fun d => decide (150 < d)) =
            some 160 := by
          decide
        rw [hf] at hd
        cases hd
        norm_num)
      (by rw [longHeldTicks_elapsed]; rfl)
      (by norm_num) (eq_ok_getOk _ _ (by with_unfolding_all decide))⟩

theorem stores_eq (a : Int → Nat) (i : Int) (b0 b1 b2 b3 b4 b5 b6 b7 b8 b9 b10 : Nat) :
    storeByte (storeByte (storeByte (storeByte (storeByte (storeByte (storeByte (storeByte
      (storeByte (storeByte (storeByte a (i + 0) b0) (i + 1) b1) (i + 2) b2) (i + 3) b3)
      (i + 4) b4) (i + 5) b5) (i + 6) b6) (i + 7) b7) (i + 8) b8) (i + 9) b9) (i + 10) b10 =
    writeBytes a i [b0, b1, b2, b3, b4, b5, b6, b7, b8, b9, b10] := by
  funext j
  simp only [storeByte, writeBytes, List.length_cons, List.length_nil]
  by_cases h10 : j = i + 10
  · subst h10; simp
  by_cases h9 : j = i + 9
  · subst h9; simp
  by_cases h8 : j = i + 8
  · subst h8; simp
  by_cases h7 : j = i + 7
  · subst h7; simp
  by_cases h6 : j = i + 6
  · subst h6; simp
  by_cases h5 : j = i + 5
  · subst h5; simp
  by_cases h4 : j = i + 4
  · subst h4; simp
  by_cases h3 : j = i + 3
  · subst h3; simp
  by_cases h2 : j = i + 2
  · subst h2; simp
  by_cases h1 : j = i + 1
  · subst h1; simp
  by_cases h0 : j = i + 0
  · subst h0; simp
  simp only [h10, h9, h8, h7, h6, h5, h4, h3, h2, h1, h0, if_false]
  rw [if_neg]
  intro ⟨h1', h2'⟩
  omega

/-- Reading back the 11 bytes stored. -/
theorem readBytes_writeBytes (a : Int → Nat) (i : Int) (b0 b1 b2 b3 b4 b5 b6 b7 b8 b9 b10 : Nat) :
    readBytes (writeBytes a i [b0, b1, b2, b3, b4, b5, b6, b7, b8, b9, b10]) i 11 =
      [b0, b1, b2, b3, b4, b5, b6, b7, b8, b9, b10] := by
  simp [readBytes, writeBytes, List.range_succ]

/-- Offsets outside the 11 bytes stored keep their byte. -/
theorem writeBytes_outside (a : Int → Nat) (i : Int) (bytes : List Nat) (j : Int)
    (h : j < i ∨ i + bytes.length ≤ j) : writeBytes a i bytes j = a j := by
  unfold writeBytes
  rw [if_neg]
  intro ⟨h1, h2⟩
  omega

theorem Off_eq (a : Int → Nat) (i : Int) :
    TriggerEffectGenerator.Off a i = (true, writeBytes a i offPayload) := by
  unfold TriggerEffectGenerator.Off offPayload
  simp only [stores_eq, TriggerEffectType.toByte]

theorem find?_above_none (l : List Nat) :
    l.find? (fun amp => decide (amp > 8)) = none ↔ ∀ x ∈ l, x ≤ 8 := by
  simp [List.find?_eq_none]

/-- C23. `Feedback` returns false if and only if `position > 9` or `strength > 8` (so it returns
true for every other input), and whenever it returns false the memory is as it was. -/
theorem Feedback_returns_false_iff (a : Int → Nat) (i : Int) (position strength : Nat) :
    ((TriggerEffectGenerator.Feedback a i position strength).1 = false ↔
      position > 9 ∨ strength > 8) ∧
    ((TriggerEffectGenerator.Feedback a i position strength).1 = false →
      (TriggerEffectGenerator.Feedback a i position strength).2 = a) := by
  unfold TriggerEffectGenerator.Feedback
  by_cases hp : position > 9
  · simp [hp]
  by_cases hs : strength > 8
  · simp [hp, hs]
  by_cases h0 : strength > 0
  · simp [hp, hs, h0]
  · simp [hp, hs, h0, Off_eq]

/-- C23 on a sample memory: position 10 and strength 9 are rejected, position 9 with strength 8
and position 0 with strength 0 accepted. -/
theorem Feedback_returns_false_iff_witness :
    TriggerEffectGenerator.Feedback sampleMemory 0 10 8 = (false, sampleMemory) ∧
    TriggerEffectGenerator.Feedback sampleMemory 0 9 9 = (false, sampleMemory) ∧
    (TriggerEffectGenerator.Feedback sampleMemory 0 9 8).1 = true ∧
    (TriggerEffectGenerator.Feedback sampleMemory 0 0 0).1 = true ∧
    ((TriggerEffectGenerator.Feedback sampleMemory 0 10 8).1 = false ↔ 10 > 9 ∨ 8 > 8) :=
  ⟨rfl, rfl, by decide, by decide, (Feedback_returns_false_iff sampleMemory 0 10 8).1⟩

/-- C24. `MultiplePositionFeedback` and `MultiplePositionVibration` return false and leave the
memory as it was when the vector does not have exactly 10 entries. When it has 10 entries and
one of them is above 8, they do not return false: both go on to `Off`, return true and store
the `Off` payload. -/
theorem MultiplePosition_entry_above_8 (a : Int → Nat) (i : Int) (frequency : Nat)
    (strength : List Nat) :
    (strength.length ≠ 10 →
      TriggerEffectGenerator.MultiplePositionFeedback a i strength = (false, a) ∧
      TriggerEffectGenerator.MultiplePositionVibration a i frequency strength = (false, a)) ∧
    (strength.length = 10 → (∃ x ∈ strength, x > 8) →
      TriggerEffectGenerator.MultiplePositionFeedback a i strength =
        (true, writeBytes a i offPayload) ∧
      TriggerEffectGenerator.MultiplePositionVibration a i frequency strength =
        (true, writeBytes a i offPayload)) := by
  unfold TriggerEffectGenerator.MultiplePositionFeedback
    TriggerEffectGenerator.MultiplePositionVibration
  constructor
  · intro h
    simp [h]
  · intro h hx
    have hnone : ¬ strength.find? (fun amp => decide (amp > 8)) = none := by
      rw [find?_above_none]
      obtain ⟨x, hx, h8⟩ := hx
      intro hall
      have := hall x hx
      omega
    simp only [h, ne_eq, not_true_eq_false, if_false, hnone, and_false, Off_eq]
    exact ⟨trivial, trivial⟩

/-- C24 on a sample memory: a vector of 10 entries whose first entry is 9. -/
theorem MultiplePosition_entry_above_8_witness :
    [9, 0, 0, 0, 0, 0, 0, 0, 0, 0].length = 10 ∧ (∃ x ∈ [9, 0, 0, 0, 0, 0, 0, 0, 0, 0], x > 8) ∧
    TriggerEffectGenerator.MultiplePositionFeedback sampleMemory 0 [9, 0, 0, 0, 0, 0, 0, 0, 0, 0] =
      (true, writeBytes sampleMemory 0 offPayload) ∧
    TriggerEffectGenerator.MultiplePositionVibration sampleMemory 0 40
        [9, 0, 0, 0, 0, 0, 0, 0, 0, 0] = (true, writeBytes sampleMemory 0 offPayload) ∧
    readBytes (TriggerEffectGenerator.MultiplePositionFeedback sampleMemory 0
      [9, 0, 0, 0, 0, 0, 0, 0, 0, 0]).2 0 11 = [5, 0, 0, 0, 0, 0, 0, 0, 0, 0, 0] ∧
    readBytes sampleMemory 0 11 =
      [0xEE, 0xEE, 0xEE, 0xEE, 0xEE, 0xEE, 0xEE, 0xEE, 0xEE, 0xEE, 0xEE] :=
  ⟨rfl, ⟨9, by simp, by decide⟩,
    ((MultiplePosition_entry_above_8 sampleMemory 0 40 [9, 0, 0, 0, 0, 0, 0, 0, 0, 0]).2 rfl
      ⟨9, by simp, by decide⟩).1,
    ((MultiplePosition_entry_above_8 sampleMemory 0 40 [9, 0, 0, 0, 0, 0, 0, 0, 0, 0]).2 rfl
      ⟨9, by simp, by decide⟩).2, by decide, by decide⟩

/-- C26, the claim as stated fails: with `endPosition` equal to `startPosition` (3 and 3, all
other arguments in range) `Machine` returns false and the memory is as it was. -/
theorem Machine_rejects_equal_positions :
    (3 : Nat) ≤ 8 ∧ (3 : Nat) ≤ 3 ∧ (3 : Nat) ≤ 9 ∧ (7 : Nat) ≤ 7 ∧
    (TriggerEffectGenerator.Machine sampleMemory 0 3 3 7 7 10 5).1 = false ∧
    (TriggerEffectGenerator.Machine sampleMemory 0 3 3 7 7 10 5).2 = sampleMemory ∧
    readBytes (TriggerEffectGenerator.Machine sampleMemory 0 3 3 7 7 10 5).2 0 11 =
      readBytes sampleMemory 0 11 :=
  ⟨by decide, by decide, by decide, by decide, by decide, rfl, by decide⟩

/-- C26, amended. `Machine` returns true exactly when `startPosition <= 8`, `endPosition <= 9`,
`startPosition < endPosition` (the end position lies strictly after the start position, as the
sibling factories document with `startPosition+1`), `amplitudeA <= 7` and `amplitudeB <= 7`;
whenever it returns false the memory is as it was; and it returns false when `endPosition`
equals `startPosition`, whatever the other arguments. -/
theorem Machine_returns_true_iff (a : Int → Nat) (i : Int)
    (startPosition endPosition amplitudeA amplitudeB frequency period : Nat) :
    ((TriggerEffectGenerator.Machine a i startPosition endPosition amplitudeA amplitudeB
        frequency period).1 = true ↔
      startPosition ≤ 8 ∧ endPosition ≤ 9 ∧ startPosition < endPosition ∧
        amplitudeA ≤ 7 ∧ amplitudeB ≤ 7) ∧
    ((TriggerEffectGenerator.Machine a i startPosition endPosition amplitudeA amplitudeB
        frequency period).1 = false →
      (TriggerEffectGenerator.Machine a i startPosition endPosition amplitudeA amplitudeB
        frequency period).2 = a) ∧
    TriggerEffectGenerator.Machine a i startPosition startPosition amplitudeA amplitudeB
      frequency period = (false, a) := by
  unfold TriggerEffectGenerator.Machine
  refine ⟨?_, ?_, ?_⟩
  · by_cases h1 : startPosition > 8
    · simp [h1]
    by_cases h2 : endPosition > 9
    · simp [h1, h2]
    by_cases h3 : endPosition ≤ startPosition
    · simp [h1, h2, h3]
    by_cases h4 : amplitudeA > 7
    · simp [h1, h2, h3, h4]
    by_cases h5 : amplitudeB > 7
    · simp [h1, h2, h3, h4, h5]
    by_cases h6 : frequency > 0
    · simp [h1, h2, h3, h4, h5, h6]; omega
    · simp [h1, h2, h3, h4, h5, h6, Off_eq]; omega
  · by_cases h1 : startPosition > 8
    · simp [h1]
    by_cases h2 : endPosition > 9
    · simp [h1, h2]
    by_cases h3 : endPosition ≤ startPosition
    · simp [h1, h2, h3]
    by_cases h4 : amplitudeA > 7
    · simp [h1, h2, h3, h4]
    by_cases h5 : amplitudeB > 7
    · simp [h1, h2, h3, h4, h5]
    by_cases h6 : frequency > 0
    · simp [h1, h2, h3, h4, h5, h6]
    · simp [h1, h2, h3, h4, h5, h6, Off_eq]
  · by_cases h1 : startPosition > 8
    · simp [h1]
    by_cases h2 : startPosition > 9
    · simp [h1, h2]
    simp [h1, h2]

/-- C26 as amended, on a sample memory: start and end position 3 are rejected, 3 and 4
accepted. -/
theorem Machine_returns_true_iff_witness :
    TriggerEffectGenerator.Machine sampleMemory 0 3 3 7 7 10 5 = (false, sampleMemory) ∧
    (TriggerEffectGenerator.Machine sampleMemory 0 3 4 7 7 10 5).1 = true ∧
    readBytes (TriggerEffectGenerator.Machine sampleMemory 0 3 4 7 7 10 5).2 0 11 =
      [0x27, 0x18, 0, 0x3F, 10, 5, 0, 0, 0, 0, 0] :=
  ⟨(Machine_returns_true_iff sampleMemory 0 3 3 7 7 10 5).2.2, by decide, by decide⟩

theorem zonesOf_zeros : zonesOf (List.replicate 10 0) = (0, 0) := by decide

/-- C25. `Off` returns true and stores the `Off` payload, `0x05` and ten zero bytes. With valid
arguments of zero effect, `Feedback` (strength 0), `Weapon` (strength 0) and `Vibration`
(amplitude 0 or frequency 0) do what `Off` does, and so does `MultiplePositionVibration` with
ten zeros and frequency 0. `MultiplePositionFeedback` with ten zeros does not: it returns true
and stores `0x21` (`Feedback`) followed by ten zero bytes; and with a frequency above 0
`MultiplePositionVibration` with ten zeros stores `0x26` (`Vibration`), eight zero bytes, the
frequency and a zero byte. -/
theorem zero_effect_payloads (a : Int → Nat) (i : Int) :
    TriggerEffectGenerator.Off a i = (true, writeBytes a i offPayload) ∧
    (∀ position, position ≤ 9 →
      TriggerEffectGenerator.Feedback a i position 0 = TriggerEffectGenerator.Off a i) ∧
    (∀ startPosition endPosition, 2 ≤ startPosition → startPosition ≤ 7 →
      startPosition < endPosition → endPosition ≤ 8 →
      TriggerEffectGenerator.Weapon a i startPosition endPosition 0 =
        TriggerEffectGenerator.Off a i) ∧
    (∀ position amplitude frequency, position ≤ 9 → amplitude ≤ 8 →
      amplitude = 0 ∨ frequency = 0 →
      TriggerEffectGenerator.Vibration a i position amplitude frequency =
        TriggerEffectGenerator.Off a i) ∧
    TriggerEffectGenerator.MultiplePositionVibration a i 0 (List.replicate 10 0) =
      TriggerEffectGenerator.Off a i ∧
    TriggerEffectGenerator.MultiplePositionFeedback a i (List.replicate 10 0) =
      (true, writeBytes a i [0x21, 0, 0, 0, 0, 0, 0, 0, 0, 0, 0]) ∧
    (∀ frequency, frequency > 0 →
      TriggerEffectGenerator.MultiplePositionVibration a i frequency (List.replicate 10 0) =
        (true, writeBytes a i [0x26, 0, 0, 0, 0, 0, 0, 0, 0, frequency, 0])) ∧
    readBytes (TriggerEffectGenerator.MultiplePositionFeedback a i (List.replicate 10 0)).2 i 11 ≠
      offPayload := by
  have hmpf : TriggerEffectGenerator.MultiplePositionFeedback a i (List.replicate 10 0) =
      (true, writeBytes a i [0x21, 0, 0, 0, 0, 0, 0, 0, 0, 0, 0]) := by
    unfold TriggerEffectGenerator.MultiplePositionFeedback
    have hnone : (List.replicate 10 0).find? (fun amp => decide (amp > 8)) = none := by decide
    simp only [List.length_replicate, ne_eq, not_true_eq_false, if_false, hnone, if_true,
      zonesOf_zeros, stores_eq, TriggerEffectType.toByte]
    rfl
  refine ⟨Off_eq a i, ?_, ?_, ?_, ?_, hmpf, ?_, ?_⟩
  · intro position hp
    unfold TriggerEffectGenerator.Feedback
    simp [not_lt.mpr hp]
  · intro s e h2 h7 hse h8
    unfold TriggerEffectGenerator.Weapon
    have c1 : ¬ (s > 7 ∨ s < 2) := by omega
    have c2 : ¬ e > 8 := by omega
    have c3 : ¬ e ≤ s := by omega
    simp [c1, c2, c3]
  · intro position amplitude frequency hp ha hz
    unfold TriggerEffectGenerator.Vibration
    have c1 : ¬ position > 9 := by omega
    have c2 : ¬ amplitude > 8 := by omega
    have c3 : ¬ (amplitude > 0 ∧ frequency > 0) := by omega
    simp only [c1, c2, c3, if_false]
  · unfold TriggerEffectGenerator.MultiplePositionVibration
    simp
  · intro frequency hf
    unfold TriggerEffectGenerator.MultiplePositionVibration
    have hnone : (List.replicate 10 0).find? (fun amp => decide (amp > 8)) = none := by decide
    simp only [List.length_replicate, ne_eq, not_true_eq_false, if_false, hnone, hf, and_self,
      if_true, zonesOf_zeros, stores_eq, TriggerEffectType.toByte]
    rfl
  · rw [hmpf, readBytes_writeBytes]
    decide

/-- C25 on a sample memory: the bytes the five factories store for arguments of zero effect. -/
theorem zero_effect_payloads_witness :
    readBytes (TriggerEffectGenerator.Feedback sampleMemory 0 3 0).2 0 11 = offPayload ∧
    readBytes (TriggerEffectGenerator.Weapon sampleMemory 0 2 5 0).2 0 11 = offPayload ∧
    readBytes (TriggerEffectGenerator.Vibration sampleMemory 0 3 0 40).2 0 11 = offPayload ∧
    readBytes (TriggerEffectGenerator.Vibration sampleMemory 0 3 8 0).2 0 11 = offPayload ∧
    readBytes (TriggerEffectGenerator.MultiplePositionVibration sampleMemory 0 0
      (List.replicate 10 0)).2 0 11 = offPayload ∧
    readBytes (TriggerEffectGenerator.MultiplePositionVibration sampleMemory 0 40
      (List.replicate 10 0)).2 0 11 = [0x26, 0, 0, 0, 0, 0, 0, 0, 0, 40, 0] ∧
    TriggerEffectGenerator.MultiplePositionFeedback sampleMemory 0 (List.replicate 10 0) =
      (true, writeBytes sampleMemory 0 [0x21, 0, 0, 0, 0, 0, 0, 0, 0, 0, 0]) ∧
    readBytes (TriggerEffectGenerator.MultiplePositionFeedback sampleMemory 0
      (List.replicate 10 0)).2 0 11 ≠ offPayload :=
  ⟨by decide, by decide, by decide, by decide, by decide, by decide,
    (zero_effect_payloads sampleMemory 0).2.2.2.2.2.1,
    (zero_effect_payloads sampleMemory 0).2.2.2.2.2.2.2⟩

theorem Feedback_eq (a : Int → Nat) (i : Int) (position strength : Nat) (hp : position ≤ 9)
    (h1 : 1 ≤ strength) (h8 : strength ≤ 8) :
    TriggerEffectGenerator.Feedback a i position strength =
      (true, writeBytes a i (feedbackPayload position strength)) := by
  unfold TriggerEffectGenerator.Feedback feedbackPayload
  have c1 : ¬ position > 9 := by omega
  have c2 : ¬ strength > 8 := by omega
  have c3 : strength > 0 := by omega
  simp only [c1, c2, c3, if_false, if_true, stores_eq, TriggerEffectType.toByte]

/-- C27. For every position in 0..9 and strength in 1..8, `Feedback` returns true and stores 11
bytes, every other offset keeping its byte: byte 0 is `0x21`; the 16-bit little-endian value of
bytes 1-2 has bit `k` set exactly for `position <= k <= 9`; the 3-bit field at bits
`3k .. 3k+2` of the 32-bit little-endian value of bytes 3-6 is `strength - 1` for
`position <= k <= 9` and 0 for `k < position`, and its bits 30 and 31 are 0; bytes 7-10 are 0.
The field of zone 9 ends at bit 29, so the 32-bit accumulator truncates nothing. -/
theorem Feedback_zone_fields (a : Int → Nat) (i : Int) (position strength : Nat)
    (hp : position ≤ 9) (h1 : 1 ≤ strength) (h8 : strength ≤ 8) :
    ∃ b1 b2 b3 b4 b5 b6 : Nat,
      TriggerEffectGenerator.Feedback a i position strength =
        (true, writeBytes a i [0x21, b1, b2, b3, b4, b5, b6, 0, 0, 0, 0]) ∧
      (b1 < 256 ∧ b2 < 256 ∧ b3 < 256 ∧ b4 < 256 ∧ b5 < 256 ∧ b6 < 256) ∧
      (∀ k < 16, (b1 + 2 ^ 8 * b2).testBit k = decide (position ≤ k ∧ k ≤ 9)) ∧
      (∀ k < 10, ((b3 + 2 ^ 8 * b4 + 2 ^ 16 * b5 + 2 ^ 24 * b6) >>> (3 * k)) % 8 =
        if position ≤ k then strength - 1 else 0) ∧
      b3 + 2 ^ 8 * b4 + 2 ^ 16 * b5 + 2 ^ 24 * b6 < 2 ^ 30 := by
  refine ⟨_, _, _, _, _, _, Feedback_eq a i position strength hp h1 h8, ?_⟩
  interval_cases position <;> interval_cases strength <;> decide

/-- C27 on a sample memory: position 3, strength 5. -/
theorem Feedback_zone_fields_witness :
    readBytes (TriggerEffectGenerator.Feedback sampleMemory 0 3 5).2 0 11 =
      [0x21, 0xF8, 0x03, 0x00, 0x48, 0x92, 0x24, 0, 0, 0, 0] ∧
    ∃ b1 b2 b3 b4 b5 b6 : Nat,
      TriggerEffectGenerator.Feedback sampleMemory 0 3 5 =
        (true, writeBytes sampleMemory 0 [0x21, b1, b2, b3, b4, b5, b6, 0, 0, 0, 0]) ∧
      (b1 < 256 ∧ b2 < 256 ∧ b3 < 256 ∧ b4 < 256 ∧ b5 < 256 ∧ b6 < 256) ∧
      (∀ k < 16, (b1 + 2 ^ 8 * b2).testBit k = decide (3 ≤ k ∧ k ≤ 9)) ∧
      (∀ k < 10, ((b3 + 2 ^ 8 * b4 + 2 ^ 16 * b5 + 2 ^ 24 * b6) >>> (3 * k)) % 8 =
        if 3 ≤ k then 5 - 1 else 0) ∧
      b3 + 2 ^ 8 * b4 + 2 ^ 16 * b5 + 2 ^ 24 * b6 < 2 ^ 30 :=
  ⟨by decide, Feedback_zone_fields sampleMemory 0 3 5 (by decide) (by decide) (by decide)⟩

/-- C28 as stated fails on the sample controller. The plain button is held; its first turbo
pulse comes with the tick at 160 ms (hold time 150 ms, turbo period 80 ms); the next tick comes
at 1000 ms, where `floor((1000 - 150) / 80) = 10` (the quotient 10.625 is far from a whole
number, so the `float` arithmetic of the code gives the same floor). That tick fires one
`OnTurbo`, not nine: the turbo count after it is 2. -/
theorem late_tick_fires_one_turbo :
    succeeded (run demo demoInit latePollInputs) = true ∧
    (demoAfter (latePollInputs.take 2)).getState 0 = .BtnPress ∧
    ((demoAfter (latePollInputs.take 2)).impl 0)._turboCount = 1 ∧
    GetPressDurationMS ((demoAfter (latePollInputs.take 2)).impl 0) (pressedAt 1000).time_now
      = 1000 ∧
    ⌊((1000 : ℚ) - (pressedAt 1000).holdTime) / (pressedAt 1000).turboTime⌋ = 10 ∧
    ((demoAfter latePollInputs).impl 0)._turboCount = 2 ∧
    turboFired 0 (demoAfter latePollInputs).fired = 2 := by
  refine ⟨by with_unfolding_all decide, by decide, by decide, by decide, ?_,
    by with_unfolding_all decide, by with_unfolding_all decide⟩
  norm_num [pressedAt, Int.floor_eq_iff]

/-- C28, amended. A `Pressed` tick handled in `BtnPress` after turbo has started (turbo count at
least 1), with a turbo period other than 0, fires at most one `OnTurbo`, whatever the time
elapsed since the previous tick, and the turbo count grows by what it fires, so by at most 1.
With the elapsed time `t`, the hold time, the turbo period and their quotient taken as exact
rationals (the code computes the quotient in `float` and takes `floorf`, which can differ from
the exact floor when the quotient is within rounding of a whole number), the tick fires one
`OnTurbo` when `floor((t - holdTime) / turboTime)` is at least the turbo count and none
otherwise, and after the tick the turbo count is at least `floor((t - holdTime) / turboTime)`
exactly when that floor was at most one above the count before the tick. -/
theorem turbo_one_pulse_per_tick (env : Env) (self : Nat) (t : Pressed) (w w' : World)
    (hst : w.getState self = .BtnPress) (hn : 1 ≤ (w.impl self)._turboCount)
    (hT : t.turboTime ≠ 0) (h : sendEvent_Pressed env self t w = .ok w') :
    (w'.impl self)._turboCount ≤ (w.impl self)._turboCount + 1 ∧
    turboFired self w'.fired + (w.impl self)._turboCount =
      turboFired self w.fired + (w'.impl self)._turboCount ∧
    (w'.impl self)._turboCount = (w.impl self)._turboCount +
      (if ⌊(GetPressDurationMS (w.impl self) t.time_now - t.holdTime) / t.turboTime⌋ ≥
        ((w.impl self)._turboCount : ℤ) then 1 else 0) ∧
    turboFired self w'.fired = turboFired self w.fired +
      (if ⌊(GetPressDurationMS (w.impl self) t.time_now - t.holdTime) / t.turboTime⌋ ≥
        ((w.impl self)._turboCount : ℤ) then 1 else 0) ∧
    (⌊(GetPressDurationMS (w.impl self) t.time_now - t.holdTime) / t.turboTime⌋ ≤
        ((w'.impl self)._turboCount : ℤ) ↔
      ⌊(GetPressDurationMS (w.impl self) t.time_now - t.holdTime) / t.turboTime⌋ ≤
        ((w.impl self)._turboCount : ℤ) + 1) := by
  obtain ⟨_, _, tu, fi⟩ := BtnPress_tick env self t w w' hst h
  have hstep : turboStep (GetPressDurationMS (w.impl self) t.time_now) t.holdTime t.turboTime
      (w.impl self)._turboCount =
      (if ⌊(GetPressDurationMS (w.impl self) t.time_now - t.holdTime) / t.turboTime⌋ ≥
        ((w.impl self)._turboCount : ℤ) then 1 else 0) := by
    unfold turboStep turboDue
    rw [if_neg (by omega), if_neg hT]
    split_ifs <;> simp_all
  rw [hstep] at tu fi
  refine ⟨?_, ?_, tu, fi, ?_⟩
  · rw [tu]
    split_ifs <;> omega
  · rw [tu, fi]
    omega
  rw [tu]
  split_ifs with hge
  · push_cast; omega
  · push_cast; omega

/-- C28 as amended, on the sample controller: the tick at 1000 ms after a first pulse at
160 ms, where the floor is 10 and the count goes from 1 to 2. -/
theorem turbo_one_pulse_per_tick_witness :
    (demoAfter (latePollInputs.take 2)).getState 0 = .BtnPress ∧
    1 ≤ ((demoAfter (latePollInputs.take 2)).impl 0)._turboCount ∧
    (pressedAt 1000).turboTime ≠ 0 ∧
    ((demoAfter (latePollInputs.take 2)).impl 0)._turboCount = 1 ∧
    ((demoStep (demoAfter (latePollInputs.take 2)) (.Pressed 0 (pressedAt 1000))).impl
      0)._turboCount = 2 ∧
    ((demoStep (demoAfter (latePollInputs.take 2)) (.Pressed 0 (pressedAt 1000))).impl
      0)._turboCount ≤ ((demoAfter (latePollInputs.take 2)).impl 0)._turboCount + 1 ∧
    ((demoStep (demoAfter (latePollInputs.take 2)) (.Pressed 0 (pressedAt 1000))).impl
      0)._turboCount = ((demoAfter (latePollInputs.take 2)).impl 0)._turboCount +
      (if ⌊(GetPressDurationMS ((demoAfter (latePollInputs.take 2)).impl 0)
          (pressedAt 1000).time_now - (pressedAt 1000).holdTime) /
          (pressedAt 1000).turboTime⌋ ≥
        (((demoAfter (latePollInputs.take 2)).impl 0)._turboCount : ℤ) then 1 else 0) :=
  ⟨by decide, by decide, by decide, by decide, by with_unfolding_all decide,
    (turbo_one_pulse_per_tick demo 0 (pressedAt 1000) (demoAfter (latePollInputs.take 2))
      (demoStep (demoAfter (latePollInputs.take 2)) (.Pressed 0 (pressedAt 1000)))
      (by decide) (by decide) (by decide)
      (eq_ok_getOk _ _ (by with_unfolding_all decide))).1,
    (turbo_one_pulse_per_tick demo 0 (pressedAt 1000) (demoAfter (latePollInputs.take 2))
      (demoStep (demoAfter (latePollInputs.take 2)) (.Pressed 0 (pressedAt 1000)))
      (by decide) (by decide) (by decide)
      (eq_ok_getOk _ _ (by with_unfolding_all decide))).2.2.1⟩

/-- C29 as stated fails on the sample controller. The double-press button is pressed at 0 ms,
released at 160 ms, which puts it in `DblPressNoPressHold` with press time 0, and pressed again
at 180 ms, inside the window: `OnPress` of the double-press binding is fired, the classifier is
in `DblPressPress`, and the press time is that of the second press, not the first. -/
theorem DblPressNoPressHold_resets_press_time :
    succeeded (run demo demoInit doublePressHoldInputs) = true ∧
    (demoAfter (doublePressHoldInputs.take 2)).getState 1 = .DblPressNoPressHold ∧
    ((demoAfter (doublePressHoldInputs.take 2)).impl 1)._press_times = (pressedAt 0).time_now ∧
    GetPressDurationMS ((demoAfter (doublePressHoldInputs.take 2)).impl 1)
      (pressedAt 180).time_now ≤ demo.dbl_press_window ∧
    (demoAfter doublePressHoldInputs).getState 1 = .DblPressPress ∧
    (demoAfter doublePressHoldInputs).fired = [(1, pressBinding 68 "D", .OnPress)] ∧
    ((demoAfter doublePressHoldInputs).impl 1)._press_times = (pressedAt 180).time_now ∧
    (pressedAt 180).time_now ≠ (pressedAt 0).time_now := by
  decide

/-- C29, amended. On a `Pressed` input within the double-press window, `DblPressNoPressTap` and
`DblPressNoPressHold` both fire `OnPress` of the double-press binding, make it the active
binding, move to `DblPressPress`, and set the press time to the time of that input. -/
theorem double_press_sets_press_time (env : Env) (self : Nat) (e : Pressed) (w w' : World)
    (hst : w.getState self = .DblPressNoPressTap ∨ w.getState self = .DblPressNoPressHold)
    (hwin : GetPressDurationMS (w.impl self) e.time_now ≤ env.dbl_press_window)
    (h : sendEvent_Pressed env self e w = .ok w') :
    ∃ id m, (env.mapping self).getDblPressMap = some (id, m) ∧
      w'.fired = w.fired ++ [(self, m, .OnPress)] ∧
      (w'.impl self)._keyToRelease = some m ∧
      w'.getState self = .DblPressPress ∧
      (w'.impl self)._press_times = e.time_now := by
  have hnot : ¬ GetPressDurationMS (w.impl self) e.time_now > env.dbl_press_window :=
    not_lt.mpr hwin
  unfold sendEvent_Pressed at h
  rcases hst with hst | hst
  · rw [hst] at h
    have s := DblPressNoPressTap_react_Pressed_spec env self e w w' h
    rw [if_neg hnot] at s
    obtain ⟨m, d⟩ := s
    obtain ⟨id, hid⟩ := d.declared
    exact ⟨id, m, hid, d.fired, d.key, d.state, d.press⟩
  · rw [hst] at h
    have s := DblPressNoPressHold_react_Pressed_spec env self e w w' h
    rw [if_neg hnot] at s
    obtain ⟨m, d⟩ := s
    obtain ⟨id, hid⟩ := d.declared
    exact ⟨id, m, hid, by simpa using d.fired, d.key, d.state, d.press⟩

/-- C29 as amended, on the sample controller: the second press at 180 ms in
`DblPressNoPressHold`. -/
theorem double_press_sets_press_time_witness :
    (demoAfter (doublePressHoldInputs.take 2)).getState 1 = .DblPressNoPressHold ∧
    GetPressDurationMS ((demoAfter (doublePressHoldInputs.take 2)).impl 1)
      (pressedAt 180).time_now ≤ demo.dbl_press_window ∧
    ∃ id m, (demo.mapping 1).getDblPressMap = some (id, m) ∧
      (demoStep (demoAfter (doublePressHoldInputs.take 2)) (.Pressed 1 (pressedAt 180))).fired =
        (demoAfter (doublePressHoldInputs.take 2)).fired ++ [(1, m, .OnPress)] ∧
      ((demoStep (demoAfter (doublePressHoldInputs.take 2)) (.Pressed 1 (pressedAt 180))).impl
        1)._keyToRelease = some m ∧
      (demoStep (demoAfter (doublePressHoldInputs.take 2)) (.Pressed 1 (pressedAt 180))).getState
        1 = .DblPressPress ∧
      ((demoStep (demoAfter (doublePressHoldInputs.take 2)) (.Pressed 1 (pressedAt 180))).impl
        1)._press_times = (pressedAt 180).time_now :=
  ⟨by decide, by decide,
    double_press_sets_press_time demo 1 (pressedAt 180)
      (demoAfter (doublePressHoldInputs.take 2))
      (demoStep (demoAfter (doublePressHoldInputs.take 2)) (.Pressed 1 (pressedAt 180)))
      (Or.inr (by decide)) (by decide)
      (eq_ok_getOk _ _ (by decide))⟩

theorem FallThrough_of_startPress (env : Env) (self : Nat) (w base w' : World)
    (hi : base.impl self = w.impl self) (hf : base.fired = w.fired)
    (h : startPress env self base = .ok w') : FallThrough env self w base w' := by
  obtain ⟨c, _, p, _, _, rest⟩ := startPress_spec env self base w' h
  refine ⟨by rw [p, hi], c, ?_⟩
  split_ifs at rest ⊢ with hd
  · obtain ⟨st, fi, ky, _⟩ := rest
    exact ⟨st, by rw [fi, hf], by rw [ky, hi]⟩
  · obtain ⟨m, hres, st, fi, ky, _⟩ := rest
    exact ⟨m, by rw [← hi]; exact hres, st, by rw [fi, hf], ky⟩

/-- C30. For a classifier in `WaitSim` whose partner lookup finds no partner in `WaitSim`: a
`Pressed` input with elapsed time within the sim-press window leaves the world as the basic
press reaction left it (no event, no change of state, press time or binding); a `Pressed`
input with elapsed time above the window, and every `Released` input, goes to `DblPressStart`
when a double-press alternate exists, and otherwise fires `OnPress` on the binding that
`GetPressMapping` resolves and goes to `BtnPress`; the press time stays in every case. The
binding resolved is the chord-resolved one only when the classifier holds no active binding: a
classifier that still holds one fires `OnPress` on that binding. -/
theorem WaitSim_fallback (env : Env) (self : Nat) (w : World)
    (hst : w.getState self = .WaitSim) :
    (∀ (e : Pressed) (w' : World),
      env._getMatchingSimBtn (DigitalButtonState.react_Pressed env self w) (env.id self) = none →
      sendEvent_Pressed env self e w = .ok w' →
      (GetPressDurationMS (w.impl self) e.time_now ≤ env.sim_press_window →
        w' = DigitalButtonState.react_Pressed env self w) ∧
      (GetPressDurationMS (w.impl self) e.time_now > env.sim_press_window →
        FallThrough env self w (DigitalButtonState.react_Pressed env self w) w')) ∧
    (∀ (e : Released) (w' : World), sendEvent_Released env self e w = .ok w' →
      FallThrough env self w (DigitalButtonState.react_Released env self w) w') := by
  constructor
  · intro e w' hlook h
    unfold sendEvent_Pressed at h
    rw [hst] at h
    unfold WaitSim.react_Pressed at h
    simp only [hlook, react_Pressed_impl] at h
    constructor
    · intro hle
      rw [if_neg (not_lt.mpr hle)] at h
      exact ((pure_eq_ok _ _).mp h).symm
    · intro hgt
      rw [if_pos hgt] at h
      exact FallThrough_of_startPress env self w _ w' (react_Pressed_impl _ _ _ _)
        (react_Pressed_fired _ _ _) h
  · intro e w' h
    unfold sendEvent_Released at h
    rw [hst] at h
    unfold WaitSim.react_Released at h
    exact FallThrough_of_startPress env self w _ w' (react_Released_impl _ _ _ _)
      (react_Released_fired _ _ _) h

/-- C30 on the sample controller, where the claim fails: the slave of the sim-press pair, left
in `NoPress` with the sim-press binding `S` still active, is pressed again and waits in
`WaitSim`; its release falls back to the plain press, and `OnPress` goes to the stale binding
`S`, while the chord stack resolves to the button's own binding `E`. -/
theorem WaitSim_fallback_witness :
    Reachable demo (demoAfter (stalePressInputs.take 8)) ∧
    (demoAfter (stalePressInputs.take 8)).getState 2 = .WaitSim ∧
    ((demoAfter (stalePressInputs.take 8)).impl 2)._keyToRelease = some (pressBinding 83 "S") ∧
    findChordBinding (demo.mapping 2) (DigitalButtonState.react_Released demo 2
      (demoAfter (stalePressInputs.take 8))).common.chordStack =
      some (-1, pressBinding 69 "E") ∧
    (demoAfter stalePressInputs).fired = (demoAfter (stalePressInputs.take 8)).fired ++
      [(2, pressBinding 83 "S", .OnPress)] ∧
    FallThrough demo 2 (demoAfter (stalePressInputs.take 8))
      (DigitalButtonState.react_Released demo 2 (demoAfter (stalePressInputs.take 8)))
      (demoStep (demoAfter (stalePressInputs.take 8)) (.Released 2 (releasedAt 310))) :=
  ⟨⟨false, true, stalePressInputs.take 8, eq_ok_getOk _ _ (by with_unfolding_all decide)⟩,
    by with_unfolding_all decide, by with_unfolding_all decide, by with_unfolding_all decide,
    by with_unfolding_all decide,
    (WaitSim_fallback demo 2 (demoAfter (stalePressInputs.take 8))
      (by with_unfolding_all decide)).2 (releasedAt 310)
      (demoStep (demoAfter (stalePressInputs.take 8)) (.Released 2 (releasedAt 310)))
      (eq_ok_getOk _ _ (by with_unfolding_all decide))⟩

theorem getState_of_buttons_eq (w w' : World) (b : Nat) (h : w'.buttons b = w.buttons b) :
    w'.getState b = w.getState b := by
  simp [World.getState, h]

theorem ProcessEvent_Released_next (env : Env) (self : Nat) (evt : Released) (w w' : World)
    (next : BtnState) (h : ProcessEvent_Released env self evt w = .ok (next, w')) :
    next = .TapRelease ∨ next = .NoPress ∨ next = .InstRelease := by
  obtain ⟨m, _, _, _, _, _, ext, rest⟩ := ProcessEvent_Released_spec env self evt w w' next h
  split_ifs at rest
  · exact Or.inl rest.1
  · exact Or.inr (Or.inl rest.2.1)
  · exact Or.inr (Or.inr rest.2.1)

/-- The state of the target of a `Sync` afterwards, and the outcome it reports. -/
theorem sendEvent_Sync_target (env : Env) (target : Nat) (e e' : Sync) (w w' : World)
    (h : sendEvent_Sync env target e w = .ok (e', w')) :
    (w'.getState target = .SimRelease ∧
      (e'.nextState = some .TapRelease ∨ e'.nextState = some .NoPress ∨
        e'.nextState = some .InstRelease)) ∨
    (w.getState target = .WaitSim ∧
      (w'.getState target = .WaitSim ∨ e.nextState = some (w'.getState target))) := by
  unfold sendEvent_Sync at h
  split at h
  · next hs =>
    obtain ⟨m, next, _, hn, _, rfl⟩ := WaitSim_react_Sync_spec target e w w' e' h
    right
    refine ⟨hs, ?_⟩
    by_cases hi : next = .INVALID
    · left; subst hi; simpa [changeState, setImpl_getState] using hs
    · right; rw [hn, changeState_getState_self _ _ _ hi]
  · next hs =>
    unfold SimPress.react_Sync at h
    simp only [bind_eq_ok, pure_eq_ok, Prod.mk.injEq] at h
    obtain ⟨⟨next, w1⟩, h1, rfl, rfl⟩ := h
    left
    refine ⟨changeState_getState_self _ _ _ (by decide), ?_⟩
    rcases ProcessEvent_Released_next env target _ w w1 next h1 with rfl | rfl | rfl <;> simp
  · simp only [DigitalButtonState.react_Sync, throw_ne_ok] at h

/-- After `WaitSim::react(Pressed)` the classifier is in `SimPress`, `DblPressStart`, `BtnPress`
or `WaitSim`, and every other classifier is in the state it was in, in `SimPress` or in
`SimRelease`. -/
theorem WaitSim_react_Pressed_states (env : Env) (self : Nat) (e : Pressed) (w w' : World)
    (hst : w.getState self = .WaitSim) (h : WaitSim.react_Pressed env self e w = .ok w') :
    (w'.getState self = .SimPress ∨ w'.getState self = .DblPressStart ∨
      w'.getState self = .BtnPress ∨ w'.getState self = .WaitSim) ∧
    ∀ b, b ≠ self → w'.getState b = w.getState b ∨ w'.getState b = .SimPress ∨
      w'.getState b = .SimRelease := by
  unfold WaitSim.react_Pressed at h
  dsimp only at h
  split at h
  · next simBtn hlook =>
    split at h
    · simp only [throw_ne_ok] at h
    · next simMapping hsim =>
      rcases ite_ok_cases h with ⟨_, h⟩ | ⟨hne, h⟩
      · simp only [throw_ne_ok] at h
      · simp only [bind_eq_ok] at h
        obtain ⟨⟨e1, w1⟩, h1, h2⟩ := h
        obtain ⟨_, o1, _⟩ := sendEvent_Sync_frame env simBtn _ e1 _ w1 h1
        have t1 := sendEvent_Sync_target env simBtn _ e1 _ w1 h1
        obtain ⟨m, _, f⟩ := keyToRelease_ProcessEvent_spec env self _ w1 w' h2
        have hself : self ≠ simBtn := fun hh => hne hh.symm
        constructor
        · left
          rw [f.state, getState_of_buttons_eq _ _ _ (o1 self hself), setImpl_getState,
            setImpl_getState]
          exact changeState_getState_self _ _ _ (by decide)
        · intro b hb
          rw [getState_of_buttons_eq _ _ _ (f.others b hb)]
          by_cases hbt : b = simBtn
          · subst hbt
            rcases t1 with ⟨t, _⟩ | ⟨tw, t | t⟩
            · exact Or.inr (Or.inr t)
            · left
              have hx : w.getState b = .WaitSim := by
                simpa [setImpl_getState, changeState_getState_ne _ _ _ _ hb] using tw
              rw [t, hx]
            · right; left
              simp only [Option.some.injEq] at t
              exact t.symm
          · left
            rw [getState_of_buttons_eq _ _ _ (o1 b hbt), setImpl_getState, setImpl_getState,
              changeState_getState_ne _ _ _ _ hb, react_Pressed_getState]
  · rcases ite_ok_cases h with ⟨_, h⟩ | ⟨_, h⟩
    · obtain ⟨_, o, _, _, _, rest⟩ := startPress_spec env self _ w' h
      constructor
      · split_ifs at rest
        · exact Or.inr (Or.inl rest.1)
        · obtain ⟨m, _, st, _⟩ := rest
          exact Or.inr (Or.inr (Or.inl st))
      · intro b hb
        left
        rw [getState_of_buttons_eq _ _ _ (o b hb), react_Pressed_getState]
    · simp only [pure_eq_ok] at h; subst h
      exact ⟨Or.inr (Or.inr (Or.inr (by simpa using hst))), fun b _ => Or.inl (by simp)⟩

/-- After `SimPress::react(Released)` the classifier is in `SimRelease`, `TapRelease`, `NoPress`
or `InstRelease`, and every other classifier is in the state it was in or in `SimRelease`. -/
theorem SimPress_react_Released_states (env : Env) (self : Nat) (e : Released) (w w' : World)
    (h : SimPress.react_Released env self e w = .ok w') :
    (w'.getState self = .SimRelease ∨ w'.getState self = .TapRelease ∨
      w'.getState self = .NoPress ∨ w'.getState self = .InstRelease) ∧
    ∀ b, b ≠ self → w'.getState b = w.getState b ∨ w'.getState b = .SimPress ∨
      w'.getState b = .SimRelease := by
  unfold SimPress.react_Released at h
  dsimp only at h
  split at h
  · next master hm =>
    rcases ite_ok_cases h with ⟨_, h⟩ | ⟨hms, h⟩
    · simp only [pure_eq_ok] at h; subst h
      refine ⟨Or.inl ?_, fun b hb => Or.inl ?_⟩
      · rw [setImpl_getState]; exact changeState_getState_self _ _ _ (by decide)
      · rw [setImpl_getState, changeState_getState_ne _ _ _ _ hb]; simp
    · rcases ite_ok_cases h with ⟨_, h⟩ | ⟨hne, h⟩
      · simp only [throw_ne_ok] at h
      · simp only [bind_eq_ok] at h
        obtain ⟨⟨e1, w1⟩, h1, h2⟩ := h
        obtain ⟨_, o1, _⟩ := sendEvent_Sync_frame env master _ e1 _ w1 h1
        have t1 := sendEvent_Sync_target env master _ e1 _ w1 h1
        have hms' : (DigitalButtonState.react_Released env self w).getState master = .SimPress :=
          not_not.mp hms
        split at h2
        · next next hnext =>
          simp only [pure_eq_ok] at h2; subst h2
          rcases t1 with ⟨tm, tn⟩ | ⟨tw, _⟩
          · constructor
            · have hi : next ≠ .INVALID := by
                rcases tn with t | t | t <;> rw [hnext] at t <;>
                  simp only [Option.some.injEq] at t <;> subst t <;> decide
              rw [changeState_getState_self _ _ _ hi]
              rcases tn with t | t | t <;> rw [hnext] at t <;>
                simp only [Option.some.injEq] at t <;> subst t <;> simp
            · intro b hb
              rw [changeState_getState_ne _ _ _ _ hb]
              by_cases hbt : b = master
              · subst hbt; exact Or.inr (Or.inr tm)
              · left
                rw [getState_of_buttons_eq _ _ _ (o1 b hbt), react_Released_getState]
          · rw [hms'] at tw; cases tw
        · simp only [throw_ne_ok] at h2
  · obtain ⟨m, _, _, o, _, ext, rest⟩ := releasedTick_spec env self e w w' h
    constructor
    · split_ifs at rest
      · exact Or.inr (Or.inl rest.1)
      · exact Or.inr (Or.inr (Or.inl rest.2.1))
      · exact Or.inr (Or.inr (Or.inr rest.2.1))
    · intro b hb
      exact Or.inl (getState_of_buttons_eq _ _ _ (o b hb))

theorem others_of_Untouched {self : Nat} {base w w' : World} (hb : base.buttons = w.buttons)
    (u : Untouched self base w') :
    ∀ b, b ≠ self → w'.getState b = w.getState b ∨ w'.getState b = .SimPress ∨
      w'.getState b = .SimRelease :=
  fun b hne => Or.inl (getState_of_buttons_eq _ _ _ (by rw [u.2 b hne, hb]))

theorem SimPress_react_Pressed_state (env : Env) (self : Nat) (e : Pressed) (w w' : World)
    (h : SimPress.react_Pressed env self e w = .ok w') :
    w'.getState self = .SimRelease ∨ w'.getState self = w.getState self := by
  unfold SimPress.react_Pressed at h
  dsimp only at h
  split at h
  · rcases ite_ok_cases h with ⟨_, h⟩ | ⟨_, h⟩
    · simp only [pure_eq_ok] at h; subst h
      left
      rw [setImpl_getState]; exact changeState_getState_self _ _ _ (by decide)
    · simp only [pure_eq_ok] at h; subst h; right; simp
  · obtain ⟨_, _, st, _⟩ := pressedTick_spec env self e w w' h
    exact Or.inr st

/-- After a `Pressed` input no classifier is newly in `DblPressNoPressTap`: the classifier that
handled it is not, and every other one is in the state it was in, in `SimPress` or in
`SimRelease`. -/
theorem sendEvent_Pressed_states (env : Env) (self : Nat) (e : Pressed) (w w' : World)
    (h : sendEvent_Pressed env self e w = .ok w') :
    w'.getState self ≠ .DblPressNoPressTap ∧
    ∀ b, b ≠ self → w'.getState b = w.getState b ∨ w'.getState b = .SimPress ∨
      w'.getState b = .SimRelease := by
  unfold sendEvent_Pressed at h
  split at h
  · next hst =>
    obtain ⟨_, o, _, _, _, rest⟩ := NoPress_react_Pressed_spec env self e w w' h
    refine ⟨?_, fun b hb => Or.inl (getState_of_buttons_eq _ _ _ (o b hb))⟩
    split_ifs at rest
    · rw [rest.1]; decide
    · rw [rest.1]; decide
    · obtain ⟨m, _, st, _⟩ := rest; rw [st]; decide
  · next hst =>
    obtain ⟨_, o, st, _⟩ := pressedTick_spec env self e w w' h
    exact ⟨by rw [st, hst]; decide, fun b hb => Or.inl (getState_of_buttons_eq _ _ _ (o b hb))⟩
  · next hst =>
    obtain ⟨st, _⟩ := TapRelease_react_Pressed_self env self e w w' h
    exact ⟨by rw [st, hst]; decide,
      others_of_Untouched (by simp) (TapRelease_react_Pressed_frame env self e w w' h)⟩
  · next hst =>
    obtain ⟨s, o⟩ := WaitSim_react_Pressed_states env self e w w' hst h
    refine ⟨?_, o⟩
    rcases s with s | s | s | s <;> rw [s] <;> decide
  · next hst =>
    refine ⟨?_, others_of_Untouched (by simp) (SimPress_react_Pressed_frame env self e w w' h)⟩
    rcases SimPress_react_Pressed_state env self e w w' h with s | s
    · rw [s]; decide
    · rw [s, hst]; decide
  · next hst =>
    simp only [pure_eq_ok] at h; subst h
    exact ⟨by simp [hst], fun b _ => Or.inl (by simp)⟩
  · next hst =>
    have s := DblPressStart_react_Pressed_spec env self e w w' h
    split_ifs at s
    · obtain ⟨m, p, _⟩ := s
      exact ⟨by rw [p.state]; decide, others_of_Untouched (by simp) ⟨p.chord, p.others⟩⟩
    · subst s
      exact ⟨by simp [hst], fun b _ => Or.inl (by simp)⟩
  · next hst =>
    have s := DblPressNoPressTap_react_Pressed_spec env self e w w' h
    split_ifs at s
    · obtain ⟨m, p, _⟩ := s
      exact ⟨by rw [p.state]; decide, others_of_Untouched rfl ⟨p.chord, p.others⟩⟩
    · obtain ⟨m, p⟩ := s
      exact ⟨by rw [p.state]; decide, others_of_Untouched rfl ⟨p.chord, p.others⟩⟩
  · next hst =>
    have s := DblPressNoPressHold_react_Pressed_spec env self e w w' h
    split_ifs at s
    · obtain ⟨m, p, _⟩ := s
      exact ⟨by rw [p.state]; decide, others_of_Untouched (by simp) ⟨p.chord, p.others⟩⟩
    · obtain ⟨m, p⟩ := s
      exact ⟨by rw [p.state]; decide, others_of_Untouched (by simp) ⟨p.chord, p.others⟩⟩
  · next hst =>
    obtain ⟨_, o, st, _⟩ := pressedTick_spec env self e w w' h
    exact ⟨by rw [st, hst]; decide, fun b hb => Or.inl (getState_of_buttons_eq _ _ _ (o b hb))⟩
  · next hst =>
    refine ⟨?_, others_of_Untouched (by simp) (InstRelease_react_Pressed_frame env self e w w' h)⟩
    rcases InstRelease_react_Pressed_self env self e w w' h with ⟨st, _⟩ | rfl
    · rw [st]; decide
    · simp [hst]
  · simp only [throw_ne_ok] at h

/-- After a `Released` input a classifier is in `DblPressNoPressTap` only if it was, or if it is
the one that handled the input and it was in `DblPressStart`; every reaction but that of
`DblPressNoPressTap` leaves the chord stack as the basic release reaction left it. -/
theorem sendEvent_Released_states (env : Env) (self : Nat) (e : Released) (w w' : World)
    (h : sendEvent_Released env self e w = .ok w') :
    (w'.getState self = .DblPressNoPressTap →
      w.getState self = .DblPressNoPressTap ∨ w.getState self = .DblPressStart) ∧
    (w.getState self ≠ .DblPressNoPressTap →
      w'.common.chordStack = (DigitalButtonState.react_Released env self w).common.chordStack) ∧
    ∀ b, b ≠ self → w'.getState b = w.getState b ∨ w'.getState b = .SimPress ∨
      w'.getState b = .SimRelease := by
  have tick : ∀ (_ : w.getState self ≠ .DblPressNoPressTap)
      (h : (do
        let (next, w) ← ProcessEvent_Released env self e (DigitalButtonState.react_Released env self w)
        pure (changeState self next w) : Except Fault World) = .ok w'),
      (w'.getState self = .DblPressNoPressTap →
        w.getState self = .DblPressNoPressTap ∨ w.getState self = .DblPressStart) ∧
      (w.getState self ≠ .DblPressNoPressTap →
        w'.common.chordStack = (DigitalButtonState.react_Released env self w).common.chordStack) ∧
      ∀ b, b ≠ self → w'.getState b = w.getState b ∨ w'.getState b = .SimPress ∨
        w'.getState b = .SimRelease := by
    intro _ h
    obtain ⟨m, _, c, o, _, ext, rest⟩ := releasedTick_spec env self e w w' h
    refine ⟨fun hs => ?_, fun _ => c, fun b hb => Or.inl (getState_of_buttons_eq _ _ _ (o b hb))⟩
    split_ifs at rest
    · rw [rest.1] at hs; cases hs
    · rw [rest.2.1] at hs; cases hs
    · rw [rest.2.1] at hs; cases hs
  unfold sendEvent_Released at h
  split at h
  · next hst =>
    simp only [pure_eq_ok] at h; subst h
    exact ⟨fun hs => (by simp [hst] at hs), fun _ => rfl, fun b _ => Or.inl (by simp)⟩
  · next hst => exact tick (by rw [hst]; decide) h
  · next hst =>
    have u := TapRelease_react_Released_frame env self e w w' h
    refine ⟨fun hs => ?_, fun _ => u.1, others_of_Untouched (by simp) u⟩
    rcases TapRelease_react_Released_self env self e w w' h with ⟨st, _⟩ | st
    · rw [st] at hs; cases hs
    · rw [st, hst] at hs; cases hs
  · next hst =>
    unfold WaitSim.react_Released at h
    obtain ⟨c, o, _, _, _, rest⟩ := startPress_spec env self _ w' h
    refine ⟨fun hs => ?_, fun _ => c, others_of_Untouched (by simp) ⟨c, o⟩⟩
    split_ifs at rest
    · rw [rest.1] at hs; cases hs
    · obtain ⟨m, _, st, _⟩ := rest; rw [st] at hs; cases hs
  · next hst =>
    obtain ⟨s, o⟩ := SimPress_react_Released_states env self e w w' h
    obtain ⟨c, _⟩ := SimPress_react_Released_frame env self e w w' h
    refine ⟨fun hs => ?_, fun _ => c, o⟩
    rcases s with s | s | s | s <;> rw [s] at hs <;> cases hs
  · next hst =>
    unfold SimRelease.react_Released at h
    simp only [pure_eq_ok] at h; subst h
    have u : Untouched self (DigitalButtonState.react_Released env self w)
        (ClearKey self (changeState self .NoPress (DigitalButtonState.react_Released env self w))) :=
      Untouched_trans (Untouched_changeState _ _ _) (Untouched_ClearKey _ _)
    refine ⟨fun hs => ?_, fun _ => u.1, others_of_Untouched (by simp) u⟩
    rw [(ClearKey_facts self _).2.2.1, changeState_getState_self _ _ _ (by decide)] at hs
    cases hs
  · next hst =>
    have s := DblPressStart_react_Released_spec env self e w w' h
    split_ifs at s
    · obtain ⟨m, p, _⟩ := s
      exact ⟨fun _ => Or.inr hst, fun _ => p.chord, others_of_Untouched (by simp) ⟨p.chord, p.others⟩⟩
    · subst s
      exact ⟨fun _ => Or.inr hst, fun _ => by simp,
        others_of_Untouched (by simp) (Untouched_changeState _ _ _)⟩
    · subst s
      exact ⟨fun _ => Or.inr hst, fun _ => by simp,
        others_of_Untouched (by simp) (Untouched_changeState _ _ _)⟩
  · next hst =>
    have s := DblPressNoPressTap_react_Released_spec env self e w w' h
    refine ⟨fun _ => Or.inl hst, fun hne => absurd hst hne, ?_⟩
    split_ifs at s
    · obtain ⟨m, p, _⟩ := s
      exact others_of_Untouched rfl ⟨p.chord, p.others⟩
    · subst s; exact fun b _ => Or.inl rfl
  · next hst =>
    have s := DblPressNoPressHold_react_Released_spec env self e w w' h
    split_ifs at s
    · obtain ⟨m, p, _⟩ := s
      exact ⟨fun hs => (by rw [p.state] at hs; cases hs), fun _ => p.chord,
        others_of_Untouched (by simp) ⟨p.chord, p.others⟩⟩
    · subst s
      exact ⟨fun hs => (by simp [hst] at hs), fun _ => rfl, fun b _ => Or.inl (by simp)⟩
  · next hst => exact tick (by rw [hst]; decide) h
  · next hst =>
    simp only [pure_eq_ok] at h; subst h
    exact ⟨fun hs => (by simp [hst] at hs), fun _ => rfl, fun b _ => Or.inl (by simp)⟩
  · simp only [throw_ne_ok] at h

theorem react_Pressed_chord_nodup (env : Env) (self : Nat) (w : World)
    (h : w.common.chordStack.Nodup) :
    (DigitalButtonState.react_Pressed env self w).common.chordStack.Nodup := by
  rw [react_Pressed_chord]
  split_ifs with hc
  · exact List.nodup_cons.mpr ⟨hc.2, h⟩
  · exact h

theorem react_Released_chord_nodup (env : Env) (self : Nat) (w : World)
    (h : w.common.chordStack.Nodup) :
    (DigitalButtonState.react_Released env self w).common.chordStack.Nodup := by
  rw [react_Released_chord]
  split_ifs
  · exact h.erase _
  · exact h

theorem react_Pressed_chord_mem (env : Env) (self : Nat) (w : World) (x : ButtonID)
    (h : x ∈ (DigitalButtonState.react_Pressed env self w).common.chordStack) :
    x = env.id self ∨ x ∈ w.common.chordStack := by
  rw [react_Pressed_chord] at h
  split_ifs at h
  · exact List.mem_cons.mp h
  · exact Or.inr h

theorem react_Released_chord_mem (env : Env) (self : Nat) (w : World) (x : ButtonID)
    (h : x ∈ (DigitalButtonState.react_Released env self w).common.chordStack) :
    x ∈ w.common.chordStack := by
  rw [react_Released_chord] at h
  split_ifs at h
  · exact List.mem_of_mem_erase h
  · exact h

/-- One input keeps the chord stack tidy, when no two classifiers share an id. -/
theorem step_ChordTidy (env : Env) (hids : Function.Injective env.id) (w w' : World)
    (i : Input) (h : step env w i = .ok w') (ht : ChordTidy env w) : ChordTidy env w' := by
  obtain ⟨hn, hj⟩ := ht
  cases i with
  | Pressed self e =>
    obtain ⟨c, _⟩ := sendEvent_Pressed_frame env self e w w' h
    obtain ⟨s, o⟩ := sendEvent_Pressed_states env self e w w' h
    have hmem : ∀ x, x ∈ w'.common.chordStack → x = env.id self ∨ x ∈ w.common.chordStack := by
      intro x hx
      rcases c with c | c
      · rw [c] at hx; exact react_Pressed_chord_mem env self w x hx
      · rw [c] at hx; exact Or.inr hx
    constructor
    · rcases c with c | c
      · rw [c]; exact react_Pressed_chord_nodup env self w hn
      · rw [c]; exact hn
    · intro b hc hb hin
      have hne : b ≠ self := fun hh => s (hh ▸ hb)
      have hwb : w.getState b = .DblPressNoPressTap := by
        rcases o b hne with t | t | t
        · rw [← t]; exact hb
        · rw [t] at hb; cases hb
        · rw [t] at hb; cases hb
      rcases hmem _ hin with hx | hx
      · exact hne (hids hx)
      · exact hj b hc hwb hx
  | Released self e =>
    obtain ⟨c, _⟩ := sendEvent_Released_frame env self e w w' h
    obtain ⟨s, cb, o⟩ := sendEvent_Released_states env self e w w' h
    have hmem : ∀ x, x ∈ w'.common.chordStack → x ∈ w.common.chordStack := by
      intro x hx
      rcases c with c | c
      · rw [c] at hx; exact react_Released_chord_mem env self w x hx
      · rw [c] at hx; exact hx
    constructor
    · rcases c with c | c
      · rw [c]; exact react_Released_chord_nodup env self w hn
      · rw [c]; exact hn
    · intro b hc hb hin
      by_cases hne : b = self
      · subst hne
        rcases s hb with t | t
        · exact hj b hc t (hmem _ hin)
        · rw [cb (by rw [t]; decide), react_Released_chord, if_pos hc] at hin
          exact ((List.Nodup.mem_erase_iff hn).mp hin).1 rfl
      · have hwb : w.getState b = .DblPressNoPressTap := by
          rcases o b hne with t | t | t
          · rw [← t]; exact hb
          · rw [t] at hb; cases hb
          · rw [t] at hb; cases hb
        exact hj b hc hwb (hmem _ hin)

theorem run_ChordTidy (env : Env) (hids : Function.Injective env.id) (inputs : List Input) :
    ∀ (w w' : World), run env w inputs = .ok w' → ChordTidy env w → ChordTidy env w' := by
  induction inputs with
  | nil => intro w w' h ht; simp only [run, pure_eq_ok] at h; subst h; exact ht
  | cons i rest ih =>
    intro w w' h ht
    simp only [run, bind_eq_ok] at h
    obtain ⟨w1, h1, h2⟩ := h
    exact ih w1 w' h2 (step_ChordTidy env hids w w1 i h1 ht)

/-- Every configuration a controller with distinct ids can be in has a tidy chord stack. -/
theorem Reachable_ChordTidy (env : Env) (hids : Function.Injective env.id) (w : World)
    (hr : Reachable env w) : ChordTidy env w := by
  obtain ⟨vigem, mainMotion, inputs, h⟩ := hr
  refine run_ChordTidy env hids inputs _ w h ⟨?_, ?_⟩
  · simp [World.init, Common.Common]
  · intro b _ hb
    simp [World.init, World.getState, DigitalButton.new] at hb

/-- A `Released` input to a classifier that is not chordable, or whose id is not on the chord
stack, leaves the chord stack as it is. -/
theorem Released_absent (env : Env) (self : Nat) (e : Released) (w w' : World)
    (habs : env.chordable self = false ∨ env.id self ∉ w.common.chordStack)
    (h : sendEvent_Released env self e w = .ok w') :
    w'.common.chordStack = w.common.chordStack := by
  obtain ⟨c, _⟩ := sendEvent_Released_frame env self e w w' h
  rcases c with c | c
  · rw [c, react_Released_chord]
    rcases habs with hc | hin
    · simp [hc]
    · split_ifs
      · exact List.erase_of_not_mem hin
      · rfl
  · exact c

/-- The ids of the sample controller are the handles. -/
theorem demo_id (h : Nat) : demo.id h = (h : Int) := by
  unfold Env.id demo demoMapping
  dsimp only
  split <;> rfl

theorem demo_id_injective : Function.Injective demo.id := by
  intro a b h
  rw [demo_id, demo_id] at h
  exact Int.ofNat_inj.mp h

theorem parseTarget_text (P : MappingEnv) (count : Nat) (results : smatch) (m m' : Mapping)
    (t : Target) (text : String) (h : parseTarget P count results m = .ok (t, m', text)) :
    t.count = count ∧ (t.added = true →
      text = describeTarget P t.count t.results.leftovers t.key t.evtMod t.actMod) := by
  unfold parseTarget at h
  simp only at h
  rcases ite_ok_cases h with ⟨hrej, h⟩ | ⟨hrej, h⟩
  · simp only [pure_eq_ok, Prod.mk.injEq] at h
    obtain ⟨rfl, _, _⟩ := h
    exact ⟨rfl, fun h => by simp at h⟩
  · simp only [bind_eq_ok] at h
    obtain ⟨⟨ok, m2⟩, hadd, h⟩ := h
    simp only at h
    rcases ite_ok_cases h with ⟨hok, h⟩ | ⟨hok, h⟩
    · simp only [pure_eq_ok, Prod.mk.injEq] at h
      obtain ⟨rfl, _, rfl⟩ := h
      exact ⟨rfl, fun _ => rfl⟩
    · simp only [pure_eq_ok, Prod.mk.injEq] at h
      obtain ⟨rfl, _, _⟩ := h
      exact ⟨rfl, fun h => by simp at h⟩

/-- The description a run of the loop of `operator>>` leaves. -/
theorem parseLoop_description (P : MappingEnv) : ∀ (fuel count : Nat) (s : List Char)
    (m : Mapping) (ss : String) (ts : List Target) (r : Parsed),
    parseLoop P fuel count s m ss ts = some (.ok r) →
    ∃ new, r.targets = ts ++ new ∧ r.mapping._description = describeTargets P ss new
  | 0, _, _, _, _, _, _, h => by simp [parseLoop] at h
  | fuel + 1, count, s, m, ss, ts, r, h => by
    unfold parseLoop at h
    cases hr : regex_match s with
    | none =>
      rw [hr] at h
      simp only [Option.some.injEq, Except.ok.injEq] at h
      subst h
      exact ⟨[], by simp, rfl⟩
    | some results =>
      rw [hr] at h
      simp only at h
      by_cases hs : s = []
      · simp only [hs, if_true, Option.some.injEq, Except.ok.injEq] at h
        subst h
        exact ⟨[], by simp, rfl⟩
      · simp only [hs, if_false] at h
        cases hp : parseTarget P count results m with
        | error f => rw [hp] at h; simp at h
        | ok v =>
          obtain ⟨t, m1, text⟩ := v
          rw [hp] at h
          simp only at h
          obtain ⟨hc, htext⟩ := parseTarget_text P count results m m1 t text hp
          by_cases ha : t.added = true
          · simp only [ha, if_true] at h
            obtain ⟨new, hnew, hd⟩ := parseLoop_description P fuel _ _ _ _ _ r h
            refine ⟨t :: new, by simp [hnew], ?_⟩
            rw [hd, htext ha]
            simp [describeTargets, ha, hc]
          · have hf : t.added = false := by simpa using ha
            simp only [hf, Bool.false_eq_true, if_false, Option.some.injEq, Except.ok.injEq] at h
            subst h
            refine ⟨[t], rfl, ?_⟩
            simp [describeTargets, hf, hc]

/-- No target matches a text that starts with `on` and a blank. -/
theorem regex_match_on (rest : List Char) : regex_match ('o' :: 'n' :: ' ' :: rest) = none := by
  have h1 : ('o' :: 'n' :: ' ' :: rest).takeWhile isspace = [] := by
    simp [List.takeWhile, isspace]
  have h2 : ('o' :: 'n' :: ' ' :: rest).takeWhile regexWord = ['o', 'n'] := by
    have ho : regexWord 'o' = true := by decide
    have hn : regexWord 'n' = true := by decide
    have hb : regexWord ' ' = false := by decide
    simp [List.takeWhile, ho, hn, hb]
  have h3 : regexActMod 'o' = false := by decide
  have h4 : regexWord 'o' = true := by decide
  have h5 : regexKeyEnd 'o' = false := by decide
  have h6 : regexKeyEnd 'n' = false := by decide
  have h7 : ¬ 'o' = Char.ofNat 34 := by decide
  unfold regex_match regexCandidates
  rw [h1]
  simp [optionalChar, h3, keyOptions, quotedOptions, h7, wordOptions, h2, symbolOptions, h4,
    List.range_succ, h5, h6]

/-- C22 as stated fails on the sample parser. The text `A B` parses without failure into `A` on
tap and `B` on hold; its description is `A on TapPress and B on HoldPress`. Parsing that
description does not fail either, but it stops at the word `on`: it binds `A` on tap only, and
the event table lacks the two entries of `B`. -/
theorem description_reparse_loses_targets :
    parseFailed (demoExtract "A B") = false ∧
    parsedTargets (demoExtract "A B") =
      [(⟨65, "A"⟩, .TapPress, .None, true), (⟨66, "B"⟩, .HoldPress, .None, true)] ∧
    parsedTable (demoExtract "A B") =
      [(.OnTapRelease, .ApplyBtnRelease ⟨65, "A"⟩), (.OnTap, .ApplyBtnPress ⟨65, "A"⟩),
       (.OnHoldRelease, .ApplyBtnRelease ⟨66, "B"⟩), (.OnHold, .ApplyBtnPress ⟨66, "B"⟩)] ∧
    parsedDescription (demoExtract "A B") = "A on TapPress and B on HoldPress" ∧
    parseFailed (demoExtract (parsedDescription (demoExtract "A B"))) = false ∧
    parsedTargets (demoExtract (parsedDescription (demoExtract "A B"))) =
      [(⟨65, "A"⟩, .TapPress, .None, true)] ∧
    parsedTable (demoExtract (parsedDescription (demoExtract "A B"))) =
      [(.OnTapRelease, .ApplyBtnRelease ⟨65, "A"⟩), (.OnTap, .ApplyBtnPress ⟨65, "A"⟩)] := by
  decide

/-- C22, amended. The parse of every text ends, and in a parse that ends without an exception
the description is what `describeTargets` builds from the targets the loop went through:
before every target after the first the separator ` and `, and for each target added the
action modifier's name and a blank (when there is one), the key's name, and ` on ` with the
event modifier's name (left out only for a first target with no text after it that is bound as
StartPress). The parser has no syntax for these words: whenever the text left to parse starts
with `on` and a blank, no target matches, and the loop ends there without setting the failure
flag and without adding a target. -/
theorem description_of_targets (P : MappingEnv) (content : List Char) (m : Mapping) :
    (∃ out, operator_extract P content m = some out ∧ ∀ r, out = .ok r →
      r.mapping._description = describeTargets P "" r.targets) ∧
    (∀ (fuel count : Nat) (rest : List Char) (m' : Mapping) (ss : String)
        (targets : List Target),
      parseLoop P (fuel + 1) count ('o' :: 'n' :: ' ' :: rest) m' ss targets =
        some (.ok (Parsed.mk false { m' with _description := ss } targets))) := by
  constructor
  · apply operator_extract_cases
    intro r h
    unfold operator_extract at h
    split at h
    · next parsed hp =>
      simp only [Option.some.injEq, Except.ok.injEq] at h
      subst h
      obtain ⟨new, hnew, hd⟩ := parseLoop_description P _ _ _ _ _ _ parsed hp
      simp only [List.nil_append] at hnew
      simp only [hd, hnew]
    · next hne =>
      exact absurd h (fun hh => hne r hh)
  · intro fuel count rest m' ss targets
    unfold parseLoop
    rw [regex_match_on]

/-- C22 as amended, on the sample parser: the description of `A B`; the description `A` of the
single key `A`, which parses to the same binding again; and the description `A on TapPress` of
the single tap target, whose parse ends at the word `on` and binds `A` on tap again. -/
theorem description_of_targets_witness :
    (parsedDescription (demoExtract "A B") = "A on TapPress and B on HoldPress" ∧
    parsedDescription (demoExtract "A") = "A" ∧
    parsedTable (demoExtract (parsedDescription (demoExtract "A"))) =
      parsedTable (demoExtract "A") ∧
    parsedDescription (demoExtract (String.mk ['A', Char.ofNat 39])) = "A on TapPress" ∧
    parsedTable (demoExtract (String.mk ['A', Char.ofNat 39])) =
      [(.OnTapRelease, .ApplyBtnRelease ⟨65, "A"⟩), (.OnTap, .ApplyBtnPress ⟨65, "A"⟩)] ∧
    parsedTable (demoExtract "A on TapPress") =
      [(.OnTapRelease, .ApplyBtnRelease ⟨65, "A"⟩), (.OnTap, .ApplyBtnPress ⟨65, "A"⟩)] ∧
    parseFailed (demoExtract "A on TapPress") = false) ∧
    (∃ out, operator_extract demoParse "A B".data emptyMapping = some out ∧ ∀ r, out = .ok r →
      r.mapping._description = describeTargets demoParse "" r.targets) ∧
    (∀ (fuel count : Nat) (rest : List Char) (m' : Mapping) (ss : String)
        (targets : List Target),
      parseLoop demoParse (fuel + 1) count ('o' :: 'n' :: ' ' :: rest) m' ss targets =
        some (.ok (Parsed.mk false { m' with _description := ss } targets))) :=
  ⟨by decide, description_of_targets demoParse "A B".data emptyMapping⟩

theorem zones_agree (position strength : Nat) (hp : position ≤ 9) (h1 : 1 ≤ strength)
    (h8 : strength ≤ 8) :
    zonesFrom position (((strength - 1) &&& 0x07) % 256) = zonesOf (zoneStrengths position strength) := by
  interval_cases position <;> interval_cases strength <;> decide

theorem zoneStrengths_length (position strength : Nat) :
    (zoneStrengths position strength).length = 10 := by
  simp [zoneStrengths]

theorem zoneStrengths_le (position strength : Nat) (h8 : strength ≤ 8) :
    ∀ x ∈ zoneStrengths position strength, x ≤ 8 := by
  intro x hx
  simp only [zoneStrengths, List.mem_map, List.mem_range] at hx
  obtain ⟨z, _, rfl⟩ := hx
  split <;> omega

/-- C39. For every position in 0..9 and strength in 1..8, on every memory and at every index,
`Feedback(position, strength)` and `MultiplePositionFeedback` called with the vector of 10
entries holding 0 below `position` and `strength` from `position` on return the same value,
true, and leave the same memory: the same 11 bytes at `index .. index + 10`, every other byte
untouched. -/
theorem Feedback_refines_MultiplePositionFeedback (a : Int → Nat) (i : Int)
    (position strength : Nat) (hp : position ≤ 9) (h1 : 1 ≤ strength) (h8 : strength ≤ 8) :
    TriggerEffectGenerator.Feedback a i position strength =
      TriggerEffectGenerator.MultiplePositionFeedback a i (zoneStrengths position strength) ∧
    (TriggerEffectGenerator.Feedback a i position strength).1 = true ∧
    readBytes (TriggerEffectGenerator.Feedback a i position strength).2 i 11 =
      readBytes (TriggerEffectGenerator.MultiplePositionFeedback a i
        (zoneStrengths position strength)).2 i 11 ∧
    ∀ j, j < i ∨ i + 10 < j →
      (TriggerEffectGenerator.MultiplePositionFeedback a i (zoneStrengths position strength)).2 j
        = a j := by
  have key : TriggerEffectGenerator.Feedback a i position strength =
      TriggerEffectGenerator.MultiplePositionFeedback a i (zoneStrengths position strength) := by
    unfold TriggerEffectGenerator.Feedback TriggerEffectGenerator.MultiplePositionFeedback
    rw [if_neg (by omega), if_neg (by omega), if_pos (by omega),
      if_neg (by simp [zoneStrengths_length]),
      if_pos ((find?_above_none _).mpr (zoneStrengths_le position strength h8))]
    simp only [zones_agree position strength hp h1 h8]
  refine ⟨key, ?_, by rw [key], ?_⟩
  · unfold TriggerEffectGenerator.Feedback
    rw [if_neg (by omega), if_neg (by omega), if_pos (by omega)]
  · intro j hj
    rw [← key]
    unfold TriggerEffectGenerator.Feedback
    rw [if_neg (by omega), if_neg (by omega), if_pos (by omega)]
    simp only [stores_eq]
    exact writeBytes_outside _ _ _ _ (by simp; omega)

/-- C39 on the sample memory: position 3 with strength 5 and the vector
`[0, 0, 0, 5, 5, 5, 5, 5, 5, 5]` store the same 11 bytes. -/
theorem Feedback_refines_MultiplePositionFeedback_witness :
    zoneStrengths 3 5 = [0, 0, 0, 5, 5, 5, 5, 5, 5, 5] ∧
    readBytes (TriggerEffectGenerator.MultiplePositionFeedback sampleMemory 0
      [0, 0, 0, 5, 5, 5, 5, 5, 5, 5]).2 0 11 =
        [0x21, 0xF8, 0x03, 0x00, 0x48, 0x92, 0x24, 0, 0, 0, 0] ∧
    TriggerEffectGenerator.Feedback sampleMemory 0 3 5 =
      TriggerEffectGenerator.MultiplePositionFeedback sampleMemory 0 (zoneStrengths 3 5) :=
  ⟨by decide, by decide,
    (Feedback_refines_MultiplePositionFeedback sampleMemory 0 3 5 (by decide) (by decide)
      (by decide)).1⟩

/-- C40. For hat codes with pairwise different case labels, every one of the nine valid hat
values and every one of the four directions `d`: `set(d)` and `clear(d)` return a valid hat
value; the value `clear(d)` returns has no component in direction `d`; and when the value has
no component on the axis of `d`, `set(d)` followed by `clear(d)` returns the value it started
from. -/
theorem PSHat_set_clear (c : HatCodes) (hc : c.labelsDistinct) (value direction : Nat)
    (hv : value ∈ c.hatValues) (hd : direction ∈ c.directions) :
    PSHat.set c value direction ∈ c.hatValues ∧
    PSHat.clear c value direction ∈ c.hatValues ∧
    PSHat.clear c value direction ∉ c.towards direction ∧
    (c.offAxis value direction →
      PSHat.clear c (PSHat.set c value direction) direction = value) := by
  obtain ⟨hvals, hdirs⟩ := hc
  simp only [HatCodes.hatValues, HatCodes.directions, List.nodup_cons, List.mem_cons,
    List.mem_singleton, List.not_mem_nil, not_or, List.nodup_nil, and_true, not_false_eq_true,
    or_false] at hvals hdirs hv hd
  obtain ⟨⟨a1, a2, a3, a4, a5, a6, a7, a8⟩, ⟨b2, b3, b4, b5, b6, b7, b8⟩, ⟨c3, c4, c5, c6, c7, c8⟩,
    ⟨d4, d5, d6, d7, d8⟩, ⟨e5, e6, e7, e8⟩, ⟨f6, f7, f8⟩, ⟨g7, g8⟩, h8⟩ := hvals
  obtain ⟨⟨u1, u2, u3⟩, ⟨v2, v3⟩, x3⟩ := hdirs
  rcases hv with rfl | rfl | rfl | rfl | rfl | rfl | rfl | rfl | rfl <;>
    rcases hd with rfl | rfl | rfl | rfl <;>
    simp [PSHat.set, PSHat.clear, HatCodes.towards, HatCodes.opposite, HatCodes.offAxis,
      HatCodes.hatValues, *, Ne.symm a1, Ne.symm a2, Ne.symm a3, Ne.symm a4, Ne.symm a5,
      Ne.symm a6, Ne.symm a7, Ne.symm a8, Ne.symm b2, Ne.symm b3, Ne.symm b4, Ne.symm b5,
      Ne.symm b6, Ne.symm b7, Ne.symm b8, Ne.symm c3, Ne.symm c4, Ne.symm c5, Ne.symm c6,
      Ne.symm c7, Ne.symm c8, Ne.symm d4, Ne.symm d5, Ne.symm d6, Ne.symm d7, Ne.symm d8,
      Ne.symm e5, Ne.symm e6, Ne.symm e7, Ne.symm e8, Ne.symm f6, Ne.symm f7, Ne.symm f8,
      Ne.symm g7, Ne.symm g8, Ne.symm h8, Ne.symm u1, Ne.symm u2, Ne.symm u3, Ne.symm v2,
      Ne.symm v3, Ne.symm x3]

/-- C40 on the sample codes: from west, `set(up)` gives north-west and `clear(up)` gives west
again. -/
theorem PSHat_set_clear_witness :
    sampleHatCodes.labelsDistinct ∧ 0x6 ∈ sampleHatCodes.hatValues ∧
    0xE8 ∈ sampleHatCodes.directions ∧ sampleHatCodes.offAxis 0x6 0xE8 ∧
    PSHat.set sampleHatCodes 0x6 0xE8 = 0x7 ∧ PSHat.clear sampleHatCodes 0x7 0xE8 = 0x6 ∧
    (PSHat.set sampleHatCodes 0x6 0xE8 ∈ sampleHatCodes.hatValues ∧
      PSHat.clear sampleHatCodes 0x6 0xE8 ∈ sampleHatCodes.hatValues ∧
      PSHat.clear sampleHatCodes 0x6 0xE8 ∉ sampleHatCodes.towards 0xE8 ∧
      (sampleHatCodes.offAxis 0x6 0xE8 →
        PSHat.clear sampleHatCodes (PSHat.set sampleHatCodes 0x6 0xE8) 0xE8 = 0x6)) :=
  ⟨by unfold HatCodes.labelsDistinct; decide, by decide, by decide,
    by unfold HatCodes.offAxis; decide, by decide, by decide,
    PSHat_set_clear sampleHatCodes (by unfold HatCodes.labelsDistinct; decide) 0x6 0xE8
      (by decide) (by decide)⟩

/-- One input keeps the chord stack free of duplicates. -/
theorem step_chord_nodup (env : Env) (w w' : World) (i : Input) (h : step env w i = .ok w')
    (hn : w.common.chordStack.Nodup) : w'.common.chordStack.Nodup := by
  cases i with
  | Pressed self e =>
    obtain ⟨c, _⟩ := sendEvent_Pressed_frame env self e w w' h
    rcases c with c | c
    · rw [c]; exact react_Pressed_chord_nodup env self w hn
    · rw [c]; exact hn
  | Released self e =>
    obtain ⟨c, _⟩ := sendEvent_Released_frame env self e w w' h
    rcases c with c | c
    · rw [c]; exact react_Released_chord_nodup env self w hn
    · rw [c]; exact hn

theorem run_chord_nodup (env : Env) (inputs : List Input) :
    ∀ (w w' : World), run env w inputs = .ok w' → w.common.chordStack.Nodup →
      w'.common.chordStack.Nodup := by
  induction inputs with
  | nil => intro w w' h hn; simp only [run, pure_eq_ok] at h; subst h; exact hn
  | cons i rest ih =>
    intro w w' h hn
    simp only [run, bind_eq_ok] at h
    obtain ⟨w1, h1, h2⟩ := h
    exact ih w1 w' h2 (step_chord_nodup env w w1 i h1 hn)

/-- C37. Starting from the shared state built by the constructor of `Common` (chord stack
`[NONE]`), after every finite sequence of `Pressed` and `Released` inputs delivered to any
classifiers, the chord stack holds no `ButtonID` twice; this holds whatever ids the classifiers
have, also when two of them share one. -/
theorem chordStack_nodup (env : Env) (vigem mainMotion : Bool) (inputs : List Input)
    (w' : World) (h : run env (World.init env vigem mainMotion) inputs = .ok w') :
    (World.init env vigem mainMotion).common.chordStack = [env.NONE] ∧
    w'.common.chordStack.Nodup :=
  ⟨rfl, run_chord_nodup env inputs _ w' h (by simp [World.init, Common.Common])⟩

/-- C37 on the sample controller: after the rendezvous of the sim-press scenario the chord
stack holds the ids 3 and 2 above `NONE`, each once. -/
theorem chordStack_nodup_witness :
    run demo (World.init demo false true) (simPressInputs.take 4) =
      .ok (demoAfter (simPressInputs.take 4)) ∧
    (demoAfter (simPressInputs.take 4)).common.chordStack = [3, 2, demo.NONE] ∧
    (demoAfter (simPressInputs.take 4)).common.chordStack.Nodup :=
  ⟨eq_ok_getOk _ _ (by decide), by decide,
    (chordStack_nodup demo false true (simPressInputs.take 4) (demoAfter (simPressInputs.take 4))
      (eq_ok_getOk _ _ (by decide))).2⟩

/-- C36. What the reactions of a sim-press slave (a classifier in `SimPress` holding a master
reference) do to that reference. When the master is no longer in `SimPress`, a `Pressed` or a
`Released` input moves the slave to `SimRelease` and drops the reference. When the master is
still in `SimPress`, a `Released` input makes the slave adopt the outcome state the master's
`Sync` reaction returns, which is `TapRelease`, `NoPress` or `InstRelease`, and the reference
is not dropped: the slave has left `SimPress` and still holds its master reference. -/
theorem slave_release_keeps_master (env : Env) (w w' : World) (self master : Nat)
    (hst : w.getState self = .SimPress) (hm : (w.impl self)._simPressMaster = some master) :
    (∀ e : Released, w.getState master = .SimPress → master ≠ self →
      sendEvent_Released env self e w = .ok w' →
      (w'.getState self = .TapRelease ∨ w'.getState self = .NoPress ∨
        w'.getState self = .InstRelease) ∧
      (w'.impl self)._simPressMaster = some master) ∧
    (∀ e : Released, w.getState master ≠ .SimPress →
      sendEvent_Released env self e w = .ok w' →
      w'.getState self = .SimRelease ∧ (w'.impl self)._simPressMaster = none) ∧
    (∀ e : Pressed, w.getState master ≠ .SimPress →
      sendEvent_Pressed env self e w = .ok w' →
      w'.getState self = .SimRelease ∧ (w'.impl self)._simPressMaster = none) := by
  refine ⟨?_, ?_, ?_⟩
  · intro e hmst hne h
    unfold sendEvent_Released at h
    rw [hst] at h
    unfold SimPress.react_Released at h
    simp only [react_Released_impl, hm, react_Released_getState, hmst, ne_eq, not_true_eq_false,
      if_false, if_neg hne, bind_eq_ok] at h
    obtain ⟨⟨e1, w1⟩, h1, h2⟩ := h
    unfold sendEvent_Sync at h1
    simp only [react_Released_getState, hmst] at h1
    unfold SimPress.react_Sync at h1
    simp only [bind_eq_ok, pure_eq_ok, Prod.mk.injEq, Option.getD_some] at h1
    obtain ⟨⟨next, w0⟩, h0, rfl, rfl⟩ := h1
    simp only [pure_eq_ok] at h2
    subst h2
    obtain ⟨mm, _, _, o, _, _, _⟩ := ProcessEvent_Released_spec env master _ _ w0 next h0
    have hnext := ProcessEvent_Released_next env master _ _ w0 next h0
    constructor
    · rcases hnext with t | t | t <;> subst t
      · exact Or.inl (changeState_getState_self _ _ _ (by decide))
      · exact Or.inr (Or.inl (changeState_getState_self _ _ _ (by decide)))
      · exact Or.inr (Or.inr (changeState_getState_self _ _ _ (by decide)))
    · rw [changeState_impl, changeState_impl]
      have := o self (Ne.symm hne)
      rw [World.impl, this]
      simpa [World.impl] using hm
  · intro e hmst h
    unfold sendEvent_Released at h
    rw [hst] at h
    unfold SimPress.react_Released at h
    simp only [react_Released_impl, hm, react_Released_getState, hmst, ne_eq, not_false_eq_true,
      if_true, pure_eq_ok] at h
    subst h
    constructor
    · rw [setImpl_getState]; exact changeState_getState_self _ _ _ (by decide)
    · simp [World.setImpl, World.impl]
  · intro e hmst h
    unfold sendEvent_Pressed at h
    rw [hst] at h
    unfold SimPress.react_Pressed at h
    simp only [react_Pressed_impl, hm, react_Pressed_getState, hmst, ne_eq, not_false_eq_true,
      if_true, pure_eq_ok] at h
    subst h
    constructor
    · rw [setImpl_getState]; exact changeState_getState_self _ _ _ (by decide)
    · simp [World.setImpl, World.impl]

/-- C36 on the sample controller. In the sim-press scenario the slave (button 2) is released
while the master (button 3) is held: the slave adopts `NoPress` and still holds the reference
to button 3. -/
theorem slave_release_keeps_master_witness :
    Reachable demo (demoAfter simPressInputs) ∧
    demoSimHeld.getState 2 = .SimPress ∧ (demoSimHeld.impl 2)._simPressMaster = some 3 ∧
    demoSimHeld.getState 3 = .SimPress ∧
    (demoAfter simPressInputs).getState 2 = .NoPress ∧
    ((demoAfter simPressInputs).impl 2)._simPressMaster = some 3 ∧
    (((demoStep demoSimHeld (.Released 2 (releasedAt 210))).getState 2 = .TapRelease ∨
      (demoStep demoSimHeld (.Released 2 (releasedAt 210))).getState 2 = .NoPress ∨
      (demoStep demoSimHeld (.Released 2 (releasedAt 210))).getState 2 = .InstRelease) ∧
     ((demoStep demoSimHeld (.Released 2 (releasedAt 210))).impl 2)._simPressMaster = some 3) :=
  ⟨⟨false, true, simPressInputs, eq_ok_getOk _ _ (by decide)⟩, by decide, by decide, by decide,
    by decide, by decide,
    (slave_release_keeps_master demo demoSimHeld
      (demoStep demoSimHeld (.Released 2 (releasedAt 210))) 2 3 (by decide) (by decide)).1
      (releasedAt 210) (by decide) (by decide)
      (eq_ok_getOk (step demo demoSimHeld (.Released 2 (releasedAt 210))) demoSimHeld
        (by decide))⟩

theorem TogglesShrink_refl (w : World) : TogglesShrink w w := List.Sublist.refl _

theorem TogglesShrink_trans {w1 w2 w3 : World} (h12 : TogglesShrink w1 w2)
    (h23 : TogglesShrink w2 w3) : TogglesShrink w1 w3 := List.Sublist.trans h23 h12

theorem TogglesShrink_of_eq {w w' : World}
    (h : w'.common.activeTogglesQueue = w.common.activeTogglesQueue) : TogglesShrink w w' := by
  unfold TogglesShrink; rw [h]

theorem TogglesShrink_ClearAllActiveToggle (key : KeyCode) (w : World) :
    TogglesShrink w (ClearAllActiveToggle key w) := by
  unfold TogglesShrink ClearAllActiveToggle
  exact List.filter_sublist _

theorem TogglesShrink_ApplyBtnRelease (env : Env) (key : KeyCode) (w : World) :
    TogglesShrink w (ApplyBtnRelease env key w) := by
  unfold ApplyBtnRelease
  split_ifs
  · exact TogglesShrink_of_eq rfl
  · exact TogglesShrink_refl _
  · exact TogglesShrink_trans (@TogglesShrink_of_eq w (w.emit _) rfl)
      (TogglesShrink_ClearAllActiveToggle _ _)
  · exact TogglesShrink_refl _

theorem TogglesShrink_ApplyBtnPress (env : Env) (key : KeyCode) (w : World) :
    TogglesShrink w (ApplyBtnPress env key w) := by
  unfold ApplyBtnPress
  split_ifs
  · exact TogglesShrink_of_eq rfl
  · exact TogglesShrink_refl _
  · exact TogglesShrink_of_eq rfl
  · exact TogglesShrink_refl _

theorem TogglesShrink_RemoveGyroAction (env : Env) (self : Nat) (w : World) :
    TogglesShrink w (RemoveGyroAction env self w) := by
  unfold RemoveGyroAction
  dsimp only
  split
  · exact TogglesShrink_trans (TogglesShrink_ClearAllActiveToggle _ _) (TogglesShrink_of_eq rfl)
  · exact TogglesShrink_refl _

theorem ite_emit_toggles (c : Prop) [Decidable c] (w w' : World) (e : Effect)
    (h : (if c then pure (w.emit e) else throw Fault.nullDeref : Except Fault World) = .ok w') :
    w'.common.activeTogglesQueue = w.common.activeTogglesQueue := by
  rcases ite_ok_cases h with ⟨_, h⟩ | ⟨_, h⟩
  · simp only [pure_eq_ok] at h; subst h; rfl
  · simp only [throw_ne_ok] at h

theorem ite_emit2_toggles (c : Prop) [Decidable c] (w w' : World) (e1 e2 : Effect)
    (h : (if c then pure ((w.emit e1).emit e2) else throw Fault.nullDeref : Except Fault World)
      = .ok w') :
    w'.common.activeTogglesQueue = w.common.activeTogglesQueue := by
  rcases ite_ok_cases h with ⟨_, h⟩ | ⟨_, h⟩
  · simp only [pure_eq_ok] at h; subst h; rfl
  · simp only [throw_ne_ok] at h

theorem StartCalibration_toggles (env : Env) (w w' : World)
    (h : StartCalibration env w = .ok w') :
    w'.common.activeTogglesQueue = w.common.activeTogglesQueue := by
  unfold StartCalibration at h
  rcases ite_ok_cases h with ⟨_, h⟩ | ⟨_, h⟩
  · simp only [bind_eq_ok] at h
    obtain ⟨a, ha, h⟩ := h
    have fa : a.common.activeTogglesQueue = w.common.activeTogglesQueue := by
      rcases ite_ok_cases ha with ⟨_, ha⟩ | ⟨_, ha⟩
      · exact ite_emit2_toggles _ _ _ _ _ ha
      · simp only [pure_eq_ok] at ha; subst ha; rfl
    rw [← fa]
    rcases ite_ok_cases h with ⟨_, h⟩ | ⟨_, h⟩
    · simp only [pure_eq_ok] at h; subst h; rfl
    · simp only [pure_eq_ok] at h; subst h; rfl
  · exact ite_emit2_toggles _ _ _ _ _ h

theorem FinishCalibration_toggles (env : Env) (w w' : World)
    (h : FinishCalibration env w = .ok w') : TogglesShrink w w' := by
  unfold FinishCalibration at h
  simp only [bind_eq_ok, pure_eq_ok] at h
  obtain ⟨w1, h1, rfl⟩ := h
  refine TogglesShrink_trans (TogglesShrink_of_eq ?_) (TogglesShrink_ClearAllActiveToggle _ _)
  rcases ite_ok_cases h1 with ⟨_, h1⟩ | ⟨_, h1⟩
  · simp only [bind_eq_ok] at h1
    obtain ⟨a, ha, h1⟩ := h1
    have fa : a.common.activeTogglesQueue = w.common.activeTogglesQueue := by
      rcases ite_ok_cases ha with ⟨_, ha⟩ | ⟨_, ha⟩
      · exact ite_emit_toggles _ _ _ _ ha
      · simp only [pure_eq_ok] at ha; subst ha; rfl
    rw [← fa]
    rcases ite_ok_cases h1 with ⟨_, h1⟩ | ⟨_, h1⟩
    · exact ite_emit_toggles _ _ _ _ h1
    · simp only [pure_eq_ok] at h1; subst h1; rfl
  · exact ite_emit_toggles _ _ _ _ h1

/-- An action that does not toggle can only erase entries of the queue of active toggles. -/
theorem toggleFree_shrinks (env : Env) (self : Nat) (cb : Callback) :
    cb.toggleFree = true → ∀ (w w' : World), runCallback env self cb w = .ok w' →
      TogglesShrink w w' := by
  induction cb with
  | empty => intro _ w w' h; simp [runCallback, throw_ne_ok] at h
  | StartCalibration =>
    intro _ w w' h; exact TogglesShrink_of_eq (StartCalibration_toggles env w w' h)
  | FinishCalibration => intro _ w w' h; exact FinishCalibration_toggles env w w' h
  | ApplyGyroAction key =>
    intro _ w w' h; simp only [runCallback, pure_eq_ok] at h; subst h
    exact TogglesShrink_of_eq rfl
  | RemoveGyroAction =>
    intro _ w w' h; simp only [runCallback, pure_eq_ok] at h; subst h
    exact TogglesShrink_RemoveGyroAction _ _ _
  | WriteToConsole c =>
    intro _ w w' h; simp only [runCallback, pure_eq_ok] at h; subst h
    exact TogglesShrink_of_eq rfl
  | SetRumble a b =>
    intro _ w w' h; simp only [runCallback, pure_eq_ok] at h; subst h
    exact TogglesShrink_of_eq rfl
  | ApplyBtnPress key =>
    intro _ w w' h; simp only [runCallback, pure_eq_ok] at h; subst h
    exact TogglesShrink_ApplyBtnPress _ _ _
  | ApplyBtnRelease key =>
    intro _ w w' h; simp only [runCallback, pure_eq_ok] at h; subst h
    exact TogglesShrink_ApplyBtnRelease _ _ _
  | ApplyButtonToggle key apply release _ _ =>
    intro hf; simp [Callback.toggleFree] at hf
  | RegisterInstant evt =>
    intro _ w w' h; simp only [runCallback, pure_eq_ok] at h; subst h
    exact TogglesShrink_of_eq rfl
  | RunBothActions a1 a2 ih1 ih2 =>
    intro hf w w' h
    simp only [Callback.toggleFree, Bool.and_eq_true] at hf
    simp only [runCallback, bind_eq_ok] at h
    obtain ⟨w1, h1, h2⟩ := h
    have f1 : TogglesShrink w w1 := by
      rcases ite_ok_cases h1 with ⟨_, h1⟩ | ⟨_, h1⟩
      · simp only [pure_eq_ok] at h1; subst h1; exact TogglesShrink_refl _
      · exact ih1 hf.1 _ _ h1
    have f2 : TogglesShrink w1 w' := by
      rcases ite_ok_cases h2 with ⟨_, h2⟩ | ⟨_, h2⟩
      · simp only [pure_eq_ok] at h2; subst h2; exact TogglesShrink_refl _
      · exact ih2 hf.2 _ _ h2
    exact TogglesShrink_trans f1 f2

/-- One operation keeps the queue of active toggles free of duplicates. -/
theorem perform_toggles_nodup (env : Env) (op : ToggleOp) (hp : op.plain = true) (w w' : World)
    (h : op.perform env w = .ok w') (hn : w.common.activeTogglesQueue.Nodup) :
    w'.common.activeTogglesQueue.Nodup := by
  cases op with
  | ApplyButtonToggle button key apply release =>
    simp only [ToggleOp.plain, Bool.and_eq_true] at hp
    simp only [ToggleOp.perform, runCallback] at h
    rcases ite_ok_cases h with ⟨_, h⟩ | ⟨hin, h⟩
    · exact (toggleFree_shrinks env button release hp.2 w w' h).nodup hn
    · simp only [bind_eq_ok, pure_eq_ok] at h
      obtain ⟨w1, h1, rfl⟩ := h
      have s := toggleFree_shrinks env button apply hp.1 w w1 h1
      simp only [World.setCommon]
      exact List.nodup_cons.mpr ⟨fun hm => hin (s.subset hm), s.nodup hn⟩
  | ApplyBtnRelease button key =>
    exact (toggleFree_shrinks env button (.ApplyBtnRelease key) rfl w w' h).nodup hn
  | ClearAllActiveToggle key =>
    simp only [ToggleOp.perform, pure_eq_ok] at h; subst h
    exact (TogglesShrink_ClearAllActiveToggle key w).nodup hn

theorem performAll_toggles_nodup (env : Env) (ops : List ToggleOp) :
    (∀ op ∈ ops, op.plain = true) → ∀ (w w' : World), performAll env w ops = .ok w' →
      w.common.activeTogglesQueue.Nodup → w'.common.activeTogglesQueue.Nodup := by
  induction ops with
  | nil => intro _ w w' h hn; simp only [performAll, pure_eq_ok] at h; subst h; exact hn
  | cons op rest ih =>
    intro hp w w' h hn
    simp only [performAll, bind_eq_ok] at h
    obtain ⟨w1, h1, h2⟩ := h
    exact ih (fun o ho => hp o (List.mem_cons_of_mem _ ho)) w1 w' h2
      (perform_toggles_nodup env op (hp op (List.mem_cons_self _ _)) w w1 h1 hn)

/-- The `apply` and `release` actions `AddMapping` derives from a key, which are the ones it
hands to `ApplyButtonToggle`, do not toggle. -/
theorem keyActions_toggleFree (P : MappingEnv) (m m' : Mapping) (key : KeyCode)
    (apply release : Callback)
    (h : Mapping.keyActions P m key = .ok (some (apply, release, m'))) :
    apply.toggleFree = true ∧ release.toggleFree = true := by
  unfold Mapping.keyActions at h
  split_ifs at h
  all_goals first
    | (simp only [pure_eq_ok, Option.some.injEq, Prod.mk.injEq] at h
       obtain ⟨rfl, rfl, _⟩ := h
       exact ⟨rfl, rfl⟩)
    | (simp only [throw_ne_ok] at h)
    | (simp only [bind_eq_ok, pure_eq_ok, Option.some.injEq, Prod.mk.injEq] at h
       obtain ⟨_, _, rfl, rfl, _⟩ := h
       exact ⟨rfl, rfl⟩)
    | (split at h
       · simp only [throw_ne_ok] at h
       · split_ifs at h
         · simp only [pure_eq_ok, Option.some.injEq, Prod.mk.injEq] at h
           obtain ⟨rfl, rfl, _⟩ := h
           exact ⟨rfl, rfl⟩
         · simp only [pure_eq_ok] at h
           cases h)

/-- C38. Starting from an empty queue of active toggles, after every sequence of
`ApplyButtonToggle`, `ApplyBtnRelease` and `ClearAllActiveToggle` operations by any buttons,
in which the `apply` and `release` actions handed to `ApplyButtonToggle` do not toggle
themselves (as those `AddMapping` binds), the queue holds no pair of `ButtonID` and key
twice. -/
theorem activeToggles_nodup (env : Env) (ops : List ToggleOp) (w w' : World)
    (hp : ∀ op ∈ ops, op.plain = true) (h0 : w.common.activeTogglesQueue = [])
    (h : performAll env w ops = .ok w') : w'.common.activeTogglesQueue.Nodup :=
  performAll_toggles_nodup env ops hp w w' h (by rw [h0]; exact List.nodup_nil)

/-- C38 on the sample controller: after the sample operations the queue holds the toggle of
`X_START` by button 1 and the toggles of `K` by buttons 1 and 0, each once. -/
theorem activeToggles_nodup_witness :
    (∀ op ∈ sampleToggleOps, op.plain = true) ∧ demoInit.common.activeTogglesQueue = [] ∧
    performAll demo demoInit sampleToggleOps =
      .ok (getOk (performAll demo demoInit sampleToggleOps) demoInit) ∧
    (getOk (performAll demo demoInit sampleToggleOps) demoInit).common.activeTogglesQueue =
      [(1, ⟨245, "X_START"⟩), (1, ⟨75, "K"⟩), (0, ⟨75, "K"⟩)] ∧
    (getOk (performAll demo demoInit sampleToggleOps) demoInit).common.activeTogglesQueue.Nodup :=
  ⟨by decide, by decide, eq_ok_getOk _ _ (by decide), by decide,
    activeToggles_nodup demo sampleToggleOps demoInit
      (getOk (performAll demo demoInit sampleToggleOps) demoInit) (by decide) (by decide)
      (eq_ok_getOk _ _ (by decide))⟩

/-- C33, the failing input on the sample controller. After the hold of the button bound to key
`G` with the Instant modifier the classifier is in `InstRelease` and its queue holds the
instant registered under `OnPress`. The `Pressed` input 100 ms later, past the grace period of
40 ms, fires no `OnInstantRelease`: the queue is emptied by `ClearKey`, the classifier is in
`NoPress`, and key `G`, which went down, has not gone up. -/
theorem InstRelease_drops_queued_instant :
    succeeded (run demo demoInit instantHoldInputs) = true ∧
    (demoAfter (instantHoldInputs.take 5)).getState 4 = .InstRelease ∧
    ((demoAfter (instantHoldInputs.take 5)).impl 4)._instantReleaseQueue = [.OnPress] ∧
    elapsedMS ((demoAfter (instantHoldInputs.take 5)).impl 4)._press_times
      (shortHoldAt 200).time_now = 100 ∧
    demo.MAGIC_INSTANT_DURATION = 40 ∧
    eventsOf 4 (demoAfter instantHoldInputs) =
      [.OnPress, .OnHold, .OnTurbo, .OnRelease, .OnHoldRelease] ∧
    (demoAfter instantHoldInputs).getState 4 = .NoPress ∧
    ((demoAfter instantHoldInputs).impl 4)._instantReleaseQueue = [] ∧
    Effect.pressKey ⟨71, "G"⟩ true ∈ (demoAfter instantHoldInputs).log ∧
    Effect.pressKey ⟨71, "G"⟩ false ∉ (demoAfter instantHoldInputs).log := by
  with_unfolding_all decide

/-- C33, the defect. `ProcessEvent(const Released &)` enters `InstRelease` whenever the
instant-release queue is not empty, whatever event the instants were registered under, but the
`Pressed` reaction of `InstRelease` looks for `OnRelease` only. On a `Pressed` input in
`InstRelease`: when the elapsed time is at most the instant grace period, only the basic press
reaction is performed (the id of a chordable button is pushed on the chord stack if it is not
there). When it exceeds the grace period, the classifier ends in `NoPress` with no active
binding, an empty queue and turbo count 0, and `OnInstantRelease` is fired, once and on the
active binding, exactly when the queue holds an instant registered under `OnRelease`; when it
holds only instants registered under other events nothing is fired and `ClearKey` drops them,
so their release actions never run. -/
theorem InstRelease_Pressed_releases_OnRelease (env : Env) (w w' : World) (self : Nat)
    (e : Pressed) (hst : w.getState self = .InstRelease)
    (h : sendEvent_Pressed env self e w = .ok w') :
    (GetPressDurationMS (w.impl self) e.time_now ≤ env.MAGIC_INSTANT_DURATION →
      w' = DigitalButtonState.react_Pressed env self w) ∧
    (GetPressDurationMS (w.impl self) e.time_now > env.MAGIC_INSTANT_DURATION →
      w'.getState self = .NoPress ∧ Idle w' self ∧
      (BtnEvent.OnRelease ∈ (w.impl self)._instantReleaseQueue →
        ∃ m, (w.impl self)._keyToRelease = some m ∧
          w'.fired = w.fired ++ [(self, m, .OnInstantRelease)]) ∧
      (BtnEvent.OnRelease ∉ (w.impl self)._instantReleaseQueue → w'.fired = w.fired)) := by
  unfold sendEvent_Pressed at h
  rw [hst] at h
  unfold InstRelease.react_Pressed at h
  simp only [react_Pressed_impl] at h
  constructor
  · intro hle
    rw [if_neg (not_lt.mpr hle)] at h
    simp only [pure_eq_ok] at h
    exact h.symm
  · intro hgt
    rw [if_pos hgt] at h
    simp only [bind_eq_ok, pure_eq_ok] at h
    obtain ⟨w1, h1, rfl⟩ := h
    refine ⟨changeState_getState_self _ _ _ (by decide), ?_, ?_, ?_⟩
    · have := Idle_ClearKey self w1
      simpa [Idle] using this
    · intro hin
      rcases CheckInstantRelease_spec env self _ _ w1 h1 with ⟨hnin, _⟩ | ⟨_, m, ext, hm, hk, _⟩
      · exact absurd (by simpa using hin) hnin
      · refine ⟨m, by simpa using hm, ?_⟩
        rw [changeState_fired, (ClearKey_facts self w1).2.2.2.2.2.2.2.1, hk.fired]
        simp
    · intro hnin
      rcases CheckInstantRelease_spec env self _ _ w1 h1 with ⟨_, rfl⟩ | ⟨hin, _⟩
      · rw [changeState_fired, (ClearKey_facts self _).2.2.2.2.2.2.2.1]
        simp
      · exact absurd (by simpa using hin) hnin

/-- C33 on the sample controller: the `Pressed` input at 200 ms of the hold scenario finds
`OnPress` queued and no `OnRelease`; nothing is fired, the record is cleared, and key `G` stays
down. -/
theorem InstRelease_Pressed_releases_OnRelease_witness :
    ((demoAfter (instantHoldInputs.take 5)).getState 4 = .InstRelease ∧
    ((demoAfter (instantHoldInputs.take 5)).impl 4)._instantReleaseQueue = [.OnPress] ∧
    GetPressDurationMS ((demoAfter (instantHoldInputs.take 5)).impl 4) (shortHoldAt 200).time_now
      > demo.MAGIC_INSTANT_DURATION ∧
    BtnEvent.OnRelease ∉ ((demoAfter (instantHoldInputs.take 5)).impl 4)._instantReleaseQueue ∧
    (demoStep (demoAfter (instantHoldInputs.take 5)) (.Pressed 4 (shortHoldAt 200))).getState 4
      = .NoPress ∧
    ((demoStep (demoAfter (instantHoldInputs.take 5)) (.Pressed 4 (shortHoldAt 200))).impl
      4)._instantReleaseQueue = [] ∧
    Effect.pressKey ⟨71, "G"⟩ true ∈
      (demoStep (demoAfter (instantHoldInputs.take 5)) (.Pressed 4 (shortHoldAt 200))).log ∧
    Effect.pressKey ⟨71, "G"⟩ false ∉
      (demoStep (demoAfter (instantHoldInputs.take 5)) (.Pressed 4 (shortHoldAt 200))).log) ∧
    (demoStep (demoAfter (instantHoldInputs.take 5)) (.Pressed 4 (shortHoldAt 200))).fired =
      (demoAfter (instantHoldInputs.take 5)).fired :=
  ⟨by with_unfolding_all decide,
    ((InstRelease_Pressed_releases_OnRelease demo (demoAfter (instantHoldInputs.take 5))
      (demoStep (demoAfter (instantHoldInputs.take 5)) (.Pressed 4 (shortHoldAt 200))) 4
      (shortHoldAt 200) (by with_unfolding_all decide)
      (eq_ok_getOk (step demo (demoAfter (instantHoldInputs.take 5))
        (.Pressed 4 (shortHoldAt 200))) (demoAfter (instantHoldInputs.take 5))
        (by with_unfolding_all decide))).2 (by with_unfolding_all decide)).2.2.2
      (by with_unfolding_all decide)⟩

/-- The calls `CheckInstantRelease(OnRelease)` and `CheckInstantRelease(OnTap)` with active
binding `m`: `k` events `OnInstantRelease` go to `m`, one for each of the two kinds of instant
the queue holds. -/
theorem tapInstants_spec (env : Env) (self : Nat) (w w' : World) (m : Mapping)
    (hk : (w.impl self)._keyToRelease = some m)
    (h : (do
      let w1 ← CheckInstantRelease env self .OnRelease w
      CheckInstantRelease env self .OnTap w1 : Except Fault World) = .ok w') :
    ∃ k, k ≤ 2 ∧ Kept self (List.replicate k (self, m, .OnInstantRelease)) w w' ∧
      (w'.impl self)._keyToRelease = some m ∧
      (BtnEvent.OnRelease ∈ (w.impl self)._instantReleaseQueue → 1 ≤ k) ∧
      (BtnEvent.OnTap ∈ (w.impl self)._instantReleaseQueue → 1 ≤ k) ∧
      (BtnEvent.OnRelease ∈ (w.impl self)._instantReleaseQueue →
        BtnEvent.OnTap ∈ (w.impl self)._instantReleaseQueue → k = 2) ∧
      (BtnEvent.OnRelease ∉ (w.impl self)._instantReleaseQueue →
        BtnEvent.OnTap ∉ (w.impl self)._instantReleaseQueue → k = 0) := by
  simp only [bind_eq_ok] at h
  obtain ⟨w1, h1, h2⟩ := h
  rcases CheckInstantRelease_spec env self _ w w1 h1 with ⟨n1, rfl⟩ | ⟨i1, m1, ext1, hm1, k1, ky1, q1⟩
  · rcases CheckInstantRelease_spec env self _ _ w' h2 with ⟨n2, rfl⟩ | ⟨i2, m2, ext2, hm2, k2, ky2, q2⟩
    · exact ⟨0, by omega, by simpa using Kept_refl self _, hk, fun a => absurd a n1,
        fun a => absurd a n2, fun a => absurd a n1, fun _ _ => rfl⟩
    · have : m2 = m := by rw [hk] at hm2; exact (Option.some.inj hm2).symm
      subst this
      exact ⟨1, by omega, by simpa using k2, ky2, fun _ => le_refl _, fun _ => le_refl _,
        fun a => absurd a n1, fun _ a => absurd i2 a⟩
  · have : m1 = m := by rw [hk] at hm1; exact (Option.some.inj hm1).symm
    subst this
    rcases CheckInstantRelease_spec env self _ w1 w' h2 with ⟨n2, rfl⟩ | ⟨i2, m2, ext2, hm2, k2, ky2, q2⟩
    · refine ⟨1, by omega, by simpa using k1, ky1, fun _ => le_refl _, fun _ => le_refl _, ?_,
        fun a => absurd i1 a⟩
      intro _ hin
      exfalso
      apply n2
      rw [q1]
      exact (List.mem_erase_of_ne (by decide)).mpr (List.mem_append_left _ hin)
    · have : m2 = m1 := by rw [ky1] at hm2; exact (Option.some.inj hm2).symm
      subst this
      exact ⟨2, le_refl _, by simpa using Kept_trans k1 k2, ky2, fun _ => by omega,
        fun _ => by omega, fun _ _ => rfl, fun a => absurd i1 a⟩

/-- The same two calls without an active binding: they return only when the queue holds
neither kind of instant, and then change nothing. -/
theorem tapInstants_nokey (env : Env) (self : Nat) (w w' : World)
    (hk : (w.impl self)._keyToRelease = none)
    (h : (do
      let w1 ← CheckInstantRelease env self .OnRelease w
      CheckInstantRelease env self .OnTap w1 : Except Fault World) = .ok w') :
    w' = w ∧ BtnEvent.OnRelease ∉ (w.impl self)._instantReleaseQueue ∧
      BtnEvent.OnTap ∉ (w.impl self)._instantReleaseQueue := by
  simp only [bind_eq_ok] at h
  obtain ⟨w1, h1, h2⟩ := h
  rcases CheckInstantRelease_spec env self _ w w1 h1 with ⟨n1, rfl⟩ | ⟨_, m1, _, hm1, _⟩
  · rcases CheckInstantRelease_spec env self _ _ w' h2 with ⟨n2, rfl⟩ | ⟨_, m2, _, hm2, _⟩
    · exact ⟨rfl, n1, n2⟩
    · rw [hk] at hm2; cases hm2
  · rw [hk] at hm1; cases hm1

/-- About `TapRelease::react(Pressed)`, whatever the active binding: `OnTapRelease` goes to the
binding `GetPressMapping` resolves, after the `OnInstantRelease` events of pending instants;
the classifier stays in its state, with no active binding, an empty queue and turbo count 0. -/
theorem TapRelease_react_Pressed_any (env : Env) (self : Nat) (e : Pressed) (w w' : World)
    (h : TapRelease.react_Pressed env self e w = .ok w') :
    ∃ ir m, OnlyInstant self ir ∧
      Resolves (env.mapping self) (w.impl self)._keyToRelease
        (DigitalButtonState.react_Pressed env self w).common.chordStack m ∧
      w'.fired = w.fired ++ ir ++ [(self, m, .OnTapRelease)] ∧
      w'.getState self = w.getState self ∧ Idle w' self ∧
      w'.common.chordStack = (DigitalButtonState.react_Pressed env self w).common.chordStack ∧
      (∀ b, b ≠ self → w'.buttons b = w.buttons b) ∧
      ((w.impl self)._keyToRelease = none → ir = []) := by
  have hu := TapRelease_react_Pressed_frame env self e w w' h
  have hs := TapRelease_react_Pressed_self env self e w w' h
  unfold TapRelease.react_Pressed at h
  simp only [bind_eq_ok, pure_eq_ok] at h
  obtain ⟨w1, h1, w2, h2, w3, h3, rfl⟩ := h
  obtain ⟨i1, k1, key1, hi1⟩ := CheckInstantRelease_OnlyInstant env self _ _ w1 h1
  obtain ⟨i2, k2, key2, hi2⟩ := CheckInstantRelease_OnlyInstant env self _ _ w2 h2
  obtain ⟨m, hres, fk⟩ := GetPressMapping_ProcessEvent_spec env self _ w2 w3 h3
  rw [key2, key1, react_Pressed_impl, k2.chord, k1.chord] at hres
  refine ⟨i1 ++ i2, m, OnlyInstant_append hi1 hi2, hres, ?_, hs.1, hs.2, hu.1,
    fun b hb => by rw [hu.2 b hb]; simp, ?_⟩
  · rw [(ClearKey_facts self w3).2.2.2.2.2.2.2.1, fk.fired, k2.fired, k1.fired]
    simp
  · intro hnone
    have hb : (do
        let w ← CheckInstantRelease env self .OnRelease (DigitalButtonState.react_Pressed env self w)
        CheckInstantRelease env self .OnTap w : Except Fault World) = .ok w2 := by
      simp only [bind_eq_ok]; exact ⟨w1, h1, h2⟩
    obtain ⟨rfl, _, _⟩ := tapInstants_nokey env self _ w2 (by simpa using hnone) hb
    have e1 := k1.fired
    have e2 := k2.fired
    rw [e1, List.append_assoc] at e2
    exact List.append_cancel_left (e2.symm.trans (List.append_nil _).symm)

theorem Bound_KeyStep {b : Nat} {w w' : World} (hb : Bound w b) (h : KeyStep b w w') :
    Bound w' b := by
  rcases h with ⟨m, hm⟩ | hi | ⟨hk, hq⟩
  · intro hn; rw [hm] at hn; cases hn
  · intro _; exact hi.2
  · intro hn; rw [hq]; exact hb (hk ▸ hn)

theorem Bound_of_buttons_eq {b : Nat} {w w' : World} (h : w'.buttons b = w.buttons b)
    (hb : Bound w b) : Bound w' b := by
  unfold Bound World.impl at *
  rw [h]; exact hb

theorem KeyStep_refl (b : Nat) (w : World) : KeyStep b w w := Or.inr (Or.inr ⟨rfl, rfl⟩)

theorem KeyStep_trans {b : Nat} {w1 w2 w3 : World} (h12 : KeyStep b w1 w2)
    (h23 : KeyStep b w2 w3) : KeyStep b w1 w3 := by
  rcases h23 with h | h | ⟨hk, hq⟩
  · exact Or.inl h
  · exact Or.inr (Or.inl h)
  · rcases h12 with ⟨m, hm⟩ | hi | ⟨hk', hq'⟩
    · exact Or.inl ⟨m, hk.trans hm⟩
    · exact Or.inr (Or.inl ⟨hk.trans hi.1, hq.trans hi.2⟩)
    · exact Or.inr (Or.inr ⟨hk.trans hk', hq.trans hq'⟩)

theorem KeyStep_of_impl_eq {b : Nat} {w w' : World} (h : w'.impl b = w.impl b) :
    KeyStep b w w' := Or.inr (Or.inr ⟨by rw [h], by rw [h]⟩)

theorem KeyStep_of_Idle {b : Nat} {w w' : World} (h : Idle w' b) : KeyStep b w w' :=
  Or.inr (Or.inl ⟨h.1, h.2.2⟩)

theorem KeyStep_of_Frame {b : Nat} {evts : List (Nat × Mapping × BtnEvent)} {w w' : World}
    {m : Mapping} (hm : (w.impl b)._keyToRelease = some m) (f : Frame b evts w w') :
    KeyStep b w w' := Or.inl ⟨m, f.key.trans hm⟩

theorem KeyStep_keyToRelease_ProcessEvent (env : Env) (self : Nat) (evt : BtnEvent)
    (w w' : World) (h : keyToRelease_ProcessEvent env self evt w = .ok w') :
    KeyStep self w w' := by
  obtain ⟨m, hm, f⟩ := keyToRelease_ProcessEvent_spec env self evt w w' h
  exact KeyStep_of_Frame hm f

theorem KeyStep_CheckInstantRelease (env : Env) (self : Nat) (ie : BtnEvent) (w w' : World)
    (h : CheckInstantRelease env self ie w = .ok w') : KeyStep self w w' := by
  rcases CheckInstantRelease_spec env self ie w w' h with ⟨_, rfl⟩ | ⟨_, m, _, _, _, hk, _⟩
  · exact KeyStep_refl _ _
  · exact Or.inl ⟨m, hk⟩

theorem KeyStep_guarded_Check (env : Env) (self : Nat) (c : Prop) [Decidable c] (ie : BtnEvent)
    (w w' : World) (h : (if c then CheckInstantRelease env self ie w else pure w) = .ok w') :
    KeyStep self w w' := by
  rcases ite_ok_cases h with ⟨_, h⟩ | ⟨_, h⟩
  · exact KeyStep_CheckInstantRelease env self ie w w' h
  · simp only [pure_eq_ok] at h; subst h; exact KeyStep_refl _ _

theorem KeyStep_GetPressMapping_ProcessEvent (env : Env) (self : Nat) (evt : BtnEvent)
    (w w' : World) (h : GetPressMapping_ProcessEvent env self evt w = .ok w') :
    KeyStep self w w' := by
  obtain ⟨m, _, fk⟩ := GetPressMapping_ProcessEvent_spec env self evt w w' h
  exact Or.inl ⟨m, fk.key⟩

theorem KeyStep_turboIncr (self : Nat) (w : World) :
    KeyStep self w (w.setImpl self fun i => { i with _turboCount := i._turboCount + 1 }) :=
  Or.inr (Or.inr ⟨by simp, by simp⟩)

theorem KeyStep_setPressTime (self : Nat) (t : Int) (w : World) :
    KeyStep self w (w.setImpl self fun i => { i with _press_times := t }) :=
  Or.inr (Or.inr ⟨by simp, by simp⟩)

theorem KeyStep_changeState (self : Nat) (next : BtnState) (w : World) :
    KeyStep self w (changeState self next w) := KeyStep_of_impl_eq (by simp)

theorem KeyStep_react_Pressed (env : Env) (self b : Nat) (w : World) :
    KeyStep b w (DigitalButtonState.react_Pressed env self w) := KeyStep_of_impl_eq (by simp)

theorem KeyStep_react_Released (env : Env) (self b : Nat) (w : World) :
    KeyStep b w (DigitalButtonState.react_Released env self w) := KeyStep_of_impl_eq (by simp)

theorem KeyStep_ClearKey (self : Nat) (w w0 : World) : KeyStep self w0 (ClearKey self w) :=
  KeyStep_of_Idle (Idle_ClearKey self w)

theorem KeyStep_ProcessEvent_Pressed (env : Env) (self : Nat) (evt : Pressed) (w w' : World)
    (h : ProcessEvent_Pressed env self evt w = .ok w') : KeyStep self w w' := by
  unfold ProcessEvent_Pressed at h
  rcases ite_ok_cases h with ⟨_, h⟩ | ⟨_, h⟩
  · simp only [bind_eq_ok] at h
    obtain ⟨w1, h1, h⟩ := h
    have s1 := KeyStep_guarded_Check env self _ _ w w1 h1
    refine KeyStep_trans s1 ?_
    rcases ite_ok_cases h with ⟨_, h⟩ | ⟨_, h⟩
    · simp only [bind_eq_ok, pure_eq_ok] at h
      obtain ⟨w2, h2, w3, h3, rfl⟩ := h
      exact KeyStep_trans (KeyStep_trans (KeyStep_keyToRelease_ProcessEvent _ _ _ _ _ h2)
        (KeyStep_keyToRelease_ProcessEvent _ _ _ _ _ h3)) (KeyStep_turboIncr _ _)
    · simp only [pure_eq_ok] at h; subst h; exact KeyStep_refl _ _
  · simp only [bind_eq_ok] at h
    obtain ⟨w1, h1, w2, h2, h3⟩ := h
    have s1 := KeyStep_guarded_Check env self _ _ w w1 h1
    have s2 : KeyStep self w1 w2 := by
      rcases ite_ok_cases h2 with ⟨_, h2⟩ | ⟨_, h2⟩
      · simp only [bind_eq_ok, pure_eq_ok] at h2
        obtain ⟨w0, h0, rfl⟩ := h2
        exact KeyStep_trans (KeyStep_keyToRelease_ProcessEvent _ _ _ _ _ h0)
          (KeyStep_turboIncr _ _)
      · simp only [pure_eq_ok] at h2; subst h2; exact KeyStep_refl _ _
    exact KeyStep_trans (KeyStep_trans s1 s2) (KeyStep_guarded_Check env self _ _ w2 w' h3)

theorem KeyStep_ProcessEvent_Released (env : Env) (self : Nat) (evt : Released) (w w' : World)
    (next : BtnState) (h : ProcessEvent_Released env self evt w = .ok (next, w')) :
    (∃ m, (w'.impl self)._keyToRelease = some m) ∨
      ((w'.impl self)._keyToRelease = none ∧ (w'.impl self)._instantReleaseQueue = []) := by
  obtain ⟨m, _, _, _, _, _, ext, rest⟩ := ProcessEvent_Released_spec env self evt w w' next h
  split_ifs at rest
  · exact Or.inl ⟨m, rest.2.2.2.1⟩
  · exact Or.inr ⟨rest.2.2.1, rest.2.2.2.1⟩
  · exact Or.inl ⟨m, rest.2.2.2.1⟩

/-- After a `Sync` its target is bound, whatever it was before. -/
theorem sendEvent_Sync_Bound (env : Env) (target : Nat) (e e' : Sync) (w w' : World)
    (h : sendEvent_Sync env target e w = .ok (e', w')) : Bound w' target := by
  unfold sendEvent_Sync at h
  split at h
  · obtain ⟨m, next, _, _, _, rfl⟩ := WaitSim_react_Sync_spec target e w w' e' h
    intro hn
    simp at hn
  · unfold SimPress.react_Sync at h
    simp only [bind_eq_ok, pure_eq_ok, Prod.mk.injEq] at h
    obtain ⟨⟨next, w1⟩, h1, _, rfl⟩ := h
    rcases KeyStep_ProcessEvent_Released env target _ w w1 next h1 with ⟨m, hm⟩ | ⟨hk, hq⟩
    · intro hn; simp [hm] at hn
    · intro _; simpa using hq
  · simp only [DigitalButtonState.react_Sync, throw_ne_ok] at h

theorem OthersBound_of_Untouched {self : Nat} {base w w' : World}
    (hb : base.buttons = w.buttons) (u : Untouched self base w') : OthersBound self w w' :=
  fun b hne => Or.inl (by rw [u.2 b hne, hb])

theorem sendEvent_Sync_all (env : Env) (target : Nat) (e e' : Sync) (w w' : World)
    (h : sendEvent_Sync env target e w = .ok (e', w')) :
    ∀ b, w'.buttons b = w.buttons b ∨ Bound w' b := by
  intro b
  by_cases hb : b = target
  · subst hb; exact Or.inr (sendEvent_Sync_Bound env b e e' w w' h)
  · exact Or.inl ((sendEvent_Sync_frame env target e e' w w' h).2.1 b hb)

theorem WaitSim_react_Pressed_others (env : Env) (self : Nat) (e : Pressed) (w w' : World)
    (h : WaitSim.react_Pressed env self e w = .ok w') : OthersBound self w w' := by
  unfold WaitSim.react_Pressed at h
  dsimp only at h
  split at h
  · next simBtn hlook =>
    split at h
    · simp only [throw_ne_ok] at h
    · next simMapping hsim =>
      rcases ite_ok_cases h with ⟨_, h⟩ | ⟨hne, h⟩
      · simp only [throw_ne_ok] at h
      · simp only [bind_eq_ok] at h
        obtain ⟨⟨e1, w1⟩, h1, h2⟩ := h
        have a1 := sendEvent_Sync_all env simBtn _ e1 _ w1 h1
        obtain ⟨m, _, f⟩ := keyToRelease_ProcessEvent_spec env self _ w1 w' h2
        intro b hb
        rcases a1 b with t | t
        · left
          rw [f.others b hb, t, setImpl_buttons_ne _ _ _ _ hb, setImpl_buttons_ne _ _ _ _ hb,
            changeState_buttons_ne _ _ _ _ hb]
          simp
        · exact Or.inr (Bound_of_buttons_eq (f.others b hb) t)
  · rcases ite_ok_cases h with ⟨_, h⟩ | ⟨_, h⟩
    · exact OthersBound_of_Untouched (by simp) (Untouched_startPress env self _ w' h)
    · simp only [pure_eq_ok] at h; subst h
      exact fun b _ => Or.inl (by simp)

theorem SimPress_react_Released_others (env : Env) (self : Nat) (e : Released) (w w' : World)
    (h : SimPress.react_Released env self e w = .ok w') : OthersBound self w w' := by
  unfold SimPress.react_Released at h
  dsimp only at h
  split at h
  · next master hm =>
    rcases ite_ok_cases h with ⟨_, h⟩ | ⟨_, h⟩
    · simp only [pure_eq_ok] at h; subst h
      have u : Untouched self (DigitalButtonState.react_Released env self w) _ :=
        Untouched_trans (Untouched_changeState self .SimRelease _)
          (Untouched_setImpl self (fun i => { i with _simPressMaster := none }) _)
      exact OthersBound_of_Untouched (by simp) u
    · rcases ite_ok_cases h with ⟨_, h⟩ | ⟨_, h⟩
      · simp only [throw_ne_ok] at h
      · simp only [bind_eq_ok] at h
        obtain ⟨⟨e1, w1⟩, h1, h2⟩ := h
        have a1 := sendEvent_Sync_all env master _ e1 _ w1 h1
        split at h2
        · next next _ =>
          simp only [pure_eq_ok] at h2; subst h2
          intro b hb
          rcases a1 b with t | t
          · left
            rw [changeState_buttons_ne _ _ _ _ hb, t]
            simp
          · exact Or.inr (Bound_of_buttons_eq (changeState_buttons_ne _ _ _ _ hb) t)
        · simp only [throw_ne_ok] at h2
  · exact OthersBound_of_Untouched (by simp) (Untouched_releasedTick env self e _ w' h)

theorem sendEvent_Pressed_others (env : Env) (self : Nat) (e : Pressed) (w w' : World)
    (h : sendEvent_Pressed env self e w = .ok w') : OthersBound self w w' := by
  have key : ∀ {w'}, Untouched self (DigitalButtonState.react_Pressed env self w) w' →
      OthersBound self w w' := fun u => OthersBound_of_Untouched (by simp) u
  have key' : ∀ {w'}, Untouched self w w' → OthersBound self w w' :=
    fun u => OthersBound_of_Untouched rfl u
  unfold sendEvent_Pressed at h
  split at h
  · obtain ⟨_, o, _⟩ := NoPress_react_Pressed_spec env self e w w' h
    exact fun b hb => Or.inl (o b hb)
  · exact key (Untouched_ProcessEvent_Pressed _ _ _ _ _ h)
  · exact key (TapRelease_react_Pressed_frame _ _ _ _ _ h)
  · exact WaitSim_react_Pressed_others env self e w w' h
  · exact key (SimPress_react_Pressed_frame _ _ _ _ _ h)
  · simp only [pure_eq_ok] at h; subst h; exact key (Untouched_refl _ _)
  · have s := DblPressStart_react_Pressed_spec env self e w w' h
    split_ifs at s
    · obtain ⟨m, p, _⟩ := s; exact key ⟨p.chord, p.others⟩
    · subst s; exact key (Untouched_refl _ _)
  · have s := DblPressNoPressTap_react_Pressed_spec env self e w w' h
    split_ifs at s
    · obtain ⟨m, p, _⟩ := s; exact key' ⟨p.chord, p.others⟩
    · obtain ⟨m, p⟩ := s; exact key' ⟨p.chord, p.others⟩
  · have s := DblPressNoPressHold_react_Pressed_spec env self e w w' h
    split_ifs at s
    · obtain ⟨m, p, _⟩ := s; exact key ⟨p.chord, p.others⟩
    · obtain ⟨m, p⟩ := s; exact key ⟨p.chord, p.others⟩
  · exact key (Untouched_ProcessEvent_Pressed _ _ _ _ _ h)
  · exact key (InstRelease_react_Pressed_frame _ _ _ _ _ h)
  · simp only [throw_ne_ok] at h

theorem sendEvent_Released_others (env : Env) (self : Nat) (e : Released) (w w' : World)
    (h : sendEvent_Released env self e w = .ok w') : OthersBound self w w' := by
  have key : ∀ {w'}, Untouched self (DigitalButtonState.react_Released env self w) w' →
      OthersBound self w w' := fun u => OthersBound_of_Untouched (by simp) u
  have key' : ∀ {w'}, Untouched self w w' → OthersBound self w w' :=
    fun u => OthersBound_of_Untouched rfl u
  unfold sendEvent_Released at h
  split at h
  · simp only [pure_eq_ok] at h; subst h; exact key (Untouched_refl _ _)
  · exact key (Untouched_releasedTick _ _ _ _ _ h)
  · exact key (TapRelease_react_Released_frame _ _ _ _ _ h)
  · exact key (Untouched_startPress _ _ _ _ h)
  · exact SimPress_react_Released_others env self e w w' h
  · unfold SimRelease.react_Released at h
    simp only [pure_eq_ok] at h; subst h
    exact key (Untouched_trans (Untouched_changeState _ _ _) (Untouched_ClearKey _ _))
  · have s := DblPressStart_react_Released_spec env self e w w' h
    split_ifs at s
    · obtain ⟨m, p, _⟩ := s; exact key ⟨p.chord, p.others⟩
    · subst s; exact key (Untouched_changeState _ _ _)
    · subst s; exact key (Untouched_changeState _ _ _)
  · have s := DblPressNoPressTap_react_Released_spec env self e w w' h
    split_ifs at s
    · obtain ⟨m, p, _⟩ := s; exact key' ⟨p.chord, p.others⟩
    · subst s; exact key' (Untouched_refl _ _)
  · have s := DblPressNoPressHold_react_Released_spec env self e w w' h
    split_ifs at s
    · obtain ⟨m, p, _⟩ := s; exact key ⟨p.chord, p.others⟩
    · subst s; exact key (Untouched_refl _ _)
  · exact key (Untouched_releasedTick _ _ _ _ _ h)
  · simp only [pure_eq_ok] at h; subst h; exact key (Untouched_refl _ _)
  · simp only [throw_ne_ok] at h

theorem KeyStep_same {b : Nat} {w w' : World}
    (hk : (w'.impl b)._keyToRelease = (w.impl b)._keyToRelease)
    (hq : (w'.impl b)._instantReleaseQueue = (w.impl b)._instantReleaseQueue) :
    KeyStep b w w' := Or.inr (Or.inr ⟨hk, hq⟩)

theorem KeyStep_startPress (env : Env) (self : Nat) (w w' : World)
    (h : startPress env self w = .ok w') : KeyStep self w w' := by
  obtain ⟨_, _, _, _, _, rest⟩ := startPress_spec env self w w' h
  split_ifs at rest
  · exact KeyStep_same rest.2.2.1 rest.2.2.2
  · obtain ⟨m, _, _, _, hk, _⟩ := rest
    exact Or.inl ⟨m, hk⟩

theorem KeyStep_releasedTick (env : Env) (self : Nat) (e : Released) (w w' : World)
    (h : (do
      let (next, w) ← ProcessEvent_Released env self e (DigitalButtonState.react_Released env self w)
      pure (changeState self next w) : Except Fault World) = .ok w') : KeyStep self w w' := by
  simp only [bind_eq_ok, pure_eq_ok] at h
  obtain ⟨⟨next, w1⟩, h1, rfl⟩ := h
  rcases KeyStep_ProcessEvent_Released env self e _ w1 next h1 with ⟨m, hm⟩ | ⟨hk, hq⟩
  · exact Or.inl ⟨m, by simpa using hm⟩
  · exact Or.inr (Or.inl ⟨by simpa using hk, by simpa using hq⟩)

theorem sendEvent_Pressed_KeyStep (env : Env) (self : Nat) (e : Pressed) (w w' : World)
    (h : sendEvent_Pressed env self e w = .ok w') : KeyStep self w w' := by
  unfold sendEvent_Pressed at h
  split at h
  · obtain ⟨_, _, _, _, _, rest⟩ := NoPress_react_Pressed_spec env self e w w' h
    split_ifs at rest
    · exact KeyStep_same rest.2.2.1 rest.2.2.2
    · exact KeyStep_same rest.2.2.1 rest.2.2.2
    · obtain ⟨m, _, _, _, hk, _⟩ := rest
      exact Or.inl ⟨m, hk⟩
  · exact KeyStep_trans (KeyStep_react_Pressed env self self w)
      (KeyStep_ProcessEvent_Pressed env self e _ w' h)
  · exact KeyStep_of_Idle (TapRelease_react_Pressed_self env self e w w' h).2
  · unfold WaitSim.react_Pressed at h
    dsimp only at h
    split at h
    · split at h
      · simp only [throw_ne_ok] at h
      · rcases ite_ok_cases h with ⟨_, h⟩ | ⟨_, h⟩
        · simp only [throw_ne_ok] at h
        · simp only [bind_eq_ok] at h
          obtain ⟨⟨e1, w1⟩, _, h2⟩ := h
          obtain ⟨m, hm, f⟩ := keyToRelease_ProcessEvent_spec env self _ w1 w' h2
          exact Or.inl ⟨m, f.key.trans hm⟩
    · rcases ite_ok_cases h with ⟨_, h⟩ | ⟨_, h⟩
      · exact KeyStep_trans (KeyStep_react_Pressed env self self w)
          (KeyStep_startPress env self _ w' h)
      · simp only [pure_eq_ok] at h; subst h
        exact KeyStep_react_Pressed env self self w
  · unfold SimPress.react_Pressed at h
    dsimp only at h
    split at h
    · rcases ite_ok_cases h with ⟨_, h⟩ | ⟨_, h⟩
      · simp only [pure_eq_ok] at h; subst h
        exact KeyStep_same (by simp) (by simp)
      · simp only [pure_eq_ok] at h; subst h
        exact KeyStep_react_Pressed env self self w
    · exact KeyStep_trans (KeyStep_react_Pressed env self self w)
        (KeyStep_ProcessEvent_Pressed env self e _ w' h)
  · simp only [pure_eq_ok] at h; subst h
    exact KeyStep_react_Pressed env self self w
  · have s := DblPressStart_react_Pressed_spec env self e w w' h
    split_ifs at s
    · obtain ⟨m, p, _⟩ := s; exact Or.inl ⟨m, p.key⟩
    · subst s; exact KeyStep_react_Pressed env self self w
  · have s := DblPressNoPressTap_react_Pressed_spec env self e w w' h
    split_ifs at s
    · obtain ⟨m, p, _⟩ := s; exact Or.inl ⟨m, p.key⟩
    · obtain ⟨m, p⟩ := s; exact Or.inl ⟨m, p.key⟩
  · have s := DblPressNoPressHold_react_Pressed_spec env self e w w' h
    split_ifs at s
    · obtain ⟨m, p, _⟩ := s; exact Or.inl ⟨m, p.key⟩
    · obtain ⟨m, p⟩ := s; exact Or.inl ⟨m, p.key⟩
  · exact KeyStep_trans (KeyStep_react_Pressed env self self w)
      (KeyStep_ProcessEvent_Pressed env self e _ w' h)
  · rcases InstRelease_react_Pressed_self env self e w w' h with ⟨_, hi⟩ | rfl
    · exact KeyStep_of_Idle hi
    · exact KeyStep_react_Pressed env self self w
  · simp only [throw_ne_ok] at h

theorem TapRelease_react_Released_KeyStep (env : Env) (self : Nat) (e : Released)
    (w w' : World) (h : TapRelease.react_Released env self e w = .ok w') :
    KeyStep self w w' := by
  unfold TapRelease.react_Released at h
  simp only [bind_eq_ok] at h
  obtain ⟨w1, h1, h⟩ := h
  have s1 : KeyStep self w w1 := by
    refine KeyStep_trans (KeyStep_react_Released env self self w) ?_
    rcases ite_ok_cases h1 with ⟨_, h1⟩ | ⟨_, h1⟩
    · simp only [bind_eq_ok] at h1
      obtain ⟨w0, h0, h1⟩ := h1
      exact KeyStep_trans (KeyStep_CheckInstantRelease _ _ _ _ _ h0)
        (KeyStep_CheckInstantRelease _ _ _ _ _ h1)
    · simp only [pure_eq_ok] at h1; subst h1; exact KeyStep_refl _ _
  rcases ite_ok_cases h with ⟨_, h⟩ | ⟨_, h⟩
  · simp only [bind_eq_ok, pure_eq_ok] at h
    obtain ⟨w2, _, rfl⟩ := h
    exact KeyStep_ClearKey _ _ _
  · simp only [pure_eq_ok] at h; subst h; exact s1

theorem sendEvent_Released_KeyStep (env : Env) (self : Nat) (e : Released) (w w' : World)
    (h : sendEvent_Released env self e w = .ok w') : KeyStep self w w' := by
  unfold sendEvent_Released at h
  split at h
  · simp only [pure_eq_ok] at h; subst h
    exact KeyStep_react_Released env self self w
  · exact KeyStep_releasedTick env self e w w' h
  · exact TapRelease_react_Released_KeyStep env self e w w' h
  · exact KeyStep_trans (KeyStep_react_Released env self self w)
      (KeyStep_startPress env self _ w' h)
  · unfold SimPress.react_Released at h
    dsimp only at h
    split at h
    · next master hm =>
      rcases ite_ok_cases h with ⟨_, h⟩ | ⟨_, h⟩
      · simp only [pure_eq_ok] at h; subst h
        exact KeyStep_same (by simp) (by simp)
      · rcases ite_ok_cases h with ⟨_, h⟩ | ⟨hne, h⟩
        · simp only [throw_ne_ok] at h
        · simp only [bind_eq_ok] at h
          obtain ⟨⟨e1, w1⟩, h1, h2⟩ := h
          have o := (sendEvent_Sync_frame env master _ e1 _ w1 h1).2.1 self (Ne.symm hne)
          split at h2
          · simp only [pure_eq_ok] at h2; subst h2
            refine KeyStep_of_impl_eq ?_
            rw [changeState_impl, World.impl, o]
            simp [World.impl]
          · simp only [throw_ne_ok] at h2
    · exact KeyStep_releasedTick env self e w w' h
  · unfold SimRelease.react_Released at h
    simp only [pure_eq_ok] at h; subst h
    exact KeyStep_ClearKey _ _ _
  · have s := DblPressStart_react_Released_spec env self e w w' h
    split_ifs at s
    · obtain ⟨m, p, _⟩ := s; exact Or.inl ⟨m, p.key⟩
    · subst s; exact KeyStep_of_impl_eq (by simp)
    · subst s; exact KeyStep_of_impl_eq (by simp)
  · have s := DblPressNoPressTap_react_Released_spec env self e w w' h
    split_ifs at s
    · obtain ⟨m, p, _⟩ := s; exact Or.inl ⟨m, p.key⟩
    · subst s; exact KeyStep_refl _ _
  · have s := DblPressNoPressHold_react_Released_spec env self e w w' h
    split_ifs at s
    · obtain ⟨m, p, _⟩ := s; exact Or.inl ⟨m, p.key⟩
    · subst s; exact KeyStep_react_Released env self self w
  · exact KeyStep_releasedTick env self e w w' h
  · simp only [pure_eq_ok] at h; subst h
    exact KeyStep_react_Released env self self w
  · simp only [throw_ne_ok] at h

/-- One input keeps every classifier bound. -/
theorem step_Bound (env : Env) (w w' : World) (i : Input) (h : step env w i = .ok w')
    (hb : ∀ b, Bound w b) : ∀ b, Bound w' b := by
  intro b
  cases i with
  | Pressed self e =>
    by_cases hne : b = self
    · subst hne; exact Bound_KeyStep (hb b) (sendEvent_Pressed_KeyStep env b e w w' h)
    · rcases sendEvent_Pressed_others env self e w w' h b hne with t | t
      · exact Bound_of_buttons_eq t (hb b)
      · exact t
  | Released self e =>
    by_cases hne : b = self
    · subst hne; exact Bound_KeyStep (hb b) (sendEvent_Released_KeyStep env b e w w' h)
    · rcases sendEvent_Released_others env self e w w' h b hne with t | t
      · exact Bound_of_buttons_eq t (hb b)
      · exact t

theorem run_Bound (env : Env) (inputs : List Input) :
    ∀ (w w' : World), run env w inputs = .ok w' → (∀ b, Bound w b) → ∀ b, Bound w' b := by
  induction inputs with
  | nil => intro w w' h hb; simp only [run, pure_eq_ok] at h; subst h; exact hb
  | cons i rest ih =>
    intro w w' h hb
    simp only [run, bind_eq_ok] at h
    obtain ⟨w1, h1, h2⟩ := h
    exact ih w1 w' h2 (step_Bound env w w1 i h1 hb)

/-- In every configuration the controller can be in, a classifier without an active binding has
no pending instant. -/
theorem Reachable_Bound (env : Env) (w : World) (hr : Reachable env w) (b : Nat) : Bound w b := by
  obtain ⟨vigem, mainMotion, inputs, h⟩ := hr
  refine run_Bound env inputs _ w h ?_ b
  intro b _
  simp [World.init, World.impl, DigitalButton.new, DigitalButtonImpl.new]

/-- About `TapRelease::react(Released)` with active binding `m`: `k` events `OnInstantRelease` for the
pending instants, none unless the grace period has passed; then, when the tap duration of `m`
has passed, `OnTapRelease`, no active binding and `NoPress`, and otherwise nothing more. -/
theorem TapRelease_react_Released_bound (env : Env) (self : Nat) (e : Released) (w w' : World)
    (m : Mapping) (hk : (w.impl self)._keyToRelease = some m)
    (h : TapRelease.react_Released env self e w = .ok w') :
    ∃ k, k ≤ 2 ∧
      (GetPressDurationMS (w.impl self) e.time_now ≤ env.MAGIC_INSTANT_DURATION → k = 0) ∧
      (GetPressDurationMS (w.impl self) e.time_now > env.MAGIC_INSTANT_DURATION →
        (BtnEvent.OnRelease ∈ (w.impl self)._instantReleaseQueue → 1 ≤ k) ∧
        (BtnEvent.OnTap ∈ (w.impl self)._instantReleaseQueue → 1 ≤ k) ∧
        (BtnEvent.OnRelease ∈ (w.impl self)._instantReleaseQueue →
          BtnEvent.OnTap ∈ (w.impl self)._instantReleaseQueue → k = 2) ∧
        (BtnEvent.OnRelease ∉ (w.impl self)._instantReleaseQueue →
          BtnEvent.OnTap ∉ (w.impl self)._instantReleaseQueue → k = 0)) ∧
      (GetPressDurationMS (w.impl self) e.time_now > m.getTapDuration →
        w'.fired = w.fired ++ List.replicate k (self, m, .OnInstantRelease) ++
          [(self, m, .OnTapRelease)] ∧
        w'.getState self = .NoPress ∧ Idle w' self) ∧
      (GetPressDurationMS (w.impl self) e.time_now ≤ m.getTapDuration →
        w'.fired = w.fired ++ List.replicate k (self, m, .OnInstantRelease) ∧
        w'.getState self = w.getState self ∧ (w'.impl self)._keyToRelease = some m ∧
        (w'.impl self)._press_times = (w.impl self)._press_times) := by
  unfold TapRelease.react_Released at h
  simp only [bind_eq_ok] at h
  obtain ⟨w1, h1, h⟩ := h
  have s1 : ∃ k, k ≤ 2 ∧
      (GetPressDurationMS (w.impl self) e.time_now ≤ env.MAGIC_INSTANT_DURATION → k = 0) ∧
      (GetPressDurationMS (w.impl self) e.time_now > env.MAGIC_INSTANT_DURATION →
        (BtnEvent.OnRelease ∈ (w.impl self)._instantReleaseQueue → 1 ≤ k) ∧
        (BtnEvent.OnTap ∈ (w.impl self)._instantReleaseQueue → 1 ≤ k) ∧
        (BtnEvent.OnRelease ∈ (w.impl self)._instantReleaseQueue →
          BtnEvent.OnTap ∈ (w.impl self)._instantReleaseQueue → k = 2) ∧
        (BtnEvent.OnRelease ∉ (w.impl self)._instantReleaseQueue →
          BtnEvent.OnTap ∉ (w.impl self)._instantReleaseQueue → k = 0)) ∧
      Kept self (List.replicate k (self, m, .OnInstantRelease))
        (DigitalButtonState.react_Released env self w) w1 ∧
      (w1.impl self)._keyToRelease = some m := by
    simp only [react_Released_impl] at h1
    rcases ite_ok_cases h1 with ⟨hg, h1⟩ | ⟨hg, h1⟩
    · obtain ⟨k, hk2, kept, ky, c1, c2, c3, c4⟩ :=
        tapInstants_spec env self _ w1 m (by simpa using hk) h1
      simp only [react_Released_impl] at c1 c2 c3 c4
      exact ⟨k, hk2, fun hle => absurd hg (not_lt.mpr hle), fun _ => ⟨c1, c2, c3, c4⟩, kept, ky⟩
    · simp only [pure_eq_ok] at h1; subst h1
      exact ⟨0, by omega, fun _ => rfl, fun hgt => absurd hgt hg,
        by simpa using Kept_refl self _, by simpa using hk⟩
  obtain ⟨k, hk2, cle, cgt, kept, ky1⟩ := s1
  have hpress : (w1.impl self)._press_times = (w.impl self)._press_times := by
    rw [kept.press]; simp
  have hd : GetPressDurationMS (w1.impl self) e.time_now =
      GetPressDurationMS (w.impl self) e.time_now := by
    rw [GetPressDurationMS_eq, hpress, ← GetPressDurationMS_eq]
  refine ⟨k, hk2, cle, cgt, ?_, ?_⟩
  · intro hexp
    simp only [ky1, hd, hexp, decide_True, if_true, bind_eq_ok, pure_eq_ok] at h
    obtain ⟨w2, h2, rfl⟩ := h
    obtain ⟨m', hres, fk⟩ := GetPressMapping_ProcessEvent_spec env self _ w1 w2 h2
    rw [ky1] at hres
    have := Resolves_of_key hres
    subst this
    refine ⟨?_, ?_, Idle_ClearKey _ _⟩
    · rw [(ClearKey_facts self _).2.2.2.2.2.2.2.1, changeState_fired, fk.fired, kept.fired]
      simp
    · rw [(ClearKey_facts self _).2.2.1]
      exact changeState_getState_self _ _ _ (by decide)
  · intro hle
    have hn : ¬ GetPressDurationMS (w.impl self) e.time_now > m.getTapDuration := not_lt.mpr hle
    simp only [ky1, hd, hn, decide_False, Bool.false_eq_true, if_false, pure_eq_ok] at h
    subst h
    refine ⟨by rw [kept.fired]; simp, by rw [kept.state]; simp, ky1, hpress⟩

/-- About `TapRelease::react(Released)` without an active binding: `OnTapRelease` goes to the binding
resolved from the chord stack, and the classifier is idle in `NoPress`. -/
theorem TapRelease_react_Released_nokey (env : Env) (self : Nat) (e : Released) (w w' : World)
    (hk : (w.impl self)._keyToRelease = none)
    (h : TapRelease.react_Released env self e w = .ok w') :
    ∃ m, Resolves (env.mapping self) none
        (DigitalButtonState.react_Released env self w).common.chordStack m ∧
      w'.fired = w.fired ++ [(self, m, .OnTapRelease)] ∧
      w'.getState self = .NoPress ∧ Idle w' self := by
  unfold TapRelease.react_Released at h
  simp only [bind_eq_ok] at h
  obtain ⟨w1, h1, h⟩ := h
  have s1 : w1 = DigitalButtonState.react_Released env self w := by
    rcases ite_ok_cases h1 with ⟨_, h1⟩ | ⟨_, h1⟩
    · exact (tapInstants_nokey env self _ w1 (by simpa using hk) h1).1
    · simp only [pure_eq_ok] at h1; exact h1.symm
  subst s1
  simp only [react_Released_impl, hk, if_true, bind_eq_ok, pure_eq_ok] at h
  obtain ⟨w2, h2, rfl⟩ := h
  obtain ⟨m, hres, fk⟩ := GetPressMapping_ProcessEvent_spec env self _ _ w2 h2
  simp only [react_Released_impl, hk] at hres
  refine ⟨m, hres, ?_, ?_, Idle_ClearKey _ _⟩
  · rw [(ClearKey_facts self _).2.2.2.2.2.2.2.1, changeState_fired, fk.fired]
    simp
  · rw [(ClearKey_facts self _).2.2.1]
    exact changeState_getState_self _ _ _ (by decide)

/-- C31. On a `Released` input in `TapRelease`, in a configuration the controller can be in.
With an active binding `m` and an elapsed time that does not exceed the tap duration of `m`,
the classifier stays in `TapRelease` with `m` and `OnTapRelease` is not fired (only
`OnInstantRelease`, for pending instants). With an elapsed time above the tap duration,
`OnTapRelease` is fired on `m` after `k` events `OnInstantRelease`, the binding is cleared and
the classifier is in `NoPress`; when the tap duration is not below the instant grace period,
`k` counts one event for the instants queued under `OnRelease` and one for those queued under
`OnTap`. Without an active binding there is no pending instant, `OnTapRelease` is fired on the
binding resolved from the chord stack, and the classifier is in `NoPress` with no binding. -/
theorem TapRelease_Released (env : Env) (w w' : World) (hr : Reachable env w) (self : Nat)
    (e : Released) (hst : w.getState self = .TapRelease)
    (h : sendEvent_Released env self e w = .ok w') :
    (∀ m, (w.impl self)._keyToRelease = some m →
      GetPressDurationMS (w.impl self) e.time_now ≤ m.getTapDuration →
      w'.getState self = .TapRelease ∧ (w'.impl self)._keyToRelease = some m ∧
      ∃ k, w'.fired = w.fired ++ List.replicate k (self, m, .OnInstantRelease)) ∧
    (∀ m, (w.impl self)._keyToRelease = some m →
      GetPressDurationMS (w.impl self) e.time_now > m.getTapDuration →
      w'.getState self = .NoPress ∧ Idle w' self ∧
      ∃ k, w'.fired = w.fired ++ List.replicate k (self, m, .OnInstantRelease) ++
          [(self, m, .OnTapRelease)] ∧
        (env.MAGIC_INSTANT_DURATION ≤ m.getTapDuration →
          (BtnEvent.OnRelease ∈ (w.impl self)._instantReleaseQueue → 1 ≤ k) ∧
          (BtnEvent.OnTap ∈ (w.impl self)._instantReleaseQueue → 1 ≤ k) ∧
          (BtnEvent.OnRelease ∈ (w.impl self)._instantReleaseQueue →
            BtnEvent.OnTap ∈ (w.impl self)._instantReleaseQueue → k = 2))) ∧
    ((w.impl self)._keyToRelease = none →
      (w.impl self)._instantReleaseQueue = [] ∧
      w'.getState self = .NoPress ∧ Idle w' self ∧
      ∃ m, Resolves (env.mapping self) none
          (DigitalButtonState.react_Released env self w).common.chordStack m ∧
        w'.fired = w.fired ++ [(self, m, .OnTapRelease)]) := by
  unfold sendEvent_Released at h
  rw [hst] at h
  dsimp only at h
  refine ⟨?_, ?_, ?_⟩
  · intro m hk hle
    obtain ⟨k, _, _, _, _, c⟩ := TapRelease_react_Released_bound env self e w w' m hk h
    obtain ⟨fi, st, ky, _⟩ := c hle
    exact ⟨st.trans hst, ky, k, fi⟩
  · intro m hk hgt
    obtain ⟨k, _, _, cgt, c, _⟩ := TapRelease_react_Released_bound env self e w w' m hk h
    obtain ⟨fi, st, hi⟩ := c hgt
    refine ⟨st, hi, k, fi, ?_⟩
    intro hmagic
    obtain ⟨c1, c2, c3, _⟩ := cgt (lt_of_le_of_lt hmagic hgt)
    exact ⟨c1, c2, c3⟩
  · intro hk
    obtain ⟨m, hres, fi, st, hi⟩ := TapRelease_react_Released_nokey env self e w w' hk h
    exact ⟨Reachable_Bound env w hr self hk, st, hi, m, hres, fi⟩

/-- C31 on the tap sample controller. After a tap the instant registered under `OnTap` is
queued. A `Released` input 50 ms after the release, past the tap duration of 40 ms, fires
`OnInstantRelease` and then `OnTapRelease` and leaves the classifier in `NoPress`. -/
theorem TapRelease_Released_witness :
    Reachable tapDemo.toEnv (tapAfter tapInputs) ∧
    (tapAfter tapInputs).getState 0 = .TapRelease ∧
    ((tapAfter tapInputs).impl 0)._keyToRelease = some (parsedBinding "!A'") ∧
    ((tapAfter tapInputs).impl 0)._instantReleaseQueue = [.OnTap] ∧
    GetPressDurationMS ((tapAfter tapInputs).impl 0) (releasedAt 60).time_now >
      (parsedBinding "!A'").getTapDuration ∧
    tapDemo.toEnv.MAGIC_INSTANT_DURATION ≤ (parsedBinding "!A'").getTapDuration ∧
    eventsOf 0 (tapAfter (tapInputs ++ [.Released 0 (releasedAt 60)])) =
      [.OnPress, .OnRelease, .OnTap, .OnInstantRelease, .OnTapRelease] ∧
    ((getOk (step tapDemo.toEnv (tapAfter tapInputs) (.Released 0 (releasedAt 60)))
        (tapAfter tapInputs)).getState 0 = .NoPress ∧
      Idle (getOk (step tapDemo.toEnv (tapAfter tapInputs) (.Released 0 (releasedAt 60)))
        (tapAfter tapInputs)) 0 ∧
      ∃ k, (getOk (step tapDemo.toEnv (tapAfter tapInputs) (.Released 0 (releasedAt 60)))
          (tapAfter tapInputs)).fired =
          (tapAfter tapInputs).fired ++
            List.replicate k (0, parsedBinding "!A'", .OnInstantRelease) ++
            [(0, parsedBinding "!A'", .OnTapRelease)] ∧
        (tapDemo.toEnv.MAGIC_INSTANT_DURATION ≤ (parsedBinding "!A'").getTapDuration →
          (BtnEvent.OnRelease ∈ ((tapAfter tapInputs).impl 0)._instantReleaseQueue → 1 ≤ k) ∧
          (BtnEvent.OnTap ∈ ((tapAfter tapInputs).impl 0)._instantReleaseQueue → 1 ≤ k) ∧
          (BtnEvent.OnRelease ∈ ((tapAfter tapInputs).impl 0)._instantReleaseQueue →
            BtnEvent.OnTap ∈ ((tapAfter tapInputs).impl 0)._instantReleaseQueue → k = 2))) :=
  ⟨⟨false, true, tapInputs, eq_ok_getOk _ _ (by decide)⟩, by decide, by decide, by decide,
    by decide, by decide, by decide,
    (TapRelease_Released tapDemo.toEnv (tapAfter tapInputs)
      (getOk (step tapDemo.toEnv (tapAfter tapInputs) (.Released 0 (releasedAt 60)))
        (tapAfter tapInputs))
      ⟨false, true, tapInputs, eq_ok_getOk _ _ (by decide)⟩ 0 (releasedAt 60) (by decide)
      (eq_ok_getOk (step tapDemo.toEnv (tapAfter tapInputs) (.Released 0 (releasedAt 60)))
        (tapAfter tapInputs) (by decide))).2.1 (parsedBinding "!A'") (by decide) (by decide)⟩

theorem tapReleaseFired_append (self : Nat) (a b : List (Nat × Mapping × BtnEvent)) :
    tapReleaseFired self (a ++ b) = tapReleaseFired self a + tapReleaseFired self b := by
  simp [tapReleaseFired, List.countP_append]

theorem tapReleaseFired_OnlyInstant (self : Nat) (evts : List (Nat × Mapping × BtnEvent))
    (h : OnlyInstant self evts) : tapReleaseFired self evts = 0 := by
  unfold tapReleaseFired
  rw [List.countP_eq_zero]
  intro x hx
  have := (h x hx).2
  simp [this]

theorem OnlyTapRelease_append {self : Nat} {a b : List (Nat × Mapping × BtnEvent)}
    (ha : OnlyTapRelease self a) (hb : OnlyTapRelease self b) : OnlyTapRelease self (a ++ b) := by
  intro x hx
  rcases List.mem_append.mp hx with h | h
  · exact ha x h
  · exact hb x h

theorem OnlyTapRelease_of_OnlyInstant {self : Nat} {a : List (Nat × Mapping × BtnEvent)}
    (ha : OnlyInstant self a) : OnlyTapRelease self a :=
  fun x hx => ⟨(ha x hx).1, Or.inr (ha x hx).2⟩

/-- About `Pressed` ticks handled in `TapRelease`: the classifier stays in `TapRelease`, and each tick
fires one `OnTapRelease`. -/
theorem TapRelease_ticks (env : Env) (self : Nat) (ticks : List Pressed) :
    ∀ (w w' : World), w.getState self = .TapRelease →
      run env w (ticks.map (Input.Pressed self)) = .ok w' →
      w'.getState self = .TapRelease ∧ (ticks ≠ [] → Idle w' self) ∧
      ∃ evts, w'.fired = w.fired ++ evts ∧ OnlyTapRelease self evts ∧
        tapReleaseFired self evts = ticks.length := by
  induction ticks with
  | nil =>
    intro w w' hst h
    simp only [List.map_nil, run, pure_eq_ok] at h
    subst h
    exact ⟨hst, fun hn => absurd rfl hn, [], by simp, fun x hx => by simp at hx, rfl⟩
  | cons t rest ih =>
    intro w w' hst h
    simp only [List.map_cons, run, bind_eq_ok] at h
    obtain ⟨w1, h1, h2⟩ := h
    simp only [step, sendEvent_Pressed, hst] at h1
    obtain ⟨ir, m, hir, _, fi, st, hi, _⟩ := TapRelease_react_Pressed_any env self t w w1 h1
    obtain ⟨st', hi', evts, fi', only, cnt⟩ := ih w1 w' (st.trans hst) h2
    refine ⟨st', fun _ => ?_, ir ++ [(self, m, .OnTapRelease)] ++ evts, ?_, ?_, ?_⟩
    · cases rest with
      | nil =>
        simp only [List.map_nil, run, pure_eq_ok] at h2
        subst h2; exact hi
      | cons a as => exact hi' (by simp)
    · rw [fi', fi]; simp
    · refine OnlyTapRelease_append (OnlyTapRelease_append (OnlyTapRelease_of_OnlyInstant hir) ?_)
        only
      intro x hx
      simp only [List.mem_singleton] at hx
      subst hx
      exact ⟨rfl, Or.inl rfl⟩
    · rw [tapReleaseFired_append, tapReleaseFired_append, tapReleaseFired_OnlyInstant self ir hir,
        cnt]
      simp [tapReleaseFired]
      omega

/-- C32. A `Pressed` input handled in `TapRelease` fires `OnTapRelease` and clears the binding
but leaves the classifier in `TapRelease`, so the tap cycle does not end there: every further
`Pressed` tick fires `OnTapRelease` again, on the binding resolved anew from the chord stack,
and so does the `Released` input that finally takes the classifier to `NoPress`. For a
classifier in `TapRelease`, `n >= 1` `Pressed` ticks followed by a `Released` input fire
`OnTapRelease` `n + 1` times; apart from `OnInstantRelease` nothing else is fired, in
particular no `OnPress` for the new press. -/
theorem TapRelease_Pressed_repeats_OnTapRelease (env : Env) (w w' : World) (self : Nat)
    (ticks : List Pressed) (rel : Released) (hst : w.getState self = .TapRelease)
    (hne : ticks ≠ [])
    (h : run env w (ticks.map (Input.Pressed self) ++ [.Released self rel]) = .ok w') :
    w'.getState self = .NoPress ∧
    ∃ evts, w'.fired = w.fired ++ evts ∧ OnlyTapRelease self evts ∧
      tapReleaseFired self evts = ticks.length + 1 := by
  obtain ⟨w1, h1, h2⟩ := (run_append env _ _ w w').mp h
  obtain ⟨st, hi, evts, fi, only, cnt⟩ := TapRelease_ticks env self ticks w w1 hst h1
  rw [run_singleton] at h2
  simp only [step, sendEvent_Released, st] at h2
  obtain ⟨m, _, fi', st', _⟩ := TapRelease_react_Released_nokey env self rel w1 w' (hi hne).1 h2
  refine ⟨st', evts ++ [(self, m, .OnTapRelease)], by rw [fi', fi]; simp, ?_, ?_⟩
  · refine OnlyTapRelease_append only ?_
    intro x hx
    simp only [List.mem_singleton] at hx
    subst hx
    exact ⟨rfl, Or.inl rfl⟩
  · rw [tapReleaseFired_append, cnt]
    simp [tapReleaseFired]

/-- A run of the sample controller continued from the configuration a prefix leads to. -/
theorem run_from_demoAfter (l1 l2 : List Input)
    (h : succeeded (run demo demoInit (l1 ++ l2)) = true) :
    run demo (demoAfter l1) l2 = .ok (demoAfter (l1 ++ l2)) := by
  have h' := eq_ok_getOk (run demo demoInit (l1 ++ l2)) demoInit h
  obtain ⟨w1, h1, h2⟩ := (run_append demo l1 l2 demoInit _).mp h'
  have e1 : demoAfter l1 = w1 := by
    unfold demoAfter
    rw [h1]
    rfl
  rw [e1]
  exact h2

/-- C32 on the sample controller. After the tap of button 0, the second press (two `Pressed`
ticks) and its release fire `OnTapRelease` three times and no `OnPress`. -/
theorem TapRelease_Pressed_repeats_OnTapRelease_witness :
    (demoAfter (tapThenPressInputs.take 2)).getState 0 = .TapRelease ∧
    eventsOf 0 (demoAfter (tapThenPressInputs.take 2)) = [.OnPress, .OnRelease, .OnTap] ∧
    (demoAfter (tapThenPressInputs.take 3)).getState 0 = .TapRelease ∧
    eventsOf 0 (demoAfter tapThenPressInputs) =
      [.OnPress, .OnRelease, .OnTap, .OnTapRelease, .OnTapRelease, .OnTapRelease] ∧
    ((demoAfter tapThenPressInputs).getState 0 = .NoPress ∧
      ∃ evts, (demoAfter tapThenPressInputs).fired =
          (demoAfter (tapThenPressInputs.take 2)).fired ++ evts ∧
        OnlyTapRelease 0 evts ∧
        tapReleaseFired 0 evts = [pressedAt 20, pressedAt 30].length + 1) :=
  ⟨by decide, by decide, by decide, by decide,
    TapRelease_Pressed_repeats_OnTapRelease demo (demoAfter (tapThenPressInputs.take 2))
      (demoAfter tapThenPressInputs) 0 [pressedAt 20, pressedAt 30] (releasedAt 40) (by decide)
      (List.cons_ne_nil _ _)
      (run_from_demoAfter (tapThenPressInputs.take 2)
        ([pressedAt 20, pressedAt 30].map (Input.Pressed 0) ++ [.Released 0 (releasedAt 40)])
        (by decide))⟩

/-- C34. What a `Released` input does in the three cool-down states. In `SimRelease` the
classifier goes to `NoPress` with no active binding. In `TapRelease` it goes to `NoPress` with
no active binding when there is no active binding or the elapsed time exceeds its tap
duration. In `InstRelease` there is no reaction to `Released` beyond the basic one: the
classifier stays in `InstRelease`, with its binding, its queue and its press time, whatever the
elapsed time. -/
theorem cooldown_Released (env : Env) (w w' : World) (self : Nat) (e : Released)
    (h : sendEvent_Released env self e w = .ok w') :
    (w.getState self = .SimRelease → w'.getState self = .NoPress ∧ Idle w' self) ∧
    (w.getState self = .TapRelease →
      (∀ m, (w.impl self)._keyToRelease = some m →
        GetPressDurationMS (w.impl self) e.time_now > m.getTapDuration) →
      w'.getState self = .NoPress ∧ Idle w' self) ∧
    (w.getState self = .InstRelease →
      w' = DigitalButtonState.react_Released env self w ∧ w'.getState self = .InstRelease ∧
      w'.impl self = w.impl self) := by
  refine ⟨?_, ?_, ?_⟩
  · intro hst
    unfold sendEvent_Released at h
    rw [hst] at h
    simp only [SimRelease.react_Released, pure_eq_ok] at h
    subst h
    refine ⟨?_, Idle_ClearKey _ _⟩
    rw [(ClearKey_facts self _).2.2.1]
    exact changeState_getState_self _ _ _ (by decide)
  · intro hst hd
    unfold sendEvent_Released at h
    rw [hst] at h
    dsimp only at h
    cases hk : (w.impl self)._keyToRelease with
    | none =>
      obtain ⟨_, _, _, st, hi⟩ := TapRelease_react_Released_nokey env self e w w' hk h
      exact ⟨st, hi⟩
    | some m =>
      obtain ⟨_, _, _, _, c, _⟩ := TapRelease_react_Released_bound env self e w w' m hk h
      exact (c (hd m hk)).2
  · intro hst
    unfold sendEvent_Released at h
    rw [hst] at h
    simp only [pure_eq_ok] at h
    subst h
    exact ⟨rfl, by simpa using hst, by simp⟩

/-- C34 on the sample controller. After the hold of the button bound with the Instant modifier
the classifier is in `InstRelease`. The polls at 200 ms and 900 ms find the button at rest,
100 ms and 800 ms after the release, far past the grace period of 40 ms and the tap duration
of 40 ms: the classifier is still in `InstRelease`, with its binding and its pending
instant. -/
theorem cooldown_Released_witness :
    succeeded (run demo demoInit restAfterHoldInputs) = true ∧
    (demoAfter (restAfterHoldInputs.take 5)).getState 4 = .InstRelease ∧
    ((demoAfter (restAfterHoldInputs.take 5)).impl 4)._press_times = 100 * 1000000 ∧
    (releasedAt 900).time_now = 900 * 1000000 ∧
    demo.MAGIC_INSTANT_DURATION = 40 ∧ (instantBinding 71 "G").getTapDuration = 40 ∧
    (demoAfter restAfterHoldInputs).getState 4 = .InstRelease ∧
    ((demoAfter restAfterHoldInputs).impl 4)._keyToRelease = some (instantBinding 71 "G") ∧
    ((demoAfter restAfterHoldInputs).impl 4)._instantReleaseQueue = [.OnPress] ∧
    ((demoStep (demoAfter (restAfterHoldInputs.take 5)) (.Released 4 (releasedAt 900))) =
        DigitalButtonState.react_Released demo 4 (demoAfter (restAfterHoldInputs.take 5)) ∧
      (demoStep (demoAfter (restAfterHoldInputs.take 5))
        (.Released 4 (releasedAt 900))).getState 4 = .InstRelease ∧
      (demoStep (demoAfter (restAfterHoldInputs.take 5)) (.Released 4 (releasedAt 900))).impl 4 =
        (demoAfter (restAfterHoldInputs.take 5)).impl 4) :=
  ⟨by with_unfolding_all decide, by with_unfolding_all decide, by with_unfolding_all decide,
    by decide, by decide, by decide, by with_unfolding_all decide, by with_unfolding_all decide,
    by with_unfolding_all decide,
    (cooldown_Released demo (demoAfter (restAfterHoldInputs.take 5))
      (demoStep (demoAfter (restAfterHoldInputs.take 5)) (.Released 4 (releasedAt 900))) 4
      (releasedAt 900)
      (eq_ok_getOk (step demo (demoAfter (restAfterHoldInputs.take 5))
        (.Released 4 (releasedAt 900))) (demoAfter (restAfterHoldInputs.take 5))
        (by with_unfolding_all decide))).2.2 (by with_unfolding_all decide)⟩

theorem SameButtons_react_Pressed (env : Env) (b : Nat) (w : World) :
    SameButtons w (DigitalButtonState.react_Pressed env b w) := ⟨by simp, by simp⟩

/-- A tick of the slave while the master is in `SimPress` performs the basic press reaction
only. -/
theorem slave_tick (env : Env) (w w' : World) (self master : Nat) (e : Pressed)
    (hst : w.getState self = .SimPress) (hm : (w.impl self)._simPressMaster = some master)
    (hmst : w.getState master = .SimPress) (h : sendEvent_Pressed env self e w = .ok w') :
    w' = DigitalButtonState.react_Pressed env self w := by
  unfold sendEvent_Pressed at h
  rw [hst] at h
  unfold SimPress.react_Pressed at h
  simp only [react_Pressed_impl, hm, react_Pressed_getState, hmst, ne_eq, not_true_eq_false,
    if_false, pure_eq_ok] at h
  exact h.symm

/-- A tick of the master before its hold time, with no instant of its own registered under
`OnPress`, performs the basic press reaction only. -/
theorem master_tick (env : Env) (w w' : World) (master : Nat) (e : Pressed)
    (hmst : w.getState master = .SimPress) (hmm : (w.impl master)._simPressMaster = none)
    (hmt : (w.impl master)._turboCount = 0)
    (hmq : BtnEvent.OnPress ∉ (w.impl master)._instantReleaseQueue)
    (hle : GetPressDurationMS (w.impl master) e.time_now ≤ e.holdTime)
    (h : sendEvent_Pressed env master e w = .ok w') :
    w' = DigitalButtonState.react_Pressed env master w := by
  unfold sendEvent_Pressed at h
  rw [hmst] at h
  unfold SimPress.react_Pressed at h
  simp only [react_Pressed_impl, hmm] at h
  unfold ProcessEvent_Pressed at h
  simp only [react_Pressed_impl, hmt, if_true, if_neg (not_lt.mpr hle), bind_eq_ok,
    pure_eq_ok, exists_eq_right] at h
  rcases ite_ok_cases h with ⟨_, h⟩ | ⟨_, h⟩
  · rcases CheckInstantRelease_spec env master _ _ w' h with ⟨_, rfl⟩ | ⟨hin, _⟩
    · rfl
    · exact absurd (by simpa using hin) hmq
  · simp only [pure_eq_ok] at h; exact h.symm

theorem held_ticks_fire_nothing (env : Env) (self master : Nat) (w : World)
    (inputs : List Input) :
    ∀ (w1 w' : World), w1.buttons = w.buttons → w1.fired = w.fired →
      w.getState self = .SimPress → (w.impl self)._simPressMaster = some master →
      w.getState master = .SimPress → (w.impl master)._simPressMaster = none →
      (w.impl master)._turboCount = 0 →
      BtnEvent.OnPress ∉ (w.impl master)._instantReleaseQueue →
      (∀ i ∈ inputs, HeldTick w self master i) →
      run env w1 inputs = .ok w' → w'.buttons = w.buttons ∧ w'.fired = w.fired := by
  induction inputs with
  | nil =>
    intro w1 w' hb hf _ _ _ _ _ _ _ h
    simp only [run, pure_eq_ok] at h; subst h; exact ⟨hb, hf⟩
  | cons i rest ih =>
    intro w1 w' hb hf hst hm hmst hmm hmt hmq hin h
    simp only [run, bind_eq_ok] at h
    obtain ⟨w2, h1, h2⟩ := h
    have himpl : ∀ b, w1.impl b = w.impl b := fun b => by simp [World.impl, hb]
    have hstate : ∀ b, w1.getState b = w.getState b := fun b => by simp [World.getState, hb]
    have key : w2.buttons = w.buttons ∧ w2.fired = w.fired := by
      obtain ⟨e, hi | ⟨hi, hle⟩⟩ := hin i (List.mem_cons_self _ _)
      · subst hi
        have := slave_tick env w1 w2 self master e (by rw [hstate]; exact hst)
          (by rw [himpl]; exact hm) (by rw [hstate]; exact hmst) h1
        subst this
        exact ⟨by simpa using hb, by simpa using hf⟩
      · subst hi
        have := master_tick env w1 w2 master e (by rw [hstate]; exact hmst)
          (by rw [himpl]; exact hmm) (by rw [himpl]; exact hmt) (by rw [himpl]; exact hmq)
          (by rw [himpl]; exact hle) h1
        subst this
        exact ⟨by simpa using hb, by simpa using hf⟩
    exact ih w2 w' key.1 key.2 hst hm hmst hmm hmt hmq
      (fun j hj => hin j (List.mem_cons_of_mem _ hj)) h2

/-- C35. For a sim-press pair after the rendezvous (slave and master in `SimPress`, the master
without turbo count and without an instant of its own registered under `OnPress`): `Pressed`
ticks of the two classifiers, whatever their elapsed time as long as the master has not reached
its hold time, fire no binding event at all, so no `OnInstantRelease`, and leave every
classifier as it was; in particular the instant that the rendezvous registered in the queue of
the slave is still there. -/
theorem sim_press_instant_stays_queued (env : Env) (w w' : World) (self master : Nat)
    (inputs : List Input) (hst : w.getState self = .SimPress)
    (hm : (w.impl self)._simPressMaster = some master)
    (hmst : w.getState master = .SimPress) (hmm : (w.impl master)._simPressMaster = none)
    (hmt : (w.impl master)._turboCount = 0)
    (hmq : BtnEvent.OnPress ∉ (w.impl master)._instantReleaseQueue)
    (hin : ∀ i ∈ inputs, HeldTick w self master i)
    (h : run env w inputs = .ok w') :
    w'.fired = w.fired ∧ w'.buttons = w.buttons ∧
    (w'.impl self)._instantReleaseQueue = (w.impl self)._instantReleaseQueue := by
  obtain ⟨hb, hf⟩ := held_ticks_fire_nothing env self master w inputs w w' rfl rfl hst hm hmst
    hmm hmt hmq hin h
  exact ⟨hf, hb, by simp [World.impl, hb]⟩

/-- A run continued from the configuration a prefix leads to. -/
theorem run_continue (env : Env) (init : World) (l1 l2 : List Input)
    (h : succeeded (run env init (l1 ++ l2)) = true) :
    run env (getOk (run env init l1) init) l2 = .ok (getOk (run env init (l1 ++ l2)) init) := by
  have h' := eq_ok_getOk (run env init (l1 ++ l2)) init h
  obtain ⟨w1, h1, h2⟩ := (run_append env l1 l2 init _).mp h'
  have e1 : getOk (run env init l1) init = w1 := by
    rw [h1]
    rfl
  rw [e1]
  exact h2

/-- C35 on the second sample controller. The rendezvous fires `OnPress` on the slave (button 2)
and registers the instant in the slave's queue. The ticks at 60 ms and 100 ms, past the grace
period of 40 ms and before the hold time, fire nothing. After the release of both buttons every
classifier is back in `NoPress` and `OnInstantRelease` was never fired: key `S` was pressed and
is never released. -/
theorem sim_press_instant_stays_queued_witness :
    (succeeded (run simInstantDemo simInstantInit simInstantInputs) = true ∧
    (simInstantAfter (simInstantInputs.take 4)).getState 2 = .SimPress ∧
    ((simInstantAfter (simInstantInputs.take 4)).impl 2)._simPressMaster = some 3 ∧
    (simInstantAfter (simInstantInputs.take 4)).getState 3 = .SimPress ∧
    ((simInstantAfter (simInstantInputs.take 4)).impl 3)._simPressMaster = none ∧
    ((simInstantAfter (simInstantInputs.take 4)).impl 2)._keyToRelease =
      some (instantBinding 83 "S") ∧
    eventsOf 2 (simInstantAfter (simInstantInputs.take 4)) = [.OnPress] ∧
    ((simInstantAfter (simInstantInputs.take 4)).impl 2)._instantReleaseQueue = [.OnPress] ∧
    ((simInstantAfter (simInstantInputs.take 4)).impl 3)._instantReleaseQueue = [] ∧
    ((simInstantAfter (simInstantInputs.take 4)).impl 2)._press_times = 10 * 1000000 ∧
    (pressedAt 100).time_now = 100 * 1000000 ∧ simInstantDemo.MAGIC_INSTANT_DURATION = 40 ∧
    (simInstantAfter simInstantInputs).getState 2 = .NoPress ∧
    (simInstantAfter simInstantInputs).getState 3 = .NoPress ∧
    (simInstantAfter simInstantInputs).fired.map (fun x => (x.1, x.2.2)) =
      [(2, .OnPress), (3, .OnRelease), (3, .OnTap), (2, .OnTapRelease)] ∧
    Effect.pressKey ⟨83, "S"⟩ true ∈ (simInstantAfter simInstantInputs).log ∧
    Effect.pressKey ⟨83, "S"⟩ false ∉ (simInstantAfter simInstantInputs).log) ∧
    ((simInstantAfter (simInstantInputs.take 8)).fired =
        (simInstantAfter (simInstantInputs.take 4)).fired ∧
      (simInstantAfter (simInstantInputs.take 8)).buttons =
        (simInstantAfter (simInstantInputs.take 4)).buttons ∧
      ((simInstantAfter (simInstantInputs.take 8)).impl 2)._instantReleaseQueue =
        ((simInstantAfter (simInstantInputs.take 4)).impl 2)._instantReleaseQueue) :=
  ⟨by decide,
    sim_press_instant_stays_queued simInstantDemo (simInstantAfter (simInstantInputs.take 4))
      (simInstantAfter (simInstantInputs.take 8)) 2 3
      [.Pressed 2 (pressedAt 60), .Pressed 3 (pressedAt 60), .Pressed 2 (pressedAt 100),
        .Pressed 3 (pressedAt 100)]
      (by decide) (by decide) (by decide) (by decide) (by decide) (by decide)
      (fun i hi => by
        simp only [List.mem_cons, List.mem_singleton, List.not_mem_nil, or_false] at hi
        rcases hi with rfl | rfl | rfl | rfl
        · exact ⟨pressedAt 60, Or.inl rfl⟩
        · exact ⟨pressedAt 60, Or.inr ⟨rfl, by with_unfolding_all decide⟩⟩
        · exact ⟨pressedAt 100, Or.inl rfl⟩
        · exact ⟨pressedAt 100, Or.inr ⟨rfl, by with_unfolding_all decide⟩⟩)
      (run_continue simInstantDemo simInstantInit (simInstantInputs.take 4)
        [.Pressed 2 (pressedAt 60), .Pressed 3 (pressedAt 60), .Pressed 2 (pressedAt 100),
          .Pressed 3 (pressedAt 100)] (by decide))⟩

theorem Callback.runs_refl (c : Callback) : Callback.runs c c = true := by
  cases c <;> simp [Callback.runs]

theorem Callback.runs_left (a c d : Callback) (h : Callback.runs a c = true) :
    Callback.runs a (.RunBothActions c d) = true := by
  simp [Callback.runs, h]

theorem Callback.runs_right (a c d : Callback) (h : Callback.runs a d = true) :
    Callback.runs a (.RunBothActions c d) = true := by
  simp [Callback.runs, h]

theorem runsOn_insert_self (m : Mapping) (e : BtnEvent) (a x : Callback)
    (h : Callback.runs x a = true) : (m.InsertEventMapping e a).runsOn e x := by
  unfold Mapping.runsOn
  rw [find_insert_self]
  cases m.find e with
  | none => exact ⟨_, rfl, h⟩
  | some c => exact ⟨_, rfl, Callback.runs_right _ _ _ h⟩

theorem runsOn_insert_keep (m : Mapping) (e e' : BtnEvent) (a x : Callback)
    (h : m.runsOn e' x) : (m.InsertEventMapping e a).runsOn e' x := by
  obtain ⟨entry, hf, hr⟩ := h
  by_cases he : e' = e
  · subst he
    unfold Mapping.runsOn
    rw [find_insert_self, hf]
    exact ⟨_, rfl, Callback.runs_left _ _ _ hr⟩
  · unfold Mapping.runsOn
    rw [find_insert_other m e e' a he]
    exact ⟨entry, hf, hr⟩

theorem runsOn_congr (m m1 : Mapping) (h : m1._eventMapping = m._eventMapping) (e : BtnEvent)
    (x : Callback) : m1.runsOn e x ↔ m.runsOn e x := by
  unfold Mapping.runsOn Mapping.find
  rw [h]

theorem boundAs_congr (m m1 : Mapping) (h : m1._eventMapping = m._eventMapping) (key : KeyCode)
    (apply release : Callback) (actMod : ActionModifier) (applyEvt releaseEvt : BtnEvent) :
    m1.boundAs key apply release actMod applyEvt releaseEvt ↔
      m.boundAs key apply release actMod applyEvt releaseEvt := by
  unfold Mapping.boundAs
  cases actMod <;> simp only [runsOn_congr m m1 h]

theorem boundAs_mono (m m' : Mapping) (hk : ∀ e x, m.runsOn e x → m'.runsOn e x) (key : KeyCode)
    (apply release : Callback) (actMod : ActionModifier) (applyEvt releaseEvt : BtnEvent)
    (h : m.boundAs key apply release actMod applyEvt releaseEvt) :
    m'.boundAs key apply release actMod applyEvt releaseEvt := by
  unfold Mapping.boundAs at h ⊢
  cases actMod with
  | None => exact ⟨hk _ _ h.1, hk _ _ h.2⟩
  | Toggle => exact hk _ _ h
  | Instant => exact ⟨hk _ _ h.1, hk _ _ h.2.1, hk _ _ h.2.2⟩
  | INVALID => exact h

/-- The apply and release actions of a key do not depend on the binding they are added to. -/
theorem keyActions_actions (P : MappingEnv) (m m' : Mapping) (key : KeyCode)
    (apply release : Callback) (m1 : Mapping)
    (h : Mapping.keyActions P m key = .ok (some (apply, release, m1))) :
    ∃ m1', Mapping.keyActions P m' key = .ok (some (apply, release, m1')) := by
  unfold Mapping.keyActions at h ⊢
  rcases ite_ok_cases h with ⟨c1, h⟩ | ⟨c1, h⟩
  · simp only [pure_eq_ok, Option.some.injEq, Prod.mk.injEq] at h
    obtain ⟨rfl, rfl, _⟩ := h
    rw [if_pos c1]
    exact ⟨_, rfl⟩
  rw [if_neg c1]
  rcases ite_ok_cases h with ⟨c2, h⟩ | ⟨c2, h⟩
  · simp only [pure_eq_ok, Option.some.injEq, Prod.mk.injEq] at h
    obtain ⟨rfl, rfl, _⟩ := h
    rw [if_pos c2]
    exact ⟨_, rfl⟩
  rw [if_neg c2]
  rcases ite_ok_cases h with ⟨c3, h⟩ | ⟨c3, h⟩
  · rw [if_pos c3]
    cases hv : P._isCommandValid with
    | none => rw [hv] at h; simp only [throw_ne_ok] at h
    | some valid =>
      rw [hv] at h
      simp only at h ⊢
      rcases ite_ok_cases h with ⟨c4, h⟩ | ⟨c4, h⟩
      · simp only [pure_eq_ok, Option.some.injEq, Prod.mk.injEq] at h
        obtain ⟨rfl, rfl, _⟩ := h
        rw [if_pos c4]
        exact ⟨_, rfl⟩
      · simp only [pure_eq_ok] at h
        cases h
  rw [if_neg c3]
  rcases ite_ok_cases h with ⟨c4, h⟩ | ⟨c4, h⟩
  · rw [if_pos c4]
    rcases ite_ok_cases h with ⟨c5, h⟩ | ⟨c5, h⟩
    · simp only [throw_ne_ok] at h
    · rw [if_neg c5]
      simp only [bind_eq_ok, pure_eq_ok, Option.some.injEq, Prod.mk.injEq] at h ⊢
      obtain ⟨raw, hraw, rfl, rfl, _⟩ := h
      exact ⟨_, raw, hraw, rfl, rfl, rfl⟩
  · rw [if_neg c4]
    simp only [pure_eq_ok, Option.some.injEq, Prod.mk.injEq] at h
    obtain ⟨rfl, rfl, _⟩ := h
    exact ⟨_, rfl⟩

/-- A call of `AddMapping` that returns true keeps what the table ran before and binds the key:
its actions are those of `keyActions`, on the events of the event modifier. -/
theorem AddMapping_true_bound (P : MappingEnv) (m m' : Mapping) (key : KeyCode)
    (evtMod : EventModifier) (actMod : ActionModifier)
    (h : m.AddMapping P key evtMod actMod = .ok (true, m')) :
    (∀ e x, m.runsOn e x → m'.runsOn e x) ∧
    ∃ apply release m1 applyEvt releaseEvt,
      Mapping.keyActions P m key = .ok (some (apply, release, m1)) ∧
      evtMod.events = some (applyEvt, releaseEvt) ∧
      m'.boundAs key apply release actMod applyEvt releaseEvt := by
  unfold Mapping.AddMapping at h
  simp only [bind_eq_ok] at h
  obtain ⟨ka, hka, h⟩ := h
  cases ka with
  | none => simp [pure_eq_ok] at h
  | some v =>
    obtain ⟨apply, release, m1⟩ := v
    have ht := keyActions_table P m key apply release m1 hka
    simp only at h
    cases he : evtMod.events with
    | none => rw [he] at h; simp [pure_eq_ok] at h
    | some ev =>
      obtain ⟨applyEvt, releaseEvt⟩ := ev
      rw [he] at h
      have keep : ∀ (ap rl : Callback) (re : BtnEvent),
          m' = (if evtMod = .TurboPress then
              ((m1.InsertEventMapping re rl).InsertEventMapping applyEvt ap).InsertEventMapping
                .OnRelease rl
            else (m1.InsertEventMapping re rl).InsertEventMapping applyEvt ap) →
          (∀ e x, m.runsOn e x → m'.runsOn e x) ∧
          (∀ x, Callback.runs x ap = true → m'.runsOn applyEvt x) ∧
          (∀ x, Callback.runs x rl = true → m'.runsOn re x) := by
        intro ap rl re hm'
        have h1 : ∀ e x, m.runsOn e x → (m1.InsertEventMapping re rl).runsOn e x :=
          fun e x hx => runsOn_insert_keep _ _ _ _ _ ((runsOn_congr m m1 ht e x).mpr hx)
        have h2 : ∀ x, Callback.runs x rl = true → (m1.InsertEventMapping re rl).runsOn re x :=
          fun x hx => runsOn_insert_self _ _ _ _ hx
        subst hm'
        split_ifs
        · exact ⟨fun e x hx => runsOn_insert_keep _ _ _ _ _
              (runsOn_insert_keep _ _ _ _ _ (h1 e x hx)),
            fun x hx => runsOn_insert_keep _ _ _ _ _ (runsOn_insert_self _ _ _ _ hx),
            fun x hx => runsOn_insert_keep _ _ _ _ _ (runsOn_insert_keep _ _ _ _ _ (h2 x hx))⟩
        · exact ⟨fun e x hx => runsOn_insert_keep _ _ _ _ _ (h1 e x hx),
            fun x hx => runsOn_insert_self _ _ _ _ hx,
            fun x hx => runsOn_insert_keep _ _ _ _ _ (h2 x hx)⟩
      cases actMod <;> simp only [pure_eq_ok, Prod.mk.injEq, true_and, Bool.false_eq_true,
        false_and] at h
      · obtain ⟨k1, k2, k3⟩ := keep _ _ _ h.symm
        exact ⟨k1, apply, release, m1, applyEvt, releaseEvt, hka, rfl,
          k2 _ (Callback.runs_refl _), k3 _ (Callback.runs_refl _)⟩
      · obtain ⟨k1, k2, k3⟩ := keep _ _ _ h.symm
        exact ⟨k1, apply, release, m1, applyEvt, releaseEvt, hka, rfl,
          k2 _ (Callback.runs_left _ _ _ (Callback.runs_refl _)),
          k2 _ (Callback.runs_right _ _ _ (Callback.runs_refl _)),
          k3 _ (Callback.runs_refl _)⟩
      · obtain ⟨k1, k2, k3⟩ := keep _ _ _ h.symm
        exact ⟨k1, apply, release, m1, applyEvt, releaseEvt, hka, rfl,
          k2 _ (Callback.runs_refl _)⟩

/-- Every target of a list that `AddMapping` accepted in full is bound in the final table. -/
theorem addTargets_bound (P : MappingEnv) : ∀ (pre : List Target) (m mf : Mapping),
    addTargets P m pre = some mf →
    (∀ e x, m.runsOn e x → mf.runsOn e x) ∧
    ∀ t ∈ pre, ∃ apply release m0 m1 applyEvt releaseEvt,
      Mapping.keyActions P m0 t.key = .ok (some (apply, release, m1)) ∧
      t.evtMod.events = some (applyEvt, releaseEvt) ∧
      mf.boundAs t.key apply release t.actMod applyEvt releaseEvt
  | [], m, mf, h => by
    simp only [addTargets, Option.some.injEq] at h
    subst h
    exact ⟨fun _ _ hx => hx, fun t ht => absurd ht (List.not_mem_nil t)⟩
  | t :: ts, m, mf, h => by
    simp only [addTargets] at h
    cases ha : m.AddMapping P t.key t.evtMod t.actMod with
    | error f => rw [ha] at h; simp at h
    | ok v =>
      obtain ⟨ok, m1⟩ := v
      rw [ha] at h
      cases ok with
      | false => simp at h
      | true =>
        simp only at h
        obtain ⟨hk, ap, rl, mk, ae, re, hka, hev, hb⟩ := AddMapping_true_bound P m m1 _ _ _ ha
        obtain ⟨hk', hrest⟩ := addTargets_bound P ts m1 mf h
        refine ⟨fun e x hx => hk' e x (hk e x hx), ?_⟩
        intro t' ht'
        rcases List.mem_cons.mp ht' with rfl | ht'
        · exact ⟨ap, rl, m, mk, ae, re, hka, hev, boundAs_mono m1 mf hk' _ _ _ _ _ _ hb⟩
        · exact hrest t' ht'

/-- C14. The parse of every text ends. In a parse that ends without an exception, a target
written without an event-modifier suffix (empty fourth group) is handed to `AddMapping` with
this event modifier: the 1st target (index 0) with StartPress when no text follows it and with
TapPress when text follows; the 2nd target with HoldPress; a 3rd or later target is not added
and the failure flag is set. When the target was added, the event table of the parsed binding
holds it under the events of that modifier: with `apply` and `release` the actions of its key,
the table binds them on `OnPress` and `OnRelease` (1st target, no text following), on `OnTap`
and `OnTapRelease` (1st target, text following), on `OnHold` and `OnHoldRelease` (2nd
target), in the form its action modifier asks for. The targets added are the calls of
`AddMapping` that built the event table. -/
theorem default_event_modifier (P : MappingEnv) (content : List Char) (m : Mapping) :
    ∃ out, operator_extract P content m = some out ∧ ∀ r, out = .ok r →
      (∀ i t, r.targets.get? i = some t → t.results.evtMod = [] →
        (i = 0 → t.evtMod = if t.results.leftovers = [] then .StartPress else .TapPress) ∧
        (i = 1 → t.evtMod = .HoldPress) ∧
        (2 ≤ i → t.added = false ∧ r.failbit = true) ∧
        (t.added = true → ∃ apply release m1,
          Mapping.keyActions P m t.key = .ok (some (apply, release, m1)) ∧
          (i = 0 → t.results.leftovers = [] →
            r.mapping.boundAs t.key apply release t.actMod .OnPress .OnRelease) ∧
          (i = 0 → t.results.leftovers ≠ [] →
            r.mapping.boundAs t.key apply release t.actMod .OnTap .OnTapRelease) ∧
          (i = 1 → r.mapping.boundAs t.key apply release t.actMod .OnHold .OnHoldRelease))) ∧
      ∃ mf, addTargets P { m with _command := String.mk (getline content).1 }
          (r.targets.filter fun t => t.added) = some mf ∧
        r.mapping._eventMapping = mf._eventMapping := by
  apply operator_extract_cases
  intro r h
  obtain ⟨r0, hfail, hmap, facts⟩ := operator_extract_facts P content m r h
  constructor
  · intro i t hi hsuf
    have hc := facts.counts i t hi
    have hmem : t ∈ r.targets := List.get?_mem hi
    obtain ⟨_, hevt, _, hrej⟩ := facts.formed t hmem
    rw [hsuf] at hevt
    simp only [Nat.zero_add] at hc
    rw [hc] at hevt
    have e0 : i = 0 → t.evtMod = if t.results.leftovers = [] then .StartPress else .TapPress := by
      intro h0
      subst h0
      rw [hevt]
      simp [defaultEvtMod, readEvtMod]
    have e1 : i = 1 → t.evtMod = .HoldPress := by
      intro h1
      subst h1
      rw [hevt]
      simp [defaultEvtMod, readEvtMod]
    refine ⟨e0, e1, ?_, ?_⟩
    · intro h2
      have hnone : t.evtMod = .None := by
        rw [hevt]
        have h0 : ¬ i = 0 := by omega
        have h1 : ¬ i = 1 := by omega
        simp [defaultEvtMod, readEvtMod, h0, h1]
      have ha : t.added = false := by
        apply hrej
        unfold rejected
        rw [hnone, hc]
        simp [h2]
      exact ⟨ha, failbit_of_not_added P content m r h t hmem ha⟩
    · intro hadd
      obtain ⟨pre, hpre, hcase⟩ := facts.last
      have hfound : ∃ mf, addTargets P { m with _command := String.mk (getline content).1 } pre
          = some mf ∧ r0.mapping._eventMapping = mf._eventMapping ∧ t ∈ pre := by
        rcases hcase with ⟨hnew, mf, hmf, htab⟩ | ⟨t0, ht0, hnew, mf, hmf, htab⟩
        · exact ⟨mf, hmf, htab, hnew ▸ hmem⟩
        · refine ⟨mf, hmf, htab, ?_⟩
          rw [hnew] at hmem
          rcases List.mem_append.mp hmem with hp | hl
          · exact hp
          · rw [List.mem_singleton] at hl
            rw [hl, ht0] at hadd
            cases hadd
      obtain ⟨mf, hmf, htab, hin⟩ := hfound
      obtain ⟨_, hbound⟩ := addTargets_bound P pre _ mf hmf
      obtain ⟨apply, release, m0, mk, ae, re, hka, hev, hb⟩ := hbound t hin
      obtain ⟨mk', hka'⟩ := keyActions_actions P m0 m t.key apply release mk hka
      have hb' : r.mapping.boundAs t.key apply release t.actMod ae re := by
        rw [hmap]
        exact (boundAs_congr mf r0.mapping htab _ _ _ _ _ _).mpr hb
      refine ⟨apply, release, mk', hka', ?_, ?_, ?_⟩
      · intro h0 hl
        have := e0 h0
        rw [if_pos hl] at this
        rw [this] at hev
        simp only [EventModifier.events, Option.some.injEq, Prod.mk.injEq] at hev
        obtain ⟨rfl, rfl⟩ := hev
        exact hb'
      · intro h0 hl
        have := e0 h0
        rw [if_neg hl] at this
        rw [this] at hev
        simp only [EventModifier.events, Option.some.injEq, Prod.mk.injEq] at hev
        obtain ⟨rfl, rfl⟩ := hev
        exact hb'
      · intro h1
        rw [e1 h1] at hev
        simp only [EventModifier.events, Option.some.injEq, Prod.mk.injEq] at hev
        obtain ⟨rfl, rfl⟩ := hev
        exact hb'
  · obtain ⟨pre, hpre, hcase⟩ := facts.last
    have hfilter : pre.filter (fun t => t.added) = pre :=
      List.filter_eq_self.mpr fun x hx => hpre x hx
    rcases hcase with ⟨hnew, mf, hmf, htab⟩ | ⟨t0, ht0, hnew, mf, hmf, htab⟩
    · refine ⟨mf, ?_, by rw [hmap]; exact htab⟩
      rw [hnew, hfilter]; exact hmf
    · refine ⟨mf, ?_, by rw [hmap]; exact htab⟩
      rw [hnew, List.filter_append, hfilter]
      simp [ht0, hmf]

/-- C14 on sample texts: `A B C` binds `A` as a tap and `B` as a hold and fails at `C`; `A`
alone binds `A` on press and release; the event tables are written out. -/
theorem default_event_modifier_witness :
    (parsedTargets (demoExtract "A B C") =
      [(⟨65, "A"⟩, .TapPress, .None, true), (⟨66, "B"⟩, .HoldPress, .None, true),
       (⟨67, "C"⟩, .None, .None, false)] ∧
    parseFailed (demoExtract "A B C") = true ∧
    parsedTable (demoExtract "A B C") =
      [(.OnTapRelease, .ApplyBtnRelease ⟨65, "A"⟩), (.OnTap, .ApplyBtnPress ⟨65, "A"⟩),
       (.OnHoldRelease, .ApplyBtnRelease ⟨66, "B"⟩), (.OnHold, .ApplyBtnPress ⟨66, "B"⟩)] ∧
    parsedTargets (demoExtract "A") = [(⟨65, "A"⟩, .StartPress, .None, true)] ∧
    parsedTable (demoExtract "A") =
      [(.OnRelease, .ApplyBtnRelease ⟨65, "A"⟩), (.OnPress, .ApplyBtnPress ⟨65, "A"⟩)] ∧
    parsedTable (demoExtract "^A !B") =
      [(.OnTapRelease, .empty),
       (.OnTap, .ApplyButtonToggle ⟨65, "A"⟩ (.ApplyBtnPress ⟨65, "A"⟩)
         (.ApplyBtnRelease ⟨65, "A"⟩)),
       (.OnInstantRelease, .ApplyBtnRelease ⟨66, "B"⟩),
       (.OnHold, .RunBothActions (.ApplyBtnPress ⟨66, "B"⟩) (.RegisterInstant .OnHold))]) ∧
    ∃ out, operator_extract demoParse "A B C".data emptyMapping = some out ∧ ∀ r, out = .ok r →
      (∀ i t, r.targets.get? i = some t → t.results.evtMod = [] →
        (i = 0 → t.evtMod = if t.results.leftovers = [] then .StartPress else .TapPress) ∧
        (i = 1 → t.evtMod = .HoldPress) ∧
        (2 ≤ i → t.added = false ∧ r.failbit = true) ∧
        (t.added = true → ∃ apply release m1,
          Mapping.keyActions demoParse emptyMapping t.key = .ok (some (apply, release, m1)) ∧
          (i = 0 → t.results.leftovers = [] →
            r.mapping.boundAs t.key apply release t.actMod .OnPress .OnRelease) ∧
          (i = 0 → t.results.leftovers ≠ [] →
            r.mapping.boundAs t.key apply release t.actMod .OnTap .OnTapRelease) ∧
          (i = 1 → r.mapping.boundAs t.key apply release t.actMod .OnHold .OnHoldRelease))) ∧
      ∃ mf, addTargets demoParse
          { emptyMapping with _command := String.mk (getline "A B C".data).1 }
          (r.targets.filter fun t => t.added) = some mf ∧
        r.mapping._eventMapping = mf._eventMapping :=
  ⟨by decide, default_event_modifier demoParse "A B C".data emptyMapping⟩

/-- The apply and release actions `keyActions` pairs: one of five kinds, by kind of key. -/
theorem keyActions_kinds (P : MappingEnv) (m : Mapping) (key : KeyCode)
    (apply release : Callback) (m1 : Mapping)
    (h : Mapping.keyActions P m key = .ok (some (apply, release, m1))) :
    (apply = .ApplyBtnPress key ∧ release = .ApplyBtnRelease key) ∨
    (apply = .ApplyGyroAction key ∧ release = .RemoveGyroAction) ∨
    (apply = .WriteToConsole key.name ∧ release = .empty) ∨
    (∃ s b, apply = .SetRumble s b ∧ release = .SetRumble 0 0) ∨
    (apply = .StartCalibration ∧ release = .FinishCalibration) := by
  unfold Mapping.keyActions at h
  rcases ite_ok_cases h with ⟨_, h⟩ | ⟨_, h⟩
  · simp only [pure_eq_ok, Option.some.injEq, Prod.mk.injEq] at h
    obtain ⟨rfl, rfl, _⟩ := h
    simp
  rcases ite_ok_cases h with ⟨_, h⟩ | ⟨_, h⟩
  · simp only [pure_eq_ok, Option.some.injEq, Prod.mk.injEq] at h
    obtain ⟨rfl, rfl, _⟩ := h
    simp
  rcases ite_ok_cases h with ⟨_, h⟩ | ⟨_, h⟩
  · split at h
    · simp only [throw_ne_ok] at h
    · rcases ite_ok_cases h with ⟨_, h⟩ | ⟨_, h⟩
      · simp only [pure_eq_ok, Option.some.injEq, Prod.mk.injEq] at h
        obtain ⟨rfl, rfl, _⟩ := h
        simp
      · simp only [pure_eq_ok] at h
        cases h
  rcases ite_ok_cases h with ⟨_, h⟩ | ⟨_, h⟩
  · rcases ite_ok_cases h with ⟨_, h⟩ | ⟨_, h⟩
    · simp only [throw_ne_ok] at h
    · simp only [bind_eq_ok, pure_eq_ok, Option.some.injEq, Prod.mk.injEq] at h
      obtain ⟨_, _, rfl, rfl, _⟩ := h
      simp
  · simp only [pure_eq_ok, Option.some.injEq, Prod.mk.injEq] at h
    obtain ⟨rfl, rfl, _⟩ := h
    simp

theorem ClearAllActiveToggle_log (key : KeyCode) (w : World) :
    (ClearAllActiveToggle key w).log = w.log := rfl

/-- The sink calls of pressing and releasing a key that is neither a virtual-controller button
nor `NO_HOLD_MAPPED`. -/
theorem plain_key_log (env : Env) (key : KeyCode) (w : World)
    (hv : env.isViGEmBtn key = false) (hn : key.code ≠ env.NO_HOLD_MAPPED) :
    (ApplyBtnPress env key w).log = w.log ++ [.pressKey key true] ∧
    (ApplyBtnRelease env key w).log = w.log ++ [.pressKey key false] := by
  unfold ApplyBtnPress ApplyBtnRelease
  simp [hv, hn, World.emit, ClearAllActiveToggle_log]

/-- C17. For a key whose apply and release actions are `apply` and `release`, registered with
TurboPress and no action modifier into a binding with no event bound: `AddMapping` returns
true, and the table binds `OnTurbo` to "release, then apply" and `OnRelease` to release. The
effect of firing is that of performing the actions themselves, by kind of key: firing
`OnTurbo` logs the call and then performs the release action once and after it the apply
action once (release the key then press it; remove the gyro action then add it; stop the
rumble then set it; finish the calibration then start it; for a command, whose release action
is empty, only write the command), and firing `OnRelease` logs the call and performs the
release action once. For a key sent to the keyboard sink the log gains, after the call, exactly
"key up, key down" on `OnTurbo` and "key up" on `OnRelease`. -/
theorem turbo_release_then_apply (P : MappingEnv) (m m1 : Mapping) (key : KeyCode)
    (apply release : Callback) (hempty : m._eventMapping = [])
    (hkey : Mapping.keyActions P m key = .ok (some (apply, release, m1))) :
    ∃ m', m.AddMapping P key .TurboPress .None = .ok (true, m') ∧
      m'._eventMapping = [(.OnTurbo, .RunBothActions release apply), (.OnRelease, release)] ∧
      ((apply = .ApplyBtnPress key ∧ release = .ApplyBtnRelease key) ∨
        (apply = .ApplyGyroAction key ∧ release = .RemoveGyroAction) ∨
        (apply = .WriteToConsole key.name ∧ release = .empty) ∨
        (∃ s b, apply = .SetRumble s b ∧ release = .SetRumble 0 0) ∨
        (apply = .StartCalibration ∧ release = .FinishCalibration)) ∧
      ∀ (env : Env) (self : Nat) (w : World),
        (apply = .ApplyBtnPress key →
          m'.ProcessEvent env .OnTurbo self w =
            .ok (ApplyBtnPress env key
              (ApplyBtnRelease env key (w.emit (.ProcessEvent self m' .OnTurbo)))) ∧
          m'.ProcessEvent env .OnRelease self w =
            .ok (ApplyBtnRelease env key (w.emit (.ProcessEvent self m' .OnRelease))) ∧
          (env.isViGEmBtn key = false → key.code ≠ env.NO_HOLD_MAPPED →
            (∃ w', m'.ProcessEvent env .OnTurbo self w = .ok w' ∧
              w'.log = w.log ++
                [.ProcessEvent self m' .OnTurbo, .pressKey key false, .pressKey key true]) ∧
            ∃ w', m'.ProcessEvent env .OnRelease self w = .ok w' ∧
              w'.log = w.log ++ [.ProcessEvent self m' .OnRelease, .pressKey key false])) ∧
        (apply = .ApplyGyroAction key →
          m'.ProcessEvent env .OnTurbo self w =
            .ok (ApplyGyroAction env self key
              (RemoveGyroAction env self (w.emit (.ProcessEvent self m' .OnTurbo)))) ∧
          m'.ProcessEvent env .OnRelease self w =
            .ok (RemoveGyroAction env self (w.emit (.ProcessEvent self m' .OnRelease)))) ∧
        (apply = .WriteToConsole key.name →
          m'.ProcessEvent env .OnTurbo self w =
            .ok ((w.emit (.ProcessEvent self m' .OnTurbo)).emit (.WriteToConsole key.name)) ∧
          m'.ProcessEvent env .OnRelease self w =
            .ok (w.emit (.ProcessEvent self m' .OnRelease))) ∧
        (∀ s b, apply = .SetRumble s b →
          m'.ProcessEvent env .OnTurbo self w =
            .ok (((w.emit (.ProcessEvent self m' .OnTurbo)).emit (.rumble 0 0)).emit
              (.rumble s b)) ∧
          m'.ProcessEvent env .OnRelease self w =
            .ok ((w.emit (.ProcessEvent self m' .OnRelease)).emit (.rumble 0 0))) ∧
        (apply = .StartCalibration →
          m'.ProcessEvent env .OnTurbo self w =
            (FinishCalibration env (w.emit (.ProcessEvent self m' .OnTurbo))).bind
              (StartCalibration env) ∧
          m'.ProcessEvent env .OnRelease self w =
            FinishCalibration env (w.emit (.ProcessEvent self m' .OnRelease))) := by
  have ht := keyActions_table P m key apply release m1 hkey
  have hkinds := keyActions_kinds P m key apply release m1 hkey
  rw [hempty] at ht
  have htab : (((m1.InsertEventMapping .OnTurbo release).InsertEventMapping .OnTurbo
      apply).InsertEventMapping .OnRelease release)._eventMapping =
      [(.OnTurbo, .RunBothActions release apply), (.OnRelease, release)] := by
    simp [Mapping.InsertEventMapping, Mapping.find, ht]
  have hadd : m.AddMapping P key .TurboPress .None = .ok (true,
      ((m1.InsertEventMapping .OnTurbo release).InsertEventMapping .OnTurbo
        apply).InsertEventMapping .OnRelease release) := by
    unfold Mapping.AddMapping
    simp only [hkey, bind, Except.bind, EventModifier.events, if_true]
    rfl
  generalize ((m1.InsertEventMapping .OnTurbo release).InsertEventMapping .OnTurbo
    apply).InsertEventMapping .OnRelease release = m' at htab hadd
  refine ⟨m', hadd, htab, hkinds, ?_⟩
  · intro env self w
    have hT : m'.ProcessEvent env .OnTurbo self w =
        runCallback env self (.RunBothActions release apply)
          (w.emit (.ProcessEvent self m' .OnTurbo)) := by
      unfold Mapping.ProcessEvent
      simp only [Mapping.find, htab]
      simp only [List.find?_cons, decide_True, Option.map_some']
      rw [if_neg (by simp)]
    have hR : m'.ProcessEvent env .OnRelease self w =
        if release = .empty then pure (w.emit (.ProcessEvent self m' .OnRelease))
        else runCallback env self release (w.emit (.ProcessEvent self m' .OnRelease)) := by
      unfold Mapping.ProcessEvent
      simp only [Mapping.find, htab]
      simp [List.find?_cons]
    refine ⟨?_, ?_, ?_, ?_, ?_⟩
    · intro ha
      have hr : release = .ApplyBtnRelease key := by
        rcases hkinds with h | h | h | ⟨s, b, h⟩ | h <;> rw [ha] at h <;> simp at h ⊢
        exact h
      subst ha hr
      have e1' : m'.ProcessEvent env .OnTurbo self w = .ok (ApplyBtnPress env key
          (ApplyBtnRelease env key (w.emit (.ProcessEvent self m' .OnTurbo)))) := by
        rw [hT]
        simp [runCallback, bind, Except.bind, pure, Except.pure]
      have e2' : m'.ProcessEvent env .OnRelease self w =
          .ok (ApplyBtnRelease env key (w.emit (.ProcessEvent self m' .OnRelease))) := by
        rw [hR]
        simp [runCallback, pure, Except.pure]
      refine ⟨e1', e2', ?_⟩
      intro hv hn
      refine ⟨⟨_, e1', ?_⟩, ⟨_, e2', ?_⟩⟩
      · rw [(plain_key_log env key _ hv hn).1, (plain_key_log env key _ hv hn).2]
        simp [World.emit]
      · rw [(plain_key_log env key _ hv hn).2]
        simp [World.emit]
    · intro ha
      have hr : release = .RemoveGyroAction := by
        rcases hkinds with h | h | h | ⟨s, b, h⟩ | h <;> rw [ha] at h <;> simp at h ⊢
        exact h
      subst ha hr
      constructor
      · rw [hT]
        simp [runCallback, bind, Except.bind, pure, Except.pure]
      · rw [hR]
        simp [runCallback, pure, Except.pure]
    · intro ha
      have hr : release = .empty := by
        rcases hkinds with h | h | h | ⟨s, b, h⟩ | h <;> rw [ha] at h <;> simp at h ⊢
        exact h
      subst ha hr
      constructor
      · rw [hT]
        simp [runCallback, bind, Except.bind, pure, Except.pure]
      · rw [hR]
        simp [pure, Except.pure]
    · intro s b ha
      have hr : release = .SetRumble 0 0 := by
        rcases hkinds with h | h | h | ⟨s', b', h⟩ | h <;> rw [ha] at h <;> simp at h ⊢
        exact h.2
      subst ha hr
      constructor
      · rw [hT]
        simp [runCallback, bind, Except.bind, pure, Except.pure]
      · rw [hR]
        simp [runCallback, pure, Except.pure]
    · intro ha
      have hr : release = .FinishCalibration := by
        rcases hkinds with h | h | h | ⟨s, b, h⟩ | h <;> rw [ha] at h <;> simp at h ⊢
        exact h
      subst ha hr
      constructor
      · rw [hT]
        simp [runCallback, bind, Except.bind, pure, Except.pure]
      · rw [hR]
        simp [runCallback, pure, Except.pure]

/-- C17 on the sample parse of `A+`: the table, and the log after firing `OnTurbo` and after
firing `OnRelease` on the sample controller as attached: key `A` goes up and then down on the
turbo event, and up on the release event. -/
theorem turbo_release_then_apply_witness :
    (emptyMapping._eventMapping = [] ∧
    Mapping.keyActions demoParse emptyMapping ⟨65, "A"⟩ =
      .ok (some (.ApplyBtnPress ⟨65, "A"⟩, .ApplyBtnRelease ⟨65, "A"⟩, emptyMapping)) ∧
    parsedTable (demoExtract "A+") =
      [(.OnTurbo, .RunBothActions (.ApplyBtnRelease ⟨65, "A"⟩) (.ApplyBtnPress ⟨65, "A"⟩)),
       (.OnRelease, .ApplyBtnRelease ⟨65, "A"⟩)] ∧
    demoInit.log = [] ∧
    (getOk ((parsedBinding "A+").ProcessEvent demo .OnTurbo 0 demoInit) demoInit).log =
      [.ProcessEvent 0 (parsedBinding "A+") .OnTurbo, .pressKey ⟨65, "A"⟩ false,
       .pressKey ⟨65, "A"⟩ true] ∧
    (getOk ((parsedBinding "A+").ProcessEvent demo .OnRelease 0 demoInit) demoInit).log =
      [.ProcessEvent 0 (parsedBinding "A+") .OnRelease, .pressKey ⟨65, "A"⟩ false]) ∧
    ∃ m', emptyMapping.AddMapping demoParse ⟨65, "A"⟩ .TurboPress .None = .ok (true, m') ∧
      m'._eventMapping =
        [(.OnTurbo, .RunBothActions (.ApplyBtnRelease ⟨65, "A"⟩) (.ApplyBtnPress ⟨65, "A"⟩)),
         (.OnRelease, .ApplyBtnRelease ⟨65, "A"⟩)] ∧
      ((Callback.ApplyBtnPress ⟨65, "A"⟩ = .ApplyBtnPress ⟨65, "A"⟩ ∧
          Callback.ApplyBtnRelease ⟨65, "A"⟩ = .ApplyBtnRelease ⟨65, "A"⟩) ∨
        (Callback.ApplyBtnPress ⟨65, "A"⟩ = .ApplyGyroAction ⟨65, "A"⟩ ∧
          Callback.ApplyBtnRelease ⟨65, "A"⟩ = .RemoveGyroAction) ∨
        (Callback.ApplyBtnPress ⟨65, "A"⟩ = .WriteToConsole (KeyCode.mk 65 "A").name ∧
          Callback.ApplyBtnRelease ⟨65, "A"⟩ = .empty) ∨
        (∃ s b, Callback.ApplyBtnPress ⟨65, "A"⟩ = .SetRumble s b ∧
          Callback.ApplyBtnRelease ⟨65, "A"⟩ = .SetRumble 0 0) ∨
        (Callback.ApplyBtnPress ⟨65, "A"⟩ = .StartCalibration ∧
          Callback.ApplyBtnRelease ⟨65, "A"⟩ = .FinishCalibration)) ∧
      ∀ (env : Env) (self : Nat) (w : World),
        (Callback.ApplyBtnPress ⟨65, "A"⟩ = .ApplyBtnPress ⟨65, "A"⟩ →
          m'.ProcessEvent env .OnTurbo self w =
            .ok (ApplyBtnPress env ⟨65, "A"⟩
              (ApplyBtnRelease env ⟨65, "A"⟩ (w.emit (.ProcessEvent self m' .OnTurbo)))) ∧
          m'.ProcessEvent env .OnRelease self w =
            .ok (ApplyBtnRelease env ⟨65, "A"⟩ (w.emit (.ProcessEvent self m' .OnRelease))) ∧
          (env.isViGEmBtn ⟨65, "A"⟩ = false → (KeyCode.mk 65 "A").code ≠ env.NO_HOLD_MAPPED →
            (∃ w', m'.ProcessEvent env .OnTurbo self w = .ok w' ∧
              w'.log = w.log ++
                [.ProcessEvent self m' .OnTurbo, .pressKey ⟨65, "A"⟩ false,
                 .pressKey ⟨65, "A"⟩ true]) ∧
            ∃ w', m'.ProcessEvent env .OnRelease self w = .ok w' ∧
              w'.log = w.log ++ [.ProcessEvent self m' .OnRelease, .pressKey ⟨65, "A"⟩ false])) ∧
        (Callback.ApplyBtnPress ⟨65, "A"⟩ = .ApplyGyroAction ⟨65, "A"⟩ →
          m'.ProcessEvent env .OnTurbo self w =
            .ok (ApplyGyroAction env self ⟨65, "A"⟩
              (RemoveGyroAction env self (w.emit (.ProcessEvent self m' .OnTurbo)))) ∧
          m'.ProcessEvent env .OnRelease self w =
            .ok (RemoveGyroAction env self (w.emit (.ProcessEvent self m' .OnRelease)))) ∧
        (Callback.ApplyBtnPress ⟨65, "A"⟩ = .WriteToConsole (KeyCode.mk 65 "A").name →
          m'.ProcessEvent env .OnTurbo self w =
            .ok ((w.emit (.ProcessEvent self m' .OnTurbo)).emit
              (.WriteToConsole (KeyCode.mk 65 "A").name)) ∧
          m'.ProcessEvent env .OnRelease self w =
            .ok (w.emit (.ProcessEvent self m' .OnRelease))) ∧
        (∀ s b, Callback.ApplyBtnPress ⟨65, "A"⟩ = .SetRumble s b →
          m'.ProcessEvent env .OnTurbo self w =
            .ok (((w.emit (.ProcessEvent self m' .OnTurbo)).emit (.rumble 0 0)).emit
              (.rumble s b)) ∧
          m'.ProcessEvent env .OnRelease self w =
            .ok ((w.emit (.ProcessEvent self m' .OnRelease)).emit (.rumble 0 0))) ∧
        (Callback.ApplyBtnPress ⟨65, "A"⟩ = .StartCalibration →
          m'.ProcessEvent env .OnTurbo self w =
            (FinishCalibration env (w.emit (.ProcessEvent self m' .OnTurbo))).bind
              (StartCalibration env) ∧
          m'.ProcessEvent env .OnRelease self w =
            FinishCalibration env (w.emit (.ProcessEvent self m' .OnRelease))) :=
  ⟨⟨rfl, rfl, by decide, by decide, by decide, by decide⟩,
    turbo_release_then_apply demoParse emptyMapping emptyMapping ⟨65, "A"⟩ _ _ rfl rfl⟩

theorem tickInstants_hold_first (MAGIC : ℚ) (m : Mapping) (d H T : ℚ) (h1 : d ≤ MAGIC)
    (hH : m.registers .OnHold = []) (hT : m.registers .OnTurbo = []) :
    tickInstants MAGIC m d H T 0 [.OnPress] = ([.OnPress], 0) := by
  unfold tickInstants
  simp [not_lt.mpr h1, hH, hT]

theorem tickInstants_stuck (MAGIC : ℚ) (m : Mapping) (d H T : ℚ) (n : Nat) (hn : n ≠ 0)
    (hT : m.registers .OnTurbo = []) :
    tickInstants MAGIC m d H T n [.OnPress] = ([.OnPress], 0) := by
  unfold tickInstants checkInstant
  simp only [hn, if_false, hT, List.append_nil, ite_self, List.mem_singleton, reduceCtorEq]

/-- Ticks of a held button whose turbo count is positive and whose queue holds the instant of
the press event, for a binding that registers no instant on the turbo event: the queue stays
and no `OnInstantRelease` is fired, whatever the times of the ticks. -/
theorem ticks_stuck (env : Env) (self : Nat) (m : Mapping) (hflat : m.Flat)
    (hT : m.registers .OnTurbo = []) :
    ∀ (later : List Pressed) (w w' : World),
      w.getState self = .BtnPress → (w.impl self)._keyToRelease = some m →
      (w.impl self)._turboCount ≠ 0 → (w.impl self)._instantReleaseQueue = [.OnPress] →
      run env w (later.map (Input.Pressed self)) = .ok w' →
      w'.getState self = .BtnPress ∧ (w'.impl self)._keyToRelease = some m ∧
      (w'.impl self)._turboCount ≠ 0 ∧ (w'.impl self)._instantReleaseQueue = [.OnPress] ∧
      instantFired self w'.fired = instantFired self w.fired := by
  intro later
  induction later with
  | nil =>
    intro w w' hst hk hc hq h
    simp only [List.map_nil, run, pure_eq_ok] at h
    subst h
    exact ⟨hst, hk, hc, hq, rfl⟩
  | cons t rest ih =>
    intro w w' hst hk hc hq h
    simp only [List.map_cons, run, bind_eq_ok] at h
    obtain ⟨w1, h1, h2⟩ := h
    obtain ⟨st, _, ky, tu, qu, fi⟩ := BtnPress_tick_exact env self t w w1 m hst hk hflat h1
    rw [hq, tickInstants_stuck _ _ _ _ _ _ hc hT] at qu fi
    have hc1 : (w1.impl self)._turboCount ≠ 0 := by
      rw [tu]
      omega
    obtain ⟨r1, r2, r3, r4, r5⟩ := ih w1 w' st ky hc1 qu h2
    exact ⟨r1, r2, r3, r4, by rw [r5, fi]; rfl⟩

/-- C18, the defect. For a plainly bound button (no sim-press partner, no double-press
alternate) all of whose bindings hold one target, bound to the press event with the Instant
modifier, in a reachable configuration where it is in `NoPress`: the first `Pressed` fires
`OnPress` and the instant-release queue is `[OnPress]`. If the next tick passes the hold time
while it has not passed the grace period (a hold time below the grace period), the turbo count
becomes 1 with `OnPress` still queued, and from then on no `Pressed` tick, however long after
the grace period and with the button still held, fires `OnInstantRelease` or removes `OnPress`
from the queue: `ProcessEvent(const Pressed &)` looks for `OnPress` in the queue only while the
turbo count is 0. -/
theorem instant_press_stuck_after_hold (P : MappingEnv) (w w' : World)
    (hr : Reachable P.toEnv w) (self : Nat) (first hold : Pressed) (later : List Pressed)
    (hns : (P.mapping self).HasSimMappings = false)
    (hnd : (P.mapping self).getDblPressMap = none)
    (hbind : ∀ c m, (P.mapping self).get c = some m → InstantOn P .StartPress m)
    (hst : w.getState self = .NoPress)
    (hhold : elapsedMS first.time_now hold.time_now > hold.holdTime)
    (hgrace : elapsedMS first.time_now hold.time_now ≤ P.MAGIC_INSTANT_DURATION)
    (h : run P.toEnv w ((first :: hold :: later).map (Input.Pressed self)) = .ok w') :
    ∃ w1 w2 m apply,
      step P.toEnv w (.Pressed self first) = .ok w1 ∧
      m.find .OnPress = some (.RunBothActions apply (.RegisterInstant .OnPress)) ∧
      w1.fired = w.fired ++ [(self, m, .OnPress)] ∧
      (w1.impl self)._instantReleaseQueue = [.OnPress] ∧
      step P.toEnv w1 (.Pressed self hold) = .ok w2 ∧
      (w2.impl self)._turboCount = 1 ∧
      (w2.impl self)._instantReleaseQueue = [.OnPress] ∧
      instantFired self w2.fired = instantFired self w.fired ∧
      run P.toEnv w2 (later.map (Input.Pressed self)) = .ok w' ∧
      w'.getState self = .BtnPress ∧ (w'.impl self)._keyToRelease = some m ∧
      (w'.impl self)._turboCount ≠ 0 ∧
      (w'.impl self)._instantReleaseQueue = [.OnPress] ∧
      instantFired self w'.fired = instantFired self w.fired := by
  simp only [List.map_cons, run, bind_eq_ok] at h
  obtain ⟨w1, h1, w2, h2, h3⟩ := h
  have hidle := Reachable_NoPress_Idle P.toEnv w hr self hns hst
  obtain ⟨c, m, hget, st1, k1, p1, c1, q1, f1⟩ := first_press_exact P.toEnv self first w w1 hst
    hidle hns hnd (fun c m hg => (InstantOn_StartPress P m (hbind c m hg)).1) h1
  obtain ⟨hflat, ⟨apply, _, hfind⟩, rP, rI, rH, rT⟩ := InstantOn_StartPress P m (hbind c m hget)
  rw [rP] at q1
  have h2' : sendEvent_Pressed P.toEnv self hold w1 = .ok w2 := h2
  obtain ⟨st2, _, k2, c2, q2, f2⟩ := BtnPress_tick_exact P.toEnv self hold w1 w2 m st1 k1 hflat h2'
  rw [GetPressDurationMS_eq, p1, c1, q1, tickInstants_hold_first _ _ _ _ _ hgrace rH rT] at q2 f2
  rw [GetPressDurationMS_eq, p1, c1] at c2
  have hstep : turboStep (elapsedMS first.time_now hold.time_now) hold.holdTime hold.turboTime 0
      = 1 := by
    simp [turboStep, hhold]
  rw [hstep] at c2
  have f1' : instantFired self w1.fired = instantFired self w.fired := by
    rw [f1, instantFired_append]
    simp [instantFired]
  have c2' : (w2.impl self)._turboCount ≠ 0 := by rw [c2]; decide
  obtain ⟨r1, r2, r3, r4, r5⟩ := ticks_stuck P.toEnv self m hflat rT later w2 w' st2 k2 c2' q2 h3
  simp only [Nat.zero_add, Nat.add_zero] at c2 q2 f2
  exact ⟨w1, w2, m, apply, h1, hfind, f1, q1, h2, c2, q2, by rw [f2, f1'], h3, r1, r2, r3, r4,
    by rw [r5, f2, f1']⟩

/-- C18, the failing input on the sample controller: the button bound to key `G` with the
Instant modifier (handle 4) is pressed at 0 ms with a hold time of 20 ms and polled at 30, 50
and 90 ms; the grace period is 40 ms. The key goes down and never up. -/
theorem instant_press_stuck_after_hold_witness :
    (demoInit.getState 4 = .NoPress ∧
    elapsedMS (shortHoldAt 0).time_now (shortHoldAt 30).time_now > (shortHoldAt 30).holdTime ∧
    elapsedMS (shortHoldAt 0).time_now (shortHoldAt 30).time_now ≤
      demoParse.MAGIC_INSTANT_DURATION ∧
    elapsedMS (shortHoldAt 0).time_now (shortHoldAt 90).time_now = 90 ∧
    Effect.pressKey ⟨71, "G"⟩ true ∈ (demoAfter shortHoldInputs).log ∧
    Effect.pressKey ⟨71, "G"⟩ false ∉ (demoAfter shortHoldInputs).log ∧
    eventsOf 4 (demoAfter shortHoldInputs) = [.OnPress, .OnHold, .OnTurbo]) ∧
    ∃ w1 w2 m apply,
      step demoParse.toEnv demoInit (.Pressed 4 (shortHoldAt 0)) = .ok w1 ∧
      m.find .OnPress = some (.RunBothActions apply (.RegisterInstant .OnPress)) ∧
      w1.fired = demoInit.fired ++ [(4, m, .OnPress)] ∧
      (w1.impl 4)._instantReleaseQueue = [.OnPress] ∧
      step demoParse.toEnv w1 (.Pressed 4 (shortHoldAt 30)) = .ok w2 ∧
      (w2.impl 4)._turboCount = 1 ∧
      (w2.impl 4)._instantReleaseQueue = [.OnPress] ∧
      instantFired 4 w2.fired = instantFired 4 demoInit.fired ∧
      run demoParse.toEnv w2 ([shortHoldAt 50, shortHoldAt 90].map (Input.Pressed 4)) =
        .ok (demoAfter shortHoldInputs) ∧
      (demoAfter shortHoldInputs).getState 4 = .BtnPress ∧
      ((demoAfter shortHoldInputs).impl 4)._keyToRelease = some m ∧
      ((demoAfter shortHoldInputs).impl 4)._turboCount ≠ 0 ∧
      ((demoAfter shortHoldInputs).impl 4)._instantReleaseQueue = [.OnPress] ∧
      instantFired 4 (demoAfter shortHoldInputs).fired = instantFired 4 demoInit.fired :=
  ⟨by with_unfolding_all decide,
    instant_press_stuck_after_hold demoParse demoInit _ demoInit_Reachable 4 (shortHoldAt 0)
      (shortHoldAt 30) [shortHoldAt 50, shortHoldAt 90] (by decide) (by decide)
      demo_instant_binding (by decide) (by with_unfolding_all decide)
      (by with_unfolding_all decide) (eq_ok_getOk _ _ (by with_unfolding_all decide))⟩

theorem not_mem_erase_of_count_le_one (l : List ButtonID) (a : ButtonID) (h : l.count a ≤ 1) :
    a ∉ l.erase a := by
  intro hin
  have h1 : 0 < (l.erase a).count a := List.count_pos_iff.mpr hin
  rw [List.count_erase_self] at h1
  omega

/-- C21, the claim as stated fails. On a chord stack that holds the id of a chordable button
twice, `[0, 0, NONE]`, one `Released` input for that button leaves `[0, NONE]` and a second one
leaves `[NONE]`: two consecutive `Released` inputs do not leave the chord stack of a single
one. -/
theorem Released_twice_on_doubled_stack :
    demo.chordable 0 = true ∧ demo.id 0 = 0 ∧ doubledStack.common.chordStack = [0, 0, -1] ∧
    succeeded (step demo doubledStack (.Released 0 (releasedAt 10))) = true ∧
    (demoStep doubledStack (.Released 0 (releasedAt 10))).common.chordStack = [0, -1] ∧
    succeeded (step demo (demoStep doubledStack (.Released 0 (releasedAt 10)))
      (.Released 0 (releasedAt 20))) = true ∧
    (demoStep (demoStep doubledStack (.Released 0 (releasedAt 10)))
      (.Released 0 (releasedAt 20))).common.chordStack = [-1] ∧
    (demoStep (demoStep doubledStack (.Released 0 (releasedAt 10)))
      (.Released 0 (releasedAt 20))).common.chordStack ≠
      (demoStep doubledStack (.Released 0 (releasedAt 10))).common.chordStack := by
  decide

/-- C21, amended. For every configuration, reachable or not, and every classifier (chordable or
not): a `Released` input for a classifier whose id is not on the chord stack leaves the chord
stack unchanged. When the chord stack holds the classifier's id at most once, the basic release
reaction applied twice leaves the chord stack it leaves when applied once; and two consecutive
`Released` inputs leave the chord stack that the first one left, provided the id of a chordable
classifier in `DblPressNoPressTap` (the state that skips the basic reaction) is not on the
stack. Both provisos hold in every configuration that a controller whose classifiers have
distinct ids can be in, where the chord stack holds no id twice. -/
theorem Released_chord_idempotent (env : Env) (w : World) (self : Nat) :
    (∀ (e : Released) (w' : World), env.id self ∉ w.common.chordStack →
      step env w (.Released self e) = .ok w' → w'.common.chordStack = w.common.chordStack) ∧
    (w.common.chordStack.count (env.id self) ≤ 1 →
      (DigitalButtonState.react_Released env self
        (DigitalButtonState.react_Released env self w)).common.chordStack =
        (DigitalButtonState.react_Released env self w).common.chordStack) ∧
    (w.common.chordStack.count (env.id self) ≤ 1 →
      (env.chordable self = true → w.getState self = .DblPressNoPressTap →
        env.id self ∉ w.common.chordStack) →
      ∀ (e1 e2 : Released) (w1 w2 : World), step env w (.Released self e1) = .ok w1 →
        step env w1 (.Released self e2) = .ok w2 →
        w2.common.chordStack = w1.common.chordStack) ∧
    (Function.Injective env.id → Reachable env w →
      w.common.chordStack.Nodup ∧ w.common.chordStack.count (env.id self) ≤ 1 ∧
      (env.chordable self = true → w.getState self = .DblPressNoPressTap →
        env.id self ∉ w.common.chordStack)) := by
  refine ⟨fun e w' habs h => Released_absent env self e w w' (Or.inr habs) h, ?_, ?_, ?_⟩
  · intro hcount
    rw [react_Released_chord, react_Released_chord]
    split_ifs
    · exact List.erase_of_not_mem (not_mem_erase_of_count_le_one _ _ hcount)
    · rfl
  · intro hcount htap e1 e2 w1 w2 h1 h2
    refine Released_absent env self e2 w1 w2 ?_ h2
    by_cases hc : env.chordable self = true
    swap
    · exact Or.inl (by simpa using hc)
    right
    obtain ⟨_, cb, _⟩ := sendEvent_Released_states env self e1 w w1 h1
    by_cases hs : w.getState self = .DblPressNoPressTap
    · rw [Released_absent env self e1 w w1 (Or.inr (htap hc hs)) h1]
      exact htap hc hs
    · rw [cb hs, react_Released_chord, if_pos hc]
      exact not_mem_erase_of_count_le_one _ _ hcount
  · intro hids hr
    obtain ⟨hn, hj⟩ := Reachable_ChordTidy env hids w hr
    exact ⟨hn, List.nodup_iff_count_le_one.mp hn _, hj self⟩

/-- C21, amended, on the sample controller: the plain button (handle 0) is down, the chord stack
is `[0, NONE]`; it is released at 10 ms and again at 20 ms. -/
theorem Released_chord_idempotent_witness :
    demoHeld.common.chordStack = [0, -1] ∧
    demoHeld.common.chordStack.count (demo.id 0) ≤ 1 ∧
    demoHeld.getState 0 ≠ .DblPressNoPressTap ∧
    (demoStep demoHeld (.Released 0 (releasedAt 10))).common.chordStack = [-1] ∧
    (demoStep (demoStep demoHeld (.Released 0 (releasedAt 10)))
      (.Released 0 (releasedAt 20))).common.chordStack =
      (demoStep demoHeld (.Released 0 (releasedAt 10))).common.chordStack :=
  ⟨by decide, by decide, by decide, by decide,
    (Released_chord_idempotent demo demoHeld 0).2.2.1 (by decide)
      (fun _ hs => absurd hs (by decide))
      (releasedAt 10) (releasedAt 20) (demoStep demoHeld (.Released 0 (releasedAt 10)))
      (demoStep (demoStep demoHeld (.Released 0 (releasedAt 10))) (.Released 0 (releasedAt 20)))
      (eq_ok_getOk _ _ (by decide)) (eq_ok_getOk _ _ (by decide))⟩

end JoyShockMapper
